import Mathlib

/-!
# TurkC: bytecode, code generator, semantic analyzer and virtual machine

A shallow embedding of the TurkC back end (`ast.h`, `symbol.c`, `semantic.c`,
`codegen.c`, `vm.c`) together with theorems about it.

Conventions of the embedding.

* C `int` values are Lean `Int`s.  The arithmetic opcodes wrap their result to
  32 bits two's complement (`wrap32`).  Stack addresses and counters are kept
  as plain integers.
* A C pointer to an AST node is a value of `ASTNode`, whose constructor `null`
  is the NULL pointer; children hang on the `first_child` / `next_sibling`
  chain exactly as in `ast.h`.
* Fixed-capacity arrays with a separate element count (`code` / `code_size`,
  `functions` / `function_count`, `locals` / `local_count`, ...) are lists whose
  length is the count.
* Code that calls `exit` or writes past a fixed array returns `none`.
* An array access outside its bounds in the interpreter is `none` as well
  (`vm_step`), and `vm_execute` reports it as `ExecResult.undefined`.
-/

namespace TurkC

/-! ## Bytecode (`codegen.h`) -/

def MAX_CODE_SIZE : Nat := 4096
def MAX_FUNCTIONS : Nat := 64
def MAX_LABELS : Nat := 256
def MAX_LOCAL_SYMBOLS : Nat := 64

/-- Bytecode opcodes.  `OP_INVALID` stands for any value of the C enum type
that is none of the enumerators (the `default:` case of the interpreter). -/
inductive OpCode
  | OP_NOP | OP_PUSH | OP_POP | OP_DUP
  | OP_LOAD | OP_STORE | OP_LOAD_GLOBAL | OP_STORE_GLOBAL
  | OP_ADD | OP_SUB | OP_MUL | OP_DIV | OP_MOD | OP_NEG
  | OP_EQ | OP_NEQ | OP_LT | OP_GT | OP_LEQ | OP_GEQ
  | OP_JMP | OP_JZ | OP_JNZ
  | OP_CALL | OP_RET | OP_RETVAL | OP_ENTER
  | OP_PRINT | OP_PRINT_STR
  | OP_HALT
  | OP_INVALID (raw : Nat)
  deriving DecidableEq, Repr

open OpCode

structure Instruction where
  opcode : OpCode
  operand : Int
  deriving DecidableEq, Repr

structure FunctionEntry where
  name : String
  entry_point : Int
  param_count : Int
  local_count : Int
  deriving DecidableEq, Repr

/-- A bytecode program; `code_size` and `function_count` are the lengths. -/
structure Bytecode where
  code : List Instruction
  functions : List FunctionEntry
  main_entry : Int
  deriving DecidableEq, Repr

def Bytecode.code_size (bc : Bytecode) : Int := bc.code.length

def Bytecode.function_count (bc : Bytecode) : Int := bc.functions.length

/-! ## Virtual machine (`vm.h`, `vm.c`) -/

def VM_STACK_SIZE : Int := 1024
def VM_CALL_STACK_SIZE : Int := 64

/-- Two's complement reduction of an integer to the range of a 32-bit `int`. -/
def wrap32 (x : Int) : Int := (x + 2147483648) % 4294967296 - 2147483648

def INT_MIN : Int := -2147483648
def INT_MAX : Int := 2147483647

structure CallFrame where
  return_addr : Int
  base_ptr : Int
  func_idx : Int
  deriving DecidableEq, Repr

/-- The interpreter state.  `stack` and `frames` are the two arrays, read and
written only at indices inside their bounds; `errlog` is what the interpreter
has printed on `stderr`. -/
structure VM where
  stack : Int → Int
  sp : Int
  frames : Int → CallFrame
  fp : Int
  pc : Int
  running : Bool
  exit_code : Int
  debug : Bool
  /-- The diagnostics `vm_error` has written to `stderr`: the program counter
  and the message of each, oldest first. -/
  errlog : List (Int × String)

/-- Array write `a[i] = v`. -/
def arr_set {α : Type} (a : Int → α) (i : Int) (v : α) : Int → α :=
  fun j => if j = i then v else a j

def vm_error (vm : VM) (msg : String) : VM :=
  { vm with running := false, exit_code := -1, errlog := vm.errlog ++ [(vm.pc, msg)] }

/-- The function `push`: traps on overflow; `none` when `sp` is negative. -/
def push (vm : VM) (value : Int) : Option VM :=
  if vm.sp ≥ VM_STACK_SIZE then some (vm_error vm "Yigin tasmasi (stack overflow)")
  else if vm.sp < 0 then none
  else some { vm with stack := arr_set vm.stack vm.sp value, sp := vm.sp + 1 }

/-- The function `pop`: traps on underflow and then yields 0; `none` when
`sp - 1` is past the end of the stack. -/
def pop (vm : VM) : Option (Int × VM) :=
  if vm.sp ≤ 0 then some (0, vm_error vm "Yigin bos (stack underflow)")
  else if vm.sp - 1 ≥ VM_STACK_SIZE then none
  else some (vm.stack (vm.sp - 1), { vm with sp := vm.sp - 1 })

def peek (vm : VM) : Option (Int × VM) :=
  if vm.sp ≤ 0 then some (0, vm_error vm "Yigin bos (stack underflow)")
  else if vm.sp - 1 ≥ VM_STACK_SIZE then none
  else some (vm.stack (vm.sp - 1), vm)

def get_local (vm : VM) (offset : Int) : Int × VM :=
  if vm.fp < 0 then (0, vm_error vm "Fonksiyon carevi yok")
  else
    let addr := (vm.frames vm.fp).base_ptr + offset
    if addr < 0 ∨ addr ≥ VM_STACK_SIZE then (0, vm_error vm "Gecersiz lokal degisken adresi")
    else (vm.stack addr, vm)

def set_local (vm : VM) (offset : Int) (value : Int) : VM :=
  if vm.fp < 0 then vm_error vm "Fonksiyon carevi yok"
  else
    let addr := (vm.frames vm.fp).base_ptr + offset
    if addr < 0 ∨ addr ≥ VM_STACK_SIZE then vm_error vm "Gecersiz lokal degisken adresi"
    else { vm with stack := arr_set vm.stack addr value }

/-- The state `vm_create` returns: zeroed memory, `sp = 0`, `fp = -1`. -/
def vm_create : VM :=
  { stack := fun _ => 0
    sp := 0
    frames := fun _ => { return_addr := 0, base_ptr := 0, func_idx := 0 }
    fp := -1
    pc := 0
    running := false
    exit_code := 0
    debug := false
    errlog := [] }

def vm_set_debug (vm : VM) (debug : Bool) : VM := { vm with debug := debug }

/-- Pops `b` then `a` and pushes `f a b`: the common shape of the binary
arithmetic and comparison cases. -/
def binop (vm : VM) (f : Int → Int → Int) : Option VM := do
  let (b, vm) ← pop vm
  let (a, vm) ← pop vm
  push vm (f a b)

def bool_int (p : Bool) : Int := if p then 1 else 0

/-- The `param_count` that RETVAL reads for the current frame: that of
`functions[frames[fp].func_idx]`, or 0 when `func_idx` is negative. -/
def frame_param_count (bc : Bytecode) (vm : VM) : Option Int :=
  if (vm.frames vm.fp).func_idx ≥ 0 then
    (bc.functions.get? (vm.frames vm.fp).func_idx.toNat).map (fun f => f.param_count)
  else some 0

/-- The body of the `switch` in `vm_execute` for an already fetched
instruction; `vm.pc` has been incremented. -/
def vm_exec_inst (bc : Bytecode) (vm : VM) (inst : Instruction) : Option VM :=
  match inst.opcode with
  | OP_NOP => some vm
  | OP_PUSH => push vm inst.operand
  | OP_POP => do
      let (_, vm) ← pop vm
      some vm
  | OP_DUP => do
      let (v, vm) ← peek vm
      push vm v
  | OP_LOAD =>
      let (v, vm) := get_local vm inst.operand
      push vm v
  | OP_STORE => do
      let (v, vm) ← pop vm
      some (set_local vm inst.operand v)
  | OP_LOAD_GLOBAL =>
      if inst.operand ≥ 0 ∧ inst.operand < VM_STACK_SIZE then
        push vm (vm.stack inst.operand)
      else some vm
  | OP_STORE_GLOBAL =>
      if inst.operand ≥ 0 ∧ inst.operand < VM_STACK_SIZE then do
        let (v, vm) ← pop vm
        some { vm with stack := arr_set vm.stack inst.operand v }
      else some vm
  | OP_ADD => binop vm (fun a b => wrap32 (a + b))
  | OP_SUB => binop vm (fun a b => wrap32 (a - b))
  | OP_MUL => binop vm (fun a b => wrap32 (a * b))
  | OP_DIV => do
      let (b, vm) ← pop vm
      let (a, vm) ← pop vm
      if b = 0 then some (vm_error vm "Sifira bolme hatasi")
      else push vm (wrap32 (Int.tdiv a b))
  | OP_MOD => do
      let (b, vm) ← pop vm
      let (a, vm) ← pop vm
      if b = 0 then some (vm_error vm "Sifira bolme hatasi")
      else push vm (wrap32 (Int.tmod a b))
  | OP_NEG => do
      let (v, vm) ← pop vm
      push vm (wrap32 (-v))
  | OP_EQ => binop vm (fun a b => bool_int (decide (a = b)))
  | OP_NEQ => binop vm (fun a b => bool_int (decide (a ≠ b)))
  | OP_LT => binop vm (fun a b => bool_int (decide (a < b)))
  | OP_GT => binop vm (fun a b => bool_int (decide (a > b)))
  | OP_LEQ => binop vm (fun a b => bool_int (decide (a ≤ b)))
  | OP_GEQ => binop vm (fun a b => bool_int (decide (a ≥ b)))
  | OP_JMP => some { vm with pc := inst.operand }
  | OP_JZ => do
      let (v, vm) ← pop vm
      if v = 0 then some { vm with pc := inst.operand } else some vm
  | OP_JNZ => do
      let (v, vm) ← pop vm
      if v ≠ 0 then some { vm with pc := inst.operand } else some vm
  | OP_CALL =>
      let func_idx := inst.operand
      if func_idx < 0 ∨ func_idx ≥ bc.function_count then
        some (vm_error vm "Gecersiz fonksiyon indeksi")
      else
        match bc.functions.get? func_idx.toNat with
        | none => none
        | some func =>
          if vm.fp ≥ VM_CALL_STACK_SIZE - 1 then
            some (vm_error vm "Cagri yigini tasmasi (call stack overflow)")
          else
            let fp := vm.fp + 1
            let base_ptr := vm.sp - func.param_count
            some { vm with
              fp := fp
              frames := arr_set vm.frames fp
                { return_addr := vm.pc, base_ptr := base_ptr, func_idx := func_idx }
              sp := base_ptr + func.local_count
              pc := func.entry_point }
  | OP_RET =>
      if vm.fp ≤ 0 then some { vm with running := false, exit_code := 0 }
      else
        let return_addr := (vm.frames vm.fp).return_addr
        let old_base := (vm.frames vm.fp).base_ptr
        some { vm with fp := vm.fp - 1, sp := old_base, pc := return_addr }
  | OP_RETVAL => do
      let (return_value, vm) ← pop vm
      if vm.fp ≤ 0 then
        some { vm with running := false, exit_code := return_value }
      else
        let return_addr := (vm.frames vm.fp).return_addr
        let old_base := (vm.frames vm.fp).base_ptr
        let param_count ← frame_param_count bc vm
        push { vm with fp := vm.fp - 1, sp := old_base - param_count, pc := return_addr }
          return_value
  | OP_ENTER =>
      if vm.fp = 0 then
        some { vm with
          frames := arr_set vm.frames 0 { vm.frames 0 with base_ptr := 0 }
          sp := inst.operand }
      else some vm
  | OP_PRINT => do
      let (_, vm) ← pop vm
      some vm
  | OP_PRINT_STR => some vm
  | OP_HALT =>
      if vm.sp > 0 then
        if vm.sp - 1 ≥ VM_STACK_SIZE then none
        else some { vm with running := false, exit_code := vm.stack (vm.sp - 1) }
      else some { vm with running := false }
  | OP_INVALID _ => some (vm_error vm "Bilinmeyen opcode")

/-- One iteration of the main loop: fetch `code[pc]`, increment `pc`, execute.
`none` when the fetch is outside the code array. -/
def vm_step (bc : Bytecode) (vm : VM) : Option VM :=
  if vm.pc < 0 then none
  else
    match bc.code.get? vm.pc.toNat with
    | none => none
    | some inst => vm_exec_inst bc { vm with pc := vm.pc + 1 } inst

/-- Outcome of running the interpreter with a bound on the number of loop
iterations. -/
inductive ExecResult
  | returned (exit_code : Int) (vm : VM)
  | undefined
  | out_of_fuel

/-- The loop `while (vm->running && vm->pc < bc->code_size)`. -/
def vm_loop (bc : Bytecode) : Nat → VM → ExecResult
  | 0, vm =>
      if vm.running = true ∧ vm.pc < bc.code_size then .out_of_fuel
      else .returned vm.exit_code vm
  | fuel + 1, vm =>
      if vm.running = true ∧ vm.pc < bc.code_size then
        match vm_step bc vm with
        | none => .undefined
        | some vm' => vm_loop bc fuel vm'
      else .returned vm.exit_code vm

/-- The state `vm_execute` sets up before its main loop: `pc` at the entry of
`ana` and the initial call frame. -/
def vm_enter_main (vm : VM) (bc : Bytecode) : VM :=
  { vm with
    pc := bc.main_entry
    running := true
    fp := 0
    frames := arr_set vm.frames 0
      { return_addr := bc.code_size, base_ptr := 0, func_idx := -1 } }

/-- The function `vm_execute`, with at most `fuel` loop iterations. -/
def vm_execute (fuel : Nat) (vm : VM) (bc : Bytecode) : ExecResult :=
  if bc.main_entry < 0 then .returned (-1) vm
  else vm_loop bc fuel (vm_enter_main vm bc)

/-- The exit code `vm_execute` returns, if it returns within `fuel` steps. -/
def ExecResult.code : ExecResult → Option Int
  | .returned c _ => some c
  | _ => none

/-- The final interpreter state, if `vm_execute` returns within `fuel` steps. -/
def ExecResult.final : ExecResult → Option VM
  | .returned _ vm => some vm
  | _ => none

/-! ## Abstract syntax tree (`ast.h`) -/

inductive ASTNodeType
  | AST_PROGRAM | AST_FUNCTION | AST_PARAM_LIST | AST_PARAM | AST_BLOCK
  | AST_VAR_DECL | AST_IDENTIFIER | AST_NUMBER_LITERAL | AST_STRING_LITERAL
  | AST_ASSIGNMENT | AST_BINARY_EXPR | AST_UNARY_EXPR | AST_IF | AST_IF_ELSE
  | AST_WHILE | AST_FOR | AST_RETURN | AST_EXPR_STATEMENT | AST_FUNCTION_CALL
  | AST_ARGUMENT_LIST | AST_EMPTY
  deriving DecidableEq, Repr

open ASTNodeType

/-- A pointer to an AST node: `null`, or a node with its kind, text payload,
declared type string, line number, first child and next sibling. -/
inductive ASTNode
  | null
  | node (type : ASTNodeType) (text : Option String) (data_type : Option String)
      (line_number : Int) (first_child : ASTNode) (next_sibling : ASTNode)
  deriving DecidableEq, Repr

/-- Number of nodes reachable from a pointer; the measure of every traversal. -/
def ASTNode.size : ASTNode → Nat
  | .null => 0
  | .node _ _ _ _ fc ns => 1 + fc.size + ns.size

/-- The string a `char *` payload points to.  Payloads that the code hands to
`strcmp`, `atoi` or the hash function without a NULL test are never NULL in a
parsed tree; a NULL one is read as the empty string. -/
def cstr (t : Option String) : String := t.getD ""

/-- The loop of `get_child`: follow `next_sibling` at most `n` times. -/
def sibling_at : Nat → ASTNode → ASTNode
  | 0, child => child
  | _ + 1, .null => .null
  | n + 1, .node _ _ _ _ _ ns => sibling_at n ns

/-- The helper `get_child` of `codegen.c` and `semantic.c`. -/
def get_child (node : ASTNode) (n : Nat) : ASTNode :=
  match node with
  | .null => .null
  | .node _ _ _ _ fc _ => sibling_at n fc

/-- The field `node->first_child` (NULL for a NULL pointer). -/
def ASTNode.first_child : ASTNode → ASTNode
  | .null => .null
  | .node _ _ _ _ fc _ => fc

/-- The field `node->text` (NULL for a NULL pointer). -/
def ASTNode.text : ASTNode → Option String
  | .null => none
  | .node _ text _ _ _ _ => text

/-- The test `node && node->type == t`. -/
def ASTNode.is (node : ASTNode) (t : ASTNodeType) : Bool :=
  match node with
  | .null => false
  | .node ty _ _ _ _ _ => decide (ty = t)

/-- The helper `get_line` of `semantic.c`. -/
def get_line (node : ASTNode) : Int :=
  match node with
  | .null => 0
  | .node _ _ _ ln _ _ => ln

/-! ## Symbol table (`symbol.h`, `symbol.c`) -/

def SYMBOL_TABLE_SIZE : Nat := 256
def MAX_SCOPE_DEPTH : Nat := 32
def MAX_PARAMS : Nat := 16

inductive DataType
  | TYPE_UNKNOWN | TYPE_VOID | TYPE_INT | TYPE_ERROR
  deriving DecidableEq, Repr

inductive SymbolKind
  | SYMBOL_VARIABLE | SYMBOL_FUNCTION | SYMBOL_PARAMETER
  deriving DecidableEq, Repr

open DataType SymbolKind

/-- A function signature; `params` lists `param_names[i]` with
`param_types[i]`, and `param_count` is its length. -/
structure FunctionInfo where
  return_type : DataType
  params : List (String × DataType)
  deriving DecidableEq, Repr

def FunctionInfo.param_count (fi : FunctionInfo) : Int := fi.params.length

structure Symbol where
  name : String
  kind : SymbolKind
  type : DataType
  scope_level : Int
  offset : Int
  line_declared : Int
  func_info : Option FunctionInfo
  deriving DecidableEq, Repr

structure Scope where
  level : Int
  local_offset : Int
  deriving DecidableEq, Repr

/-- The symbol table.  `buckets i` is the hash chain of bucket `i`, head
first; `scopes` is the chain of scopes from `current_scope` up through the
`parent` pointers to the global scope. -/
structure SymbolTable where
  buckets : Nat → List Symbol
  scopes : List Scope
  scope_level : Int
  current_function : Option Symbol
  total_locals : Int

/-- DJB2 over the characters of the name, in 32-bit unsigned arithmetic,
reduced modulo the number of buckets. -/
def hash_string (str : String) : Nat :=
  (str.data.foldl (fun hash c => (((hash <<< 5) + hash) + c.toNat) % 4294967296) 5381)
    % SYMBOL_TABLE_SIZE

def symbol_table_create : SymbolTable :=
  { buckets := fun _ => []
    scopes := [{ level := 0, local_offset := 0 }]
    scope_level := 0
    current_function := none
    total_locals := 0 }

/-- The field `current_scope->local_offset`. -/
def SymbolTable.cur_local_offset (table : SymbolTable) : Int :=
  match table.scopes with
  | [] => 0
  | s :: _ => s.local_offset

def symbol_enter_scope (table : SymbolTable) : SymbolTable :=
  { table with
    scopes := { level := table.scope_level + 1, local_offset := table.cur_local_offset }
                :: table.scopes
    scope_level := table.scope_level + 1 }

def symbol_exit_scope (table : SymbolTable) : SymbolTable :=
  if table.scope_level = 0 then table
  else
    { table with
      buckets := fun i =>
        if i < SYMBOL_TABLE_SIZE then
          (table.buckets i).filter (fun sym => decide (sym.scope_level ≠ table.scope_level))
        else table.buckets i
      scopes := table.scopes.tail
      scope_level := table.scope_level - 1 }

def symbol_current_scope_level (table : SymbolTable) : Int := table.scope_level

def symbol_lookup (table : SymbolTable) (name : String) : Option Symbol :=
  (table.buckets (hash_string name)).foldl
    (fun found sym =>
      if sym.name = name then
        match found with
        | none => some sym
        | some f => if sym.scope_level > f.scope_level then some sym else some f
      else found)
    none

def symbol_lookup_current_scope (table : SymbolTable) (name : String) : Option Symbol :=
  (table.buckets (hash_string name)).find?
    (fun sym => decide (sym.name = name ∧ sym.scope_level = table.scope_level))

/-- Array write on the bucket array. -/
def bucket_set (b : Nat → List Symbol) (i : Nat) (chain : List Symbol) : Nat → List Symbol :=
  fun j => if j = i then chain else b j

/-- The function `symbol_declare`: the new symbol (`none` for NULL) and the
table afterwards. -/
def symbol_declare (table : SymbolTable) (name : String) (kind : SymbolKind)
    (type : DataType) (line : Int) : Option Symbol × SymbolTable :=
  let idx := hash_string name
  match symbol_lookup_current_scope table name with
  | some _ => (none, table)
  | none =>
    let is_slot := decide (kind = SYMBOL_VARIABLE ∨ kind = SYMBOL_PARAMETER)
    let sym : Symbol :=
      { name := name, kind := kind, type := type, scope_level := table.scope_level
        offset := if is_slot then table.cur_local_offset else 0
        line_declared := line, func_info := none }
    let scopes :=
      if is_slot then
        match table.scopes with
        | [] => []
        | s :: rest => { s with local_offset := s.local_offset + 1 } :: rest
      else table.scopes
    (some sym,
      { table with
        buckets := bucket_set table.buckets idx (sym :: table.buckets idx)
        scopes := scopes
        total_locals := if is_slot then table.total_locals + 1 else table.total_locals })

/-- The function `symbol_declare_function`.  The returned pointer is the head
of the bucket of `name`, which now carries an empty signature. -/
def symbol_declare_function (table : SymbolTable) (name : String)
    (return_type : DataType) (line : Int) : Option Symbol × SymbolTable :=
  match symbol_declare table name SYMBOL_FUNCTION return_type line with
  | (none, t) => (none, t)
  | (some func, t) =>
    let func' := { func with func_info := some { return_type := return_type, params := [] } }
    (some func',
      { t with buckets := bucket_set t.buckets (hash_string name)
                            (func' :: (t.buckets (hash_string name)).tail) })

/-- The function `symbol_add_parameter`, on the record `func` points to. -/
def symbol_add_parameter (func : Symbol) (name : String) (type : DataType) : Symbol :=
  match func.func_info with
  | none => func
  | some fi =>
    if fi.params.length ≥ MAX_PARAMS then func
    else { func with func_info := some { fi with params := fi.params ++ [(name, type)] } }

/-- The call `symbol_add_parameter(func, name, type)` where `func` is the
pointer `symbol_declare_function` has just returned for `func_name`: the
record at the head of that bucket is updated in place. -/
def symtab_add_parameter (table : SymbolTable) (func_name : String) (name : String)
    (type : DataType) : SymbolTable :=
  match table.buckets (hash_string func_name) with
  | [] => table
  | func :: rest =>
    { table with buckets := bucket_set table.buckets (hash_string func_name)
                              (symbol_add_parameter func name type :: rest) }

def symbol_set_current_function (table : SymbolTable) (func : Option Symbol) : SymbolTable :=
  { table with current_function := func, total_locals := 0 }

def symbol_get_current_function (table : SymbolTable) : Option Symbol :=
  table.current_function

def datatype_from_string (type_str : Option String) : DataType :=
  match type_str with
  | none => TYPE_UNKNOWN
  | some s => if s = "int" then TYPE_INT else if s = "void" then TYPE_VOID else TYPE_UNKNOWN

def datatype_to_string (type : DataType) : String :=
  match type with
  | TYPE_INT => "int"
  | TYPE_VOID => "void"
  | TYPE_ERROR => "<hata>"
  | _ => "<bilinmeyen>"

def types_compatible (left right : DataType) : Bool :=
  if left = TYPE_VOID ∨ right = TYPE_VOID then false
  else if left = TYPE_ERROR ∨ right = TYPE_ERROR then false
  else decide (left = right)

/-! ## Semantic analyzer (`semantic.h`, `semantic.c`) -/

def MAX_SEMANTIC_ERRORS : Nat := 100

structure SemanticError where
  line : Int
  message : String
  deriving DecidableEq, Repr

/-- The analyzer.  `enter_calls` and `exit_calls` are ghost counters, not
fields of the C structure: the number of calls of `symbol_enter_scope` and of
`symbol_exit_scope` the analyzer has made so far. -/
structure SemanticAnalyzer where
  symtab : SymbolTable
  errors : List SemanticError
  current_return_type : DataType
  in_loop : Bool
  enter_calls : Nat
  exit_calls : Nat

def SemanticAnalyzer.error_count (analyzer : SemanticAnalyzer) : Int := analyzer.errors.length

def semantic_create : SemanticAnalyzer :=
  { symtab := symbol_table_create
    errors := []
    current_return_type := TYPE_VOID
    in_loop := false
    enter_calls := 0
    exit_calls := 0 }

/-- The text `vsnprintf` leaves in the 512-byte buffer. -/
def fmt_buffer (s : String) : String := String.mk (s.data.take 511)

/-- Decimal rendering of `%d`. -/
def fmt_d (n : Int) : String := toString n

/-- The function `semantic_error`; `message` is the already formatted text. -/
def semantic_error (analyzer : SemanticAnalyzer) (line : Int) (message : String) :
    SemanticAnalyzer :=
  if analyzer.errors.length ≥ MAX_SEMANTIC_ERRORS then analyzer
  else { analyzer with errors := analyzer.errors ++ [{ line := line, message := fmt_buffer message }] }

def semantic_error_count (analyzer : SemanticAnalyzer) : Int := analyzer.error_count

def semantic_get_symbol_table (analyzer : SemanticAnalyzer) : SymbolTable := analyzer.symtab

/-- The helper `count_children`. -/
def count_siblings : ASTNode → Nat
  | .null => 0
  | .node _ _ _ _ _ ns => count_siblings ns + 1

def count_children (node : ASTNode) : Nat :=
  match node with
  | .null => 0
  | .node _ _ _ _ fc _ => count_siblings fc

/-- The parameter loop of `collect_functions`, from `param` onwards. -/
def collect_params (table : SymbolTable) (func_name : String) : ASTNode → SymbolTable
  | .null => table
  | .node ty text dt _ _ ns =>
    if ty = AST_PARAM then
      collect_params (symtab_add_parameter table func_name (cstr text) (datatype_from_string dt))
        func_name ns
    else collect_params table func_name ns

/-- The loop of `collect_functions` (pass 1), from `child` onwards. -/
def collect_functions_loop (analyzer : SemanticAnalyzer) : ASTNode → SemanticAnalyzer
  | .null => analyzer
  | .node ty text dt ln fc ns =>
    if ty = AST_FUNCTION then
      let func_name := cstr text
      let return_type := datatype_from_string dt
      let line := ln
      let existing := symbol_lookup analyzer.symtab func_name
      match existing.filter (fun ex => decide (ex.kind = SYMBOL_FUNCTION)) with
      | some ex =>
        collect_functions_loop
          (semantic_error analyzer line
            ("'" ++ func_name ++ "' fonksiyonu zaten tanimlanmis (satir "
              ++ fmt_d ex.line_declared ++ ")"))
          ns
      | none =>
        match symbol_declare_function analyzer.symtab func_name return_type line with
        | (none, _) =>
          collect_functions_loop
            (semantic_error analyzer line ("'" ++ func_name ++ "' fonksiyonu tanimlanamadi"))
            ns
        | (some _, table) =>
          let param_list := get_child (.node ty text dt ln fc ns) 0
          let table :=
            if param_list.is AST_PARAM_LIST then
              collect_params table func_name param_list.first_child
            else table
          collect_functions_loop { analyzer with symtab := table } ns
    else collect_functions_loop analyzer ns

def collect_functions (analyzer : SemanticAnalyzer) (program : ASTNode) : SemanticAnalyzer :=
  match program with
  | .null => analyzer
  | .node _ _ _ _ fc _ => collect_functions_loop analyzer fc

/-- The test `strcmp(op, ...) == 0` against the six comparison spellings. -/
def is_comparison_op (op : Option String) : Bool :=
  match op with
  | none => false
  | some op =>
    decide (op = "==" ∨ op = "!=" ∨ op = "<" ∨ op = ">" ∨ op = "<=" ∨ op = ">=")

/-- The parameter loop of `analyze_function`: declare each parameter of the
signature as a PARAMETER symbol. -/
def declare_params (analyzer : SemanticAnalyzer) (line : Int) :
    List (String × DataType) → SemanticAnalyzer
  | [] => analyzer
  | (pname, ptype) :: rest =>
    match symbol_declare analyzer.symtab pname SYMBOL_PARAMETER ptype line with
    | (none, table) =>
      declare_params
        (semantic_error { analyzer with symtab := table } line
          ("Parametre '" ++ pname ++ "' birden fazla kez tanimlanmis"))
        line rest
    | (some _, table) => declare_params { analyzer with symtab := table } line rest

theorem sibling_at_size (n : Nat) (c : ASTNode) : (sibling_at n c).size ≤ c.size := by
  induction n generalizing c with
  | zero => simp [sibling_at]
  | succ n ih =>
    cases c with
    | null => simp [sibling_at]
    | node t x d l fc ns =>
      simp only [sibling_at, ASTNode.size]
      have := ih ns
      omega

theorem first_child_size_le (n : ASTNode) : n.first_child.size ≤ n.size := by
  cases n with
  | null => simp [ASTNode.first_child]
  | node t x d l fc ns => simp only [ASTNode.first_child, ASTNode.size]; omega

theorem get_child_size (t : ASTNodeType) (x d : Option String) (l : Int) (fc ns : ASTNode)
    (n : Nat) :
    (get_child (.node t x d l fc ns) n).size < (ASTNode.node t x d l fc ns).size := by
  simp only [get_child, ASTNode.size]
  have := sibling_at_size n fc
  omega

mutual

/-- The function `analyze_expression`: the type of the expression and the
analyzer afterwards. -/
def analyze_expression (analyzer : SemanticAnalyzer) (node : ASTNode) :
    DataType × SemanticAnalyzer :=
  match node with
  | .null => (TYPE_ERROR, analyzer)
  | .node ty text dt ln fc ns =>
    match ty with
    | AST_NUMBER_LITERAL => (TYPE_INT, analyzer)
    | AST_STRING_LITERAL => (TYPE_INT, analyzer)
    | AST_IDENTIFIER =>
      match symbol_lookup analyzer.symtab (cstr text) with
      | none =>
        (TYPE_ERROR, semantic_error analyzer ln ("'" ++ cstr text ++ "' degiskeni tanimlanmamis"))
      | some sym =>
        if sym.kind = SYMBOL_FUNCTION then
          (TYPE_ERROR, semantic_error analyzer ln
            ("'" ++ cstr text ++ "' bir fonksiyondur, degisken olarak kullanilamaz"))
        else (sym.type, analyzer)
    | AST_ASSIGNMENT =>
      let left := get_child (.node ty text dt ln fc ns) 0
      let right := get_child (.node ty text dt ln fc ns) 1
      if ¬ left.is AST_IDENTIFIER then
        (TYPE_ERROR, semantic_error analyzer ln "Atama hedefi bir degisken olmali")
      else
        match symbol_lookup analyzer.symtab (cstr left.text) with
        | none =>
          (TYPE_ERROR,
            semantic_error analyzer ln ("'" ++ cstr left.text ++ "' degiskeni tanimlanmamis"))
        | some sym =>
          let (right_type, analyzer) := analyze_expression analyzer right
          if types_compatible sym.type right_type then (sym.type, analyzer)
          else
            (sym.type, semantic_error analyzer ln
              ("Tip uyumsuzlugu: '" ++ cstr left.text ++ "' tipi " ++ datatype_to_string sym.type
                ++ ", ancak " ++ datatype_to_string right_type ++ " atanmaya calisiliyor"))
    | AST_BINARY_EXPR =>
      let left := get_child (.node ty text dt ln fc ns) 0
      let right := get_child (.node ty text dt ln fc ns) 1
      let (left_type, analyzer) := analyze_expression analyzer left
      let (right_type, analyzer) := analyze_expression analyzer right
      if left_type = TYPE_VOID ∨ right_type = TYPE_VOID then
        (TYPE_ERROR,
          semantic_error analyzer ln "Void ifadeler aritmetik islemlerde kullanilamaz")
      else if ¬ types_compatible left_type right_type then
        (TYPE_ERROR, semantic_error analyzer ln
          ("Tip uyumsuzlugu: " ++ datatype_to_string left_type ++ " ve "
            ++ datatype_to_string right_type ++ " arasinda islem yapilamaz"))
      else if is_comparison_op text then (TYPE_INT, analyzer)
      else (left_type, analyzer)
    | AST_UNARY_EXPR =>
      let operand := get_child (.node ty text dt ln fc ns) 0
      let (op_type, analyzer) := analyze_expression analyzer operand
      if op_type = TYPE_VOID then
        (TYPE_ERROR, semantic_error analyzer ln "Void ifadeler uzerinde unary islem yapilamaz")
      else (op_type, analyzer)
    | AST_FUNCTION_CALL =>
      let func_name := cstr text
      match symbol_lookup analyzer.symtab func_name with
      | none =>
        (TYPE_ERROR, semantic_error analyzer ln ("'" ++ func_name ++ "' fonksiyonu tanimlanmamis"))
      | some func =>
        if func.kind ≠ SYMBOL_FUNCTION then
          (TYPE_ERROR, semantic_error analyzer ln ("'" ++ func_name ++ "' bir fonksiyon degil"))
        else
          match func.func_info with
          | none => (TYPE_ERROR, analyzer)
          | some fi =>
            let arg_list := get_child (.node ty text dt ln fc ns) 0
            let (arg_count, analyzer) :=
              if arg_list.is AST_ARGUMENT_LIST then
                analyze_args analyzer func_name fi ln 0 arg_list.first_child
              else (0, analyzer)
            let analyzer :=
              if (arg_count : Int) ≠ fi.param_count then
                semantic_error analyzer ln
                  ("'" ++ func_name ++ "' fonksiyonu " ++ fmt_d fi.param_count
                    ++ " parametre bekliyor, " ++ fmt_d arg_count ++ " verildi")
              else analyzer
            (fi.return_type, analyzer)
    | AST_EXPR_STATEMENT =>
      if fc = .null then (TYPE_VOID, analyzer)
      else analyze_expression analyzer fc
    | _ => (TYPE_ERROR, analyzer)
termination_by (node.size, 0)
decreasing_by
  all_goals first
    | (apply Prod.Lex.left; exact get_child_size ..)
    | (apply Prod.Lex.left; simp only [ASTNode.size]; omega)
    | (apply Prod.Lex.left; exact lt_of_le_of_lt (first_child_size_le _) (get_child_size ..))

/-- The argument loop of the FUNCTION_CALL case, from `arg` onwards, with the
running `arg_count`. -/
def analyze_args (analyzer : SemanticAnalyzer) (func_name : String) (fi : FunctionInfo)
    (line : Int) (arg_count : Nat) (arg : ASTNode) : Nat × SemanticAnalyzer :=
  match arg with
  | .null => (arg_count, analyzer)
  | .node ty text dt ln fc ns =>
    let (arg_type, analyzer) := analyze_expression analyzer (.node ty text dt ln fc ns)
    let analyzer :=
      match fi.params.get? arg_count with
      | some (_, expected) =>
        if types_compatible expected arg_type then analyzer
        else
          semantic_error analyzer line
            ("'" ++ func_name ++ "' fonksiyonu " ++ fmt_d (arg_count + 1)
              ++ ". parametre: beklenen " ++ datatype_to_string expected ++ ", gelen "
              ++ datatype_to_string arg_type)
      | none => analyzer
    analyze_args analyzer func_name fi line (arg_count + 1) ns
termination_by (arg.size, 1)
decreasing_by
  · apply Prod.Lex.right; omega
  · apply Prod.Lex.left; simp only [ASTNode.size]; omega

end

/-- The function `analyze_var_decl`. -/
def analyze_var_decl (analyzer : SemanticAnalyzer) (node : ASTNode) : SemanticAnalyzer :=
  match node with
  | .null => analyzer
  | .node _ text dt ln fc _ =>
    let var_name := cstr text
    let var_type := datatype_from_string dt
    let line := ln
    if var_type = TYPE_VOID then
      semantic_error analyzer line ("'" ++ var_name ++ "' degiskeni void tipinde olamaz")
    else
      match symbol_lookup_current_scope analyzer.symtab var_name with
      | some existing =>
        semantic_error analyzer line
          ("'" ++ var_name ++ "' degiskeni ayni kapsamda zaten tanimlanmis (satir "
            ++ fmt_d existing.line_declared ++ ")")
      | none =>
        match symbol_declare analyzer.symtab var_name SYMBOL_VARIABLE var_type line with
        | (none, table) =>
          semantic_error { analyzer with symtab := table } line
            ("'" ++ var_name ++ "' degiskeni tanimlanamadi")
        | (some _, table) =>
          let analyzer := { analyzer with symtab := table }
          if fc = .null then analyzer
          else
            let (init_type, analyzer) := analyze_expression analyzer fc
            if init_type ≠ TYPE_ERROR ∧ ¬ types_compatible var_type init_type then
              semantic_error analyzer line
                ("Tip uyumsuzlugu: '" ++ var_name ++ "' tipi " ++ datatype_to_string var_type
                  ++ ", ancak " ++ datatype_to_string init_type ++ " atanmaya calisiliyor")
            else analyzer

/-- The function `analyze_return`. -/
def analyze_return (analyzer : SemanticAnalyzer) (node : ASTNode) : SemanticAnalyzer :=
  match node with
  | .null => analyzer
  | .node _ _ _ ln fc _ =>
    let expected := analyzer.current_return_type
    let (actual, analyzer) :=
      if fc = .null then (TYPE_VOID, analyzer)
      else analyze_expression analyzer fc
    if expected = TYPE_VOID ∧ actual ≠ TYPE_VOID then
      semantic_error analyzer ln "void fonksiyondan deger dondurulemez"
    else if expected ≠ TYPE_VOID ∧ actual = TYPE_VOID then
      semantic_error analyzer ln ("Fonksiyon " ++ datatype_to_string expected ++ " dondermeli")
    else if expected ≠ TYPE_VOID ∧ actual ≠ TYPE_VOID ∧ ¬ types_compatible expected actual then
      semantic_error analyzer ln
        ("Donus tipi uyumsuz: beklenen " ++ datatype_to_string expected ++ ", gelen "
          ++ datatype_to_string actual)
    else analyzer

/-- The condition check shared by `analyze_if`, `analyze_while` and
`analyze_for`: analyze the condition and report a VOID one with `message`. -/
def analyze_condition (analyzer : SemanticAnalyzer) (condition : ASTNode) (line : Int)
    (message : String) : SemanticAnalyzer :=
  let (cond_type, analyzer) := analyze_expression analyzer condition
  if cond_type = TYPE_VOID then semantic_error analyzer line message else analyzer

mutual

/-- The function `analyze_statement`. -/
def analyze_statement (analyzer : SemanticAnalyzer) (node : ASTNode) : SemanticAnalyzer :=
  match node with
  | .null => analyzer
  | .node ty text dt ln fc ns =>
    match ty with
    | AST_VAR_DECL => analyze_var_decl analyzer (.node ty text dt ln fc ns)
    | AST_BLOCK => analyze_block analyzer (.node ty text dt ln fc ns)
    | AST_IF => analyze_if analyzer (.node ty text dt ln fc ns)
    | AST_IF_ELSE => analyze_if analyzer (.node ty text dt ln fc ns)
    | AST_WHILE => analyze_while analyzer (.node ty text dt ln fc ns)
    | AST_FOR => analyze_for analyzer (.node ty text dt ln fc ns)
    | AST_RETURN => analyze_return analyzer (.node ty text dt ln fc ns)
    | AST_EXPR_STATEMENT =>
      if fc = .null then analyzer
      else (analyze_expression analyzer fc).2
    | AST_ASSIGNMENT => (analyze_expression analyzer (.node ty text dt ln fc ns)).2
    | _ => analyze_stmts analyzer fc
termination_by (node.size, 2)
decreasing_by
  all_goals first
    | (apply Prod.Lex.right; omega)
    | (apply Prod.Lex.left; simp only [ASTNode.size]; omega)

/-- The statement loop `for (stmt = ...; stmt; stmt = stmt->next_sibling)
analyze_statement(analyzer, stmt)`, from `stmt` onwards. -/
def analyze_stmts (analyzer : SemanticAnalyzer) (stmt : ASTNode) : SemanticAnalyzer :=
  match stmt with
  | .null => analyzer
  | .node ty text dt ln fc ns =>
    analyze_stmts (analyze_statement analyzer (.node ty text dt ln fc ns)) ns
termination_by (stmt.size, 3)
decreasing_by
  all_goals first
    | (apply Prod.Lex.right; omega)
    | (apply Prod.Lex.left; simp only [ASTNode.size]; omega)

/-- The function `analyze_block`. -/
def analyze_block (analyzer : SemanticAnalyzer) (node : ASTNode) : SemanticAnalyzer :=
  match node with
  | .null => analyzer
  | .node _ _ _ _ fc _ =>
    let analyzer :=
      { analyzer with
        symtab := symbol_enter_scope analyzer.symtab, enter_calls := analyzer.enter_calls + 1 }
    let analyzer := analyze_stmts analyzer fc
    { analyzer with
      symtab := symbol_exit_scope analyzer.symtab, exit_calls := analyzer.exit_calls + 1 }
termination_by (node.size, 1)
decreasing_by
  all_goals (apply Prod.Lex.left; simp only [ASTNode.size]; omega)

/-- The function `analyze_if`. -/
def analyze_if (analyzer : SemanticAnalyzer) (node : ASTNode) : SemanticAnalyzer :=
  match node with
  | .null => analyzer
  | .node ty text dt ln fc ns =>
    let condition := get_child (.node ty text dt ln fc ns) 0
    let analyzer :=
      if condition = .null then analyzer
      else analyze_condition analyzer condition ln "Kosul ifadesi void olamaz"
    let then_block := get_child (.node ty text dt ln fc ns) 1
    let analyzer := analyze_statement analyzer then_block
    if ty = AST_IF_ELSE then
      let else_block := get_child (.node ty text dt ln fc ns) 2
      analyze_statement analyzer else_block
    else analyzer
termination_by (node.size, 1)
decreasing_by
  all_goals first
    | (apply Prod.Lex.left; exact get_child_size ..)

/-- The function `analyze_while`. -/
def analyze_while (analyzer : SemanticAnalyzer) (node : ASTNode) : SemanticAnalyzer :=
  match node with
  | .null => analyzer
  | .node ty text dt ln fc ns =>
    let condition := get_child (.node ty text dt ln fc ns) 0
    let analyzer :=
      if condition = .null then analyzer
      else analyze_condition analyzer condition ln "Dongu kosulu void olamaz"
    let was_in_loop := analyzer.in_loop
    let analyzer := { analyzer with in_loop := true }
    let body := get_child (.node ty text dt ln fc ns) 1
    let analyzer := analyze_statement analyzer body
    { analyzer with in_loop := was_in_loop }
termination_by (node.size, 1)
decreasing_by
  all_goals first
    | (apply Prod.Lex.left; exact get_child_size ..)

/-- The function `analyze_for`. -/
def analyze_for (analyzer : SemanticAnalyzer) (node : ASTNode) : SemanticAnalyzer :=
  match node with
  | .null => analyzer
  | .node ty text dt ln fc ns =>
    let analyzer :=
      { analyzer with
        symtab := symbol_enter_scope analyzer.symtab, enter_calls := analyzer.enter_calls + 1 }
    let init := get_child (.node ty text dt ln fc ns) 0
    let analyzer :=
      if init ≠ .null ∧ ¬ init.is AST_EMPTY then analyze_statement analyzer init
      else analyzer
    let condition := get_child (.node ty text dt ln fc ns) 1
    let analyzer :=
      if condition ≠ .null ∧ ¬ condition.is AST_EMPTY then
        analyze_condition analyzer condition ln "For dongusu kosulu void olamaz"
      else analyzer
    let update := get_child (.node ty text dt ln fc ns) 2
    let analyzer :=
      if update ≠ .null ∧ ¬ update.is AST_EMPTY then (analyze_expression analyzer update).2
      else analyzer
    let was_in_loop := analyzer.in_loop
    let analyzer := { analyzer with in_loop := true }
    let body := get_child (.node ty text dt ln fc ns) 3
    let analyzer := analyze_statement analyzer body
    let analyzer := { analyzer with in_loop := was_in_loop }
    { analyzer with
      symtab := symbol_exit_scope analyzer.symtab, exit_calls := analyzer.exit_calls + 1 }
termination_by (node.size, 1)
decreasing_by
  all_goals first
    | (apply Prod.Lex.left; exact get_child_size ..)

end

/-- The function `analyze_function`.  The code reads `func->func_info`
without a NULL test; the symbol a function node's name resolves to carries a
signature in every tree whose function nodes are the children of the program,
and for a symbol without one the analysis of the node ends here. -/
def analyze_function (analyzer : SemanticAnalyzer) (node : ASTNode) : SemanticAnalyzer :=
  match node with
  | .null => analyzer
  | .node ty text dt ln fc ns =>
    let func_name := cstr text
    match symbol_lookup analyzer.symtab func_name with
    | none => analyzer
    | some func =>
      match func.func_info with
      | none => analyzer
      | some fi =>
        let analyzer :=
          { analyzer with symtab := symbol_set_current_function analyzer.symtab (some func) }
        let analyzer := { analyzer with current_return_type := fi.return_type }
        let analyzer :=
          { analyzer with
            symtab := symbol_enter_scope analyzer.symtab
            enter_calls := analyzer.enter_calls + 1 }
        let analyzer := declare_params analyzer ln fi.params
        let body := get_child (.node ty text dt ln fc ns) 1
        let analyzer :=
          if body.is AST_BLOCK then analyze_stmts analyzer body.first_child else analyzer
        let analyzer :=
          { analyzer with
            symtab := symbol_exit_scope analyzer.symtab
            exit_calls := analyzer.exit_calls + 1 }
        { analyzer with symtab := symbol_set_current_function analyzer.symtab none }

mutual

/-- The function `analyze_node`. -/
def analyze_node (analyzer : SemanticAnalyzer) (node : ASTNode) : SemanticAnalyzer :=
  match node with
  | .null => analyzer
  | .node ty text dt ln fc ns =>
    match ty with
    | AST_PROGRAM => analyze_nodes analyzer fc
    | AST_FUNCTION => analyze_function analyzer (.node ty text dt ln fc ns)
    | AST_VAR_DECL => analyze_var_decl analyzer (.node ty text dt ln fc ns)
    | _ => analyze_nodes analyzer fc
termination_by (node.size, 0)
decreasing_by
  all_goals (apply Prod.Lex.left; simp only [ASTNode.size]; omega)

/-- The child loop of `analyze_node`, from `child` onwards. -/
def analyze_nodes (analyzer : SemanticAnalyzer) (child : ASTNode) : SemanticAnalyzer :=
  match child with
  | .null => analyzer
  | .node ty text dt ln fc ns =>
    analyze_nodes (analyze_node analyzer (.node ty text dt ln fc ns)) ns
termination_by (child.size, 1)
decreasing_by
  all_goals first
    | (apply Prod.Lex.right; omega)
    | (apply Prod.Lex.left; simp only [ASTNode.size]; omega)

end

/-- The function `semantic_analyze`: its boolean result and the analyzer
afterwards. -/
def semantic_analyze (analyzer : SemanticAnalyzer) (program : ASTNode) :
    Bool × SemanticAnalyzer :=
  match program with
  | .null => (false, analyzer)
  | .node _ _ _ _ _ _ =>
    let analyzer := collect_functions analyzer program
    let analyzer := analyze_node analyzer program
    (decide (analyzer.errors.length = 0), analyzer)

/-! ## Code generator (`codegen.h`, `codegen.c`) -/

/-- A pending forward jump: the address of the instruction to patch and the
number of the label it targets. -/
structure PendingJump where
  address : Nat
  target : Nat
  deriving DecidableEq, Repr

structure LocalSymbol where
  name : String
  offset : Int
  deriving DecidableEq, Repr

/-- The code generator context.  `label_count`, `pending_count` and
`local_count` are the lengths of `label_addresses`, `pending` and `locals`. -/
structure CodeGenerator where
  bc : Bytecode
  symtab : SymbolTable
  label_addresses : List Int
  pending : List PendingJump
  current_func_idx : Int
  local_offset : Int
  locals : List LocalSymbol

def is_space (c : Char) : Bool :=
  decide (c.toNat = 32 ∨ (9 ≤ c.toNat ∧ c.toNat ≤ 13))

/-- The digit loop of `atoi`. -/
def atoi_digits : List Char → Nat → Nat
  | [], acc => acc
  | c :: cs, acc =>
    if 48 ≤ c.toNat ∧ c.toNat ≤ 57 then atoi_digits cs (acc * 10 + (c.toNat - 48)) else acc

/-- The bounds of `long`, at which `strtol` saturates. -/
def LONG_MAX : Int := 9223372036854775807

def LONG_MIN : Int := -9223372036854775808

/-- The C library function `atoi`, which the C library implements as
`(int) strtol(s, NULL, 10)`: optional white space, an optional sign, decimal
digits; `strtol` saturates the value at `LONG_MAX` / `LONG_MIN`, and the
conversion to `int` keeps the low 32 bits.  A literal beyond the range of
`long` is therefore read as -1, and one below it as 0. -/
def atoi (s : String) : Int :=
  match s.data.dropWhile is_space with
  | [] => 0
  | c :: rest =>
    if c = '-' then wrap32 (max (-(atoi_digits rest 0 : Int)) LONG_MIN)
    else if c = '+' then wrap32 (min (atoi_digits rest 0 : Int) LONG_MAX)
    else wrap32 (min (atoi_digits (c :: rest) 0 : Int) LONG_MAX)

/-- The function `find_local`: the offset of the first local of that name,
or -1. -/
def find_local (gen : CodeGenerator) (name : String) : Int :=
  match gen.locals.find? (fun l => decide (l.name = name)) with
  | some l => l.offset
  | none => -1

/-- The function `add_local`: the offset and the generator afterwards. -/
def add_local (gen : CodeGenerator) (name : String) : Int × CodeGenerator :=
  let existing := find_local gen name
  if existing ≥ 0 then (existing, gen)
  else if gen.locals.length ≥ MAX_LOCAL_SYMBOLS then (0, gen)
  else
    let offset := gen.local_offset
    (offset,
      { gen with
        local_offset := gen.local_offset + 1
        locals := gen.locals ++ [{ name := name, offset := offset }] })

def clear_locals (gen : CodeGenerator) : CodeGenerator :=
  { gen with locals := [], local_offset := 0 }

/-- The function `emit`; `none` when the code array is full and the process
exits. -/
def emit (gen : CodeGenerator) (op : OpCode) (operand : Int) : Option CodeGenerator :=
  if gen.bc.code.length ≥ MAX_CODE_SIZE then none
  else some { gen with bc := { gen.bc with code := gen.bc.code ++ [{ opcode := op, operand := operand }] } }

def emit_simple (gen : CodeGenerator) (op : OpCode) : Option CodeGenerator :=
  emit gen op 0

def current_address (gen : CodeGenerator) : Int := gen.bc.code_size

/-- The function `new_label`; `none` when the label array is full. -/
def new_label (gen : CodeGenerator) : Option (Nat × CodeGenerator) :=
  if gen.label_addresses.length ≥ MAX_LABELS then none
  else
    some (gen.label_addresses.length,
      { gen with label_addresses := gen.label_addresses ++ [-1] })

def set_label (gen : CodeGenerator) (label : Nat) : CodeGenerator :=
  { gen with label_addresses := gen.label_addresses.set label (current_address gen) }

/-- The function `emit_jump`; `none` when the code array or the pending list
is full. -/
def emit_jump (gen : CodeGenerator) (op : OpCode) (label : Nat) : Option CodeGenerator :=
  if gen.label_addresses.getD label (-1) ≥ 0 then
    emit gen op (gen.label_addresses.getD label (-1))
  else do
    let addr := gen.bc.code.length
    let gen ← emit gen op (-1)
    if gen.pending.length ≥ MAX_LABELS then none
    else some { gen with pending := gen.pending ++ [{ address := addr, target := label }] }

/-- The assignment `code[addr].operand = value`. -/
def set_operand (code : List Instruction) (addr : Nat) (value : Int) : List Instruction :=
  match code.get? addr with
  | some inst => code.set addr { inst with operand := value }
  | none => code

/-- The loop of `patch_jumps` over the pending entries `ps`. -/
def patch_loop (gen : CodeGenerator) : List PendingJump → CodeGenerator
  | [] => gen
  | pj :: ps =>
    let target_addr := gen.label_addresses.getD pj.target (-1)
    if target_addr < 0 then patch_loop gen ps
    else
      patch_loop
        { gen with bc := { gen.bc with code := set_operand gen.bc.code pj.address target_addr } }
        ps

def patch_jumps (gen : CodeGenerator) : CodeGenerator := patch_loop gen gen.pending

def codegen_create (symtab : SymbolTable) : CodeGenerator :=
  { bc := { code := [], functions := [], main_entry := -1 }
    symtab := symtab
    label_addresses := []
    pending := []
    current_func_idx := -1
    local_offset := 0
    locals := [] }

/-- The function `register_function`; `none` when the function table is full
and the process exits. -/
def register_function (gen : CodeGenerator) (name : String) (param_count local_count : Int) :
    Option (Nat × CodeGenerator) :=
  if gen.bc.functions.length ≥ MAX_FUNCTIONS then none
  else
    some (gen.bc.functions.length,
      { gen with bc := { gen.bc with functions := gen.bc.functions ++
          [{ name := name, entry_point := current_address gen
             param_count := param_count, local_count := local_count }] } })

/-- The loop of `find_function` over the entries from index `i` on. -/
def find_function_from : List FunctionEntry → Nat → String → Int
  | [], _, _ => -1
  | f :: rest, i, name => if f.name = name then i else find_function_from rest (i + 1) name

def find_function (gen : CodeGenerator) (name : String) : Int :=
  find_function_from gen.bc.functions 0 name

/-- The spelling test of the BINARY_EXPR case: the opcode for an operator,
or `none` for an unknown operator. -/
def binary_opcode (op : String) : Option OpCode :=
  if op = "+" then some OP_ADD
  else if op = "-" then some OP_SUB
  else if op = "*" then some OP_MUL
  else if op = "/" then some OP_DIV
  else if op = "%" then some OP_MOD
  else if op = "==" then some OP_EQ
  else if op = "!=" then some OP_NEQ
  else if op = "<" then some OP_LT
  else if op = ">" then some OP_GT
  else if op = "<=" then some OP_LEQ
  else if op = ">=" then some OP_GEQ
  else none

mutual

/-- The function `gen_expression`. -/
def gen_expression (gen : CodeGenerator) (node : ASTNode) : Option CodeGenerator :=
  match node with
  | .null => some gen
  | .node ty text dt ln fc ns =>
    match ty with
    | AST_NUMBER_LITERAL => emit gen OP_PUSH (atoi (cstr text))
    | AST_STRING_LITERAL => emit gen OP_PUSH 0
    | AST_IDENTIFIER =>
      let offset := find_local gen (cstr text)
      if offset ≥ 0 then emit gen OP_LOAD offset
      else emit gen OP_PUSH 0
    | AST_ASSIGNMENT => do
      let left := get_child (.node ty text dt ln fc ns) 0
      let right := get_child (.node ty text dt ln fc ns) 1
      let gen ← gen_expression gen right
      let gen ← emit_simple gen OP_DUP
      if left.is AST_IDENTIFIER then
        let offset := find_local gen (cstr left.text)
        if offset ≥ 0 then emit gen OP_STORE offset
        else
          let (offset, gen) := add_local gen (cstr left.text)
          emit gen OP_STORE offset
      else some gen
    | AST_BINARY_EXPR => do
      let left := get_child (.node ty text dt ln fc ns) 0
      let right := get_child (.node ty text dt ln fc ns) 1
      let gen ← gen_expression gen left
      let gen ← gen_expression gen right
      match binary_opcode (cstr text) with
      | some op => emit_simple gen op
      | none => some gen
    | AST_UNARY_EXPR => do
      let operand := get_child (.node ty text dt ln fc ns) 0
      let gen ← gen_expression gen operand
      if text = some "-" then emit_simple gen OP_NEG else some gen
    | AST_FUNCTION_CALL => do
      let func_name := cstr text
      let arg_list := get_child (.node ty text dt ln fc ns) 0
      let gen ←
        if arg_list.is AST_ARGUMENT_LIST then gen_args gen arg_list.first_child
        else some gen
      let func_idx := find_function gen func_name
      if func_idx ≥ 0 then emit gen OP_CALL func_idx
      else emit gen OP_PUSH 0
    | AST_EXPR_STATEMENT => gen_expression gen fc
    | _ => some gen
termination_by (node.size, 0)
decreasing_by
  all_goals first
    | (apply Prod.Lex.left; exact get_child_size ..)
    | (apply Prod.Lex.left; simp only [ASTNode.size]; omega)
    | (apply Prod.Lex.left; exact lt_of_le_of_lt (first_child_size_le _) (get_child_size ..))

/-- The argument loop of the FUNCTION_CALL case, from `arg` onwards. -/
def gen_args (gen : CodeGenerator) (arg : ASTNode) : Option CodeGenerator :=
  match arg with
  | .null => some gen
  | .node ty text dt ln fc ns => do
    let gen ← gen_expression gen (.node ty text dt ln fc ns)
    gen_args gen ns
termination_by (arg.size, 1)
decreasing_by
  · apply Prod.Lex.right; omega
  · apply Prod.Lex.left; simp only [ASTNode.size]; omega

end

/-- The function `gen_var_decl`. -/
def gen_var_decl (gen : CodeGenerator) (node : ASTNode) : Option CodeGenerator :=
  match node with
  | .null => some gen
  | .node _ text _ _ fc _ =>
    let (offset, gen) := add_local gen (cstr text)
    if fc = .null then some gen
    else do
      let gen ← gen_expression gen fc
      emit gen OP_STORE offset

/-- The function `gen_return`. -/
def gen_return (gen : CodeGenerator) (node : ASTNode) : Option CodeGenerator :=
  match node with
  | .null => some gen
  | .node _ _ _ _ fc _ =>
    if fc = .null then emit_simple gen OP_RET
    else do
      let gen ← gen_expression gen fc
      emit_simple gen OP_RETVAL

mutual

/-- The function `gen_statement`. -/
def gen_statement (gen : CodeGenerator) (node : ASTNode) : Option CodeGenerator :=
  match node with
  | .null => some gen
  | .node ty text dt ln fc ns =>
    match ty with
    | AST_VAR_DECL => gen_var_decl gen (.node ty text dt ln fc ns)
    | AST_BLOCK => gen_block gen (.node ty text dt ln fc ns)
    | AST_IF => gen_if gen (.node ty text dt ln fc ns)
    | AST_IF_ELSE => gen_if gen (.node ty text dt ln fc ns)
    | AST_WHILE => gen_while gen (.node ty text dt ln fc ns)
    | AST_FOR => gen_for gen (.node ty text dt ln fc ns)
    | AST_RETURN => gen_return gen (.node ty text dt ln fc ns)
    | AST_EXPR_STATEMENT =>
      if fc = .null then some gen
      else do
        let gen ← gen_expression gen fc
        emit_simple gen OP_POP
    | AST_ASSIGNMENT => do
      let gen ← gen_expression gen (.node ty text dt ln fc ns)
      emit_simple gen OP_POP
    | _ => some gen
termination_by (node.size, 2)
decreasing_by
  all_goals (apply Prod.Lex.right; omega)

/-- The statement loop of `gen_block`, from `stmt` onwards. -/
def gen_stmts (gen : CodeGenerator) (stmt : ASTNode) : Option CodeGenerator :=
  match stmt with
  | .null => some gen
  | .node ty text dt ln fc ns => do
    let gen ← gen_statement gen (.node ty text dt ln fc ns)
    gen_stmts gen ns
termination_by (stmt.size, 3)
decreasing_by
  · apply Prod.Lex.right; omega
  · apply Prod.Lex.left; simp only [ASTNode.size]; omega

/-- The function `gen_block`. -/
def gen_block (gen : CodeGenerator) (node : ASTNode) : Option CodeGenerator :=
  match node with
  | .null => some gen
  | .node _ _ _ _ fc _ => gen_stmts gen fc
termination_by (node.size, 1)
decreasing_by
  all_goals (apply Prod.Lex.left; simp only [ASTNode.size]; omega)

/-- The function `gen_if`. -/
def gen_if (gen : CodeGenerator) (node : ASTNode) : Option CodeGenerator :=
  match node with
  | .null => some gen
  | .node ty text dt ln fc ns => do
    let condition := get_child (.node ty text dt ln fc ns) 0
    let then_block := get_child (.node ty text dt ln fc ns) 1
    let else_block :=
      if ty = AST_IF_ELSE then get_child (.node ty text dt ln fc ns) 2 else .null
    let (else_label, gen) ← new_label gen
    let (end_label, gen) ← new_label gen
    let gen ← gen_expression gen condition
    if else_block ≠ .null then do
      let gen ← emit_jump gen OP_JZ else_label
      let gen ← gen_statement gen then_block
      let gen ← emit_jump gen OP_JMP end_label
      let gen := set_label gen else_label
      let gen ← gen_statement gen else_block
      some (set_label gen end_label)
    else do
      let gen ← emit_jump gen OP_JZ end_label
      let gen ← gen_statement gen then_block
      some (set_label gen end_label)
termination_by (node.size, 1)
decreasing_by
  all_goals first
    | (apply Prod.Lex.left; exact get_child_size ..)
    | (apply Prod.Lex.left; split
       · exact get_child_size ..
       · simp only [ASTNode.size]; omega)

/-- The function `gen_while`. -/
def gen_while (gen : CodeGenerator) (node : ASTNode) : Option CodeGenerator :=
  match node with
  | .null => some gen
  | .node ty text dt ln fc ns => do
    let condition := get_child (.node ty text dt ln fc ns) 0
    let body := get_child (.node ty text dt ln fc ns) 1
    let (start_label, gen) ← new_label gen
    let (end_label, gen) ← new_label gen
    let gen := set_label gen start_label
    let gen ← gen_expression gen condition
    let gen ← emit_jump gen OP_JZ end_label
    let gen ← gen_statement gen body
    let gen ← emit_jump gen OP_JMP start_label
    some (set_label gen end_label)
termination_by (node.size, 1)
decreasing_by
  all_goals (apply Prod.Lex.left; exact get_child_size ..)

/-- The function `gen_for`. -/
def gen_for (gen : CodeGenerator) (node : ASTNode) : Option CodeGenerator :=
  match node with
  | .null => some gen
  | .node ty text dt ln fc ns => do
    let init := get_child (.node ty text dt ln fc ns) 0
    let condition := get_child (.node ty text dt ln fc ns) 1
    let update := get_child (.node ty text dt ln fc ns) 2
    let body := get_child (.node ty text dt ln fc ns) 3
    let (start_label, gen) ← new_label gen
    let (end_label, gen) ← new_label gen
    let gen ←
      if init ≠ .null ∧ ¬ init.is AST_EMPTY then gen_statement gen init else some gen
    let gen := set_label gen start_label
    let gen ←
      if condition ≠ .null ∧ ¬ condition.is AST_EMPTY then do
        let gen ← gen_expression gen condition
        emit_jump gen OP_JZ end_label
      else some gen
    let gen ← gen_statement gen body
    let gen ←
      if update ≠ .null ∧ ¬ update.is AST_EMPTY then do
        let gen ← gen_expression gen update
        emit_simple gen OP_POP
      else some gen
    let gen ← emit_jump gen OP_JMP start_label
    some (set_label gen end_label)
termination_by (node.size, 1)
decreasing_by
  all_goals (apply Prod.Lex.left; exact get_child_size ..)

end

/-- The first parameter loop of `gen_function`: the names of the signature. -/
def add_param_locals (gen : CodeGenerator) : List (String × DataType) → CodeGenerator
  | [] => gen
  | (pname, _) :: rest => add_param_locals (add_local gen pname).2 rest

/-- The second parameter loop of `gen_function`: the PARAM children of the
parameter list, from `param` onwards. -/
def add_ast_params (gen : CodeGenerator) : ASTNode → CodeGenerator
  | .null => gen
  | .node ty text _ _ _ ns =>
    match text with
    | some name =>
      if ty = AST_PARAM then add_ast_params (add_local gen name).2 ns
      else add_ast_params gen ns
    | none => add_ast_params gen ns

/-- The function `gen_function`. -/
def gen_function (gen : CodeGenerator) (node : ASTNode) : Option CodeGenerator :=
  match node with
  | .null => some gen
  | .node ty text dt ln fc ns => do
    let func_name := cstr text
    let gen := clear_locals gen
    let func_sym := symbol_lookup gen.symtab func_name
    let func_info := func_sym.bind (fun sym => sym.func_info)
    let param_count : Int :=
      match func_info with
      | some fi => fi.param_count
      | none => 0
    let gen :=
      match func_info with
      | some fi => add_param_locals gen fi.params
      | none => gen
    let param_list := get_child (.node ty text dt ln fc ns) 0
    let gen :=
      if param_list.is AST_PARAM_LIST then add_ast_params gen param_list.first_child
      else gen
    let local_count : Int := 32
    let entry_point := current_address gen
    let (func_idx, gen) ← register_function gen func_name param_count local_count
    let gen := { gen with current_func_idx := func_idx }
    let gen :=
      if func_name = "ana" then { gen with bc := { gen.bc with main_entry := entry_point } }
      else gen
    let gen ← emit gen OP_ENTER local_count
    let body := get_child (.node ty text dt ln fc ns) 1
    let gen ← if body.is AST_BLOCK then gen_block gen body else some gen
    let gen ← emit gen OP_PUSH 0
    let gen ← emit_simple gen OP_RETVAL
    some { gen with current_func_idx := -1 }

/-- The child loop of the PROGRAM case of `gen_node`, from `child` onwards. -/
def gen_functions (gen : CodeGenerator) : ASTNode → Option CodeGenerator
  | .null => some gen
  | .node ty text dt ln fc ns =>
    if ty = AST_FUNCTION then do
      let gen ← gen_function gen (.node ty text dt ln fc ns)
      gen_functions gen ns
    else gen_functions gen ns

/-- The function `gen_node`. -/
def gen_node (gen : CodeGenerator) (node : ASTNode) : Option CodeGenerator :=
  match node with
  | .null => some gen
  | .node ty text dt ln fc ns =>
    match ty with
    | AST_PROGRAM => gen_functions gen fc
    | AST_FUNCTION => gen_function gen (.node ty text dt ln fc ns)
    | _ => some gen

/-- The body of `codegen_generate` up to the patching of the jumps: the state
of the generator when it returns. -/
def codegen_run (gen : CodeGenerator) (program : ASTNode) : Option CodeGenerator :=
  match program with
  | .null => none
  | .node _ _ _ _ _ _ => do
    let gen ← gen_node gen program
    let gen ← emit_simple gen OP_HALT
    some (patch_jumps gen)

/-- The function `codegen_generate`; `none` when it returns NULL or the
process exits before it returns. -/
def codegen_generate (gen : CodeGenerator) (program : ASTNode) : Option Bytecode :=
  (codegen_run gen program).map (fun g => g.bc)

/-! ## Tree construction (`ast.c`) -/

def ast_create_node (type : ASTNodeType) (text : Option String) : ASTNode :=
  .node type text none 0 .null .null

def ast_create_node_with_line (type : ASTNodeType) (text : Option String) (line : Int) :
    ASTNode :=
  .node type text none line .null .null

def ast_set_type (node : ASTNode) (data_type : Option String) : ASTNode :=
  match node with
  | .null => .null
  | .node t x _ l fc ns => .node t x data_type l fc ns

def ast_create_typed_node (type : ASTNodeType) (text data_type : Option String) : ASTNode :=
  ast_set_type (ast_create_node type text) data_type

def ast_append_sibling (list node : ASTNode) : ASTNode :=
  match node with
  | .null => list
  | .node _ _ _ _ _ _ =>
    match list with
    | .null => node
    | .node t x d l fc ns => .node t x d l fc (ast_append_sibling ns node)

def ast_append_child (parent child : ASTNode) : ASTNode :=
  match parent with
  | .null => .null
  | .node t x d l fc ns => .node t x d l (ast_append_sibling fc child) ns

/-! ## The pipeline and the programs of the end-to-end scenarios -/

/-- The pipeline of the tool chain: analyze the program with a fresh analyzer,
then generate code with a generator created on the analyzer's symbol table. -/
def compile (program : ASTNode) : Option Bytecode :=
  codegen_generate
    (codegen_create (semantic_get_symbol_table (semantic_analyze semantic_create program).2))
    program

/-- Run `k` iterations of the main loop of `vm_execute`; `none` if the loop
ends earlier or an access leaves its array. -/
def vm_steps (bc : Bytecode) : Nat → VM → Option VM
  | 0, vm => some vm
  | k + 1, vm =>
    if vm.running = true ∧ vm.pc < bc.code_size then (vm_step bc vm).bind (vm_steps bc k)
    else none

/-- A node with the given children appended in order, as the parser builds
it with `ast_create_typed_node` and `ast_append_child`. -/
def ast (type : ASTNodeType) (text data_type : Option String) (children : List ASTNode) :
    ASTNode :=
  children.foldl ast_append_child (ast_create_typed_node type text data_type)

def ast_num (t : String) : ASTNode := ast AST_NUMBER_LITERAL (some t) none []

def ast_ident (x : String) : ASTNode := ast AST_IDENTIFIER (some x) none []

def ast_binary (op : String) (l r : ASTNode) : ASTNode := ast AST_BINARY_EXPR (some op) none [l, r]

def ast_return (e : ASTNode) : ASTNode := ast AST_RETURN none none [e]

def ast_assign_stmt (x : String) (e : ASTNode) : ASTNode :=
  ast AST_EXPR_STATEMENT none none [ast AST_ASSIGNMENT none none [ast_ident x, e]]

def ast_var_decl (x : String) (init : ASTNode) : ASTNode :=
  ast AST_VAR_DECL (some x) (some "int") [init]

def ast_call (f : String) (args : List ASTNode) : ASTNode :=
  ast AST_FUNCTION_CALL (some f) none [ast AST_ARGUMENT_LIST none none args]

/-- A function definition `int f(int p1, ..., int pk) { body }`. -/
def ast_function (f : String) (params : List String) (body : List ASTNode) : ASTNode :=
  ast AST_FUNCTION (some f) (some "int")
    [ast AST_PARAM_LIST none none (params.map (fun p => ast AST_PARAM (some p) (some "int") [])),
     ast AST_BLOCK none none body]

def ast_program (functions : List ASTNode) : ASTNode := ast AST_PROGRAM none none functions

/-- The program
`int topla(int a, int b) { return a + b; }  int ana() { return topla(A, B); }`
with the literals spelled `ta` and `tb`. -/
def prog_call (ta tb : String) : ASTNode :=
  ast_program
    [ast_function "topla" ["a", "b"] [ast_return (ast_binary "+" (ast_ident "a") (ast_ident "b"))],
     ast_function "ana" [] [ast_return (ast_call "topla" [ast_num ta, ast_num tb])]]

/-- The bytecode generated for `prog_call`. -/
def bc_call (a b : Int) : Bytecode :=
  { code := [⟨OP_ENTER, 32⟩, ⟨OP_LOAD, 0⟩, ⟨OP_LOAD, 1⟩, ⟨OP_ADD, 0⟩, ⟨OP_RETVAL, 0⟩,
             ⟨OP_PUSH, 0⟩, ⟨OP_RETVAL, 0⟩,
             ⟨OP_ENTER, 32⟩, ⟨OP_PUSH, a⟩, ⟨OP_PUSH, b⟩, ⟨OP_CALL, 0⟩, ⟨OP_RETVAL, 0⟩,
             ⟨OP_PUSH, 0⟩, ⟨OP_RETVAL, 0⟩, ⟨OP_HALT, 0⟩]
    functions := [⟨"topla", 0, 2, 32⟩, ⟨"ana", 7, 0, 32⟩]
    main_entry := 7 }

/-- The program `int ana() { int x = v; if (x > t) return 1; else return 0; }`
with the literals spelled `tv` and `tt`. -/
def prog_branch (tv tt : String) : ASTNode :=
  ast_program
    [ast_function "ana" []
      [ast_var_decl "x" (ast_num tv),
       ast AST_IF_ELSE none none
         [ast_binary ">" (ast_ident "x") (ast_num tt),
          ast_return (ast_num "1"),
          ast_return (ast_num "0")]]]

/-- The bytecode generated for `prog_branch`. -/
def bc_branch (v t : Int) : Bytecode :=
  { code := [⟨OP_ENTER, 32⟩, ⟨OP_PUSH, v⟩, ⟨OP_STORE, 0⟩, ⟨OP_LOAD, 0⟩, ⟨OP_PUSH, t⟩,
             ⟨OP_GT, 0⟩, ⟨OP_JZ, 10⟩, ⟨OP_PUSH, 1⟩, ⟨OP_RETVAL, 0⟩, ⟨OP_JMP, 12⟩,
             ⟨OP_PUSH, 0⟩, ⟨OP_RETVAL, 0⟩, ⟨OP_PUSH, 0⟩, ⟨OP_RETVAL, 0⟩, ⟨OP_HALT, 0⟩]
    functions := [⟨"ana", 0, 0, 32⟩]
    main_entry := 0 }

/-- The program `int ana() { return a op 0; }`. -/
def prog_div_zero (op ta : String) : ASTNode :=
  ast_program [ast_function "ana" [] [ast_return (ast_binary op (ast_num ta) (ast_num "0"))]]

/-- The bytecode generated for `prog_div_zero`. -/
def bc_div_zero (op : OpCode) (a : Int) : Bytecode :=
  { code := [⟨OP_ENTER, 32⟩, ⟨OP_PUSH, a⟩, ⟨OP_PUSH, 0⟩, ⟨op, 0⟩, ⟨OP_RETVAL, 0⟩,
             ⟨OP_PUSH, 0⟩, ⟨OP_RETVAL, 0⟩, ⟨OP_HALT, 0⟩]
    functions := [⟨"ana", 0, 0, 32⟩]
    main_entry := 0 }

/-- A one-instruction program: RETVAL at the entry point. -/
def bc_retval_only : Bytecode :=
  { code := [⟨OP_RETVAL, 0⟩], functions := [], main_entry := 0 }

/-- The program `int kimlik(int x) { return x; }  int ana() { return kimlik(5); }`. -/
def prog_identity_call : ASTNode :=
  ast_program
    [ast_function "kimlik" ["x"] [ast_return (ast_ident "x")],
     ast_function "ana" [] [ast_return (ast_call "kimlik" [ast_num "5"])]]

/-- The bytecode generated for `prog_identity_call`. -/
def bc_identity_call : Bytecode :=
  { code := [⟨OP_ENTER, 32⟩, ⟨OP_LOAD, 0⟩, ⟨OP_RETVAL, 0⟩, ⟨OP_PUSH, 0⟩, ⟨OP_RETVAL, 0⟩,
             ⟨OP_ENTER, 32⟩, ⟨OP_PUSH, 5⟩, ⟨OP_CALL, 0⟩, ⟨OP_RETVAL, 0⟩,
             ⟨OP_PUSH, 0⟩, ⟨OP_RETVAL, 0⟩, ⟨OP_HALT, 0⟩]
    functions := [⟨"kimlik", 0, 1, 32⟩, ⟨"ana", 5, 0, 32⟩]
    main_entry := 5 }

/-- A one-parameter function table and a state inside a call of it: frame 1
has its base at 33. -/
def bc_one_param : Bytecode :=
  { code := [⟨OP_RET, 0⟩], functions := [⟨"f", 0, 1, 32⟩], main_entry := 0 }

def vm_in_call : VM :=
  { vm_create with
    sp := 65
    fp := 1
    pc := 1
    running := true
    frames := arr_set vm_create.frames 1 { return_addr := 8, base_ptr := 33, func_idx := 0 } }

/-- The program `int ana() { return f(); }  int f() { return 1; }`: the call
precedes the definition of the callee. -/
def prog_forward_call : ASTNode :=
  ast_program
    [ast_function "ana" [] [ast_return (ast_call "f" [])],
     ast_function "f" [] [ast_return (ast_num "1")]]

/-- The program `int ana() { int s = 0; int i = 1; while (i <= n) { s = s + i;
i = i + 1; } return s; }` with the literal `n` spelled `tn`. -/
def prog_while (tn : String) : ASTNode :=
  ast_program
    [ast_function "ana" []
      [ast_var_decl "s" (ast_num "0"),
       ast_var_decl "i" (ast_num "1"),
       ast AST_WHILE none none
         [ast_binary "<=" (ast_ident "i") (ast_num tn),
          ast AST_BLOCK none none
            [ast_assign_stmt "s" (ast_binary "+" (ast_ident "s") (ast_ident "i")),
             ast_assign_stmt "i" (ast_binary "+" (ast_ident "i") (ast_num "1"))]],
       ast_return (ast_ident "s")]]

/-- The bytecode generated for `prog_while`. -/
def bc_while (n : Int) : Bytecode :=
  { code := [⟨OP_ENTER, 32⟩, ⟨OP_PUSH, 0⟩, ⟨OP_STORE, 0⟩, ⟨OP_PUSH, 1⟩, ⟨OP_STORE, 1⟩,
             ⟨OP_LOAD, 1⟩, ⟨OP_PUSH, n⟩, ⟨OP_LEQ, 0⟩, ⟨OP_JZ, 22⟩,
             ⟨OP_LOAD, 0⟩, ⟨OP_LOAD, 1⟩, ⟨OP_ADD, 0⟩, ⟨OP_DUP, 0⟩, ⟨OP_STORE, 0⟩, ⟨OP_POP, 0⟩,
             ⟨OP_LOAD, 1⟩, ⟨OP_PUSH, 1⟩, ⟨OP_ADD, 0⟩, ⟨OP_DUP, 0⟩, ⟨OP_STORE, 1⟩, ⟨OP_POP, 0⟩,
             ⟨OP_JMP, 5⟩,
             ⟨OP_LOAD, 0⟩, ⟨OP_RETVAL, 0⟩, ⟨OP_PUSH, 0⟩, ⟨OP_RETVAL, 0⟩, ⟨OP_HALT, 0⟩]
    functions := [⟨"ana", 0, 0, 32⟩]
    main_entry := 0 }

/-- The sum `1 + 2 + ... + k`. -/
def tri : Nat → Int
  | 0 => 0
  | k + 1 => tri k + (k + 1 : Nat)

/-- The interpreter runs `bc_while` in frame 0 at address `pc` with an empty
expression stack (`sp = 32`), `s` in slot 0 and `i` in slot 1, and nothing has
trapped. -/
def frame0_at (vm : VM) (pc s i : Int) : Prop :=
  vm.pc = pc ∧ vm.sp = 32 ∧ vm.fp = 0 ∧ vm.running = true ∧ (vm.frames 0).base_ptr = 0 ∧
    vm.stack 0 = s ∧ vm.stack 1 = i ∧ vm.errlog = []

/-- The interpreter is at the head of the loop of `bc_while` (address 5). -/
def at_loop_head (vm : VM) (s i : Int) : Prop := frame0_at vm 5 s i

/-- The three arithmetic operators of the arithmetic scenario. -/
inductive ArithOp
  | add | sub | mul
  deriving DecidableEq, Repr

def ArithOp.spelling : ArithOp → String
  | .add => "+"
  | .sub => "-"
  | .mul => "*"

def ArithOp.opcode : ArithOp → OpCode
  | .add => OP_ADD
  | .sub => OP_SUB
  | .mul => OP_MUL

def ArithOp.eval : ArithOp → Int → Int → Int
  | .add, a, b => a + b
  | .sub, a, b => a - b
  | .mul, a, b => a * b

/-- An expression tree of NUMBER_LITERAL and BINARY_EXPR nodes with the
operators `+`, `-`, `*`; every node carries its source line. -/
inductive Arith
  | lit (text : String) (line : Int)
  | bin (op : ArithOp) (line : Int) (l r : Arith)
  deriving Repr

/-- The AST of an expression tree, with `sibling` as its `next_sibling`. -/
def Arith.to_ast : Arith → ASTNode → ASTNode
  | .lit text line, sibling => .node AST_NUMBER_LITERAL (some text) none line .null sibling
  | .bin op line l r, sibling =>
    .node AST_BINARY_EXPR (some op.spelling) none line (l.to_ast (r.to_ast .null)) sibling

/-- The integer value of an expression tree. -/
def Arith.value : Arith → Int
  | .lit text _ => atoi text
  | .bin op _ l r => op.eval l.value r.value

/-- No intermediate result leaves the range of a 32-bit `int`. -/
def Arith.in_range : Arith → Prop
  | .lit _ _ => True
  | .bin op _ l r =>
    l.in_range ∧ r.in_range ∧ INT_MIN ≤ op.eval l.value r.value ∧ op.eval l.value r.value ≤ INT_MAX

/-- Number of operand stack cells the evaluation of the tree occupies. -/
def Arith.stack_need : Arith → Nat
  | .lit _ _ => 1
  | .bin _ _ l r => max l.stack_need (1 + r.stack_need)

/-- The code of an expression tree: left operand, right operand, operator. -/
def Arith.code : Arith → List Instruction
  | .lit text _ => [⟨OP_PUSH, atoi text⟩]
  | .bin op _ l r => l.code ++ r.code ++ [⟨op.opcode, 0⟩]

/-- The program `int ana() { return e; }`. -/
def prog_arith (e : Arith) : ASTNode :=
  ast_program [ast_function "ana" [] [ast_return (e.to_ast .null)]]

/-- The bytecode generated for `prog_arith`. -/
def bc_arith (e : Arith) : Bytecode :=
  { code := [⟨OP_ENTER, 32⟩] ++ e.code ++
      [⟨OP_RETVAL, 0⟩, ⟨OP_PUSH, 0⟩, ⟨OP_RETVAL, 0⟩, ⟨OP_HALT, 0⟩]
    functions := [⟨"ana", 0, 0, 32⟩]
    main_entry := 0 }

/-- The left-leaning sum `1 + 1 + ... + 1` with `k` additions. -/
def sum_chain : Nat → Arith
  | 0 => .lit "1" 0
  | k + 1 => .bin .add 0 (sum_chain k) (.lit "1" 0)

/-- The generator after `code` has been appended to its instruction array. -/
def CodeGenerator.append (gen : CodeGenerator) (code : List Instruction) : CodeGenerator :=
  { gen with bc := { gen.bc with code := gen.bc.code ++ code } }

/-- The tree of `(3 + 4) * 2 - 1`. -/
def arith_example : Arith :=
  .bin .sub 0 (.bin .mul 0 (.bin .add 0 (.lit "3" 0) (.lit "4" 0)) (.lit "2" 0)) (.lit "1" 0)

/-- The three jump opcodes. -/
def is_jump (op : OpCode) : Prop := op = OP_JMP ∨ op = OP_JZ ∨ op = OP_JNZ

/-- Label `l` has been given an address. -/
def resolved (g : CodeGenerator) (l : Nat) : Prop := 0 ≤ g.label_addresses.getD l (-1)

/-- The invariant of the generator state behind jump resolution: a jump has a
target inside the code or is on the pending list; label addresses do not lie
beyond the code; pending entries point at jumps; CALL operands index the
function table; entry points do not lie beyond the code. -/
structure GenInv (g : CodeGenerator) : Prop where
  jumps : ∀ i inst, g.bc.code.get? i = some inst → is_jump inst.opcode →
    (0 ≤ inst.operand ∧ inst.operand < g.bc.code.length) ∨ ∃ pj ∈ g.pending, pj.address = i
  labels : ∀ a ∈ g.label_addresses, a ≤ g.bc.code.length
  pendings : ∀ pj ∈ g.pending, ∃ inst, g.bc.code.get? pj.address = some inst ∧ is_jump inst.opcode
  calls : ∀ i inst, g.bc.code.get? i = some inst → inst.opcode = OP_CALL →
    0 ≤ inst.operand ∧ inst.operand < g.bc.functions.length
  entries : ∀ f ∈ g.bc.functions, 0 ≤ f.entry_point ∧ f.entry_point ≤ g.bc.code.length

/-- Every pending jump targets a resolved label or a label of `V`. -/
def PendOK (V : Set Nat) (g : CodeGenerator) : Prop :=
  ∀ pj ∈ g.pending, resolved g pj.target ∨ pj.target ∈ V

/-- What a piece of generation does to the invariants, for the labels `V`
still to be set. -/
structure Step (V : Set Nat) (g g' : CodeGenerator) : Prop where
  inv : GenInv g → GenInv g'
  len : g.label_addresses.length ≤ g'.label_addresses.length
  res : ∀ l, resolved g l → resolved g' l
  pend : PendOK V g → PendOK V g'

/-- Every symbol of the table: the chains of all buckets, in bucket order. -/
def SymbolTable.symbols (table : SymbolTable) : List Symbol :=
  (List.range SYMBOL_TABLE_SIZE).flatMap table.buckets

/-- The table states the interface of the symbol table can produce. -/
inductive Reachable : SymbolTable → Prop
  | create : Reachable symbol_table_create
  | enter_scope {t : SymbolTable} : Reachable t → Reachable (symbol_enter_scope t)
  | exit_scope {t : SymbolTable} : Reachable t → Reachable (symbol_exit_scope t)
  | declare {t : SymbolTable} (name : String) (kind : SymbolKind) (type : DataType) (line : Int) :
      Reachable t → Reachable (symbol_declare t name kind type line).2
  | declare_function {t : SymbolTable} (name : String) (return_type : DataType) (line : Int) :
      Reachable t → Reachable (symbol_declare_function t name return_type line).2

/-- Two symbols clash: same name at the same scope level. -/
def Symbol.clashes (a b : Symbol) : Prop := a.name = b.name ∧ a.scope_level = b.scope_level

/-- The invariant of the hash table: a symbol lies in the bucket of its name,
no symbol is deeper than the current scope, no chain holds a clash. -/
structure TableInv (t : SymbolTable) : Prop where
  hashed : ∀ i, ∀ s ∈ t.buckets i, hash_string s.name = i
  levels : ∀ i, ∀ s ∈ t.buckets i, s.scope_level ≤ t.scope_level
  unique : ∀ i, (t.buckets i).Pairwise (fun a b => ¬ a.clashes b)

/-- The symbol `symbol_declare` creates. -/
def declared_symbol (t : SymbolTable) (name : String) (kind : SymbolKind) (type : DataType)
    (line : Int) : Symbol :=
  { name := name, kind := kind, type := type, scope_level := t.scope_level
    offset := if kind = SYMBOL_VARIABLE ∨ kind = SYMBOL_PARAMETER then t.cur_local_offset else 0
    line_declared := line, func_info := none }

/-- The symbol `symbol_declare_function` creates. -/
def declared_function (t : SymbolTable) (name : String) (return_type : DataType)
    (line : Int) : Symbol :=
  { name := name, kind := SYMBOL_FUNCTION, type := return_type, scope_level := t.scope_level
    offset := 0, line_declared := line
    func_info := some { return_type := return_type, params := [] } }

/-- The table after `int x` at level 0, a new scope, and `int x` in it. -/
def table_shadow : SymbolTable :=
  (symbol_declare
    (symbol_enter_scope (symbol_declare symbol_table_create "x" SYMBOL_VARIABLE TYPE_INT 1).2)
    "x" SYMBOL_VARIABLE TYPE_INT 2).2

/-- Analyzer `b` differs from `a` at most in its diagnostics, and those of `a`
are the first of `b`. -/
structure ErrOnly (a b : SemanticAnalyzer) : Prop where
  symtab : b.symtab = a.symtab
  return_type : b.current_return_type = a.current_return_type
  in_loop : b.in_loop = a.in_loop
  enters : b.enter_calls = a.enter_calls
  exits : b.exit_calls = a.exit_calls
  errors : ∃ es, b.errors = a.errors ++ es

/-- Analyzer `b` is at the scope level of `a` and has made as many enter calls
as exit calls since `a`. -/
structure ScopeBalanced (a b : SemanticAnalyzer) : Prop where
  level : b.symtab.scope_level = a.symtab.scope_level
  calls : b.enter_calls + a.exit_calls = a.enter_calls + b.exit_calls

/-- The initializer child of a declaration: none, or an expression tree. -/
def init_node (init : Option Arith) : ASTNode :=
  match init with
  | none => .null
  | some e => e.to_ast .null

/-- The statement `int name;` or `int name = init;` on line `line`, with
`next` as the statement after it. -/
def var_decl_node (name : String) (line : Int) (init : Option Arith) (next : ASTNode) :
    ASTNode :=
  .node AST_VAR_DECL (some name) (some "int") line (init_node init) next

/-- The program `int ana() { body }`. -/
def prog_ana (body : ASTNode) : ASTNode :=
  .node AST_PROGRAM none none 0
    (.node AST_FUNCTION (some "ana") (some "int") 0
      (.node AST_PARAM_LIST none none 0 .null (.node AST_BLOCK none none 0 body .null))
      .null)
    .null

/-- The program `int ana() { int name [= i1]; int name [= i2]; }` with the
first declaration on line `l1` and the second on line `l2`. -/
def prog_redeclare (name : String) (l1 l2 : Int) (i1 i2 : Option Arith) : ASTNode :=
  prog_ana (var_decl_node name l1 i1 (var_decl_node name l2 i2 .null))

/-- The symbol pass 1 enters for `int ana()`. -/
def ana_symbol : Symbol :=
  { name := "ana", kind := SYMBOL_FUNCTION, type := TYPE_INT, scope_level := 0, offset := 0
    line_declared := 0, func_info := some { return_type := TYPE_INT, params := [] } }

/-- The analyzer at the first statement of the body of `prog_ana`. -/
def ana_body_state : SemanticAnalyzer :=
  { symtab :=
      { buckets := bucket_set (fun _ => []) 21 [ana_symbol]
        scopes := [{ level := 1, local_offset := 0 }, { level := 0, local_offset := 0 }]
        scope_level := 1
        current_function := some ana_symbol
        total_locals := 0 }
    errors := []
    current_return_type := TYPE_INT
    in_loop := false
    enter_calls := 1
    exit_calls := 0 }

/-- The arguments from `arg` on, the first of them at position `k`, are well
typed for the signature `fi` in the analyzer state `a`: the analysis of each
records nothing, and yields a type compatible with the parameter at its
position where the signature has one. -/
def well_typed_args (a : SemanticAnalyzer) (fi : FunctionInfo) : Nat → ASTNode → Prop
  | _, .null => True
  | k, .node ty text dt ln fc ns =>
    (∃ t, analyze_expression a (.node ty text dt ln fc ns) = (t, a) ∧
      ∀ p, fi.params.get? k = some p → types_compatible p.2 t = true) ∧
    well_typed_args a fi (k + 1) ns

/-- The argument chain of a call: the expression trees as siblings. -/
def args_chain : List Arith → ASTNode
  | [] => .null
  | e :: rest => e.to_ast (args_chain rest)

/-- The call `f(e1, ..., em)` on line `line`. -/
def call_node (f : String) (line : Int) (es : List Arith) : ASTNode :=
  .node AST_FUNCTION_CALL (some f) none line
    (.node AST_ARGUMENT_LIST none none line (args_chain es) .null) .null

/-- A function definition `int name(params) { body }` followed by `next`. -/
def function_node (name : String) (params body next : ASTNode) : ASTNode :=
  .node AST_FUNCTION (some name) (some "int") 0
    (.node AST_PARAM_LIST none none 0 params (.node AST_BLOCK none none 0 body .null)) next

/-- The statement `return e;` on line `line`, followed by `next`. -/
def return_node (line : Int) (e next : ASTNode) : ASTNode :=
  .node AST_RETURN none none line e next

/-- The program `int topla(int a, int b) { return a + b; }
int ana() { return topla(e1, ..., em); }`, the call on line `line`. -/
def prog_arity (line : Int) (es : List Arith) : ASTNode :=
  .node AST_PROGRAM none none 0
    (function_node "topla"
      (.node AST_PARAM (some "a") (some "int") 0 .null
        (.node AST_PARAM (some "b") (some "int") 0 .null .null))
      (return_node 0 (ast_binary "+" (ast_ident "a") (ast_ident "b")) .null)
      (function_node "ana" .null (return_node line (call_node "topla" line es) .null) .null))
    .null

/-- The actual arguments of a call node: the children of its ARGUMENT_LIST. -/
def call_args (node : ASTNode) : ASTNode :=
  if (get_child node 0).is AST_ARGUMENT_LIST then (get_child node 0).first_child else .null

/-- The analyzer inside a `void` function after `void g()` has been declared
on line 1. -/
def void_return_state : SemanticAnalyzer :=
  { semantic_create with
    symtab := symbol_enter_scope (symbol_declare_function symbol_table_create "g" TYPE_VOID 1).2
    current_return_type := TYPE_VOID }

/-- The statement `return g();` on line 2. -/
def return_void_call : ASTNode :=
  .node AST_RETURN none none 2
    (.node AST_FUNCTION_CALL (some "g") none 2 (.node AST_ARGUMENT_LIST none none 2 .null .null)
      .null)
    .null

/-- The program `void g() { }  void ana() { return g(); }`. -/
def prog_void_return : ASTNode :=
  .node AST_PROGRAM none none 0
    (.node AST_FUNCTION (some "g") (some "void") 1
      (.node AST_PARAM_LIST none none 1 .null (.node AST_BLOCK none none 1 .null .null))
      (.node AST_FUNCTION (some "ana") (some "void") 2
        (.node AST_PARAM_LIST none none 2 .null
          (.node AST_BLOCK none none 2 return_void_call .null))
        .null))
    .null

/-- The literal `1` on line 3. -/
def literal_one : ASTNode := .node AST_NUMBER_LITERAL (some "1") none 3 .null .null

/-- The expression `y` on line `line`, followed by `next`. -/
def ident_node (x : String) (line : Int) (next : ASTNode) : ASTNode :=
  .node AST_IDENTIFIER (some x) none line .null next

/-- The literal `t` on line `line`. -/
def num_node (t : String) (line : Int) : ASTNode :=
  .node AST_NUMBER_LITERAL (some t) none line .null .null

/-- The program `int ana() { y + 1; }`, all on line 1. -/
def prog_undeclared_operand : ASTNode :=
  prog_ana
    (.node AST_EXPR_STATEMENT none none 1
      (.node AST_BINARY_EXPR (some "+") none 1 (ident_node "y" 1 (num_node "1" 1)) .null) .null)

/-- The program `int ana() { int x = 0; x = y; }`, the declaration on line 1
and the assignment on line 2. -/
def prog_undeclared_assigned : ASTNode :=
  prog_ana
    (.node AST_VAR_DECL (some "x") (some "int") 1 (num_node "0" 1)
      (.node AST_EXPR_STATEMENT none none 2
        (.node AST_ASSIGNMENT none none 2 (ident_node "x" 2 (ident_node "y" 2 .null)) .null)
        .null))

/-- The program `int f(int a) { return a; }  int ana() { f(y); }`, the call
on line 2. -/
def prog_undeclared_argument : ASTNode :=
  .node AST_PROGRAM none none 0
    (.node AST_FUNCTION (some "f") (some "int") 1
      (.node AST_PARAM_LIST none none 1 (.node AST_PARAM (some "a") (some "int") 1 .null .null)
        (.node AST_BLOCK none none 1
          (.node AST_RETURN none none 1 (ident_node "a" 1 .null) .null) .null))
      (.node AST_FUNCTION (some "ana") (some "int") 2
        (.node AST_PARAM_LIST none none 2 .null
          (.node AST_BLOCK none none 2
            (.node AST_EXPR_STATEMENT none none 2
              (.node AST_FUNCTION_CALL (some "f") none 2
                (.node AST_ARGUMENT_LIST none none 2 (ident_node "y" 2 .null) .null) .null)
              .null)
            .null))
        .null))
    .null

/-- The program `int ana() { int z = y; }`, all on line 1. -/
def prog_undeclared_initializer : ASTNode :=
  prog_ana (.node AST_VAR_DECL (some "z") (some "int") 1 (ident_node "y" 1 .null) .null)

/-- The analyzer `b` is reached from `a` by writes that leave the diagnostics
alone and by calls of `semantic_error`. -/
inductive Diagnosed : SemanticAnalyzer → SemanticAnalyzer → Prop
  | start (a : SemanticAnalyzer) : Diagnosed a a
  | keep {a b c : SemanticAnalyzer} : Diagnosed a b → c.errors = b.errors → Diagnosed a c
  | error {a b : SemanticAnalyzer} (line : Int) (msg : String) :
      Diagnosed a b → Diagnosed a (semantic_error b line msg)

/-- The table is at a scope level of at least 0 and no chain holds a symbol
deeper than the current scope. -/
def Scoped (t : SymbolTable) : Prop :=
  0 ≤ t.scope_level ∧
  ∀ i, i < SYMBOL_TABLE_SIZE → ∀ s ∈ t.buckets i, s.scope_level ≤ t.scope_level

/-- Analyzer `b` is at the scope level of `a`, and every chain of `b` is the
chain of `a` with symbols of that level put in front. -/
structure Framed (a b : SemanticAnalyzer) : Prop where
  level : b.symtab.scope_level = a.symtab.scope_level
  grow : ∀ i, i < SYMBOL_TABLE_SIZE →
    ∃ extra, b.symtab.buckets i = extra ++ a.symtab.buckets i ∧
      ∀ s ∈ extra, s.scope_level = a.symtab.scope_level

/-- The analyzer when `analyze_function` reaches the body of the function:
the current function and return type are set, the function scope is entered
and the parameters of the signature are declared in it. -/
def function_entry (a : SemanticAnalyzer) (func : Symbol) (fi : FunctionInfo) (ln : Int) :
    SemanticAnalyzer :=
  declare_params
    { a with symtab := symbol_enter_scope (symbol_set_current_function a.symtab (some func))
             current_return_type := fi.return_type
             enter_calls := a.enter_calls + 1 } ln fi.params

/-- The analyzer when the statement loop started in `a` on `stmt` reaches its
`k`-th statement. -/
def state_before : Nat → ASTNode → SemanticAnalyzer → SemanticAnalyzer
  | 0, _, a => a
  | _ + 1, .null, a => a
  | k + 1, .node ty text dt ln fc ns, a =>
    state_before k ns (analyze_statement a (.node ty text dt ln fc ns))

/-- The analyzer of `analyze_for` after the scope is entered and the init
child is analyzed: the state in which the condition is analyzed. -/
def for_init_state (a : SemanticAnalyzer) (node : ASTNode) : SemanticAnalyzer :=
  let a1 :=
    { a with symtab := symbol_enter_scope a.symtab, enter_calls := a.enter_calls + 1 }
  if get_child node 0 ≠ .null ∧ ¬ (get_child node 0).is AST_EMPTY then
    analyze_statement a1 (get_child node 0)
  else a1

/-- The analyzer of `analyze_for` after the condition: the state in which the
update expression is analyzed. -/
def for_cond_state (a : SemanticAnalyzer) (node : ASTNode) (ln : Int) : SemanticAnalyzer :=
  if get_child node 1 ≠ .null ∧ ¬ (get_child node 1).is AST_EMPTY then
    analyze_condition (for_init_state a node) (get_child node 1) ln
      "For dongusu kosulu void olamaz"
  else for_init_state a node

/-- The analyzer of `analyze_for` after the update expression; the body is
analyzed in this state with `in_loop` set. -/
def for_update_state (a : SemanticAnalyzer) (node : ASTNode) (ln : Int) : SemanticAnalyzer :=
  if get_child node 2 ≠ .null ∧ ¬ (get_child node 2).is AST_EMPTY then
    (analyze_expression (for_cond_state a node ln) (get_child node 2)).2
  else for_cond_state a node ln

/-- The invariant of the local table: the next offset is the number of
entries, the entry at index `i` has offset `i`, and no name occurs twice. -/
structure LocalsOK (g : CodeGenerator) : Prop where
  count : g.local_offset = g.locals.length
  slots : ∀ i l, g.locals.get? i = some l → l.offset = (i : Int)
  names : (g.locals.map (fun l => l.name)).Nodup

/-- The local table of `g2` is that of `g1` with entries appended, and the
invariant of the local table is carried over. -/
structure LocalsStep (g1 g2 : CodeGenerator) : Prop where
  more : ∃ ls, g2.locals = g1.locals ++ ls
  ok : LocalsOK g1 → LocalsOK g2

/-- A generator with a cleared local table. -/
def gen_cleared : CodeGenerator := clear_locals (codegen_create symbol_table_create)

/-- The generator after `int a` is registered and the initializer `5` is
generated. -/
def gen_after_five : CodeGenerator :=
  { gen_cleared with
    bc := { gen_cleared.bc with code := [⟨OP_PUSH, 5⟩] }
    local_offset := 1
    locals := [{ name := "a", offset := 0 }] }

/-- Sixty-four variable names. -/
def local_names : List String :=
  ["v0", "v1", "v2", "v3", "v4", "v5", "v6", "v7", "v8", "v9", "v10", "v11", "v12", "v13",
   "v14", "v15", "v16", "v17", "v18", "v19", "v20", "v21", "v22", "v23", "v24", "v25", "v26",
   "v27", "v28", "v29", "v30", "v31", "v32", "v33", "v34", "v35", "v36", "v37", "v38", "v39",
   "v40", "v41", "v42", "v43", "v44", "v45", "v46", "v47", "v48", "v49", "v50", "v51", "v52",
   "v53", "v54", "v55", "v56", "v57", "v58", "v59", "v60", "v61", "v62", "v63"]

/-- The declarations `int n1; int n2; ...` of the names, followed by `rest`. -/
def decl_chain : List String → ASTNode → ASTNode
  | [], rest => rest
  | n :: ns, rest => var_decl_node n 1 none (decl_chain ns rest)

/-- The local table after `add_local` is called for each of the names. -/
def add_locals (g : CodeGenerator) (names : List String) : CodeGenerator :=
  names.foldl (fun g n => (add_local g n).2) g

/-- The program `int ana() { int v0; ... int v63; int yeni = 5; return v0; }`:
sixty-five local names in one function. -/
def prog_locals_overflow : ASTNode :=
  prog_ana
    (decl_chain local_names
      (var_decl_node "yeni" 2 (some (.lit "5" 2)) (return_node 3 (ident_node "v0" 3 .null) .null)))

/-- The generator when `gen_function` starts on the body of `prog_ana`, on
the symbol table `st`. -/
def gen_ana_body (st : SymbolTable) : CodeGenerator :=
  { bc := { code := [⟨OP_ENTER, 32⟩], functions := [⟨"ana", 0, 0, 32⟩], main_entry := 0 }
    symtab := st
    label_addresses := []
    pending := []
    current_func_idx := 0
    local_offset := 0
    locals := [] }

/-- The tail of code generation after the body of the last function: default
return, HALT, jump patching. -/
def gen_tail (g : CodeGenerator) : Option Bytecode :=
  ((emit g OP_PUSH 0).bind fun g =>
    (emit_simple g OP_RETVAL).bind fun g =>
      (emit_simple { g with current_func_idx := -1 } OP_HALT).bind fun g =>
        some (patch_jumps g)).map (fun g => g.bc)

/-- The analyzer before the function scope of `ana` is entered. -/
def ana_entry_state : SemanticAnalyzer :=
  { symtab :=
      { buckets := bucket_set (fun _ => []) 21 [ana_symbol]
        scopes := [{ level := 0, local_offset := 0 }]
        scope_level := 0
        current_function := some ana_symbol
        total_locals := 0 }
    errors := []
    current_return_type := TYPE_INT
    in_loop := false
    enter_calls := 0
    exit_calls := 0 }

/-- A one-instruction program: an unpatched jump at the entry point. -/
def bc_jump_unpatched : Bytecode :=
  { code := [⟨OP_JMP, -1⟩], functions := [], main_entry := 0 }

/-- A state at the top level with the value 7 on the operand stack. -/
def vm_toplevel : VM := { vm_create with fp := 0, sp := 1, running := true, stack := fun _ => 7 }

/-- A state of a run with a full frame stack. -/
def vm_frames_full : VM := { vm_create with fp := 63, sp := 40, running := true }

/-- The program `int ana() { return N; }` with the literal spelled `text`. -/
def prog_return_literal (text : String) : ASTNode := prog_arith (.lit text 0)

/-- The analyzer after `int n;` has been declared for each of the names. -/
def declare_vars (a : SemanticAnalyzer) (names : List String) : SemanticAnalyzer :=
  names.foldl
    (fun a n => { a with symtab := (symbol_declare a.symtab n SYMBOL_VARIABLE TYPE_INT 1).2 }) a

/-- Every symbol of the table is the function `ana` or an `int` variable. -/
def VarsOnly (t : SymbolTable) : Prop :=
  ∀ i, ∀ s ∈ t.buckets i, s = ana_symbol ∨ (s.kind = SYMBOL_VARIABLE ∧ s.type = TYPE_INT)

/-- The value `a op b` of the specification for the eleven binary opcodes:
the arithmetic of C (division truncates toward zero, `%` takes the sign of the
dividend) and 1 or 0 for a comparison; `none` for any other opcode. -/
def spec_binop : OpCode → Int → Int → Option Int
  | OP_ADD, a, b => some (a + b)
  | OP_SUB, a, b => some (a - b)
  | OP_MUL, a, b => some (a * b)
  | OP_DIV, a, b => some (Int.tdiv a b)
  | OP_MOD, a, b => some (Int.tmod a b)
  | OP_EQ, a, b => some (if a = b then 1 else 0)
  | OP_NEQ, a, b => some (if a ≠ b then 1 else 0)
  | OP_LT, a, b => some (if a < b then 1 else 0)
  | OP_GT, a, b => some (if a > b then 1 else 0)
  | OP_LEQ, a, b => some (if a ≤ b then 1 else 0)
  | OP_GEQ, a, b => some (if a ≥ b then 1 else 0)
  | _, _, _ => none

/-- The operation is defined in C on the operands: a non-zero divisor for DIV
and MOD, and a quotient inside the range of `int`. -/
def binop_defined (op : OpCode) (a b : Int) : Prop :=
  (op = OP_DIV ∨ op = OP_MOD) → b ≠ 0 ∧ INT_MIN ≤ Int.tdiv a b ∧ Int.tdiv a b ≤ INT_MAX

/-- A state with 3 below 4 on top of the operand stack. -/
def vm_three_four : VM :=
  { vm_create with sp := 2, running := true, fp := 0
                   stack := fun i => if i = 0 then 3 else if i = 1 then 4 else 0 }

/-- The program `ENTER 1024; LOAD 0; HALT`: a LOAD of slot 0 on a full
operand stack. -/
def bc_load_full : Bytecode :=
  { code := [⟨OP_ENTER, 1024⟩, ⟨OP_LOAD, 0⟩, ⟨OP_HALT, 0⟩], functions := [], main_entry := 0 }

/-- The program `ENTER 0; STORE 0; HALT`: a STORE to slot 0 on an empty
operand stack. -/
def bc_store_empty : Bytecode :=
  { code := [⟨OP_ENTER, 0⟩, ⟨OP_STORE, 0⟩, ⟨OP_HALT, 0⟩], functions := [], main_entry := 0 }

/-- A state in a frame with base pointer 32 and one value, 9, on the operand
stack above the locals. -/
def vm_frame_32 : VM :=
  { vm_create with
    sp := 65, running := true, fp := 1
    frames := fun _ => { return_addr := 0, base_ptr := 32, func_idx := 0 }
    stack := fun i => if i = 64 then 9 else 0 }

/-- The program `int kimlik(int x) { return x; }
int ana() { return A + kimlik(B); }` with the literals spelled `ta` and `tb`. -/
def prog_call_right (ta tb : String) : ASTNode :=
  ast_program
    [ast_function "kimlik" ["x"] [ast_return (ast_ident "x")],
     ast_function "ana" []
       [ast_return (ast_binary "+" (ast_num ta) (ast_call "kimlik" [ast_num tb]))]]

def bc_call_right (a b : Int) : Bytecode :=
  { code := [⟨OP_ENTER, 32⟩, ⟨OP_LOAD, 0⟩, ⟨OP_RETVAL, 0⟩, ⟨OP_PUSH, 0⟩, ⟨OP_RETVAL, 0⟩,
             ⟨OP_ENTER, 32⟩, ⟨OP_PUSH, a⟩, ⟨OP_PUSH, b⟩, ⟨OP_CALL, 0⟩, ⟨OP_ADD, 0⟩,
             ⟨OP_RETVAL, 0⟩, ⟨OP_PUSH, 0⟩, ⟨OP_RETVAL, 0⟩, ⟨OP_HALT, 0⟩]
    functions := [⟨"kimlik", 0, 1, 32⟩, ⟨"ana", 5, 0, 32⟩]
    main_entry := 5 }

/-- The program `int ana() { int x = U; { int x = W; } return x; }` with the
literals spelled `tu` and `tw`. -/
def prog_shadow (tu tw : String) : ASTNode :=
  ast_program
    [ast_function "ana" []
      [ast_var_decl "x" (ast_num tu),
       ast AST_BLOCK none none [ast_var_decl "x" (ast_num tw)],
       ast_return (ast_ident "x")]]

def bc_shadow (u w : Int) : Bytecode :=
  { code := [⟨OP_ENTER, 32⟩, ⟨OP_PUSH, u⟩, ⟨OP_STORE, 0⟩, ⟨OP_PUSH, w⟩, ⟨OP_STORE, 0⟩,
             ⟨OP_LOAD, 0⟩, ⟨OP_RETVAL, 0⟩, ⟨OP_PUSH, 0⟩, ⟨OP_RETVAL, 0⟩, ⟨OP_HALT, 0⟩]
    functions := [⟨"ana", 0, 0, 32⟩]
    main_entry := 0 }

/-- The program `ENTER 2000; POP; HALT`. -/
def bc_enter_wide : Bytecode :=
  { code := [⟨OP_ENTER, 2000⟩, ⟨OP_POP, 0⟩, ⟨OP_HALT, 0⟩], functions := [], main_entry := 0 }

/-- The program `ENTER -5; PUSH 1; HALT`. -/
def bc_enter_negative : Bytecode :=
  { code := [⟨OP_ENTER, -5⟩, ⟨OP_PUSH, 1⟩, ⟨OP_HALT, 0⟩], functions := [], main_entry := 0 }

/-- The program `int f() { return f(); }  int ana() { return f(); }`. -/
def prog_recurse : ASTNode :=
  ast_program
    [ast_function "f" [] [ast_return (ast_call "f" [])],
     ast_function "ana" [] [ast_return (ast_call "f" [])]]

def bc_recurse : Bytecode :=
  { code := [⟨OP_ENTER, 32⟩, ⟨OP_CALL, 0⟩, ⟨OP_RETVAL, 0⟩, ⟨OP_PUSH, 0⟩, ⟨OP_RETVAL, 0⟩,
             ⟨OP_ENTER, 32⟩, ⟨OP_CALL, 0⟩, ⟨OP_RETVAL, 0⟩, ⟨OP_PUSH, 0⟩, ⟨OP_RETVAL, 0⟩,
             ⟨OP_HALT, 0⟩]
    functions := [⟨"f", 0, 0, 32⟩, ⟨"ana", 5, 0, 32⟩]
    main_entry := 5 }

/-- The interpreter is at the entry of `f` in frame `k`, with the frames
below each holding 32 cells. -/
def at_depth (k : Nat) (vm : VM) : Prop :=
  vm.pc = 0 ∧ vm.running = true ∧ vm.fp = k ∧ vm.sp = 32 * (k + 1) ∧ vm.errlog = []

/-- A call that declares a name: `symbol_declare` or
`symbol_declare_function` with its arguments. -/
inductive DeclCall
  | declare (name : String) (kind : SymbolKind) (type : DataType) (line : Int)
  | declare_function (name : String) (return_type : DataType) (line : Int)

/-- The table after the call. -/
def DeclCall.run (t : SymbolTable) : DeclCall → SymbolTable
  | .declare name kind type line => (symbol_declare t name kind type line).2
  | .declare_function name return_type line =>
    (symbol_declare_function t name return_type line).2

/-- The table after a sequence of declaring calls. -/
def declare_calls (t : SymbolTable) (calls : List DeclCall) : SymbolTable :=
  calls.foldl DeclCall.run t

/-- The table `u` is in a scope entered from `base`: one level deeper, the
scopes of `base` below its own, and in front of each chain of `base` only
symbols of the new level. -/
structure InScopeOf (base u : SymbolTable) : Prop where
  level : u.scope_level = base.scope_level + 1
  scopes : u.scopes.tail = base.scopes
  function : u.current_function = base.current_function
  grow : ∀ i, ∃ extra, u.buckets i = extra ++ base.buckets i ∧
    ∀ s ∈ extra, s.scope_level = base.scope_level + 1
  high : ∀ i, ¬ i < SYMBOL_TABLE_SIZE → u.buckets i = base.buckets i

/-- The symbol has a slot: it is a VARIABLE or a PARAMETER. -/
def Symbol.is_slot (s : Symbol) : Prop := s.kind = SYMBOL_VARIABLE ∨ s.kind = SYMBOL_PARAMETER

/-- The levels `n, n - 1, ..., 0` of the scopes from the current one up to the
global one. -/
def level_chain : Nat → List Int
  | 0 => [0]
  | n + 1 => ((n : Int) + 1) :: level_chain n

/-- The invariant behind slot assignment: the scopes are those of the levels
from the current one down to 0; a scope's next-slot counter is at least that
of every scope above it in the chain of parents; the offset of a symbol with
a slot is below the counter of the scope of its level; two symbols with the
same slot are the same symbol; no chain lies outside the hash range. -/
structure SlotInv (t : SymbolTable) : Prop where
  nonneg : 0 ≤ t.scope_level
  levels : t.scopes.map (fun s => s.level) = level_chain t.scope_level.toNat
  sorted : t.scopes.Pairwise (fun a b => b.local_offset ≤ a.local_offset)
  bound : ∀ i, ∀ x ∈ t.buckets i, x.is_slot →
    ∃ sc ∈ t.scopes, sc.level = x.scope_level ∧ x.offset < sc.local_offset
  inj : ∀ i j, ∀ x ∈ t.buckets i, ∀ y ∈ t.buckets j, x.is_slot → y.is_slot →
    x.offset = y.offset → x = y
  high : ∀ i, ¬ i < SYMBOL_TABLE_SIZE → t.buckets i = []

/-- The declaration `int x = T;` with `next` as the statement after it. -/
def decl_x (t : String) (next : ASTNode) : ASTNode :=
  .node AST_VAR_DECL (some "x") (some "int") 0
    (.node AST_NUMBER_LITERAL (some t) none 0 .null .null) next

/-- The statement `return x;`. -/
def return_x : ASTNode :=
  .node AST_RETURN none none 0 (.node AST_IDENTIFIER (some "x") none 0 .null .null) .null

/-- The body `int x = U; { int x = W; } return x;` of `prog_shadow`. -/
def shadow_body (tu tw : String) : ASTNode :=
  decl_x tu (.node AST_BLOCK none none 0 (decl_x tw .null) return_x)

/-- The generator after `int x = U;` at the head of the body of `ana`. -/
def gen_after_outer_x (st : SymbolTable) (u : Int) : CodeGenerator :=
  { gen_ana_body st with
    bc := { code := [⟨OP_ENTER, 32⟩, ⟨OP_PUSH, u⟩, ⟨OP_STORE, 0⟩]
            functions := [⟨"ana", 0, 0, 32⟩], main_entry := 0 }
    local_offset := 1
    locals := [{ name := "x", offset := 0 }] }

/-- The symbol table the analyzer leaves for `prog_shadow`, on which the
generator is created. -/
def shadow_table (tu tw : String) : SymbolTable :=
  semantic_get_symbol_table (semantic_analyze semantic_create (prog_shadow tu tw)).2

/-- The names a subtree declares or assigns: the text of every VAR_DECL node
and the text of the IDENTIFIER on the left of every ASSIGNMENT node, over the
children and the following siblings of the node. -/
def tree_names : ASTNode → List String
  | .null => []
  | .node ty text _ _ fc ns =>
    (if ty = AST_VAR_DECL then [cstr text] else []) ++
    (if ty = AST_ASSIGNMENT ∧ fc.is AST_IDENTIFIER = true then [cstr fc.text] else []) ++
    tree_names fc ++ tree_names ns

/-- The names of the PARAM nodes with a text in a sibling chain. -/
def ast_param_names : ASTNode → List String
  | .null => []
  | .node ty text _ _ _ ns =>
    match text with
    | some name => if ty = AST_PARAM then name :: ast_param_names ns else ast_param_names ns
    | none => ast_param_names ns

/-- The parameter names of the signature the symbol table holds for the
function. -/
def signature_names (symtab : SymbolTable) (node : ASTNode) : List String :=
  match (symbol_lookup symtab (cstr node.text)).bind (fun sym => sym.func_info) with
  | some fi => fi.params.map (fun p => p.1)
  | none => []

/-- The names of a FUNCTION node: its parameters, in the signature of the
symbol table and in its parameter list, and the names its body declares or
assigns. -/
def function_names (symtab : SymbolTable) (node : ASTNode) : List String :=
  signature_names symtab node ++
  (if (get_child node 0).is AST_PARAM_LIST = true then
    ast_param_names (get_child node 0).first_child else []) ++
  (if (get_child node 1).is AST_BLOCK = true then
    tree_names (get_child node 1).first_child else [])

/-- What a piece of code generation inside a function does: it appends code,
in which every LOAD and STORE operand is a slot of the local table; it leaves
the function table and the entry of `ana` alone; and new entries of the local
table have names of `N`. -/
structure Emits (N : List String) (g g' : CodeGenerator) : Prop where
  locals : LocalsStep g g'
  code : ∃ seg, g'.bc.code = g.bc.code ++ seg ∧
    (LocalsOK g → ∀ inst ∈ seg, (inst.opcode = OP_LOAD ∨ inst.opcode = OP_STORE) →
      0 ≤ inst.operand ∧ inst.operand < g'.locals.length)
  functions : g'.bc.functions = g.bc.functions
  main_entry : g'.bc.main_entry = g.bc.main_entry
  symtab : g'.symtab = g.symtab
  names : ∀ l ∈ g'.locals, l ∈ g.locals ∨ l.name ∈ N

/-- The sibling chain has a FUNCTION node of that name. -/
def has_function_named (name : String) : ASTNode → Bool
  | .null => false
  | .node ty text _ _ _ ns =>
    (decide (ty = AST_FUNCTION) && decide (cstr text = name)) || has_function_named name ns

/-- The generator when the child loop of the PROGRAM case of `gen_node`,
started with `gen` on the chain, reaches the `k`-th sibling; `none` when the
chain is shorter or the process has exited before. -/
def gen_functions_upto : Nat → ASTNode → CodeGenerator → Option CodeGenerator
  | 0, _, gen => some gen
  | _ + 1, .null, _ => none
  | k + 1, .node ty text dt ln fc ns, gen =>
    if ty = AST_FUNCTION then
      (gen_function gen (.node ty text dt ln fc ns)).bind (gen_functions_upto k ns)
    else gen_functions_upto k ns gen

/-- The code `c2` is `c1` with the operands of some jumps changed. -/
def PatchOf (c1 c2 : List Instruction) : Prop :=
  c2.length = c1.length ∧
  ∀ i inst, c1.get? i = some inst →
    ∃ inst2, c2.get? i = some inst2 ∧ inst2.opcode = inst.opcode ∧
      (¬ is_jump inst.opcode → inst2 = inst)

/-- The entry of `ana` in the generator, where `b` tells whether a function
named `ana` has been generated: `main_entry` is -1 exactly when none has, and
otherwise it is the entry point of a function-table entry named `ana`, at
which the code has `ENTER 32`. -/
def EntryOK (b : Bool) (g : CodeGenerator) : Prop :=
  (g.bc.main_entry = -1 ↔ b = false) ∧
  (b = true → 0 ≤ g.bc.main_entry ∧
    (∃ f ∈ g.bc.functions, f.name = "ana" ∧ f.entry_point = g.bc.main_entry) ∧
    g.bc.code.get? g.bc.main_entry.toNat = some { opcode := OP_ENTER, operand := 32 })

/-- The state `vm_execute` is in after the `ENTER 32` at the entry of `ana`. -/
def vm_after_enter (vm : VM) (bc : Bytecode) : VM :=
  { vm_enter_main vm bc with
    pc := bc.main_entry + 1
    frames := arr_set (vm_enter_main vm bc).frames 0
      { (vm_enter_main vm bc).frames 0 with base_ptr := 0 }
    sp := 32 }

/-- The program `int ana() { return 7; }`. -/
def prog_seven : ASTNode := prog_return_literal "7"

/-- The bytecode generated for `prog_seven`. -/
def bc_seven : Bytecode := bc_arith (.lit "7" 0)

/-- The program `int ana() { int x = 5; return x; }`. -/
def prog_five : ASTNode := prog_ana (decl_x "5" return_x)

/-- The symbol table the analyzer leaves for `prog_five`. -/
def five_table : SymbolTable :=
  semantic_get_symbol_table (semantic_analyze semantic_create prog_five).2

/-- The bytecode generated for `prog_five`. -/
def bc_five : Bytecode :=
  { code := [⟨OP_ENTER, 32⟩, ⟨OP_PUSH, 5⟩, ⟨OP_STORE, 0⟩, ⟨OP_LOAD, 0⟩, ⟨OP_RETVAL, 0⟩,
             ⟨OP_PUSH, 0⟩, ⟨OP_RETVAL, 0⟩, ⟨OP_HALT, 0⟩]
    functions := [⟨"ana", 0, 0, 32⟩]
    main_entry := 0 }

/-- The test on the type of a condition, after its analysis: a VOID condition
is reported with `message`. -/
def condition_checked (r : SemanticAnalyzer) (cond_type : DataType) (line : Int)
    (message : String) : SemanticAnalyzer :=
  if cond_type = TYPE_VOID then semantic_error r line message else r

/-- The analyzer of `analyze_if` after the condition: the state in which the
then-branch is analyzed. -/
def if_cond_state (a : SemanticAnalyzer) (node : ASTNode) (ln : Int) : SemanticAnalyzer :=
  if get_child node 0 = .null then a
  else analyze_condition a (get_child node 0) ln "Kosul ifadesi void olamaz"

/-- The part of `analyze_if` after the condition, from the analyzer `c`: the
then-branch and, for an IF_ELSE, the else-branch. -/
def if_branches (ty : ASTNodeType) (c : SemanticAnalyzer) (node : ASTNode) : SemanticAnalyzer :=
  if ty = AST_IF_ELSE then
    analyze_statement (analyze_statement c (get_child node 1)) (get_child node 2)
  else analyze_statement c (get_child node 1)

/-- The analyzer of `analyze_while` after the condition; the body is analyzed
in this state with `in_loop` set. -/
def while_cond_state (a : SemanticAnalyzer) (node : ASTNode) (ln : Int) : SemanticAnalyzer :=
  if get_child node 0 = .null then a
  else analyze_condition a (get_child node 0) ln "Dongu kosulu void olamaz"

/-- The part of `analyze_while` after the condition, from the analyzer `c`:
the body with `in_loop` set, then `in_loop` restored. -/
def while_rest (c : SemanticAnalyzer) (node : ASTNode) : SemanticAnalyzer :=
  { analyze_statement { c with in_loop := true } (get_child node 1) with in_loop := c.in_loop }

/-- The part of `analyze_for` after the update expression, from the analyzer
`c`: the body with `in_loop` set, `in_loop` restored, the scope left. -/
def for_after_update (c : SemanticAnalyzer) (node : ASTNode) : SemanticAnalyzer :=
  { analyze_statement { c with in_loop := true } (get_child node 3) with
    in_loop := c.in_loop
    symtab := symbol_exit_scope
      (analyze_statement { c with in_loop := true } (get_child node 3)).symtab
    exit_calls := (analyze_statement { c with in_loop := true } (get_child node 3)).exit_calls + 1 }

/-- The part of `analyze_for` after the condition, from the analyzer `c`. -/
def for_after_cond (c : SemanticAnalyzer) (node : ASTNode) : SemanticAnalyzer :=
  for_after_update
    (if get_child node 2 ≠ .null ∧ ¬ (get_child node 2).is AST_EMPTY then
      (analyze_expression c (get_child node 2)).2
     else c)
    node

/-- The part of `analyze_for` after the init statement, from the analyzer
`c`. -/
def for_after_init (c : SemanticAnalyzer) (node : ASTNode) (ln : Int) : SemanticAnalyzer :=
  for_after_cond
    (if get_child node 1 ≠ .null ∧ ¬ (get_child node 1).is AST_EMPTY then
      analyze_condition c (get_child node 1) ln "For dongusu kosulu void olamaz"
     else c)
    node

/-- The test of `analyze_return` on the expected and the actual type. -/
def return_checked (r : SemanticAnalyzer) (expected actual : DataType) (ln : Int) :
    SemanticAnalyzer :=
  if expected = TYPE_VOID ∧ actual ≠ TYPE_VOID then
    semantic_error r ln "void fonksiyondan deger dondurulemez"
  else if expected ≠ TYPE_VOID ∧ actual = TYPE_VOID then
    semantic_error r ln ("Fonksiyon " ++ datatype_to_string expected ++ " dondermeli")
  else if expected ≠ TYPE_VOID ∧ actual ≠ TYPE_VOID ∧ ¬ types_compatible expected actual then
    semantic_error r ln
      ("Donus tipi uyumsuz: beklenen " ++ datatype_to_string expected ++ ", gelen "
        ++ datatype_to_string actual)
  else r

/-- The test of `analyze_var_decl` on the type of the initializer. -/
def init_checked (r : SemanticAnalyzer) (var_name : String) (var_type init_type : DataType)
    (line : Int) : SemanticAnalyzer :=
  if init_type ≠ TYPE_ERROR ∧ ¬ types_compatible var_type init_type then
    semantic_error r line
      ("Tip uyumsuzlugu: '" ++ var_name ++ "' tipi " ++ datatype_to_string var_type
        ++ ", ancak " ++ datatype_to_string init_type ++ " atanmaya calisiliyor")
  else r

/-- The test of the ASSIGNMENT case on the type of the right-hand side. -/
def assign_checked (r : SemanticAnalyzer) (name : String) (sym_type right_type : DataType)
    (ln : Int) : SemanticAnalyzer :=
  if types_compatible sym_type right_type then r
  else
    semantic_error r ln
      ("Tip uyumsuzlugu: '" ++ name ++ "' tipi " ++ datatype_to_string sym_type
        ++ ", ancak " ++ datatype_to_string right_type ++ " atanmaya calisiliyor")

/-- The tests of the BINARY_EXPR case on the types of the operands. -/
def binary_checked (r : SemanticAnalyzer) (left_type right_type : DataType) (ln : Int) :
    SemanticAnalyzer :=
  if left_type = TYPE_VOID ∨ right_type = TYPE_VOID then
    semantic_error r ln "Void ifadeler aritmetik islemlerde kullanilamaz"
  else if ¬ types_compatible left_type right_type then
    semantic_error r ln
      ("Tip uyumsuzlugu: " ++ datatype_to_string left_type ++ " ve "
        ++ datatype_to_string right_type ++ " arasinda islem yapilamaz")
  else r

/-- The test of the UNARY_EXPR case on the type of the operand. -/
def unary_checked (r : SemanticAnalyzer) (op_type : DataType) (ln : Int) : SemanticAnalyzer :=
  if op_type = TYPE_VOID then
    semantic_error r ln "Void ifadeler uzerinde unary islem yapilamaz"
  else r

/-- The test of the FUNCTION_CALL case on the number of arguments. -/
def arity_checked (r : SemanticAnalyzer) (func_name : String) (fi : FunctionInfo)
    (arg_count : Nat) (ln : Int) : SemanticAnalyzer :=
  if (arg_count : Int) ≠ fi.param_count then
    semantic_error r ln
      ("'" ++ func_name ++ "' fonksiyonu " ++ fmt_d fi.param_count
        ++ " parametre bekliyor, " ++ fmt_d arg_count ++ " verildi")
  else r

/-- The test of the argument loop on the type of the argument at position
`arg_count`. -/
def arg_compared (r : SemanticAnalyzer) (func_name : String) (fi : FunctionInfo) (line : Int)
    (arg_count : Nat) (arg_type : DataType) : SemanticAnalyzer :=
  match fi.params.get? arg_count with
  | some (_, expected) =>
    if types_compatible expected arg_type then r
    else
      semantic_error r line
        ("'" ++ func_name ++ "' fonksiyonu " ++ fmt_d (arg_count + 1)
          ++ ". parametre: beklenen " ++ datatype_to_string expected ++ ", gelen "
          ++ datatype_to_string arg_type)
  | none => r

/-- The analyzer of the argument loop of a call after the argument `arg` at
position `arg_count` has been analyzed and compared with the parameter at that
position: the state in which the next argument is analyzed. -/
def arg_checked (a : SemanticAnalyzer) (func_name : String) (fi : FunctionInfo) (line : Int)
    (arg_count : Nat) (arg : ASTNode) : SemanticAnalyzer :=
  arg_compared (analyze_expression a arg).2 func_name fi line arg_count
    (analyze_expression a arg).1

/-- A call of one of the functions of the analyzer, or the entry of one of its
loops: the analyzer it starts with and the node it is given.  `nodes` is the
child loop of `analyze_node`, `stmts` the statement loop of a block or a
function body, `args` the argument loop of a call. -/
inductive Visit
  | node (a : SemanticAnalyzer) (n : ASTNode)
  | nodes (a : SemanticAnalyzer) (child : ASTNode)
  | func (a : SemanticAnalyzer) (n : ASTNode)
  | stmts (a : SemanticAnalyzer) (stmt : ASTNode)
  | stmt (a : SemanticAnalyzer) (n : ASTNode)
  | decl (a : SemanticAnalyzer) (n : ASTNode)
  | expr (a : SemanticAnalyzer) (n : ASTNode)
  | args (a : SemanticAnalyzer) (func_name : String) (fi : FunctionInfo) (line : Int)
      (arg_count : Nat) (arg : ASTNode)

/-- The analyzer a visit starts with. -/
def Visit.state : Visit → SemanticAnalyzer
  | .node a _ => a
  | .nodes a _ => a
  | .func a _ => a
  | .stmts a _ => a
  | .stmt a _ => a
  | .decl a _ => a
  | .expr a _ => a
  | .args a _ _ _ _ _ => a

/-- The analyzer a visit ends with. -/
def Visit.result : Visit → SemanticAnalyzer
  | .node a n => analyze_node a n
  | .nodes a child => analyze_nodes a child
  | .func a n => analyze_function a n
  | .stmts a s => analyze_stmts a s
  | .stmt a n => analyze_statement a n
  | .decl a n => analyze_var_decl a n
  | .expr a n => (analyze_expression a n).2
  | .args a func_name fi line arg_count arg => (analyze_args a func_name fi line arg_count arg).2

/-- The call sites of the analyzer: `Invokes p q k` when the visit `p` itself
makes the call `q` (or, in a loop, goes on to the next element), with the
analyzer the code has at that point; `k` is what `p` does once `q` has
returned, as a function of the analyzer `q` returns. -/
inductive Invokes : Visit → Visit → (SemanticAnalyzer → SemanticAnalyzer) → Prop
  | node_children (a : SemanticAnalyzer) (ty : ASTNodeType) (text dt : Option String) (ln : Int)
      (fc ns : ASTNode) :
      ty ≠ AST_FUNCTION → ty ≠ AST_VAR_DECL →
      Invokes (.node a (.node ty text dt ln fc ns)) (.nodes a fc) (fun r => r)
  | node_function (a : SemanticAnalyzer) (text dt : Option String) (ln : Int)
      (fc ns : ASTNode) :
      Invokes (.node a (.node AST_FUNCTION text dt ln fc ns))
        (.func a (.node AST_FUNCTION text dt ln fc ns)) (fun r => r)
  | node_var_decl (a : SemanticAnalyzer) (text dt : Option String) (ln : Int)
      (fc ns : ASTNode) :
      Invokes (.node a (.node AST_VAR_DECL text dt ln fc ns))
        (.decl a (.node AST_VAR_DECL text dt ln fc ns)) (fun r => r)
  | nodes_head (a : SemanticAnalyzer) (ty : ASTNodeType) (text dt : Option String) (ln : Int)
      (fc ns : ASTNode) :
      Invokes (.nodes a (.node ty text dt ln fc ns)) (.node a (.node ty text dt ln fc ns))
        (fun r => analyze_nodes r ns)
  | nodes_next (a : SemanticAnalyzer) (ty : ASTNodeType) (text dt : Option String) (ln : Int)
      (fc ns : ASTNode) :
      Invokes (.nodes a (.node ty text dt ln fc ns))
        (.nodes (analyze_node a (.node ty text dt ln fc ns)) ns) (fun r => r)
  | func_body (a : SemanticAnalyzer) (ty : ASTNodeType) (text dt : Option String) (ln : Int)
      (fc ns : ASTNode) (func : Symbol) (fi : FunctionInfo) :
      symbol_lookup a.symtab (cstr text) = some func →
      func.func_info = some fi →
      (get_child (.node ty text dt ln fc ns) 1).is AST_BLOCK = true →
      Invokes (.func a (.node ty text dt ln fc ns))
        (.stmts (function_entry a func fi ln)
          (get_child (.node ty text dt ln fc ns) 1).first_child)
        (fun r =>
          { r with
            symtab := symbol_set_current_function (symbol_exit_scope r.symtab) none
            exit_calls := r.exit_calls + 1 })
  | stmts_head (a : SemanticAnalyzer) (ty : ASTNodeType) (text dt : Option String) (ln : Int)
      (fc ns : ASTNode) :
      Invokes (.stmts a (.node ty text dt ln fc ns)) (.stmt a (.node ty text dt ln fc ns))
        (fun r => analyze_stmts r ns)
  | stmts_next (a : SemanticAnalyzer) (ty : ASTNodeType) (text dt : Option String) (ln : Int)
      (fc ns : ASTNode) :
      Invokes (.stmts a (.node ty text dt ln fc ns))
        (.stmts (analyze_statement a (.node ty text dt ln fc ns)) ns) (fun r => r)
  | stmt_var_decl (a : SemanticAnalyzer) (text dt : Option String) (ln : Int)
      (fc ns : ASTNode) :
      Invokes (.stmt a (.node AST_VAR_DECL text dt ln fc ns))
        (.decl a (.node AST_VAR_DECL text dt ln fc ns)) (fun r => r)
  | stmt_block (a : SemanticAnalyzer) (text dt : Option String) (ln : Int) (fc ns : ASTNode) :
      Invokes (.stmt a (.node AST_BLOCK text dt ln fc ns))
        (.stmts
          { a with symtab := symbol_enter_scope a.symtab, enter_calls := a.enter_calls + 1 } fc)
        (fun r =>
          { r with symtab := symbol_exit_scope r.symtab, exit_calls := r.exit_calls + 1 })
  | if_cond (a : SemanticAnalyzer) (ty : ASTNodeType) (text dt : Option String) (ln : Int)
      (fc ns : ASTNode) :
      ty = AST_IF ∨ ty = AST_IF_ELSE →
      get_child (.node ty text dt ln fc ns) 0 ≠ .null →
      Invokes (.stmt a (.node ty text dt ln fc ns))
        (.expr a (get_child (.node ty text dt ln fc ns) 0))
        (fun r =>
          if_branches ty
            (condition_checked r
              (analyze_expression a (get_child (.node ty text dt ln fc ns) 0)).1 ln
              "Kosul ifadesi void olamaz")
            (.node ty text dt ln fc ns))
  | if_then (a : SemanticAnalyzer) (ty : ASTNodeType) (text dt : Option String) (ln : Int)
      (fc ns : ASTNode) :
      ty = AST_IF ∨ ty = AST_IF_ELSE →
      get_child (.node ty text dt ln fc ns) 1 ≠ .null →
      Invokes (.stmt a (.node ty text dt ln fc ns))
        (.stmt (if_cond_state a (.node ty text dt ln fc ns) ln)
          (get_child (.node ty text dt ln fc ns) 1))
        (fun r =>
          if ty = AST_IF_ELSE then analyze_statement r (get_child (.node ty text dt ln fc ns) 2)
          else r)
  | if_else (a : SemanticAnalyzer) (text dt : Option String) (ln : Int) (fc ns : ASTNode) :
      get_child (.node AST_IF_ELSE text dt ln fc ns) 2 ≠ .null →
      Invokes (.stmt a (.node AST_IF_ELSE text dt ln fc ns))
        (.stmt
          (analyze_statement (if_cond_state a (.node AST_IF_ELSE text dt ln fc ns) ln)
            (get_child (.node AST_IF_ELSE text dt ln fc ns) 1))
          (get_child (.node AST_IF_ELSE text dt ln fc ns) 2))
        (fun r => r)
  | while_cond (a : SemanticAnalyzer) (text dt : Option String) (ln : Int) (fc ns : ASTNode) :
      get_child (.node AST_WHILE text dt ln fc ns) 0 ≠ .null →
      Invokes (.stmt a (.node AST_WHILE text dt ln fc ns))
        (.expr a (get_child (.node AST_WHILE text dt ln fc ns) 0))
        (fun r =>
          while_rest
            (condition_checked r
              (analyze_expression a (get_child (.node AST_WHILE text dt ln fc ns) 0)).1 ln
              "Dongu kosulu void olamaz")
            (.node AST_WHILE text dt ln fc ns))
  | while_body (a : SemanticAnalyzer) (text dt : Option String) (ln : Int) (fc ns : ASTNode) :
      get_child (.node AST_WHILE text dt ln fc ns) 1 ≠ .null →
      Invokes (.stmt a (.node AST_WHILE text dt ln fc ns))
        (.stmt { while_cond_state a (.node AST_WHILE text dt ln fc ns) ln with in_loop := true }
          (get_child (.node AST_WHILE text dt ln fc ns) 1))
        (fun r =>
          { r with in_loop := (while_cond_state a (.node AST_WHILE text dt ln fc ns) ln).in_loop })
  | for_init (a : SemanticAnalyzer) (text dt : Option String) (ln : Int) (fc ns : ASTNode) :
      (get_child (.node AST_FOR text dt ln fc ns) 0 ≠ .null ∧
        ¬ (get_child (.node AST_FOR text dt ln fc ns) 0).is AST_EMPTY) →
      Invokes (.stmt a (.node AST_FOR text dt ln fc ns))
        (.stmt
          { a with symtab := symbol_enter_scope a.symtab, enter_calls := a.enter_calls + 1 }
          (get_child (.node AST_FOR text dt ln fc ns) 0))
        (fun r => for_after_init r (.node AST_FOR text dt ln fc ns) ln)
  | for_cond (a : SemanticAnalyzer) (text dt : Option String) (ln : Int) (fc ns : ASTNode) :
      (get_child (.node AST_FOR text dt ln fc ns) 1 ≠ .null ∧
        ¬ (get_child (.node AST_FOR text dt ln fc ns) 1).is AST_EMPTY) →
      Invokes (.stmt a (.node AST_FOR text dt ln fc ns))
        (.expr (for_init_state a (.node AST_FOR text dt ln fc ns))
          (get_child (.node AST_FOR text dt ln fc ns) 1))
        (fun r =>
          for_after_cond
            (condition_checked r
              (analyze_expression (for_init_state a (.node AST_FOR text dt ln fc ns))
                (get_child (.node AST_FOR text dt ln fc ns) 1)).1 ln
              "For dongusu kosulu void olamaz")
            (.node AST_FOR text dt ln fc ns))
  | for_update (a : SemanticAnalyzer) (text dt : Option String) (ln : Int) (fc ns : ASTNode) :
      (get_child (.node AST_FOR text dt ln fc ns) 2 ≠ .null ∧
        ¬ (get_child (.node AST_FOR text dt ln fc ns) 2).is AST_EMPTY) →
      Invokes (.stmt a (.node AST_FOR text dt ln fc ns))
        (.expr (for_cond_state a (.node AST_FOR text dt ln fc ns) ln)
          (get_child (.node AST_FOR text dt ln fc ns) 2))
        (fun r => for_after_update r (.node AST_FOR text dt ln fc ns))
  | for_body (a : SemanticAnalyzer) (text dt : Option String) (ln : Int) (fc ns : ASTNode) :
      get_child (.node AST_FOR text dt ln fc ns) 3 ≠ .null →
      Invokes (.stmt a (.node AST_FOR text dt ln fc ns))
        (.stmt { for_update_state a (.node AST_FOR text dt ln fc ns) ln with in_loop := true }
          (get_child (.node AST_FOR text dt ln fc ns) 3))
        (fun r =>
          { r with
            in_loop := (for_update_state a (.node AST_FOR text dt ln fc ns) ln).in_loop
            symtab := symbol_exit_scope r.symtab
            exit_calls := r.exit_calls + 1 })
  | return_value (a : SemanticAnalyzer) (text dt : Option String) (ln : Int) (fc ns : ASTNode) :
      fc ≠ .null →
      Invokes (.stmt a (.node AST_RETURN text dt ln fc ns)) (.expr a fc)
        (fun r => return_checked r a.current_return_type (analyze_expression a fc).1 ln)
  | stmt_expression (a : SemanticAnalyzer) (text dt : Option String) (ln : Int)
      (fc ns : ASTNode) :
      fc ≠ .null →
      Invokes (.stmt a (.node AST_EXPR_STATEMENT text dt ln fc ns)) (.expr a fc) (fun r => r)
  | stmt_assignment (a : SemanticAnalyzer) (text dt : Option String) (ln : Int)
      (fc ns : ASTNode) :
      Invokes (.stmt a (.node AST_ASSIGNMENT text dt ln fc ns))
        (.expr a (.node AST_ASSIGNMENT text dt ln fc ns)) (fun r => r)
  | stmt_other (a : SemanticAnalyzer) (ty : ASTNodeType) (text dt : Option String) (ln : Int)
      (fc ns : ASTNode) :
      ty ≠ AST_VAR_DECL → ty ≠ AST_BLOCK → ty ≠ AST_IF → ty ≠ AST_IF_ELSE → ty ≠ AST_WHILE →
      ty ≠ AST_FOR → ty ≠ AST_RETURN → ty ≠ AST_EXPR_STATEMENT → ty ≠ AST_ASSIGNMENT →
      Invokes (.stmt a (.node ty text dt ln fc ns)) (.stmts a fc) (fun r => r)
  | decl_init (a : SemanticAnalyzer) (ty : ASTNodeType) (text dt : Option String) (ln : Int)
      (fc ns : ASTNode) (sym : Symbol) (table : SymbolTable) :
      datatype_from_string dt ≠ TYPE_VOID →
      symbol_lookup_current_scope a.symtab (cstr text) = none →
      symbol_declare a.symtab (cstr text) SYMBOL_VARIABLE (datatype_from_string dt) ln
        = (some sym, table) →
      fc ≠ .null →
      Invokes (.decl a (.node ty text dt ln fc ns)) (.expr { a with symtab := table } fc)
        (fun r =>
          init_checked r (cstr text) (datatype_from_string dt)
            (analyze_expression { a with symtab := table } fc).1 ln)
  | assign_right (a : SemanticAnalyzer) (text dt : Option String) (ln : Int) (fc ns : ASTNode)
      (sym : Symbol) :
      (get_child (.node AST_ASSIGNMENT text dt ln fc ns) 0).is AST_IDENTIFIER = true →
      symbol_lookup a.symtab (cstr (get_child (.node AST_ASSIGNMENT text dt ln fc ns) 0).text)
        = some sym →
      Invokes (.expr a (.node AST_ASSIGNMENT text dt ln fc ns))
        (.expr a (get_child (.node AST_ASSIGNMENT text dt ln fc ns) 1))
        (fun r =>
          assign_checked r (cstr (get_child (.node AST_ASSIGNMENT text dt ln fc ns) 0).text)
            sym.type
            (analyze_expression a (get_child (.node AST_ASSIGNMENT text dt ln fc ns) 1)).1 ln)
  | binary_left (a : SemanticAnalyzer) (text dt : Option String) (ln : Int) (fc ns : ASTNode) :
      Invokes (.expr a (.node AST_BINARY_EXPR text dt ln fc ns))
        (.expr a (get_child (.node AST_BINARY_EXPR text dt ln fc ns) 0))
        (fun r =>
          binary_checked
            (analyze_expression r (get_child (.node AST_BINARY_EXPR text dt ln fc ns) 1)).2
            (analyze_expression a (get_child (.node AST_BINARY_EXPR text dt ln fc ns) 0)).1
            (analyze_expression r (get_child (.node AST_BINARY_EXPR text dt ln fc ns) 1)).1 ln)
  | binary_right (a : SemanticAnalyzer) (text dt : Option String) (ln : Int) (fc ns : ASTNode) :
      Invokes (.expr a (.node AST_BINARY_EXPR text dt ln fc ns))
        (.expr (analyze_expression a (get_child (.node AST_BINARY_EXPR text dt ln fc ns) 0)).2
          (get_child (.node AST_BINARY_EXPR text dt ln fc ns) 1))
        (fun r =>
          binary_checked r
            (analyze_expression a (get_child (.node AST_BINARY_EXPR text dt ln fc ns) 0)).1
            (analyze_expression
              (analyze_expression a (get_child (.node AST_BINARY_EXPR text dt ln fc ns) 0)).2
              (get_child (.node AST_BINARY_EXPR text dt ln fc ns) 1)).1 ln)
  | unary_operand (a : SemanticAnalyzer) (text dt : Option String) (ln : Int)
      (fc ns : ASTNode) :
      Invokes (.expr a (.node AST_UNARY_EXPR text dt ln fc ns))
        (.expr a (get_child (.node AST_UNARY_EXPR text dt ln fc ns) 0))
        (fun r =>
          unary_checked r
            (analyze_expression a (get_child (.node AST_UNARY_EXPR text dt ln fc ns) 0)).1 ln)
  | call_arguments (a : SemanticAnalyzer) (text dt : Option String) (ln : Int) (fc ns : ASTNode)
      (func : Symbol) (fi : FunctionInfo) :
      symbol_lookup a.symtab (cstr text) = some func →
      func.kind = SYMBOL_FUNCTION →
      func.func_info = some fi →
      (get_child (.node AST_FUNCTION_CALL text dt ln fc ns) 0).is AST_ARGUMENT_LIST = true →
      Invokes (.expr a (.node AST_FUNCTION_CALL text dt ln fc ns))
        (.args a (cstr text) fi ln 0
          (get_child (.node AST_FUNCTION_CALL text dt ln fc ns) 0).first_child)
        (fun r =>
          arity_checked r (cstr text) fi
            (analyze_args a (cstr text) fi ln 0
              (get_child (.node AST_FUNCTION_CALL text dt ln fc ns) 0).first_child).1 ln)
  | expr_inner (a : SemanticAnalyzer) (text dt : Option String) (ln : Int) (fc ns : ASTNode) :
      fc ≠ .null →
      Invokes (.expr a (.node AST_EXPR_STATEMENT text dt ln fc ns)) (.expr a fc) (fun r => r)
  | args_head (a : SemanticAnalyzer) (func_name : String) (fi : FunctionInfo) (line : Int)
      (arg_count : Nat) (ty : ASTNodeType) (text dt : Option String) (ln : Int)
      (fc ns : ASTNode) :
      Invokes (.args a func_name fi line arg_count (.node ty text dt ln fc ns))
        (.expr a (.node ty text dt ln fc ns))
        (fun r =>
          (analyze_args
            (arg_compared r func_name fi line arg_count
              (analyze_expression a (.node ty text dt ln fc ns)).1)
            func_name fi line (arg_count + 1) ns).2)
  | args_next (a : SemanticAnalyzer) (func_name : String) (fi : FunctionInfo) (line : Int)
      (arg_count : Nat) (ty : ASTNodeType) (text dt : Option String) (ln : Int)
      (fc ns : ASTNode) :
      Invokes (.args a func_name fi line arg_count (.node ty text dt ln fc ns))
        (.args (arg_checked a func_name fi line arg_count (.node ty text dt ln fc ns))
          func_name fi line (arg_count + 1) ns)
        (fun r => r)

/-- The visits of the analysis of a program: `semantic_analyze` on a fresh
analyzer runs pass 1 and calls `analyze_node` on the root; the visits are that
call and every call made in its course.  `Visited program v k` when `v` is
such a visit and `k` is the rest of the analysis after it: the analyzer
`semantic_analyze` ends with, as a function of the analyzer `v` returns. -/
inductive Visited (program : ASTNode) : Visit → (SemanticAnalyzer → SemanticAnalyzer) → Prop
  | root :
      Visited program (Visit.node (collect_functions semantic_create program) program)
        (fun r => r)
  | call {p q : Visit} {rest k : SemanticAnalyzer → SemanticAnalyzer} :
      Visited program p rest → Invokes p q k → Visited program q (fun r => rest (k r))

/-- The step `f` of the analysis takes the same course whatever diagnostics
are recorded before it, when it records none: if `f` leaves the diagnostics
of `a` as they are (and `a` has room for one), then from `a` with any other
list of diagnostics it does what it does from `a` and leaves that list as it
is. -/
def Transfers (f : SemanticAnalyzer → SemanticAnalyzer) : Prop :=
  ∀ a e, a.errors.length < MAX_SEMANTIC_ERRORS → (f a).errors = a.errors →
    f { a with errors := e } = { f a with errors := e }

/-- The diagnostic for a use of the undeclared name `y` on line 1. -/
def undeclared_y : SemanticError :=
  { line := 1, message := fmt_buffer ("'" ++ "y" ++ "' degiskeni tanimlanmamis") }

/-- The statements `y; ... y;` (`n` times, on line 1) followed by `rest`. -/
def undeclared_uses : Nat → ASTNode → ASTNode
  | 0, rest => rest
  | n + 1, rest =>
    .node AST_EXPR_STATEMENT none none 1 (.node AST_IDENTIFIER (some "y") none 1 .null .null)
      (undeclared_uses n rest)

/-- The program `int ana() { y; ... y; return ana(1); }` with 100 uses of the
undeclared name `y` on line 1 and the call on line 2. -/
def prog_full_arity : ASTNode :=
  prog_ana (undeclared_uses 100 (return_node 2 (call_node "ana" 2 [.lit "1" 2]) .null))

/-- The analyzer in the body of `ana` with `k` diagnostics for `y` recorded. -/
def flooded_state (k : Nat) : SemanticAnalyzer :=
  { ana_body_state with errors := List.replicate k undeclared_y }

/-- The program `int ana() { return ana(1); }`, the call on line 2. -/
def prog_self_call : ASTNode :=
  prog_ana (return_node 2 (call_node "ana" 2 [.lit "1" 2]) .null)

/-! # Theorems -/


/-! ## General lemmas -/

theorem wrap32_of_range (x : Int) (h1 : INT_MIN ≤ x) (h2 : x ≤ INT_MAX) : wrap32 x = x := by
  unfold INT_MIN at h1
  unfold INT_MAX at h2
  unfold wrap32
  omega

theorem wrap32_range (x : Int) : INT_MIN ≤ wrap32 x ∧ wrap32 x ≤ INT_MAX := by
  unfold INT_MIN INT_MAX wrap32
  omega

theorem vm_loop_of_steps (bc : Bytecode) (k : Nat) :
    ∀ (vm vm' : VM), vm_steps bc k vm = some vm' →
      ∀ fuel, vm_loop bc (k + fuel) vm = vm_loop bc fuel vm' := by
  induction k with
  | zero =>
    intro vm vm' h fuel
    simp only [vm_steps, Option.some.injEq] at h
    subst h
    simp
  | succ k ih =>
    intro vm vm' h fuel
    simp only [vm_steps] at h
    split at h
    · rename_i hc
      cases hs : vm_step bc vm with
      | none => simp [hs] at h
      | some vm1 =>
        simp only [hs, Option.bind_some] at h
        have e : k + 1 + fuel = (k + fuel) + 1 := by omega
        rw [e, vm_loop, if_pos hc, hs]
        exact ih vm1 vm' h fuel
    · simp at h

theorem vm_steps_add (bc : Bytecode) (j k : Nat) :
    ∀ vm, vm_steps bc (j + k) vm = (vm_steps bc j vm).bind (vm_steps bc k) := by
  induction j with
  | zero => intro vm; simp [vm_steps]
  | succ j ih =>
    intro vm
    have e : j + 1 + k = (j + k) + 1 := by omega
    rw [e]
    simp only [vm_steps]
    split
    · cases hs : vm_step bc vm with
      | none => simp
      | some vm1 => simp [ih]
    · simp

theorem hash_topla : hash_string "topla" = 101 := by decide
theorem hash_ana : hash_string "ana" = 21 := by decide
theorem hash_a : hash_string "a" = 6 := by decide
theorem hash_b : hash_string "b" = 7 := by decide


set_option maxRecDepth 4000 in
set_option maxHeartbeats 1000000 in
theorem compile_prog_call (ta tb : String) :
    compile (prog_call ta tb) = some (bc_call (atoi ta) (atoi tb)) := by
  simp [compile, prog_call, ast_program, ast_function, ast_return, ast_binary, ast_ident,
    ast_call, ast_num, ast, ast_append_child, ast_append_sibling, ast_create_typed_node,
    ast_create_node, ast_set_type, bc_call, semantic_get_symbol_table,
    semantic_analyze, collect_functions, collect_functions_loop, semantic_create,
    symbol_table_create, symbol_lookup, hash_topla, hash_ana, hash_a, hash_b, cstr,
    datatype_from_string, symbol_declare_function, symbol_declare, symbol_lookup_current_scope,
    bucket_set, get_child, sibling_at, ASTNode.is, ASTNode.first_child, ASTNode.text,
    collect_params, symtab_add_parameter, symbol_add_parameter, MAX_PARAMS,
    analyze_node, analyze_nodes, analyze_function, symbol_set_current_function,
    symbol_enter_scope, declare_params, SymbolTable.cur_local_offset, analyze_stmts,
    analyze_statement, analyze_return, analyze_expression, analyze_args, types_compatible,
    symbol_exit_scope, semantic_error, is_comparison_op, FunctionInfo.param_count,
    SYMBOL_TABLE_SIZE,
    codegen_generate, codegen_run, codegen_create, gen_node, gen_functions, gen_function,
    clear_locals, add_param_locals, add_ast_params, add_local, find_local, register_function,
    current_address, Bytecode.code_size, emit, emit_simple, gen_block, gen_stmts, gen_statement,
    gen_return, gen_expression, gen_args, binary_opcode, find_function, find_function_from,
    patch_jumps, patch_loop, MAX_CODE_SIZE, MAX_FUNCTIONS, MAX_LOCAL_SYMBOLS]

set_option maxRecDepth 4000 in
set_option maxHeartbeats 1000000 in
theorem run_bc_call (a b : Int) :
    ∃ vm, vm_execute 10 vm_create (bc_call a b) = .returned (wrap32 (a + b)) vm ∧
      vm.errlog = [] := by
  simp [vm_execute, vm_enter_main, frame_param_count, bc_call, vm_loop, vm_step, vm_exec_inst,
    vm_create, push, pop, peek, binop,
    get_local, set_local, arr_set, Bytecode.code_size, Bytecode.function_count, VM_STACK_SIZE,
    VM_CALL_STACK_SIZE]

/-- C1: compiling `int topla(int a, int b) { return a + b; }  int ana() { return
topla(A, B); }` and running it in a fresh VM returns `A + B`, with no trap,
whenever the sum of the two literals does not overflow. -/
theorem call_with_parameters_returns_sum (ta tb : String)
    (h : INT_MIN ≤ atoi ta + atoi tb ∧ atoi ta + atoi tb ≤ INT_MAX) :
    ∃ bc, compile (prog_call ta tb) = some bc ∧
      ∃ fuel vm, vm_execute fuel vm_create bc = .returned (atoi ta + atoi tb) vm ∧
        vm.errlog = [] := by
  refine ⟨_, compile_prog_call ta tb, 10, ?_⟩
  have := run_bc_call (atoi ta) (atoi tb)
  rwa [wrap32_of_range _ h.1 h.2] at this

theorem call_with_parameters_returns_sum_witness :
    (INT_MIN ≤ atoi "20" + atoi "22" ∧ atoi "20" + atoi "22" ≤ INT_MAX) ∧
    ∃ bc, compile (prog_call "20" "22") = some bc ∧
      ∃ fuel vm, vm_execute fuel vm_create bc = .returned 42 vm ∧ vm.errlog = [] :=
  ⟨by decide, call_with_parameters_returns_sum "20" "22" (by decide)⟩

theorem hash_x : hash_string "x" = 29 := by decide

theorem atoi_zero : atoi "0" = 0 := by decide

theorem atoi_one : atoi "1" = 1 := by decide

/-- Literals beyond the range of `long` are read as `strtol` saturates them:
`(int) LONG_MAX` is -1 and `(int) LONG_MIN` is 0. -/
theorem atoi_saturates :
    atoi "99999999999999999999" = -1 ∧ atoi "18446744073709551658" = -1 ∧
    atoi "-99999999999999999999" = 0 ∧ atoi "4294967338" = 42 := by decide

set_option maxRecDepth 4000 in
set_option maxHeartbeats 1000000 in
theorem compile_prog_branch (tv tt : String) :
    compile (prog_branch tv tt) = some (bc_branch (atoi tv) (atoi tt)) := by
  simp [compile, prog_branch, ast_program, ast_function, ast_return, ast_binary, ast_ident,
    ast_var_decl, ast_num, ast, ast_append_child, ast_append_sibling, ast_create_typed_node,
    ast_create_node, ast_set_type, bc_branch, semantic_get_symbol_table,
    semantic_analyze, collect_functions, collect_functions_loop, semantic_create,
    symbol_table_create, symbol_lookup, hash_ana, hash_x, cstr, atoi_zero, atoi_one,
    datatype_from_string, symbol_declare_function, symbol_declare, symbol_lookup_current_scope,
    bucket_set, get_child, sibling_at, ASTNode.is, ASTNode.first_child, ASTNode.text,
    collect_params, symtab_add_parameter, symbol_add_parameter, MAX_PARAMS,
    analyze_node, analyze_nodes, analyze_function, symbol_set_current_function,
    symbol_enter_scope, declare_params, SymbolTable.cur_local_offset, analyze_stmts,
    analyze_statement, analyze_return, analyze_expression, analyze_args, types_compatible,
    analyze_var_decl, analyze_if, analyze_condition,
    symbol_exit_scope, semantic_error, is_comparison_op, FunctionInfo.param_count,
    SYMBOL_TABLE_SIZE,
    codegen_generate, codegen_run, codegen_create, gen_node, gen_functions, gen_function,
    clear_locals, add_param_locals, add_ast_params, add_local, find_local, register_function,
    current_address, Bytecode.code_size, emit, emit_simple, gen_block, gen_stmts, gen_statement,
    gen_return, gen_expression, gen_args, binary_opcode, find_function, find_function_from,
    gen_var_decl, gen_if, new_label, set_label, emit_jump, set_operand, MAX_LABELS,
    patch_jumps, patch_loop, MAX_CODE_SIZE, MAX_FUNCTIONS, MAX_LOCAL_SYMBOLS]

set_option maxRecDepth 4000 in
set_option maxHeartbeats 1000000 in
theorem run_bc_branch (v t : Int) :
    ∃ vm, vm_execute 9 vm_create (bc_branch v t) = .returned (if v > t then 1 else 0) vm ∧
      vm.errlog = [] := by
  by_cases h : t < v <;>
  simp [vm_execute, vm_enter_main, frame_param_count, bc_branch, vm_loop, vm_step, vm_exec_inst,
    vm_create, push, pop, peek, binop, bool_int, h,
    get_local, set_local, arr_set, Bytecode.code_size, Bytecode.function_count, VM_STACK_SIZE,
    VM_CALL_STACK_SIZE]

/-- C4: compiling `int ana() { int x = v; if (x > t) return 1; else return 0; }`
and running it in a fresh VM returns 1 when `v > t` and 0 otherwise, without
a trap. -/
theorem branching_returns_comparison (tv tt : String) :
    ∃ bc, compile (prog_branch tv tt) = some bc ∧
      ∃ fuel vm, vm_execute fuel vm_create bc
          = .returned (if atoi tv > atoi tt then 1 else 0) vm ∧ vm.errlog = [] :=
  ⟨_, compile_prog_branch tv tt, 9, run_bc_branch (atoi tv) (atoi tt)⟩

set_option maxRecDepth 4000 in
set_option maxHeartbeats 1000000 in
theorem compile_prog_div_zero (ta : String) :
    compile (prog_div_zero "/" ta) = some (bc_div_zero OP_DIV (atoi ta)) ∧
    compile (prog_div_zero "%" ta) = some (bc_div_zero OP_MOD (atoi ta)) := by
  constructor <;>
  simp [compile, prog_div_zero, ast_program, ast_function, ast_return, ast_binary, ast_ident,
    ast_var_decl, ast_num, ast, ast_append_child, ast_append_sibling, ast_create_typed_node,
    ast_create_node, ast_set_type, bc_div_zero, semantic_get_symbol_table,
    semantic_analyze, collect_functions, collect_functions_loop, semantic_create,
    symbol_table_create, symbol_lookup, hash_ana, cstr, atoi_zero,
    datatype_from_string, symbol_declare_function, symbol_declare, symbol_lookup_current_scope,
    bucket_set, get_child, sibling_at, ASTNode.is, ASTNode.first_child, ASTNode.text,
    collect_params, symtab_add_parameter, symbol_add_parameter, MAX_PARAMS,
    analyze_node, analyze_nodes, analyze_function, symbol_set_current_function,
    symbol_enter_scope, declare_params, SymbolTable.cur_local_offset, analyze_stmts,
    analyze_statement, analyze_return, analyze_expression, analyze_args, types_compatible,
    symbol_exit_scope, semantic_error, is_comparison_op, FunctionInfo.param_count,
    SYMBOL_TABLE_SIZE,
    codegen_generate, codegen_run, codegen_create, gen_node, gen_functions, gen_function,
    clear_locals, add_param_locals, add_ast_params, add_local, find_local, register_function,
    current_address, Bytecode.code_size, emit, emit_simple, gen_block, gen_stmts, gen_statement,
    gen_return, gen_expression, gen_args, binary_opcode, find_function, find_function_from,
    patch_jumps, patch_loop, MAX_CODE_SIZE, MAX_FUNCTIONS, MAX_LOCAL_SYMBOLS]

set_option maxRecDepth 4000 in
set_option maxHeartbeats 1000000 in
theorem run_bc_div_zero (a : Int) (op : OpCode) (hop : op = OP_DIV ∨ op = OP_MOD) :
    ∃ vm, vm_execute 4 vm_create (bc_div_zero op a) = .returned (-1) vm ∧
      vm.running = false ∧ vm.pc = 4 ∧ vm.sp = 32 ∧
      vm.errlog = [(4, "Sifira bolme hatasi")] := by
  rcases hop with rfl | rfl <;>
  simp [vm_execute, vm_enter_main, frame_param_count, bc_div_zero, vm_loop, vm_step,
    vm_exec_inst, vm_create, push, pop, peek, binop, bool_int, vm_error,
    get_local, set_local, arr_set, Bytecode.code_size, Bytecode.function_count, VM_STACK_SIZE,
    VM_CALL_STACK_SIZE]

/-- C5: compiling `int ana() { return a / 0; }` (and likewise `a % 0`) and
running it in a fresh VM traps at the DIV (MOD) instruction at address 3: the
two operands are popped, nothing is pushed (`sp` is back at 32), one
division-by-zero diagnostic is printed with the program counter, `running` is
cleared and `vm_execute` returns -1. -/
theorem division_by_zero_traps (ta : String) :
    (∃ bc, compile (prog_div_zero "/" ta) = some bc ∧
      bc.code.get? 3 = some ⟨OP_DIV, 0⟩ ∧
      ∃ fuel vm, vm_execute fuel vm_create bc = .returned (-1) vm ∧
        vm.running = false ∧ vm.pc = 4 ∧ vm.sp = 32 ∧
        vm.errlog = [(4, "Sifira bolme hatasi")]) ∧
    (∃ bc, compile (prog_div_zero "%" ta) = some bc ∧
      bc.code.get? 3 = some ⟨OP_MOD, 0⟩ ∧
      ∃ fuel vm, vm_execute fuel vm_create bc = .returned (-1) vm ∧
        vm.running = false ∧ vm.pc = 4 ∧ vm.sp = 32 ∧
        vm.errlog = [(4, "Sifira bolme hatasi")]) :=
  ⟨⟨_, (compile_prog_div_zero ta).1, rfl, 4, run_bc_div_zero (atoi ta) OP_DIV (Or.inl rfl)⟩,
   ⟨_, (compile_prog_div_zero ta).2, rfl, 4, run_bc_div_zero (atoi ta) OP_MOD (Or.inr rfl)⟩⟩

theorem hash_kimlik : hash_string "kimlik" = 166 := by decide

theorem hash_f : hash_string "f" = 11 := by decide

theorem atoi_five : atoi "5" = 5 := by decide

/-- C6 (failing input): RETVAL executed at the top level on an empty stack.
`pop` traps (one diagnostic is printed, the exit code is set to -1), but the
top-level return then overwrites the exit code with the value `pop` yielded,
so `vm_execute` returns 0. -/
theorem trap_in_toplevel_retval_returns_zero :
    ∃ vm, vm_execute 1 vm_create bc_retval_only = .returned 0 vm ∧
      vm.running = false ∧ vm.errlog = [(1, "Yigin bos (stack underflow)")] := by
  simp [vm_execute, vm_enter_main, bc_retval_only, vm_loop, vm_step, vm_exec_inst, vm_create,
    pop, vm_error, Bytecode.code_size]

set_option maxRecDepth 4000 in
set_option maxHeartbeats 1000000 in
theorem compile_prog_identity_call :
    compile prog_identity_call = some bc_identity_call := by
  simp [compile, prog_identity_call, ast_program, ast_function, ast_return, ast_binary,
    ast_ident, ast_call, ast_num, ast, ast_append_child, ast_append_sibling,
    ast_create_typed_node, ast_create_node, ast_set_type, bc_identity_call,
    semantic_get_symbol_table, atoi_five,
    semantic_analyze, collect_functions, collect_functions_loop, semantic_create,
    symbol_table_create, symbol_lookup, hash_kimlik, hash_ana, hash_x, cstr,
    datatype_from_string, symbol_declare_function, symbol_declare, symbol_lookup_current_scope,
    bucket_set, get_child, sibling_at, ASTNode.is, ASTNode.first_child, ASTNode.text,
    collect_params, symtab_add_parameter, symbol_add_parameter, MAX_PARAMS,
    analyze_node, analyze_nodes, analyze_function, symbol_set_current_function,
    symbol_enter_scope, declare_params, SymbolTable.cur_local_offset, analyze_stmts,
    analyze_statement, analyze_return, analyze_expression, analyze_args, types_compatible,
    symbol_exit_scope, semantic_error, is_comparison_op, FunctionInfo.param_count,
    SYMBOL_TABLE_SIZE,
    codegen_generate, codegen_run, codegen_create, gen_node, gen_functions, gen_function,
    clear_locals, add_param_locals, add_ast_params, add_local, find_local, register_function,
    current_address, Bytecode.code_size, emit, emit_simple, gen_block, gen_stmts, gen_statement,
    gen_return, gen_expression, gen_args, binary_opcode, find_function, find_function_from,
    patch_jumps, patch_loop, MAX_CODE_SIZE, MAX_FUNCTIONS, MAX_LOCAL_SYMBOLS]

set_option maxRecDepth 4000 in
set_option maxHeartbeats 1000000 in
/-- C7 (failing input): in the code compiled for `int kimlik(int x) { return x; }
int ana() { return kimlik(5); }` the CALL of the one-parameter function is
reached with `sp = 33`; when the callee has returned by RETVAL the caller is
back in frame 0 with `sp = 32`, which is `S - 2p + 1` and not
`S - p + 1 = 33`. -/
theorem retval_unbalances_caller_stack :
    ∃ bc, compile prog_identity_call = some bc ∧
      ∃ before callee after,
        vm_steps bc 2 (vm_enter_main vm_create bc) = some before ∧
        bc.code.get? before.pc.toNat = some ⟨OP_CALL, 0⟩ ∧
        (bc.functions.get? 0).map (fun f => f.param_count) = some 1 ∧
        before.fp = 0 ∧ before.sp = 33 ∧
        vm_steps bc 3 before = some callee ∧
        bc.code.get? callee.pc.toNat = some ⟨OP_RETVAL, 0⟩ ∧ callee.fp = 1 ∧
        vm_steps bc 1 callee = some after ∧
        after.pc = before.pc + 1 ∧ after.fp = 0 ∧ after.sp = 32 ∧ after.errlog = [] := by
  refine ⟨_, compile_prog_identity_call, ?_⟩
  simp [bc_identity_call, vm_steps, vm_enter_main, frame_param_count, vm_step, vm_exec_inst,
    vm_create, push, pop, peek, get_local, set_local, arr_set, Bytecode.code_size,
    Bytecode.function_count, VM_STACK_SIZE, VM_CALL_STACK_SIZE]

/-- C8 (counterexample): RET executed in frame 1 of a one-parameter function
whose base pointer is 33 leaves `sp = 33`, not `33 - 1`: the parameter count
is not subtracted. -/
theorem ret_does_not_subtract_param_count :
    vm_in_call.fp > 0 ∧
    frame_param_count bc_one_param vm_in_call = some 1 ∧
    ∃ vm, vm_exec_inst bc_one_param vm_in_call ⟨OP_RET, 0⟩ = some vm ∧
      vm.sp = 33 ∧
      vm.sp ≠ (vm_in_call.frames vm_in_call.fp).base_ptr - 1 := by
  simp [vm_in_call, bc_one_param, frame_param_count, vm_exec_inst, vm_create, arr_set]

/-- C8 (amended): RET executed with `fp > 0` sets `sp := frames[fp].base_ptr`,
`pc := frames[fp].return_addr` and `fp := fp - 1`, and changes nothing else: no
value is popped or pushed and, unlike RETVAL, no parameter count is
subtracted. -/
theorem ret_unwinds_to_base_ptr (bc : Bytecode) (vm : VM) (operand : Int) (h : vm.fp > 0) :
    vm_exec_inst bc vm ⟨OP_RET, operand⟩ =
      some { vm with
        sp := (vm.frames vm.fp).base_ptr
        pc := (vm.frames vm.fp).return_addr
        fp := vm.fp - 1 } := by
  have h' : ¬ vm.fp ≤ 0 := by omega
  simp [vm_exec_inst, h']

theorem ret_unwinds_to_base_ptr_witness :
    vm_in_call.fp > 0 ∧
    vm_exec_inst bc_one_param vm_in_call ⟨OP_RET, 0⟩ =
      some { vm_in_call with
        sp := (vm_in_call.frames vm_in_call.fp).base_ptr
        pc := (vm_in_call.frames vm_in_call.fp).return_addr
        fp := vm_in_call.fp - 1 } :=
  ⟨by decide, ret_unwinds_to_base_ptr bc_one_param vm_in_call 0 (by decide)⟩

set_option maxRecDepth 4000 in
set_option maxHeartbeats 1000000 in
/-- C9 (failing input): `int ana() { return f(); }  int f() { return 1; }` is
accepted by the analyzer without a diagnostic, yet the generator compiles the
call of `f`, which is defined after `ana`, to the unknown-function fallback
`PUSH 0` at address 1; the program contains no CALL instruction at all. -/
theorem forward_call_compiles_to_push_zero :
    (semantic_analyze semantic_create prog_forward_call).1 = true ∧
    ∃ bc, compile prog_forward_call = some bc ∧
      bc.functions.map (fun f => f.name) = ["ana", "f"] ∧
      bc.code.take 3 = [⟨OP_ENTER, 32⟩, ⟨OP_PUSH, 0⟩, ⟨OP_RETVAL, 0⟩] ∧
      ∀ inst ∈ bc.code, inst.opcode ≠ OP_CALL := by
  simp [compile, prog_forward_call, ast_program, ast_function, ast_return, ast_binary,
    ast_ident, ast_call, ast_num, ast, ast_append_child, ast_append_sibling,
    ast_create_typed_node, ast_create_node, ast_set_type,
    semantic_get_symbol_table, atoi_one,
    semantic_analyze, collect_functions, collect_functions_loop, semantic_create,
    symbol_table_create, symbol_lookup, hash_f, hash_ana, cstr,
    datatype_from_string, symbol_declare_function, symbol_declare, symbol_lookup_current_scope,
    bucket_set, get_child, sibling_at, ASTNode.is, ASTNode.first_child, ASTNode.text,
    collect_params, symtab_add_parameter, symbol_add_parameter, MAX_PARAMS,
    analyze_node, analyze_nodes, analyze_function, symbol_set_current_function,
    symbol_enter_scope, declare_params, SymbolTable.cur_local_offset, analyze_stmts,
    analyze_statement, analyze_return, analyze_expression, analyze_args, types_compatible,
    symbol_exit_scope, semantic_error, is_comparison_op, FunctionInfo.param_count,
    SYMBOL_TABLE_SIZE,
    codegen_generate, codegen_run, codegen_create, gen_node, gen_functions, gen_function,
    clear_locals, add_param_locals, add_ast_params, add_local, find_local, register_function,
    current_address, Bytecode.code_size, emit, emit_simple, gen_block, gen_stmts, gen_statement,
    gen_return, gen_expression, gen_args, binary_opcode, find_function, find_function_from,
    patch_jumps, patch_loop, MAX_CODE_SIZE, MAX_FUNCTIONS, MAX_LOCAL_SYMBOLS]

theorem hash_s : hash_string "s" = 24 := by decide

theorem hash_i : hash_string "i" = 14 := by decide

set_option maxRecDepth 8000 in
set_option maxHeartbeats 2000000 in
theorem compile_prog_while (tn : String) :
    compile (prog_while tn) = some (bc_while (atoi tn)) := by
  simp [compile, prog_while, ast_program, ast_function, ast_return, ast_binary, ast_ident,
    ast_var_decl, ast_assign_stmt, ast_num, ast, ast_append_child, ast_append_sibling,
    ast_create_typed_node,
    ast_create_node, ast_set_type, bc_while, semantic_get_symbol_table,
    semantic_analyze, collect_functions, collect_functions_loop, semantic_create,
    symbol_table_create, symbol_lookup, hash_ana, hash_s, hash_i, cstr, atoi_zero, atoi_one,
    datatype_from_string, symbol_declare_function, symbol_declare, symbol_lookup_current_scope,
    bucket_set, get_child, sibling_at, ASTNode.is, ASTNode.first_child, ASTNode.text,
    collect_params, symtab_add_parameter, symbol_add_parameter, MAX_PARAMS,
    analyze_node, analyze_nodes, analyze_function, symbol_set_current_function,
    symbol_enter_scope, declare_params, SymbolTable.cur_local_offset, analyze_stmts,
    analyze_statement, analyze_return, analyze_expression, analyze_args, types_compatible,
    analyze_var_decl, analyze_while, analyze_block, analyze_condition,
    symbol_exit_scope, semantic_error, is_comparison_op, FunctionInfo.param_count,
    SYMBOL_TABLE_SIZE,
    codegen_generate, codegen_run, codegen_create, gen_node, gen_functions, gen_function,
    clear_locals, add_param_locals, add_ast_params, add_local, find_local, register_function,
    current_address, Bytecode.code_size, emit, emit_simple, gen_block, gen_stmts, gen_statement,
    gen_return, gen_expression, gen_args, binary_opcode, find_function, find_function_from,
    gen_var_decl, gen_while, new_label, set_label, emit_jump, set_operand, MAX_LABELS,
    patch_jumps, patch_loop, MAX_CODE_SIZE, MAX_FUNCTIONS, MAX_LOCAL_SYMBOLS]

theorem tri_nonneg (k : Nat) : 0 ≤ tri k := by
  induction k with
  | zero => simp [tri]
  | succ k ih => simp only [tri]; omega

theorem tri_mono {j k : Nat} (h : j ≤ k) : tri j ≤ tri k := by
  induction h with
  | refl => exact le_refl _
  | step _ ih => simp only [tri]; omega

theorem tri_ge (k : Nat) (h : 2 ≤ k) : (k : Int) + 1 ≤ tri k := by
  induction k with
  | zero => omega
  | succ k ih =>
    simp only [tri]
    rcases Nat.lt_or_ge k 2 with h2 | h2
    · have hk : k = 1 := by omega
      subst hk
      simp [tri]
    · have := ih h2
      push_cast
      omega

theorem tri_eq (k : Nat) : tri k = (k : Int) * ((k : Int) + 1) / 2 := by
  induction k with
  | zero => simp [tri]
  | succ k ih =>
    simp only [tri, ih]
    push_cast
    have e : ((k : Int) + 1) * ((k : Int) + 1 + 1) = (k : Int) * ((k : Int) + 1) + ((k : Int) + 1) * 2 := by
      ring
    rw [e, Int.add_mul_ediv_right _ _ (by norm_num : (2 : Int) ≠ 0)]

set_option maxRecDepth 8000 in
set_option maxHeartbeats 2000000 in
theorem while_enter (n : Int) :
    ∃ vm, vm_steps (bc_while n) 5 (vm_enter_main vm_create (bc_while n)) = some vm ∧
      at_loop_head vm 0 1 := by
  simp [bc_while, at_loop_head, frame0_at, vm_steps, vm_enter_main, vm_step, vm_exec_inst,
    vm_create,
    push, pop, peek, get_local, set_local, arr_set, Bytecode.code_size, VM_STACK_SIZE]

set_option maxRecDepth 8000 in
set_option maxHeartbeats 2000000 in
theorem while_cond_true (n s i : Int) (vm : VM) (h : frame0_at vm 5 s i) (hle : i ≤ n) :
    ∃ vm', vm_steps (bc_while n) 4 vm = some vm' ∧ frame0_at vm' 9 s i := by
  obtain ⟨stack, sp, frames, fp, pc, running, exit_code, debug, errlog⟩ := vm
  simp only [frame0_at] at h
  obtain ⟨rfl, rfl, rfl, rfl, hb, hs0, hi0, rfl⟩ := h
  simp [bc_while, frame0_at, vm_steps, vm_step, vm_exec_inst, binop, bool_int,
    push, pop, peek, get_local, set_local, arr_set, Bytecode.code_size, VM_STACK_SIZE,
    hb, hs0, hi0, hle]

set_option maxRecDepth 8000 in
set_option maxHeartbeats 2000000 in
theorem while_assign_s (n s i : Int) (vm : VM) (h : frame0_at vm 9 s i)
    (hs : wrap32 (s + i) = s + i) :
    ∃ vm', vm_steps (bc_while n) 6 vm = some vm' ∧ frame0_at vm' 15 (s + i) i := by
  obtain ⟨stack, sp, frames, fp, pc, running, exit_code, debug, errlog⟩ := vm
  simp only [frame0_at] at h
  obtain ⟨rfl, rfl, rfl, rfl, hb, hs0, hi0, rfl⟩ := h
  simp [bc_while, frame0_at, vm_steps, vm_step, vm_exec_inst, binop, bool_int,
    push, pop, peek, get_local, set_local, arr_set, Bytecode.code_size, VM_STACK_SIZE,
    hb, hs0, hi0, hs]

set_option maxRecDepth 8000 in
set_option maxHeartbeats 2000000 in
theorem while_assign_i (n s i : Int) (vm : VM) (h : frame0_at vm 15 s i)
    (hi : wrap32 (i + 1) = i + 1) :
    ∃ vm', vm_steps (bc_while n) 7 vm = some vm' ∧ frame0_at vm' 5 s (i + 1) := by
  obtain ⟨stack, sp, frames, fp, pc, running, exit_code, debug, errlog⟩ := vm
  simp only [frame0_at] at h
  obtain ⟨rfl, rfl, rfl, rfl, hb, hs0, hi0, rfl⟩ := h
  simp [bc_while, frame0_at, vm_steps, vm_step, vm_exec_inst, binop, bool_int,
    push, pop, peek, get_local, set_local, arr_set, Bytecode.code_size, VM_STACK_SIZE,
    hb, hs0, hi0, hi]

theorem while_iteration (n s i : Int) (vm : VM) (h : at_loop_head vm s i) (hle : i ≤ n)
    (hs : wrap32 (s + i) = s + i) (hi : wrap32 (i + 1) = i + 1) :
    ∃ vm', vm_steps (bc_while n) 17 vm = some vm' ∧ at_loop_head vm' (s + i) (i + 1) := by
  obtain ⟨vm1, h1, i1⟩ := while_cond_true n s i vm h hle
  obtain ⟨vm2, h2, i2⟩ := while_assign_s n s i vm1 i1 hs
  obtain ⟨vm3, h3, i3⟩ := while_assign_i n (s + i) i vm2 i2 hi
  refine ⟨vm3, ?_, i3⟩
  have e : 17 = 4 + (6 + 7) := rfl
  rw [e, vm_steps_add, h1]
  show vm_steps _ (6 + 7) vm1 = _
  rw [vm_steps_add, h2]
  exact h3

set_option maxRecDepth 8000 in
set_option maxHeartbeats 2000000 in
theorem while_exit (n s i : Int) (vm : VM) (h : at_loop_head vm s i) (hgt : n < i) :
    ∃ vm', vm_steps (bc_while n) 6 vm = some vm' ∧ vm'.running = false ∧
      vm'.exit_code = s ∧ vm'.errlog = [] := by
  obtain ⟨stack, sp, frames, fp, pc, running, exit_code, debug, errlog⟩ := vm
  simp only [at_loop_head, frame0_at] at h
  obtain ⟨rfl, rfl, rfl, rfl, hb, hs0, hi0, rfl⟩ := h
  have hn : ¬ i ≤ n := by omega
  simp [bc_while, vm_steps, vm_step, vm_exec_inst, binop, bool_int,
    push, pop, peek, get_local, set_local, arr_set, Bytecode.code_size, VM_STACK_SIZE,
    hb, hs0, hi0, hn]

theorem while_iterations (N : Nat) (hN : tri N ≤ INT_MAX) :
    ∀ (m j : Nat) (vm : VM), j + m = N → at_loop_head vm (tri j) ((j : Int) + 1) →
      ∃ vm', vm_steps (bc_while N) (17 * m) vm = some vm' ∧
        at_loop_head vm' (tri N) ((N : Int) + 1) := by
  intro m
  induction m with
  | zero =>
    intro j vm hj h
    have : j = N := by omega
    subst this
    exact ⟨vm, by simp [vm_steps], h⟩
  | succ m ih =>
    intro j vm hj h
    have hjN : j + 1 ≤ N := by omega
    have h1 : tri (j + 1) ≤ INT_MAX := le_trans (tri_mono hjN) hN
    have h0 : 0 ≤ tri (j + 1) := tri_nonneg _
    have hN1 : (N : Int) + 1 ≤ INT_MAX := by
      rcases Nat.lt_or_ge N 2 with h2 | h2
      · unfold INT_MAX; omega
      · exact le_trans (tri_ge N h2) hN
    have hs : wrap32 (tri j + ((j : Int) + 1)) = tri j + ((j : Int) + 1) := by
      apply wrap32_of_range
      · have := tri_nonneg j; unfold INT_MIN; omega
      · simp only [tri] at h1; push_cast at h1; exact h1
    have hi : wrap32 ((j : Int) + 1 + 1) = (j : Int) + 1 + 1 := by
      apply wrap32_of_range
      · unfold INT_MIN; omega
      · omega
    obtain ⟨vm1, hstep, hinv⟩ :=
      while_iteration (N : Int) (tri j) ((j : Int) + 1) vm h (by omega) hs hi
    have hinv' : at_loop_head vm1 (tri (j + 1)) (((j + 1 : Nat) : Int) + 1) := by
      simp only [tri]; push_cast; exact hinv
    obtain ⟨vm2, hsteps, hfin⟩ := ih (j + 1) vm1 (by omega) hinv'
    refine ⟨vm2, ?_, hfin⟩
    have e : 17 * (m + 1) = 17 + 17 * m := by ring
    rw [e, vm_steps_add, hstep]
    exact hsteps

theorem run_bc_while (N : Nat) (hN : tri N ≤ INT_MAX) :
    ∃ fuel vm, vm_execute fuel vm_create (bc_while N) = .returned (tri N) vm ∧
      vm.errlog = [] := by
  obtain ⟨vm1, h1, inv1⟩ := while_enter (N : Int)
  obtain ⟨vm2, h2, inv2⟩ := while_iterations N hN N 0 vm1 (by omega) (by simpa [tri] using inv1)
  obtain ⟨vm3, h3, hr, he, hl⟩ := while_exit (N : Int) (tri N) ((N : Int) + 1) vm2 inv2 (by omega)
  refine ⟨5 + (17 * N + (6 + 0)), vm3, ?_, hl⟩
  have hm : ¬ (bc_while (N : Int)).main_entry < 0 := by simp [bc_while]
  rw [vm_execute, if_neg hm, vm_loop_of_steps _ _ _ _ h1, vm_loop_of_steps _ _ _ _ h2,
    vm_loop_of_steps _ _ _ _ h3]
  simp [vm_loop, hr, he]

/-- C3: for every literal `n >= 0` whose triangular number `n (n + 1) / 2` fits
a 32-bit `int`, compiling `int ana() { int s = 0; int i = 1; while (i <= n)
{ s = s + i; i = i + 1; } return s; }` and running it in a fresh VM terminates
and returns `n (n + 1) / 2`, without a trap. -/
theorem while_loop_returns_triangular_number (tn : String) (h0 : 0 ≤ atoi tn)
    (hmax : atoi tn * (atoi tn + 1) / 2 ≤ INT_MAX) :
    ∃ bc, compile (prog_while tn) = some bc ∧
      ∃ fuel vm, vm_execute fuel vm_create bc
          = .returned (atoi tn * (atoi tn + 1) / 2) vm ∧ vm.errlog = [] := by
  refine ⟨_, compile_prog_while tn, ?_⟩
  obtain ⟨N, hN⟩ := Int.eq_ofNat_of_zero_le h0
  rw [hN] at hmax ⊢
  rw [← tri_eq] at hmax ⊢
  exact run_bc_while N hmax

theorem while_loop_returns_triangular_number_witness :
    (0 ≤ atoi "10" ∧ atoi "10" * (atoi "10" + 1) / 2 ≤ INT_MAX) ∧
    ∃ bc, compile (prog_while "10") = some bc ∧
      ∃ fuel vm, vm_execute fuel vm_create bc = .returned 55 vm ∧ vm.errlog = [] :=
  ⟨by decide, while_loop_returns_triangular_number "10" (by decide) (by decide)⟩

theorem to_ast_ne_null (e : Arith) (s : ASTNode) : e.to_ast s ≠ .null := by
  cases e <;> simp [Arith.to_ast]

theorem sibling_at_to_ast (e : Arith) (s : ASTNode) (n : Nat) :
    sibling_at (n + 1) (e.to_ast s) = sibling_at n s := by
  cases e <;> simp [Arith.to_ast, sibling_at]

theorem ast_append_sibling_null (n : ASTNode) : ast_append_sibling .null n = n := by
  cases n <;> simp [ast_append_sibling]

theorem binary_opcode_spelling (op : ArithOp) :
    binary_opcode op.spelling = some op.opcode := by
  cases op <;> decide

theorem is_comparison_op_spelling (op : ArithOp) :
    is_comparison_op (some op.spelling) = false := by
  cases op <;> decide

theorem analyze_expression_arith (e : Arith) :
    ∀ (a : SemanticAnalyzer) (s : ASTNode), analyze_expression a (e.to_ast s) = (TYPE_INT, a) := by
  induction e with
  | lit text line => intro a s; simp [Arith.to_ast, analyze_expression]
  | bin op line l r ihl ihr =>
    intro a s
    simp [Arith.to_ast, analyze_expression, get_child, sibling_at, sibling_at_to_ast, ihl, ihr,
      types_compatible, is_comparison_op_spelling]

theorem gen_expression_arith (e : Arith) :
    ∀ (gen : CodeGenerator) (s : ASTNode),
      gen_expression gen (e.to_ast s) =
        if gen.bc.code.length + e.code.length ≤ MAX_CODE_SIZE then some (gen.append e.code)
        else none := by
  induction e with
  | lit text line =>
    intro gen s
    simp only [Arith.to_ast, gen_expression, emit, cstr, Option.getD, Arith.code,
      CodeGenerator.append, List.length_singleton]
    by_cases h : gen.bc.code.length ≥ MAX_CODE_SIZE
    · rw [if_pos h, if_neg (by omega)]
    · rw [if_neg h, if_pos (by omega)]
  | bin op line l r ihl ihr =>
    intro gen s
    simp only [Arith.to_ast, gen_expression, get_child, sibling_at, sibling_at_to_ast, ihl, ihr,
      cstr, Option.getD, binary_opcode_spelling, emit_simple, emit, Arith.code,
      CodeGenerator.append, List.length_append, List.length_singleton, Option.bind_eq_bind]
    by_cases h1 : gen.bc.code.length + l.code.length ≤ MAX_CODE_SIZE
    · by_cases h2 : gen.bc.code.length + l.code.length + r.code.length ≤ MAX_CODE_SIZE
      · simp only [h1, h2, if_true, Option.some_bind, List.length_append, List.append_assoc]
        split_ifs <;> first | rfl | (exfalso; omega)
      · simp only [h1, h2, if_true, if_false, Option.some_bind, Option.none_bind,
          List.length_append]
        split_ifs <;> first | rfl | (exfalso; omega)
    · simp only [h1, if_false, Option.none_bind]
      split_ifs <;> first | rfl | (exfalso; omega)

/-- The code generated for `int ana() { return e; }`, before any capacity
check: prologue, expression, RETVAL, default return, HALT. -/
theorem codegen_prog_arith (e : Arith) (st : SymbolTable)
    (hst : (symbol_lookup st "ana").bind (fun sym => sym.func_info)
      = some { return_type := TYPE_INT, params := [] }) :
    codegen_generate (codegen_create st) (prog_arith e) =
      if e.code.length + 5 ≤ MAX_CODE_SIZE then some (bc_arith e) else none := by
  have hne := to_ast_ne_null e .null
  simp only [prog_arith, ast_program, ast_function, ast_return, ast,
    ast_append_child, ast_append_sibling, ast_append_sibling_null, ast_create_typed_node,
    ast_create_node, ast_set_type, List.foldl, List.map]
  simp only [codegen_generate, codegen_run, codegen_create, gen_node, gen_functions,
    gen_function, clear_locals, cstr, Option.getD, hst, add_param_locals, get_child,
    sibling_at, ASTNode.is, ASTNode.first_child, add_ast_params, register_function,
    current_address, Bytecode.code_size, emit, emit_simple, gen_block, gen_stmts, gen_statement,
    gen_return, hne, gen_expression_arith, CodeGenerator.append, patch_jumps, patch_loop,
    FunctionInfo.param_count, MAX_FUNCTIONS, MAX_CODE_SIZE, bc_arith]
  by_cases h : e.code.length + 5 ≤ 4096
  · simp (disch := omega) [if_pos, if_neg, patch_loop]
  · rw [if_neg h]
    have hc : e.code.length = 4092 ∨ e.code.length = 4093 ∨ e.code.length = 4094 ∨
        e.code.length = 4095 ∨ 4096 ≤ e.code.length := by omega
    rcases hc with hc | hc | hc | hc | hc
    · simp [hc]
    · simp [hc]
    · simp [hc]
    · simp [hc]
    · simp (disch := omega) [if_pos, if_neg]

set_option maxRecDepth 4000 in
set_option maxHeartbeats 1000000 in
theorem analyze_prog_arith (e : Arith) :
    (semantic_analyze semantic_create (prog_arith e)).1 = true ∧
    (symbol_lookup (semantic_get_symbol_table (semantic_analyze semantic_create (prog_arith e)).2)
        "ana").bind (fun sym => sym.func_info)
      = some { return_type := TYPE_INT, params := [] } := by
  have hne := to_ast_ne_null e .null
  simp only [prog_arith, ast_program, ast_function, ast_return, ast,
    ast_append_child, ast_append_sibling, ast_append_sibling_null, ast_create_typed_node,
    ast_create_node, ast_set_type, List.foldl, List.map]
  simp [semantic_get_symbol_table, hne, analyze_expression_arith,
    semantic_analyze, collect_functions, collect_functions_loop, semantic_create,
    symbol_table_create, symbol_lookup, hash_ana, cstr,
    datatype_from_string, symbol_declare_function, symbol_declare, symbol_lookup_current_scope,
    bucket_set, get_child, sibling_at, ASTNode.is, ASTNode.first_child, ASTNode.text,
    collect_params, symtab_add_parameter, symbol_add_parameter, MAX_PARAMS,
    analyze_node, analyze_nodes, analyze_function, symbol_set_current_function,
    symbol_enter_scope, declare_params, SymbolTable.cur_local_offset, analyze_stmts,
    analyze_statement, analyze_return, types_compatible,
    symbol_exit_scope, semantic_error, FunctionInfo.param_count,
    SYMBOL_TABLE_SIZE]

theorem compile_prog_arith (e : Arith) :
    compile (prog_arith e) =
      if e.code.length + 5 ≤ MAX_CODE_SIZE then some (bc_arith e) else none :=
  codegen_prog_arith e _ (analyze_prog_arith e).2

/-- One loop iteration at an address whose instruction is known. -/
theorem vm_steps_one (bc : Bytecode) (vm : VM) (pre post : List Instruction) (inst : Instruction)
    (hc : bc.code = pre ++ inst :: post) (hpc : vm.pc = pre.length) (hr : vm.running = true) :
    vm_steps bc 1 vm = vm_exec_inst bc { vm with pc := vm.pc + 1 } inst := by
  have hlt : vm.pc < bc.code_size := by
    simp only [Bytecode.code_size, hc, hpc, List.length_append, List.length_cons]
    omega
  have hge : ¬ vm.pc < 0 := by omega
  have hget : bc.code.get? vm.pc.toNat = some inst := by
    rw [hc, hpc, Int.toNat_ofNat, List.get?_eq_getElem?,
      List.getElem?_append_right (le_refl _), Nat.sub_self, List.getElem?_cons_zero]
  simp only [vm_steps, hr, hlt, and_self, if_true, vm_step, hge, if_false, hget]
  exact Option.bind_some _

theorem stack_need_pos (e : Arith) : 1 ≤ e.stack_need := by
  cases e with
  | lit t l => simp [Arith.stack_need]
  | bin op ln l r => simp only [Arith.stack_need]; omega

theorem eval_in_range (op : ArithOp) (a b : Int)
    (h1 : INT_MIN ≤ op.eval a b) (h2 : op.eval a b ≤ INT_MAX) :
    (match op with
      | .add => wrap32 (a + b)
      | .sub => wrap32 (a - b)
      | .mul => wrap32 (a * b)) = op.eval a b := by
  cases op <;> exact wrap32_of_range _ h1 h2

/-- Running the code of an expression tree pushes its value: wherever the
code sits in the program, from a running state at its first instruction with
enough room on the operand stack, the interpreter reaches the instruction
after it with the value on top and the stack below unchanged. -/
theorem run_arith_code (e : Arith) :
    ∀ (bc : Bytecode) (pre post : List Instruction) (vm : VM),
      bc.code = pre ++ e.code ++ post → vm.pc = pre.length → vm.running = true →
      0 ≤ vm.sp → vm.sp + e.stack_need ≤ 1024 → e.in_range →
      ∃ stack', vm_steps bc e.code.length vm =
          some { vm with pc := vm.pc + e.code.length, sp := vm.sp + 1, stack := stack' } ∧
        stack' vm.sp = e.value ∧ ∀ j, j < vm.sp → stack' j = vm.stack j := by
  induction e with
  | lit text line =>
    intro bc pre post vm hc hpc hr h0 hs _
    simp only [Arith.code, List.append_assoc, List.singleton_append] at hc
    simp only [Arith.stack_need] at hs
    refine ⟨arr_set vm.stack vm.sp (atoi text), ?_, by simp [arr_set, Arith.value], ?_⟩
    · simp only [Arith.code, List.length_singleton]
      rw [vm_steps_one bc vm pre post _ hc hpc hr]
      have h1 : ¬ vm.sp ≥ VM_STACK_SIZE := by unfold VM_STACK_SIZE; omega
      have h2 : ¬ vm.sp < 0 := by omega
      simp [vm_exec_inst, push, h1, h2]
    · intro j hj
      have : j ≠ vm.sp := by omega
      simp [arr_set, this]
  | bin op line l r ihl ihr =>
    intro bc pre post vm hc hpc hr h0 hs hin
    simp only [Arith.stack_need] at hs
    obtain ⟨hl, hrr, hlo, hhi⟩ := hin
    have hsl : vm.sp + l.stack_need ≤ 1024 := by
      have := le_max_left l.stack_need (1 + r.stack_need); omega
    have hsr : vm.sp + 1 + r.stack_need ≤ 1024 := by
      have := le_max_right l.stack_need (1 + r.stack_need); omega
    have hcl : bc.code = pre ++ l.code ++ (r.code ++ [⟨op.opcode, 0⟩] ++ post) := by
      simp only [hc, Arith.code, List.append_assoc]
    obtain ⟨st1, hrun1, hv1, hk1⟩ := ihl bc pre _ vm hcl hpc hr h0 hsl hl
    have hcr : bc.code = (pre ++ l.code) ++ r.code ++ ([⟨op.opcode, 0⟩] ++ post) := by
      simp only [hc, Arith.code, List.append_assoc]
    obtain ⟨st2, hrun2, hv2, hk2⟩ := ihr bc (pre ++ l.code) _
      { vm with pc := vm.pc + l.code.length, sp := vm.sp + 1, stack := st1 } hcr
      (by simp [hpc]) hr (by show 0 ≤ vm.sp + 1; omega) hsr hrr
    have hrun2' : vm_steps bc r.code.length
        { vm with pc := vm.pc + l.code.length, sp := vm.sp + 1, stack := st1 } =
        some { vm with pc := vm.pc + l.code.length + r.code.length, sp := vm.sp + 1 + 1,
                       stack := st2 } := hrun2
    have hco : bc.code = (pre ++ l.code ++ r.code) ++ ⟨op.opcode, 0⟩ :: post := by
      simp only [hc, Arith.code, List.append_assoc, List.singleton_append]
    have hone := vm_steps_one bc
      { vm with pc := vm.pc + l.code.length + r.code.length, sp := vm.sp + 1 + 1, stack := st2 }
      (pre ++ l.code ++ r.code) post _ hco
      (by simp only [hpc, List.length_append]; push_cast; omega) hr
    have hrn := stack_need_pos r
    refine ⟨arr_set st2 vm.sp (op.eval l.value r.value), ?_, by simp [arr_set, Arith.value], ?_⟩
    · have e1 : (Arith.bin op line l r).code.length = l.code.length + (r.code.length + 1) := by
        simp only [Arith.code, List.length_append, List.length_singleton]; omega
      rw [e1, vm_steps_add, hrun1, Option.some_bind, vm_steps_add, hrun2', Option.some_bind, hone]
      have h1 : ¬ vm.sp + 1 + 1 ≤ 0 := by omega
      have h2 : ¬ vm.sp + 1 + 1 - 1 ≥ VM_STACK_SIZE := by unfold VM_STACK_SIZE; omega
      have h3 : ¬ vm.sp + 1 ≤ 0 := by omega
      have h4 : ¬ vm.sp + 1 - 1 ≥ VM_STACK_SIZE := by unfold VM_STACK_SIZE; omega
      have h5 : ¬ vm.sp ≥ VM_STACK_SIZE := by unfold VM_STACK_SIZE; omega
      have h6 : ¬ vm.sp < 0 := by omega
      have e2 : vm.sp + 1 + 1 - 1 = vm.sp + 1 := by omega
      have e3 : vm.sp + 1 - 1 = vm.sp := by omega
      have hv2' : st2 (vm.sp + 1) = r.value := hv2
      have hv1' : st2 vm.sp = l.value := by
        rw [hk2 vm.sp (by show vm.sp < vm.sp + 1; omega)]; exact hv1
      have hw := eval_in_range op l.value r.value hlo hhi
      have h7 : ¬ vm.sp + 1 ≥ VM_STACK_SIZE := by unfold VM_STACK_SIZE; omega
      have e4 : vm.pc + ↑l.code.length + ↑r.code.length + 1
          = vm.pc + ↑(l.code.length + (r.code.length + 1)) := by push_cast; omega
      cases op <;>
        simp only [vm_exec_inst, binop, pop, push, h1, h2, h3, h4, h5, h6, h7, e2, e3, hv2', hv1',
          ArithOp.opcode, ArithOp.eval, if_false, Option.bind_eq_bind, Option.some_bind, e4]
          at hw ⊢ <;>
        rw [hw]
    · intro j hj
      have hne : j ≠ vm.sp := by omega
      simp only [arr_set, hne, if_false]
      rw [hk2 j (by show j < vm.sp + 1; omega)]
      exact hk1 j hj

theorem run_bc_arith (e : Arith) (hr : e.in_range) (hs : 32 + e.stack_need ≤ 1024) :
    ∃ fuel vm, vm_execute fuel vm_create (bc_arith e) = .returned e.value vm ∧
      vm.errlog = [] := by
  let bc := bc_arith e
  have hcode : bc.code = [⟨OP_ENTER, 32⟩] ++ e.code ++
      [⟨OP_RETVAL, 0⟩, ⟨OP_PUSH, 0⟩, ⟨OP_RETVAL, 0⟩, ⟨OP_HALT, 0⟩] := rfl
  -- ENTER
  have h1 : vm_steps bc 1 (vm_enter_main vm_create bc) =
      some { vm_enter_main vm_create bc with
        pc := 1, sp := 32
        frames := arr_set (vm_enter_main vm_create bc).frames 0
          { (vm_enter_main vm_create bc).frames 0 with base_ptr := 0 } } := by
    rw [vm_steps_one bc _ [] (e.code ++ [⟨OP_RETVAL, 0⟩, ⟨OP_PUSH, 0⟩, ⟨OP_RETVAL, 0⟩,
      ⟨OP_HALT, 0⟩]) ⟨OP_ENTER, 32⟩ (by simp [hcode]) rfl rfl]
    simp [vm_exec_inst, vm_enter_main, vm_create, bc, bc_arith]
  -- the expression
  obtain ⟨st, h2, hv, _⟩ := run_arith_code e bc [⟨OP_ENTER, 32⟩] _
    { vm_enter_main vm_create bc with
        pc := 1, sp := 32
        frames := arr_set (vm_enter_main vm_create bc).frames 0
          { (vm_enter_main vm_create bc).frames 0 with base_ptr := 0 } }
    hcode rfl rfl (by show (0 : Int) ≤ 32; omega) (by show (32 : Int) + _ ≤ 1024; omega) hr
  -- RETVAL at the top level
  have hv' : st 32 = e.value := hv
  have h3 : ∃ vm3, vm_steps bc 1
      { vm_enter_main vm_create bc with
        pc := 1 + e.code.length, sp := 32 + 1, stack := st
        frames := arr_set (vm_enter_main vm_create bc).frames 0
          { (vm_enter_main vm_create bc).frames 0 with base_ptr := 0 } } = some vm3 ∧
      vm3.running = false ∧ vm3.exit_code = e.value ∧ vm3.errlog = [] := by
    rw [vm_steps_one bc _ ([⟨OP_ENTER, 32⟩] ++ e.code)
      [⟨OP_PUSH, 0⟩, ⟨OP_RETVAL, 0⟩, ⟨OP_HALT, 0⟩] ⟨OP_RETVAL, 0⟩ (by simp [hcode])
      (by simp only [List.length_append, List.length_singleton]; push_cast; omega) rfl]
    simp [vm_exec_inst, pop, vm_enter_main, vm_create, VM_STACK_SIZE, hv']
  obtain ⟨vm3, h3, hrun, hex, hlog⟩ := h3
  refine ⟨1 + (e.code.length + (1 + 0)), vm3, ?_, hlog⟩
  have hm : ¬ bc.main_entry < 0 := by simp [bc, bc_arith]
  rw [vm_execute, if_neg hm, vm_loop_of_steps _ _ _ _ h1, vm_loop_of_steps _ _ _ _ h2,
    vm_loop_of_steps _ _ _ _ h3]
  simp [vm_loop, hrun, hex]

theorem sum_chain_facts (k : Nat) (hk : (k : Int) + 1 ≤ INT_MAX) :
    (sum_chain k).value = k + 1 ∧ (sum_chain k).in_range ∧ (sum_chain k).stack_need ≤ 2 ∧
      (sum_chain k).code.length = 2 * k + 1 := by
  induction k with
  | zero => simp [sum_chain, Arith.value, Arith.in_range, Arith.stack_need, Arith.code, atoi_one]
  | succ k ih =>
    obtain ⟨hv, hr, hs, hc⟩ := ih (by push_cast at hk; omega)
    have hmin : INT_MIN ≤ (k : Int) + 1 + 1 := by unfold INT_MIN; omega
    refine ⟨?_, ⟨hr, trivial, ?_, ?_⟩, ?_, ?_⟩
    · simp [sum_chain, Arith.value, ArithOp.eval, hv, atoi_one]
    · simpa [Arith.value, ArithOp.eval, hv, atoi_one] using hmin
    · simpa [Arith.value, ArithOp.eval, hv, atoi_one] using hk
    · simp only [sum_chain, Arith.stack_need]; omega
    · simp only [sum_chain, Arith.code, List.length_append, List.length_singleton, hc]; omega

/-- C2 (counterexample): the sum `1 + 1 + ... + 1` with 2046 additions has no
overflow and needs two operand stack cells, but its program has 4098
instructions: the generator leaves through the capacity check of `emit` and
produces no bytecode. -/
theorem arithmetic_program_exceeds_code_array :
    (sum_chain 2046).in_range ∧ 32 + (sum_chain 2046).stack_need ≤ 1024 ∧
      (sum_chain 2046).value = 2047 ∧ compile (prog_arith (sum_chain 2046)) = none := by
  obtain ⟨hv, hr, hs, hc⟩ := sum_chain_facts 2046 (by unfold INT_MAX; norm_num)
  refine ⟨hr, by omega, by simpa using hv, ?_⟩
  rw [compile_prog_arith, if_neg]
  rw [hc]
  unfold MAX_CODE_SIZE
  omega

/-- C2 (amended): for every expression tree `e` of NUMBER_LITERAL and
BINARY_EXPR nodes with the operators `+`, `-`, `*`, without intermediate 32-bit
overflow, shallow enough for the operand stack and whose program fits the code
array (its code and five more instructions are at most `MAX_CODE_SIZE`),
compiling `int ana() { return e; }` and running it in a fresh VM returns the
value of `e`, without a trap. -/
theorem arithmetic_returns_value (e : Arith) (hr : e.in_range)
    (hs : 32 + e.stack_need ≤ 1024) (hc : e.code.length + 5 ≤ MAX_CODE_SIZE) :
    ∃ bc, compile (prog_arith e) = some bc ∧
      ∃ fuel vm, vm_execute fuel vm_create bc = .returned e.value vm ∧ vm.errlog = [] := by
  refine ⟨bc_arith e, ?_, run_bc_arith e hr hs⟩
  rw [compile_prog_arith, if_pos hc]

theorem arithmetic_returns_value_witness :
    (arith_example.in_range ∧ 32 + arith_example.stack_need ≤ 1024 ∧
      arith_example.code.length + 5 ≤ MAX_CODE_SIZE) ∧
    ∃ bc, compile (prog_arith arith_example) = some bc ∧
      ∃ fuel vm, vm_execute fuel vm_create bc = .returned 13 vm ∧ vm.errlog = [] :=
  have hr : arith_example.in_range := by
    simp only [arith_example, Arith.in_range, Arith.value, ArithOp.eval, true_and]
    decide
  ⟨⟨hr, by decide, by decide⟩, arithmetic_returns_value arith_example hr (by decide) (by decide)⟩

theorem Step.refl (V : Set Nat) (g : CodeGenerator) : Step V g g :=
  ⟨id, le_refl _, fun _ h => h, id⟩

theorem Step.trans {V : Set Nat} {g1 g2 g3 : CodeGenerator} (h1 : Step V g1 g2)
    (h2 : Step V g2 g3) : Step V g1 g3 :=
  ⟨fun h => h2.inv (h1.inv h), le_trans h1.len h2.len, fun l h => h2.res l (h1.res l h),
    fun h => h2.pend (h1.pend h)⟩

/-- A label of `V` that is resolved at the end need not be tracked. -/
theorem Step.shrink {V : Set Nat} {g g' : CodeGenerator} {l : Nat}
    (h : Step (insert l V) g g') (hl : resolved g' l) : Step V g g' := by
  refine ⟨h.inv, h.len, h.res, fun hp pj hpj => ?_⟩
  have hp' : PendOK (insert l V) g := fun pj hpj => by
    rcases hp pj hpj with h1 | h1
    · exact Or.inl h1
    · exact Or.inr (Set.mem_insert_of_mem _ h1)
  rcases h.pend hp' pj hpj with h1 | h1
  · exact Or.inl h1
  · rcases Set.mem_insert_iff.mp h1 with h2 | h2
    · rw [h2]; exact Or.inl hl
    · exact Or.inr h2

theorem get?_append_singleton {α : Type} (l : List α) (x : α) (i : Nat) (y : α)
    (h : (l ++ [x]).get? i = some y) : l.get? i = some y ∨ (i = l.length ∧ y = x) := by
  rw [List.get?_eq_getElem?] at h ⊢
  rcases Nat.lt_or_ge i l.length with hi | hi
  · rw [List.getElem?_append_left hi] at h
    exact Or.inl h
  · rw [List.getElem?_append_right hi] at h
    rcases Nat.eq_or_lt_of_le hi with he | hlt
    · right
      rw [← he, Nat.sub_self, List.getElem?_cons_zero] at h
      exact ⟨he.symm, (Option.some.inj h).symm⟩
    · have : i - l.length = (i - l.length - 1) + 1 := by omega
      rw [this, List.getElem?_cons_succ] at h
      simp at h

theorem get?_append_left_some {α : Type} (l : List α) (x : α) (i : Nat) (y : α)
    (h : l.get? i = some y) : (l ++ [x]).get? i = some y := by
  rw [List.get?_eq_getElem?] at h ⊢
  have hi : i < l.length := by
    by_contra hc
    rw [List.getElem?_eq_none (by omega)] at h
    exact Option.noConfusion h
  rw [List.getElem?_append_left hi]
  exact h

/-- Appending an instruction that is no jump, and whose operand is a valid
function index if it is a CALL, keeps the invariants. -/
theorem emit_step (V : Set Nat) (g g' : CodeGenerator) (op : OpCode) (x : Int)
    (hj : ¬ is_jump op) (hcall : op = OP_CALL → 0 ≤ x ∧ x < g.bc.functions.length)
    (h : emit g op x = some g') : Step V g g' := by
  unfold emit at h
  split at h
  · exact Option.noConfusion h
  · have e := Option.some.inj h
    subst e
    refine ⟨fun inv => ⟨?_, ?_, ?_, ?_, ?_⟩, le_refl _, fun _ h => h, id⟩
    · intro i inst hi hji
      rcases get?_append_singleton _ _ _ _ hi with h1 | ⟨_, h1⟩
      · rcases inv.jumps i inst h1 hji with h2 | h2
        · left
          simp only [List.length_append, List.length_singleton]
          push_cast
          omega
        · exact Or.inr h2
      · subst h1
        exact absurd hji hj
    · intro a ha
      have := inv.labels a ha
      simp only [List.length_append, List.length_singleton]
      push_cast
      omega
    · intro pj hpj
      obtain ⟨inst, h1, h2⟩ := inv.pendings pj hpj
      exact ⟨inst, get?_append_left_some _ _ _ _ h1, h2⟩
    · intro i inst hi hc
      rcases get?_append_singleton _ _ _ _ hi with h1 | ⟨_, h1⟩
      · exact inv.calls i inst h1 hc
      · subst h1
        exact hcall hc
    · intro f hf
      have := inv.entries f hf
      simp only [List.length_append, List.length_singleton]
      push_cast
      omega

/-- A change of the generator outside the code, the labels and the pending
list keeps the invariants. -/
theorem step_of_same (V : Set Nat) (g g' : CodeGenerator) (h1 : g'.bc = g.bc)
    (h2 : g'.label_addresses = g.label_addresses) (h3 : g'.pending = g.pending) :
    Step V g g' := by
  refine ⟨fun inv => ⟨?_, ?_, ?_, ?_, ?_⟩, by rw [h2], fun l h => ?_, fun h pj hpj => ?_⟩
  · rw [h1, h3]; exact inv.jumps
  · rw [h1, h2]; exact inv.labels
  · rw [h1, h3]; exact inv.pendings
  · rw [h1]; exact inv.calls
  · rw [h1]; exact inv.entries
  · unfold resolved at h ⊢; rw [h2]; exact h
  · rw [h3] at hpj
    rcases h pj hpj with h4 | h4
    · left; unfold resolved at h4 ⊢; rw [h2]; exact h4
    · exact Or.inr h4

theorem add_local_step (V : Set Nat) (g : CodeGenerator) (name : String) :
    Step V g (add_local g name).2 := by
  unfold add_local
  simp only
  split
  · exact Step.refl V g
  · split
    · exact Step.refl V g
    · exact step_of_same V _ _ rfl rfl rfl

theorem getD_append_neg_one (l : List Int) (i : Nat) :
    (l ++ [-1]).getD i (-1) = l.getD i (-1) := by
  simp only [List.getD_eq_getElem?_getD]
  rcases Nat.lt_or_ge i l.length with hi | hi
  · rw [List.getElem?_append_left hi]
  · rw [List.getElem?_append_right hi, List.getElem?_eq_none hi]
    rcases Nat.eq_or_lt_of_le hi with he | hlt
    · rw [← he, Nat.sub_self]; rfl
    · have : i - l.length = (i - l.length - 1) + 1 := by omega
      rw [this, List.getElem?_cons_succ]; rfl

theorem new_label_step (V : Set Nat) (g g' : CodeGenerator) (l : Nat)
    (h : new_label g = some (l, g')) :
    Step V g g' ∧ l = g.label_addresses.length ∧ l < g'.label_addresses.length := by
  unfold new_label at h
  split at h
  · exact Option.noConfusion h
  · have e := Option.some.inj h
    simp only [Prod.mk.injEq] at e
    obtain ⟨e1, e2⟩ := e
    subst e2
    refine ⟨⟨fun inv => ⟨inv.jumps, ?_, inv.pendings, inv.calls, inv.entries⟩, ?_, ?_, ?_⟩,
      e1.symm, ?_⟩
    · intro a ha
      rcases List.mem_append.mp ha with h1 | h1
      · exact inv.labels a h1
      · simp only [List.mem_singleton] at h1
        subst h1
        have : (0 : Int) ≤ g.bc.code.length := Int.natCast_nonneg _
        show (-1 : Int) ≤ _
        omega
    · simp
    · intro k hk
      unfold resolved at hk ⊢
      show (0 : Int) ≤ (g.label_addresses ++ [-1]).getD k (-1)
      rw [getD_append_neg_one]; exact hk
    · intro hp pj hpj
      rcases hp pj hpj with h1 | h1
      · left
        unfold resolved at h1 ⊢
        show (0 : Int) ≤ (g.label_addresses ++ [-1]).getD pj.target (-1)
        rw [getD_append_neg_one]; exact h1
      · exact Or.inr h1
    · simp [← e1]

theorem getD_set (l : List Int) (i j : Nat) (v d : Int) :
    (l.set i v).getD j d = if i = j ∧ i < l.length then v else l.getD j d := by
  simp only [List.getD_eq_getElem?_getD, List.getElem?_set]
  by_cases h : i = j
  · subst h
    by_cases h2 : i < l.length
    · simp [h2]
    · simp [h2, List.getElem?_eq_none (Nat.le_of_not_lt h2)]
  · simp [h]

theorem set_label_step (V : Set Nat) (g : CodeGenerator) (l : Nat) :
    Step V g (set_label g l) := by
  have hlen : (0 : Int) ≤ g.bc.code.length := Int.natCast_nonneg _
  refine ⟨fun inv => ⟨inv.jumps, ?_, inv.pendings, inv.calls, inv.entries⟩, ?_, ?_, ?_⟩
  · intro a ha
    rcases List.mem_or_eq_of_mem_set ha with h1 | h1
    · exact inv.labels a h1
    · rw [h1]; exact le_refl _
  · simp [set_label]
  · intro k hk
    unfold resolved at hk ⊢
    simp only [set_label, getD_set, current_address, Bytecode.code_size]
    split
    · exact hlen
    · exact hk
  · intro hp pj hpj
    rcases hp pj hpj with h1 | h1
    · left
      unfold resolved at h1 ⊢
      simp only [set_label, getD_set, current_address, Bytecode.code_size]
      split
      · exact hlen
      · exact h1
    · exact Or.inr h1

theorem set_label_resolved (g : CodeGenerator) (l : Nat) (h : l < g.label_addresses.length) :
    resolved (set_label g l) l := by
  unfold resolved
  simp only [set_label, getD_set, current_address, Bytecode.code_size, h, and_self, if_true]
  exact Int.natCast_nonneg _

theorem getD_mem_of_nonneg (l : List Int) (i : Nat) (h : 0 ≤ l.getD i (-1)) :
    l.getD i (-1) ∈ l := by
  simp only [List.getD_eq_getElem?_getD] at h ⊢
  cases hg : l[i]? with
  | none => rw [hg] at h; simp at h
  | some a =>
    simp only [Option.getD_some]
    exact List.mem_iff_getElem?.mpr ⟨i, hg⟩

/-- The function `emit_jump` keeps the invariants when the label is resolved
or tracked in `V`. -/
theorem emit_jump_step (V : Set Nat) (g g' : CodeGenerator) (op : OpCode) (l : Nat)
    (hop : is_jump op) (hl : resolved g l ∨ l ∈ V) (h : emit_jump g op l = some g') :
    Step V g g' := by
  unfold emit_jump at h
  split at h
  · rename_i hres
    -- label already resolved: the address is written directly
    unfold emit at h
    split at h
    · exact Option.noConfusion h
    · have e := Option.some.inj h
      subst e
      refine ⟨fun inv => ⟨?_, ?_, ?_, ?_, ?_⟩, le_refl _, fun _ h => h, id⟩
      · intro i inst hi hji
        rcases get?_append_singleton _ _ _ _ hi with h1 | ⟨_, h1⟩
        · rcases inv.jumps i inst h1 hji with h2 | h2
          · left
            simp only [List.length_append, List.length_singleton]
            push_cast
            omega
          · exact Or.inr h2
        · subst h1
          left
          have hm := inv.labels _ (getD_mem_of_nonneg _ _ hres)
          simp only [List.length_append, List.length_singleton]
          push_cast
          exact ⟨hres, by omega⟩
      · intro a ha
        have := inv.labels a ha
        simp only [List.length_append, List.length_singleton]
        push_cast
        omega
      · intro pj hpj
        obtain ⟨inst, h1, h2⟩ := inv.pendings pj hpj
        exact ⟨inst, get?_append_left_some _ _ _ _ h1, h2⟩
      · intro i inst hi hc
        rcases get?_append_singleton _ _ _ _ hi with h1 | ⟨_, h1⟩
        · exact inv.calls i inst h1 hc
        · subst h1
          rcases hop with h3 | h3 | h3 <;> rw [h3] at hc <;> exact OpCode.noConfusion hc
      · intro f hf
        have := inv.entries f hf
        simp only [List.length_append, List.length_singleton]
        push_cast
        omega
  · rename_i hres
    -- unresolved: placeholder and pending entry
    simp only [Option.bind_eq_bind, Option.bind_eq_some] at h
    obtain ⟨g1, hemit, h⟩ := h
    unfold emit at hemit
    split at hemit
    · exact Option.noConfusion hemit
    · have e := Option.some.inj hemit
      subst e
      split at h
      · exact Option.noConfusion h
      · have e := Option.some.inj h
        subst e
        refine ⟨fun inv => ⟨?_, ?_, ?_, ?_, ?_⟩, le_refl _, fun _ h => h, ?_⟩
        · intro i inst hi hji
          rcases get?_append_singleton _ _ _ _ hi with h1 | ⟨h0, _⟩
          · rcases inv.jumps i inst h1 hji with h2 | ⟨pj, h2, h3⟩
            · left
              simp only [List.length_append, List.length_singleton]
              push_cast
              omega
            · exact Or.inr ⟨pj, List.mem_append_left _ h2, h3⟩
          · exact Or.inr ⟨_, List.mem_append_right _ (List.mem_singleton_self _), h0.symm⟩
        · intro a ha
          have := inv.labels a ha
          simp only [List.length_append, List.length_singleton]
          push_cast
          omega
        · intro pj hpj
          rcases List.mem_append.mp hpj with h1 | h1
          · obtain ⟨inst, h2, h3⟩ := inv.pendings pj h1
            exact ⟨inst, get?_append_left_some _ _ _ _ h2, h3⟩
          · simp only [List.mem_singleton] at h1
            subst h1
            refine ⟨⟨op, -1⟩, ?_, hop⟩
            rw [List.get?_eq_getElem?, List.getElem?_append_right (le_refl _), Nat.sub_self,
              List.getElem?_cons_zero]
        · intro i inst hi hc
          rcases get?_append_singleton _ _ _ _ hi with h1 | ⟨_, h1⟩
          · exact inv.calls i inst h1 hc
          · subst h1
            rcases hop with h3 | h3 | h3 <;> rw [h3] at hc <;> exact OpCode.noConfusion hc
        · intro f hf
          have := inv.entries f hf
          simp only [List.length_append, List.length_singleton]
          push_cast
          omega
        · intro hp pj hpj
          rcases List.mem_append.mp hpj with h1 | h1
          · exact hp pj h1
          · simp only [List.mem_singleton] at h1
            subst h1
            exact hl

theorem find_function_from_range (fs : List FunctionEntry) (name : String) :
    ∀ i : Nat, find_function_from fs i name = -1 ∨
      ((i : Int) ≤ find_function_from fs i name ∧
        find_function_from fs i name < (i : Int) + fs.length) := by
  induction fs with
  | nil => intro i; left; rfl
  | cons f rest ih =>
    intro i
    simp only [find_function_from]
    split
    · right
      simp only [List.length_cons]
      push_cast
      omega
    · rcases ih (i + 1) with h | ⟨h1, h2⟩
      · exact Or.inl h
      · right
        simp only [List.length_cons]
        push_cast at h1 h2 ⊢
        omega

theorem find_function_valid (g : CodeGenerator) (name : String)
    (h : find_function g name ≥ 0) :
    0 ≤ find_function g name ∧ find_function g name < g.bc.functions.length := by
  unfold find_function at h ⊢
  rcases find_function_from_range g.bc.functions name 0 with h1 | ⟨h1, h2⟩
  · omega
  · push_cast at h1 h2
    omega

theorem not_jump_of_ne {op : OpCode} (h1 : op ≠ OP_JMP) (h2 : op ≠ OP_JZ) (h3 : op ≠ OP_JNZ) :
    ¬ is_jump op := by
  intro h
  rcases h with h | h | h
  · exact h1 h
  · exact h2 h
  · exact h3 h

theorem ite_some_cases {c : Prop} [Decidable c] {a op : OpCode} {rest : Option OpCode}
    (h : (if c then some a else rest) = some op) : op = a ∨ rest = some op := by
  split at h
  · exact Or.inl (Option.some.inj h).symm
  · exact Or.inr h

theorem binary_opcode_cases (s : String) (op : OpCode) (h : binary_opcode s = some op) :
    op = OP_ADD ∨ op = OP_SUB ∨ op = OP_MUL ∨ op = OP_DIV ∨ op = OP_MOD ∨ op = OP_EQ ∨
    op = OP_NEQ ∨ op = OP_LT ∨ op = OP_GT ∨ op = OP_LEQ ∨ op = OP_GEQ := by
  unfold binary_opcode at h
  rcases ite_some_cases h with e | h
  · exact Or.inl e
  rcases ite_some_cases h with e | h
  · exact Or.inr (Or.inl e)
  rcases ite_some_cases h with e | h
  · exact Or.inr (Or.inr (Or.inl e))
  rcases ite_some_cases h with e | h
  · exact Or.inr (Or.inr (Or.inr (Or.inl e)))
  rcases ite_some_cases h with e | h
  · exact Or.inr (Or.inr (Or.inr (Or.inr (Or.inl e))))
  rcases ite_some_cases h with e | h
  · exact Or.inr (Or.inr (Or.inr (Or.inr (Or.inr (Or.inl e)))))
  rcases ite_some_cases h with e | h
  · exact Or.inr (Or.inr (Or.inr (Or.inr (Or.inr (Or.inr (Or.inl e))))))
  rcases ite_some_cases h with e | h
  · exact Or.inr (Or.inr (Or.inr (Or.inr (Or.inr (Or.inr (Or.inr (Or.inl e)))))))
  rcases ite_some_cases h with e | h
  · exact Or.inr (Or.inr (Or.inr (Or.inr (Or.inr (Or.inr (Or.inr (Or.inr (Or.inl e))))))))
  rcases ite_some_cases h with e | h
  · exact Or.inr (Or.inr (Or.inr (Or.inr (Or.inr (Or.inr (Or.inr (Or.inr (Or.inr (Or.inl e)))))))))
  rcases ite_some_cases h with e | h
  · exact Or.inr (Or.inr (Or.inr (Or.inr (Or.inr (Or.inr (Or.inr (Or.inr (Or.inr (Or.inr e)))))))))
  · exact Option.noConfusion h

theorem binary_opcode_not_jump (s : String) (op : OpCode) (h : binary_opcode s = some op) :
    ¬ is_jump op ∧ op ≠ OP_CALL := by
  have hc := binary_opcode_cases s op h
  constructor
  · intro hj
    rcases hc with e | e | e | e | e | e | e | e | e | e | e <;> subst e <;>
      rcases hj with hj | hj | hj <;> cases hj
  · intro hj
    rcases hc with e | e | e | e | e | e | e | e | e | e | e <;> subst e <;> cases hj

/-- The expression generator keeps the invariants of jump resolution. -/
theorem gen_expression_step :
    ∀ (n : Nat) (node : ASTNode), node.size ≤ n →
      (∀ V g g', gen_expression g node = some g' → Step V g g') ∧
      (∀ V g g', gen_args g node = some g' → Step V g g') := by
  intro n
  induction n with
  | zero =>
    intro node hn
    cases node with
    | null =>
      constructor
      · intro V g g' h
        rw [gen_expression] at h
        cases h
        exact Step.refl V g
      · intro V g g' h
        rw [gen_args] at h
        cases h
        exact Step.refl V g
    | node ty text dt ln fc ns => simp only [ASTNode.size] at hn; omega
  | succ n ih =>
    intro node hn
    cases node with
    | null =>
      constructor
      · intro V g g' h
        rw [gen_expression] at h
        cases h
        exact Step.refl V g
      · intro V g g' h
        rw [gen_args] at h
        cases h
        exact Step.refl V g
    | node ty text dt ln fc ns =>
      have hchild : ∀ k, (get_child (.node ty text dt ln fc ns) k).size ≤ n := by
        intro k
        have := get_child_size ty text dt ln fc ns k
        omega
      have hfc : fc.size ≤ n := by simp only [ASTNode.size] at hn; omega
      have hns : ns.size ≤ n := by simp only [ASTNode.size] at hn; omega
      have hexpr : ∀ V g g',
          gen_expression g (.node ty text dt ln fc ns) = some g' → Step V g g' := by
        intro V g g' h
        cases ty
        case AST_NUMBER_LITERAL =>
          simp only [gen_expression] at h
          exact emit_step V g g' _ _ (by intro hj; rcases hj with hj | hj | hj <;> cases hj)
            (fun hc => by cases hc) h
        case AST_STRING_LITERAL =>
          simp only [gen_expression] at h
          exact emit_step V g g' _ _ (by intro hj; rcases hj with hj | hj | hj <;> cases hj)
            (fun hc => by cases hc) h
        case AST_IDENTIFIER =>
          simp only [gen_expression] at h
          split at h
          · exact emit_step V g g' _ _ (by intro hj; rcases hj with hj | hj | hj <;> cases hj)
              (fun hc => by cases hc) h
          · exact emit_step V g g' _ _ (by intro hj; rcases hj with hj | hj | hj <;> cases hj)
              (fun hc => by cases hc) h
        case AST_ASSIGNMENT =>
          simp only [gen_expression, Option.bind_eq_bind, Option.bind_eq_some] at h
          obtain ⟨g1, h1, g2, h2, h⟩ := h
          have s1 := (ih _ (hchild 1)).1 V g g1 h1
          have s2 := emit_step V g1 g2 _ _ (by intro hj; rcases hj with hj | hj | hj <;> cases hj)
            (fun hc => by cases hc) h2
          split at h
          · split at h
            · exact (s1.trans s2).trans (emit_step V g2 g' _ _
                (by intro hj; rcases hj with hj | hj | hj <;> cases hj) (fun hc => by cases hc) h)
            · exact ((s1.trans s2).trans (add_local_step V g2 _)).trans (emit_step V _ g' _ _
                (by intro hj; rcases hj with hj | hj | hj <;> cases hj) (fun hc => by cases hc) h)
          · cases h
            exact s1.trans s2
        case AST_BINARY_EXPR =>
          simp only [gen_expression, Option.bind_eq_bind, Option.bind_eq_some] at h
          obtain ⟨g1, h1, g2, h2, h⟩ := h
          have s1 := (ih _ (hchild 0)).1 V g g1 h1
          have s2 := (ih _ (hchild 1)).1 V g1 g2 h2
          split at h
          · rename_i op hop
            have := binary_opcode_not_jump _ _ hop
            exact (s1.trans s2).trans (emit_step V g2 g' _ _ this.1
              (fun hc => absurd hc this.2) h)
          · cases h
            exact s1.trans s2
        case AST_UNARY_EXPR =>
          simp only [gen_expression, Option.bind_eq_bind, Option.bind_eq_some] at h
          obtain ⟨g1, h1, h⟩ := h
          have s1 := (ih _ (hchild 0)).1 V g g1 h1
          split at h
          · exact s1.trans (emit_step V g1 g' _ _
              (by intro hj; rcases hj with hj | hj | hj <;> cases hj) (fun hc => by cases hc) h)
          · cases h
            exact s1
        case AST_FUNCTION_CALL =>
          have hcall : ∀ g1, (if find_function g1 (cstr text) ≥ 0 then
                emit g1 OP_CALL (find_function g1 (cstr text))
              else emit g1 OP_PUSH 0) = some g' → Step V g1 g' := by
            intro g1 h
            split at h
            · rename_i hidx
              exact emit_step V g1 g' _ _
                (by intro hj; rcases hj with hj | hj | hj <;> cases hj)
                (fun _ => find_function_valid g1 _ hidx) h
            · exact emit_step V g1 g' _ _
                (by intro hj; rcases hj with hj | hj | hj <;> cases hj)
                (fun hc => by cases hc) h
          simp only [gen_expression, Option.bind_eq_bind] at h
          split at h
          · simp only [Option.bind_eq_some] at h
            obtain ⟨g1, h1, h⟩ := h
            exact ((ih _ (le_trans (first_child_size_le _) (hchild 0))).2 V g g1 h1).trans
              (hcall g1 h)
          · simp only [Option.some_bind] at h
            exact hcall g h
        case AST_EXPR_STATEMENT =>
          simp only [gen_expression] at h
          exact (ih _ hfc).1 V g g' h
        all_goals
          simp only [gen_expression] at h
          cases h
          exact Step.refl V g
      refine ⟨hexpr, ?_⟩
      intro V g g' h
      simp only [gen_args, Option.bind_eq_bind, Option.bind_eq_some] at h
      obtain ⟨g1, h1, h⟩ := h
      exact (hexpr V g g1 h1).trans ((ih _ hns).2 V g1 g' h)

theorem gen_expression_keeps (V : Set Nat) (g g' : CodeGenerator) (node : ASTNode)
    (h : gen_expression g node = some g') : Step V g g' :=
  (gen_expression_step node.size node (le_refl _)).1 V g g' h

theorem gen_var_decl_step (V : Set Nat) (g g' : CodeGenerator) (node : ASTNode)
    (h : gen_var_decl g node = some g') : Step V g g' := by
  cases node with
  | null =>
    simp only [gen_var_decl] at h
    cases h
    exact Step.refl V g
  | node ty text dt ln fc ns =>
    simp only [gen_var_decl] at h
    split at h
    · cases h
      exact add_local_step V g _
    · simp only [Option.bind_eq_bind, Option.bind_eq_some] at h
      obtain ⟨g1, h1, h⟩ := h
      exact ((add_local_step V g _).trans (gen_expression_keeps V _ g1 fc h1)).trans
        (emit_step V g1 g' _ _ (by intro hj; rcases hj with hj | hj | hj <;> cases hj)
          (fun hc => by cases hc) h)

theorem gen_return_step (V : Set Nat) (g g' : CodeGenerator) (node : ASTNode)
    (h : gen_return g node = some g') : Step V g g' := by
  cases node with
  | null =>
    simp only [gen_return] at h
    cases h
    exact Step.refl V g
  | node ty text dt ln fc ns =>
    simp only [gen_return] at h
    split at h
    · exact emit_step V g g' _ _ (by intro hj; rcases hj with hj | hj | hj <;> cases hj)
        (fun hc => by cases hc) h
    · simp only [Option.bind_eq_bind, Option.bind_eq_some] at h
      obtain ⟨g1, h1, h⟩ := h
      exact (gen_expression_keeps V g g1 fc h1).trans
        (emit_step V g1 g' _ _ (by intro hj; rcases hj with hj | hj | hj <;> cases hj)
          (fun hc => by cases hc) h)

theorem is_jump_jz : is_jump OP_JZ := Or.inr (Or.inl rfl)

theorem is_jump_jmp : is_jump OP_JMP := Or.inl rfl

/-- The function `gen_while` keeps the invariants if the statement generator
does so on the children. -/
theorem gen_while_step (ty : ASTNodeType) (text dt : Option String) (ln : Int)
    (fc ns : ASTNode)
    (hs : ∀ k V g g', gen_statement g (get_child (.node ty text dt ln fc ns) k) = some g' →
      Step V g g') :
    ∀ V g g', gen_while g (.node ty text dt ln fc ns) = some g' → Step V g g' := by
  intro V g g' h
  simp only [gen_while, Option.bind_eq_bind, Option.bind_eq_some] at h
  obtain ⟨⟨l1, g1⟩, hA, ⟨l2, g2⟩, hB, g3, hC, g4, hD, g5, hE, g6, hF, hG⟩ := h
  simp only at hB hC hD hE hF hG
  cases hG
  obtain ⟨sA, _, hl1⟩ := new_label_step (insert l2 V) g g1 l1 hA
  obtain ⟨sB, _, hl2⟩ := new_label_step (insert l2 V) g1 g2 l2 hB
  have s1 := set_label_step (insert l2 V) g2 l1
  have r1 : resolved (set_label g2 l1) l1 := set_label_resolved g2 l1 (lt_of_lt_of_le hl1 sB.len)
  have sC := gen_expression_keeps (insert l2 V) _ g3 _ hC
  have sD := emit_jump_step (insert l2 V) g3 g4 OP_JZ l2 is_jump_jz
    (Or.inr (Set.mem_insert _ _)) hD
  have sE := hs 1 (insert l2 V) g4 g5 hE
  have sF := emit_jump_step (insert l2 V) g5 g6 OP_JMP l1 is_jump_jmp
    (Or.inl (sE.res _ (sD.res _ (sC.res _ r1)))) hF
  have s2 := set_label_step (insert l2 V) g6 l2
  have hlen : l2 < g6.label_addresses.length :=
    lt_of_lt_of_le hl2 (le_trans s1.len (le_trans sC.len (le_trans sD.len (le_trans sE.len sF.len))))
  exact Step.shrink
    (sA.trans (sB.trans (s1.trans (sC.trans (sD.trans (sE.trans (sF.trans s2)))))))
    (set_label_resolved g6 l2 hlen)

/-- The instruction sequence of an `if` without `else` keeps the invariants. -/
theorem if_then_chain (V : Set Nat) (g g1 g2 g3 g4 g5 : CodeGenerator) (l1 l2 : Nat)
    (cond : ASTNode)
    (hA : new_label g = some (l1, g1)) (hB : new_label g1 = some (l2, g2))
    (hC : gen_expression g2 cond = some g3) (hD : emit_jump g3 OP_JZ l2 = some g4)
    (sE : ∀ W, Step W g4 g5) : Step V g (set_label g5 l2) := by
  obtain ⟨sA, _, _⟩ := new_label_step (insert l2 V) g g1 l1 hA
  obtain ⟨sB, _, hl2⟩ := new_label_step (insert l2 V) g1 g2 l2 hB
  have sC := gen_expression_keeps (insert l2 V) _ g3 _ hC
  have sD := emit_jump_step (insert l2 V) g3 g4 OP_JZ l2 is_jump_jz
    (Or.inr (Set.mem_insert _ _)) hD
  have sE := sE (insert l2 V)
  have s2 := set_label_step (insert l2 V) g5 l2
  have hlen2 : l2 < g5.label_addresses.length :=
    lt_of_lt_of_le hl2 (le_trans sC.len (le_trans sD.len sE.len))
  exact Step.shrink (sA.trans (sB.trans (sC.trans (sD.trans (sE.trans s2)))))
    (set_label_resolved g5 l2 hlen2)

/-- The instruction sequence of an `if` with `else` keeps the invariants. -/
theorem if_else_chain (V : Set Nat) (g g1 g2 g3 g4 g5 g6 g7 : CodeGenerator) (l1 l2 : Nat)
    (cond : ASTNode)
    (hA : new_label g = some (l1, g1)) (hB : new_label g1 = some (l2, g2))
    (hC : gen_expression g2 cond = some g3) (hD : emit_jump g3 OP_JZ l1 = some g4)
    (sE : ∀ W, Step W g4 g5) (hF : emit_jump g5 OP_JMP l2 = some g6)
    (sG : ∀ W, Step W (set_label g6 l1) g7) : Step V g (set_label g7 l2) := by
  obtain ⟨sA, _, hl1⟩ := new_label_step (insert l1 (insert l2 V)) g g1 l1 hA
  obtain ⟨sB, _, hl2⟩ := new_label_step (insert l1 (insert l2 V)) g1 g2 l2 hB
  have sC := gen_expression_keeps (insert l1 (insert l2 V)) _ g3 _ hC
  have sD := emit_jump_step (insert l1 (insert l2 V)) g3 g4 OP_JZ l1 is_jump_jz
    (Or.inr (Set.mem_insert _ _)) hD
  have sE := sE (insert l1 (insert l2 V))
  have sG := sG (insert l1 (insert l2 V))
  have sF := emit_jump_step (insert l1 (insert l2 V)) g5 g6 OP_JMP l2 is_jump_jmp
    (Or.inr (Set.mem_insert_of_mem _ (Set.mem_insert _ _))) hF
  have s1 := set_label_step (insert l1 (insert l2 V)) g6 l1
  have hlen1 : l1 < g6.label_addresses.length :=
    lt_of_lt_of_le hl1
      (le_trans sB.len (le_trans sC.len (le_trans sD.len (le_trans sE.len sF.len))))
  have r1 := set_label_resolved g6 l1 hlen1
  have s2 := set_label_step (insert l1 (insert l2 V)) g7 l2
  have hlen2 : l2 < g7.label_addresses.length :=
    lt_of_lt_of_le hl2
      (le_trans sC.len (le_trans sD.len (le_trans sE.len (le_trans sF.len
        (le_trans s1.len sG.len)))))
  have total := sA.trans (sB.trans (sC.trans (sD.trans (sE.trans (sF.trans
    (s1.trans (sG.trans s2)))))))
  exact Step.shrink (Step.shrink total (s2.res _ (sG.res _ r1)))
    (set_label_resolved g7 l2 hlen2)

/-- The function `gen_if` keeps the invariants if the statement generator
does so on the children. -/
theorem gen_if_step (ty : ASTNodeType) (text dt : Option String) (ln : Int)
    (fc ns : ASTNode)
    (hs : ∀ k V g g', gen_statement g (get_child (.node ty text dt ln fc ns) k) = some g' →
      Step V g g') :
    ∀ V g g', gen_if g (.node ty text dt ln fc ns) = some g' → Step V g g' := by
  intro V g g' h
  by_cases hc : (if ty = AST_IF_ELSE then get_child (.node ty text dt ln fc ns) 2
      else .null) ≠ .null
  · simp only [gen_if, Option.bind_eq_bind, if_pos hc, Option.bind_eq_some] at h
    obtain ⟨⟨l1, g1⟩, hA, ⟨l2, g2⟩, hB, g3, hC, g4, hD, g5, hE, g6, hF, g7, hG, hH⟩ := h
    simp only at hB hC hD hE hF hG hH
    cases hH
    have hty : ty = AST_IF_ELSE := by
      by_contra hne
      rw [if_neg hne] at hc
      exact hc rfl
    rw [if_pos hty] at hG
    exact if_else_chain V g g1 g2 g3 g4 g5 g6 g7 l1 l2 _ hA hB hC hD
      (fun W => hs 1 W g4 g5 hE) hF (fun W => hs 2 W _ g7 hG)
  · simp only [gen_if, Option.bind_eq_bind, if_neg hc, Option.bind_eq_some] at h
    obtain ⟨⟨l1, g1⟩, hA, ⟨l2, g2⟩, hB, g3, hC, g4, hD, g5, hE, hH⟩ := h
    simp only at hB hC hD hE hH
    cases hH
    exact if_then_chain V g g1 g2 g3 g4 g5 l1 l2 _ hA hB hC hD (fun W => hs 1 W g4 g5 hE)

/-- An optional part of a generator: either the part ran, or the state is
passed on unchanged. -/
theorem optional_part {c : Prop} [Decidable c] {x : Option CodeGenerator} {y g' : CodeGenerator}
    {k : CodeGenerator → Option CodeGenerator}
    (h : (if c then x.bind k else (some y).bind k) = some g') :
    ∃ y', (x = some y' ∨ y' = y) ∧ k y' = some g' := by
  split at h
  · simp only [Option.bind_eq_some] at h
    obtain ⟨y', h1, h2⟩ := h
    exact ⟨y', Or.inl h1, h2⟩
  · exact ⟨y, Or.inr rfl, h⟩

/-- The function `gen_for` keeps the invariants if the statement generator
does so on the children. -/
theorem gen_for_step (ty : ASTNodeType) (text dt : Option String) (ln : Int)
    (fc ns : ASTNode)
    (hs : ∀ k V g g', gen_statement g (get_child (.node ty text dt ln fc ns) k) = some g' →
      Step V g g') :
    ∀ V g g', gen_for g (.node ty text dt ln fc ns) = some g' → Step V g g' := by
  intro V g g' h
  simp only [gen_for, Option.bind_eq_bind, Option.bind_eq_some] at h
  obtain ⟨⟨l1, g1⟩, hA, ⟨l2, g2⟩, hB, h⟩ := h
  simp only at hB h
  obtain ⟨sA, _, hl1⟩ := new_label_step (insert l2 V) g g1 l1 hA
  obtain ⟨sB, _, hl2⟩ := new_label_step (insert l2 V) g1 g2 l2 hB
  -- init
  obtain ⟨g3, hI, h⟩ := optional_part h
  have sI : Step (insert l2 V) g2 g3 := by
    rcases hI with hI | hI
    · exact hs 0 _ _ _ hI
    · rw [hI]; exact Step.refl _ _
  have s1 := set_label_step (insert l2 V) g3 l1
  have r1 : resolved (set_label g3 l1) l1 :=
    set_label_resolved g3 l1 (lt_of_lt_of_le hl1 (le_trans sB.len sI.len))
  -- condition
  have hcond : ∃ g4, Step (insert l2 V) (set_label g3 l1) g4 ∧
      ((gen_statement g4 (get_child (.node ty text dt ln fc ns) 3)).bind fun gen =>
        if get_child (.node ty text dt ln fc ns) 2 ≠ .null ∧
            ¬ (get_child (.node ty text dt ln fc ns) 2).is AST_EMPTY = true then
          (gen_expression gen (get_child (.node ty text dt ln fc ns) 2)).bind fun gen =>
            (emit_simple gen OP_POP).bind fun y =>
              (emit_jump y OP_JMP l1).bind fun gen => some (set_label gen l2)
        else
          (some gen).bind fun y =>
            (emit_jump y OP_JMP l1).bind fun gen => some (set_label gen l2)) = some g' := by
    split at h
    · simp only [Option.bind_eq_some] at h
      obtain ⟨ga, ha, gb, hb, h⟩ := h
      refine ⟨gb, ?_, ?_⟩
      · exact (gen_expression_keeps _ _ ga _ ha).trans
          (emit_jump_step _ ga gb OP_JZ l2 is_jump_jz (Or.inr (Set.mem_insert _ _)) hb)
      · simpa only [Option.bind_eq_some] using h
    · simp only [Option.some_bind] at h
      exact ⟨_, Step.refl _ _, h⟩
  obtain ⟨g4, sC, h⟩ := hcond
  simp only [Option.bind_eq_some] at h
  obtain ⟨g5, hE, h⟩ := h
  have sE := hs 3 (insert l2 V) g4 g5 hE
  -- update
  have hupd : ∃ g6, Step (insert l2 V) g5 g6 ∧
      ((emit_jump g6 OP_JMP l1).bind fun gen => some (set_label gen l2)) = some g' := by
    split at h
    · simp only [Option.bind_eq_some] at h
      obtain ⟨ga, ha, gb, hb, h⟩ := h
      refine ⟨gb, ?_, ?_⟩
      · exact (gen_expression_keeps _ _ ga _ ha).trans
          (emit_step _ ga gb _ _ (by intro hj; rcases hj with hj | hj | hj <;> cases hj)
            (fun hc => by cases hc) hb)
      · simpa only [Option.bind_eq_some] using h
    · simp only [Option.some_bind] at h
      exact ⟨_, Step.refl _ _, h⟩
  obtain ⟨g6, sU, h⟩ := hupd
  simp only [Option.bind_eq_some] at h
  obtain ⟨g7, hF, hG⟩ := h
  cases hG
  have sF := emit_jump_step (insert l2 V) g6 g7 OP_JMP l1 is_jump_jmp
    (Or.inl (sU.res _ (sE.res _ (sC.res _ r1)))) hF
  have s2 := set_label_step (insert l2 V) g7 l2
  have hlen2 : l2 < g7.label_addresses.length :=
    lt_of_lt_of_le hl2 (le_trans sI.len (le_trans s1.len (le_trans sC.len
      (le_trans sE.len (le_trans sU.len sF.len)))))
  exact Step.shrink
    (sA.trans (sB.trans (sI.trans (s1.trans (sC.trans (sE.trans (sU.trans (sF.trans s2))))))))
    (set_label_resolved g7 l2 hlen2)

/-- The statement generator keeps the invariants of jump resolution. -/
theorem gen_statement_step :
    ∀ (n : Nat) (node : ASTNode), node.size ≤ n →
      (∀ V g g', gen_statement g node = some g' → Step V g g') ∧
      (∀ V g g', gen_stmts g node = some g' → Step V g g') := by
  intro n
  induction n with
  | zero =>
    intro node hn
    cases node with
    | null =>
      constructor
      · intro V g g' h
        rw [gen_statement] at h
        cases h
        exact Step.refl V g
      · intro V g g' h
        rw [gen_stmts] at h
        cases h
        exact Step.refl V g
    | node ty text dt ln fc ns => simp only [ASTNode.size] at hn; omega
  | succ n ih =>
    intro node hn
    cases node with
    | null =>
      constructor
      · intro V g g' h
        rw [gen_statement] at h
        cases h
        exact Step.refl V g
      · intro V g g' h
        rw [gen_stmts] at h
        cases h
        exact Step.refl V g
    | node ty text dt ln fc ns =>
      have hchild : ∀ k V g g',
          gen_statement g (get_child (.node ty text dt ln fc ns) k) = some g' → Step V g g' := by
        intro k
        have := get_child_size ty text dt ln fc ns k
        exact (ih _ (by omega)).1
      have hfc : fc.size ≤ n := by simp only [ASTNode.size] at hn; omega
      have hns : ns.size ≤ n := by simp only [ASTNode.size] at hn; omega
      have hstmt : ∀ V g g',
          gen_statement g (.node ty text dt ln fc ns) = some g' → Step V g g' := by
        intro V g g' h
        cases ty
        case AST_VAR_DECL =>
          simp only [gen_statement] at h
          exact gen_var_decl_step V g g' _ h
        case AST_BLOCK =>
          simp only [gen_statement, gen_block] at h
          exact (ih _ hfc).2 V g g' h
        case AST_IF =>
          simp only [gen_statement] at h
          exact gen_if_step _ text dt ln fc ns hchild V g g' h
        case AST_IF_ELSE =>
          simp only [gen_statement] at h
          exact gen_if_step _ text dt ln fc ns hchild V g g' h
        case AST_WHILE =>
          simp only [gen_statement] at h
          exact gen_while_step _ text dt ln fc ns hchild V g g' h
        case AST_FOR =>
          simp only [gen_statement] at h
          exact gen_for_step _ text dt ln fc ns hchild V g g' h
        case AST_RETURN =>
          simp only [gen_statement] at h
          exact gen_return_step V g g' _ h
        case AST_EXPR_STATEMENT =>
          simp only [gen_statement] at h
          split at h
          · cases h
            exact Step.refl V g
          · simp only [Option.bind_eq_bind, Option.bind_eq_some] at h
            obtain ⟨g1, h1, h⟩ := h
            exact (gen_expression_keeps V g g1 fc h1).trans
              (emit_step V g1 g' _ _ (by intro hj; rcases hj with hj | hj | hj <;> cases hj)
                (fun hc => by cases hc) h)
        case AST_ASSIGNMENT =>
          simp only [gen_statement, Option.bind_eq_bind, Option.bind_eq_some] at h
          obtain ⟨g1, h1, h⟩ := h
          exact (gen_expression_keeps V g g1 _ h1).trans
            (emit_step V g1 g' _ _ (by intro hj; rcases hj with hj | hj | hj <;> cases hj)
              (fun hc => by cases hc) h)
        all_goals
          simp only [gen_statement] at h
          cases h
          exact Step.refl V g
      refine ⟨hstmt, ?_⟩
      intro V g g' h
      simp only [gen_stmts, Option.bind_eq_bind, Option.bind_eq_some] at h
      obtain ⟨g1, h1, h⟩ := h
      exact (hstmt V g g1 h1).trans ((ih _ hns).2 V g1 g' h)

theorem gen_block_step (V : Set Nat) (g g' : CodeGenerator) (node : ASTNode)
    (h : gen_block g node = some g') : Step V g g' := by
  cases node with
  | null =>
    rw [gen_block] at h
    cases h
    exact Step.refl V g
  | node ty text dt ln fc ns =>
    rw [gen_block] at h
    exact (gen_statement_step fc.size fc (le_refl _)).2 V g g' h

theorem add_param_locals_step (V : Set Nat) (ps : List (String × DataType)) :
    ∀ g, Step V g (add_param_locals g ps) := by
  induction ps with
  | nil => intro g; exact Step.refl V g
  | cons p rest ih =>
    intro g
    obtain ⟨pname, pty⟩ := p
    simp only [add_param_locals]
    exact (add_local_step V g pname).trans (ih _)

theorem add_ast_params_step (V : Set Nat) (node : ASTNode) :
    ∀ g, Step V g (add_ast_params g node) := by
  induction node with
  | null => intro g; exact Step.refl V g
  | node ty text dt ln fc ns _ ihn =>
    intro g
    simp only [add_ast_params]
    split
    · split
      · exact (add_local_step V g _).trans (ihn _)
      · exact ihn _
    · exact ihn _

/-- Registering a function keeps the invariants. -/
theorem register_function_step (V : Set Nat) (g g' : CodeGenerator) (name : String)
    (pc lc : Int) (idx : Nat) (h : register_function g name pc lc = some (idx, g')) :
    Step V g g' := by
  unfold register_function at h
  split at h
  · exact Option.noConfusion h
  · have e := Option.some.inj h
    simp only [Prod.mk.injEq] at e
    obtain ⟨_, e2⟩ := e
    subst e2
    refine ⟨fun inv => ⟨inv.jumps, inv.labels, inv.pendings, ?_, ?_⟩, le_refl _, fun _ h => h, id⟩
    · intro i inst hi hc
      have := inv.calls i inst hi hc
      simp only [List.length_append, List.length_singleton]
      push_cast
      omega
    · intro f hf
      rcases List.mem_append.mp hf with h1 | h1
      · exact inv.entries f h1
      · simp only [List.mem_singleton] at h1
        subst h1
        simp only [current_address, Bytecode.code_size]
        exact ⟨Int.natCast_nonneg _, le_refl _⟩

theorem step_of_same_code (V : Set Nat) (g g' : CodeGenerator) (h1 : g'.bc.code = g.bc.code)
    (h1f : g'.bc.functions = g.bc.functions)
    (h2 : g'.label_addresses = g.label_addresses) (h3 : g'.pending = g.pending) :
    Step V g g' := by
  refine ⟨fun inv => ⟨?_, ?_, ?_, ?_, ?_⟩, by rw [h2], fun l h => ?_, fun h pj hpj => ?_⟩
  · rw [h1, h3]; exact inv.jumps
  · rw [h1, h2]; exact inv.labels
  · rw [h1, h3]; exact inv.pendings
  · rw [h1, h1f]; exact inv.calls
  · rw [h1, h1f]; exact inv.entries
  · unfold resolved at h ⊢; rw [h2]; exact h
  · rw [h3] at hpj
    rcases h pj hpj with h4 | h4
    · left; unfold resolved at h4 ⊢; rw [h2]; exact h4
    · exact Or.inr h4

/-- The function `gen_function` keeps the invariants. -/
theorem gen_function_step (V : Set Nat) (g g' : CodeGenerator) (node : ASTNode)
    (h : gen_function g node = some g') : Step V g g' := by
  cases node with
  | null =>
    simp only [gen_function] at h
    cases h
    exact Step.refl V g
  | node ty text dt ln fc ns =>
    simp only [gen_function, Option.bind_eq_bind, Option.bind_eq_some] at h
    obtain ⟨⟨idx, g1⟩, hreg, g2, hent, h⟩ := h
    simp only at hent h
    obtain ⟨g3, hbody, h⟩ := optional_part h
    simp only [Option.bind_eq_some] at h
    obtain ⟨g4, hpush, g5, hret, hfin⟩ := h
    cases hfin
    have s0 : Step V g (clear_locals g) := step_of_same V g (clear_locals g) rfl rfl rfl
    have sA : ∀ g0, Step V g0 (match (symbol_lookup g0.symtab (cstr text)).bind
        (fun sym => sym.func_info) with
        | some fi => add_param_locals g0 fi.params
        | none => g0) := by
      intro g0
      split
      · exact add_param_locals_step V _ _
      · exact Step.refl V _
    have sB : ∀ g0, Step V g0 (if (get_child (.node ty text dt ln fc ns) 0).is AST_PARAM_LIST
        then add_ast_params g0 (get_child (.node ty text dt ln fc ns) 0).first_child
        else g0) := by
      intro g0
      split
      · exact add_ast_params_step V _ _
      · exact Step.refl V _
    have s1 := register_function_step V _ g1 _ _ _ idx hreg
    have hnj : ∀ op, op = OP_ENTER ∨ op = OP_PUSH ∨ op = OP_RETVAL → ¬ is_jump op := by
      intro op ho hj
      rcases ho with e | e | e <;> subst e <;> rcases hj with hj | hj | hj <;> cases hj
    have s2 := emit_step V _ g2 OP_ENTER _ (hnj _ (Or.inl rfl)) (fun hc => by cases hc) hent
    have s3 : Step V g2 g3 := by
      rcases hbody with hbody | hbody
      · exact gen_block_step V g2 g3 _ hbody
      · rw [hbody]
        exact Step.refl V g2
    have s4 := emit_step V g3 g4 OP_PUSH _ (hnj _ (Or.inr (Or.inl rfl))) (fun hc => by cases hc)
      hpush
    have s5 := emit_step V g4 g5 OP_RETVAL _ (hnj _ (Or.inr (Or.inr rfl)))
      (fun hc => by cases hc) hret
    have s6 : Step V g5 { g5 with current_func_idx := -1 } := step_of_same V _ _ rfl rfl rfl
    have sC : Step V g1 g2 := by
      refine (step_of_same_code V g1 _ ?_ ?_ ?_ ?_).trans s2
      all_goals (split <;> rfl)
    exact (((((((s0.trans (sA _)).trans (sB _)).trans s1).trans sC).trans
      s3).trans s4).trans s5).trans s6

theorem gen_functions_step (V : Set Nat) (node : ASTNode) :
    ∀ g g', gen_functions g node = some g' → Step V g g' := by
  induction node with
  | null =>
    intro g g' h
    simp only [gen_functions] at h
    cases h
    exact Step.refl V g
  | node ty text dt ln fc ns _ ihn =>
    intro g g' h
    simp only [gen_functions] at h
    split at h
    · simp only [Option.bind_eq_bind, Option.bind_eq_some] at h
      obtain ⟨g1, h1, h⟩ := h
      exact (gen_function_step V g g1 _ h1).trans (ihn g1 g' h)
    · exact ihn g g' h

theorem gen_node_step (V : Set Nat) (g g' : CodeGenerator) (node : ASTNode)
    (h : gen_node g node = some g') : Step V g g' := by
  cases node with
  | null =>
    simp only [gen_node] at h
    cases h
    exact Step.refl V g
  | node ty text dt ln fc ns =>
    cases ty
    case AST_PROGRAM =>
      simp only [gen_node] at h
      exact gen_functions_step V _ g g' h
    case AST_FUNCTION =>
      simp only [gen_node] at h
      exact gen_function_step V g g' _ h
    all_goals
      simp only [gen_node] at h
      first
        | exact (gen_statement_step _ _ (le_refl _)).1 V g g' h
        | exact gen_expression_keeps V g g' _ h
        | (cases h; exact Step.refl V g)

theorem set_operand_length (code : List Instruction) (addr : Nat) (t : Int) :
    (set_operand code addr t).length = code.length := by
  unfold set_operand
  split
  · exact List.length_set ..
  · rfl

theorem set_operand_get? (code : List Instruction) (addr : Nat) (t : Int) (inst0 : Instruction)
    (h0 : code.get? addr = some inst0) (i : Nat) :
    (set_operand code addr t).get? i =
      if i = addr then some { inst0 with operand := t } else code.get? i := by
  unfold set_operand
  rw [h0]
  simp only [List.get?_eq_getElem?] at h0 ⊢
  have hlt : addr < code.length := by
    by_contra hc
    rw [List.getElem?_eq_none (by omega)] at h0
    cases h0
  by_cases hi : i = addr
  · subst hi
    rw [if_pos rfl, List.getElem?_set_self hlt]
  · rw [if_neg hi, List.getElem?_set_ne (fun e => hi e.symm)]

/-- The loop of `patch_jumps` resolves every jump that is on its list, and
leaves the CALL instructions and the function table alone. -/
theorem patch_loop_inv (Q : Int → Prop) (ps : List PendingJump) :
    ∀ g : CodeGenerator,
      (∀ i inst, g.bc.code.get? i = some inst → is_jump inst.opcode →
        (0 ≤ inst.operand ∧ inst.operand < g.bc.code.length) ∨ ∃ pj ∈ ps, pj.address = i) →
      (∀ pj ∈ ps, 0 ≤ g.label_addresses.getD pj.target (-1) ∧
        ∃ inst, g.bc.code.get? pj.address = some inst ∧ is_jump inst.opcode) →
      (∀ a ∈ g.label_addresses, a < g.bc.code.length) →
      (∀ i inst, g.bc.code.get? i = some inst → inst.opcode = OP_CALL → Q inst.operand) →
      (patch_loop g ps).bc.functions = g.bc.functions ∧
      (patch_loop g ps).bc.code.length = g.bc.code.length ∧
      (∀ i inst, (patch_loop g ps).bc.code.get? i = some inst → is_jump inst.opcode →
        0 ≤ inst.operand ∧ inst.operand < g.bc.code.length) ∧
      (∀ i inst, (patch_loop g ps).bc.code.get? i = some inst → inst.opcode = OP_CALL →
        Q inst.operand) := by
  induction ps with
  | nil =>
    intro g hj _ _ hc
    refine ⟨rfl, rfl, fun i inst hi hjmp => ?_, hc⟩
    rcases hj i inst hi hjmp with h | ⟨pj, hpj, _⟩
    · exact h
    · cases hpj
  | cons pj ps ih =>
    intro g hj hp hl hc
    obtain ⟨hres, inst0, h0, hj0⟩ := hp pj (List.mem_cons_self _ _)
    have hmem := getD_mem_of_nonneg _ _ hres
    have hlt := hl _ hmem
    simp only [patch_loop, if_neg (not_lt.mpr hres)]
    have key := ih
      { g with bc := { g.bc with
          code := set_operand g.bc.code pj.address (g.label_addresses.getD pj.target (-1)) } }
      (by
        intro i inst hi hjmp
        simp only [set_operand_get? _ _ _ _ h0, set_operand_length] at hi ⊢
        by_cases e : i = pj.address
        · rw [if_pos e] at hi
          cases hi
          exact Or.inl ⟨hres, hlt⟩
        · rw [if_neg e] at hi
          rcases hj i inst hi hjmp with h | ⟨pj1, hpj1, ha⟩
          · exact Or.inl h
          · rcases List.mem_cons.mp hpj1 with h1 | h1
            · subst h1
              exact absurd ha.symm e
            · exact Or.inr ⟨pj1, h1, ha⟩)
      (by
        intro pj1 hpj1
        obtain ⟨hr1, inst1, h1, hj1⟩ := hp pj1 (List.mem_cons_of_mem _ hpj1)
        refine ⟨hr1, ?_⟩
        simp only [set_operand_get? _ _ _ _ h0]
        by_cases e : pj1.address = pj.address
        · rw [if_pos e]
          exact ⟨_, rfl, hj0⟩
        · rw [if_neg e]
          exact ⟨inst1, h1, hj1⟩)
      (by
        intro a ha
        simp only [set_operand_length]
        exact hl a ha)
      (by
        intro i inst hi hcall
        simp only [set_operand_get? _ _ _ _ h0] at hi
        by_cases e : i = pj.address
        · rw [if_pos e] at hi
          cases hi
          simp only at hcall
          rw [hcall] at hj0
          rcases hj0 with h | h | h <;> cases h
        · rw [if_neg e] at hi
          exact hc i inst hi hcall)
    simp only [set_operand_length] at key
    exact key

theorem emit_shape (g g' : CodeGenerator) (op : OpCode) (x : Int) (h : emit g op x = some g') :
    g'.bc.code = g.bc.code ++ [{ opcode := op, operand := x }] ∧
    g'.bc.functions = g.bc.functions ∧ g'.label_addresses = g.label_addresses ∧
    g'.pending = g.pending := by
  unfold emit at h
  split at h
  · exact Option.noConfusion h
  · cases h
    exact ⟨rfl, rfl, rfl, rfl⟩

theorem genInv_create (st : SymbolTable) : GenInv (codegen_create st) := by
  refine ⟨?_, ?_, ?_, ?_, ?_⟩
  · intro i inst hi
    simp [codegen_create] at hi
  · intro a ha
    simp [codegen_create] at ha
  · intro pj hpj
    simp [codegen_create] at hpj
  · intro i inst hi
    simp [codegen_create] at hi
  · intro f hf
    simp [codegen_create] at hf

/-- What `codegen_run` leaves behind: resolved jumps, CALLs into the function
table, entry points inside the code. -/
theorem codegen_run_resolved (st : SymbolTable) (program : ASTNode) (g : CodeGenerator)
    (h : codegen_run (codegen_create st) program = some g) :
    (∀ i inst, g.bc.code.get? i = some inst → is_jump inst.opcode →
      0 ≤ inst.operand ∧ inst.operand < g.bc.code.length) ∧
    (∀ i inst, g.bc.code.get? i = some inst → inst.opcode = OP_CALL →
      0 ≤ inst.operand ∧ inst.operand < g.bc.functions.length) ∧
    (∀ f ∈ g.bc.functions, 0 ≤ f.entry_point ∧ f.entry_point < g.bc.code.length) := by
  cases program with
  | null =>
    simp only [codegen_run] at h
    cases h
  | node ty text dt ln fc ns =>
    simp only [codegen_run, Option.bind_eq_bind, Option.bind_eq_some] at h
    obtain ⟨g1, h1, g2, h2, h3⟩ := h
    cases h3
    have hnj : ¬ is_jump OP_HALT := by
      intro hj
      rcases hj with hj | hj | hj <;> cases hj
    have s : Step ∅ (codegen_create st) g2 :=
      (gen_node_step ∅ _ g1 _ h1).trans (emit_step ∅ g1 g2 OP_HALT 0 hnj (fun hc => by cases hc) h2)
    have inv1 : GenInv g1 := (gen_node_step ∅ _ g1 _ h1).inv (genInv_create st)
    have inv2 : GenInv g2 := s.inv (genInv_create st)
    have pend2 : PendOK ∅ g2 := s.pend (by
      intro pj hpj
      simp [codegen_create] at hpj)
    obtain ⟨ecode, efun, elbl, _⟩ := emit_shape g1 g2 _ _ h2
    have hlen : g2.bc.code.length = g1.bc.code.length + 1 := by
      rw [ecode, List.length_append, List.length_singleton]
    have key := patch_loop_inv (fun x => 0 ≤ x ∧ x < g2.bc.functions.length) g2.pending g2
      inv2.jumps
      (by
        intro pj hpj
        refine ⟨?_, inv2.pendings pj hpj⟩
        rcases pend2 pj hpj with hr | hr
        · exact hr
        · exact absurd hr (Set.not_mem_empty _))
      (by
        intro a ha
        rw [elbl] at ha
        have := inv1.labels a ha
        rw [hlen]
        push_cast
        omega)
      inv2.calls
    obtain ⟨kf, kl, kj, kc⟩ := key
    unfold patch_jumps
    refine ⟨?_, ?_, ?_⟩
    · intro i inst hi hj
      rw [kl]
      exact kj i inst hi hj
    · intro i inst hi hc
      rw [kf]
      exact kc i inst hi hc
    · intro f hf
      rw [kf, efun] at hf
      have := inv1.entries f hf
      rw [kl, hlen]
      push_cast
      omega

/-- C10: jump resolution.  Whenever `codegen_generate`, run on a freshly created
generator, returns a bytecode (no capacity of the generator was exceeded), every
JMP, JZ and JNZ instruction of that bytecode has an operand in `[0, code_size)`,
and every CALL instruction has an operand in `[0, function_count)` whose entry
in the function table has its entry point in `[0, code_size)`. -/
theorem jump_and_call_operands_resolved (st : SymbolTable) (program : ASTNode) (bc : Bytecode)
    (h : codegen_generate (codegen_create st) program = some bc) :
    (∀ inst ∈ bc.code,
      inst.opcode = OP_JMP ∨ inst.opcode = OP_JZ ∨ inst.opcode = OP_JNZ →
        0 ≤ inst.operand ∧ inst.operand < bc.code_size) ∧
    (∀ inst ∈ bc.code, inst.opcode = OP_CALL →
      0 ≤ inst.operand ∧ inst.operand < bc.function_count ∧
      ∃ f, bc.functions.get? inst.operand.toNat = some f ∧
        0 ≤ f.entry_point ∧ f.entry_point < bc.code_size) := by
  simp only [codegen_generate, Option.map_eq_some'] at h
  obtain ⟨g, hg, hbc⟩ := h
  subst hbc
  obtain ⟨hj, hc, he⟩ := codegen_run_resolved st program g hg
  refine ⟨?_, ?_⟩
  · intro inst hi hop
    obtain ⟨i, hi⟩ := List.mem_iff_get?.mp hi
    exact hj i inst hi hop
  · intro inst hi hop
    obtain ⟨i, hi⟩ := List.mem_iff_get?.mp hi
    obtain ⟨h0, h1⟩ := hc i inst hi hop
    refine ⟨h0, h1, ?_⟩
    have hlt : inst.operand.toNat < g.bc.functions.length := by omega
    refine ⟨g.bc.functions.get ⟨_, hlt⟩, List.get?_eq_get hlt, ?_⟩
    exact he _ (List.get_mem _ _ _)

theorem jump_and_call_operands_resolved_witness :
    codegen_generate
        (codegen_create
          (semantic_get_symbol_table (semantic_analyze semantic_create (prog_branch "5" "3")).2))
        (prog_branch "5" "3") = some (bc_branch (atoi "5") (atoi "3")) ∧
    (∀ inst ∈ (bc_branch (atoi "5") (atoi "3")).code,
      inst.opcode = OP_JMP ∨ inst.opcode = OP_JZ ∨ inst.opcode = OP_JNZ →
        0 ≤ inst.operand ∧ inst.operand < (bc_branch (atoi "5") (atoi "3")).code_size) ∧
    (∀ inst ∈ (bc_branch (atoi "5") (atoi "3")).code, inst.opcode = OP_CALL →
      0 ≤ inst.operand ∧ inst.operand < (bc_branch (atoi "5") (atoi "3")).function_count ∧
      ∃ f, (bc_branch (atoi "5") (atoi "3")).functions.get? inst.operand.toNat = some f ∧
        0 ≤ f.entry_point ∧ f.entry_point < (bc_branch (atoi "5") (atoi "3")).code_size) :=
  ⟨compile_prog_branch "5" "3",
    jump_and_call_operands_resolved _ _ _ (compile_prog_branch "5" "3")⟩

theorem hash_string_lt (s : String) : hash_string s < SYMBOL_TABLE_SIZE := by
  unfold hash_string
  exact Nat.mod_lt _ (by decide)

theorem mem_symbols (t : SymbolTable) (s : Symbol) :
    s ∈ t.symbols ↔ ∃ i, i < SYMBOL_TABLE_SIZE ∧ s ∈ t.buckets i := by
  simp [SymbolTable.symbols, List.mem_flatMap, List.mem_range]

theorem mem_symbols_of_inv {t : SymbolTable} (inv : TableInv t) (s : Symbol) :
    s ∈ t.symbols ↔ s ∈ t.buckets (hash_string s.name) := by
  rw [mem_symbols]
  constructor
  · rintro ⟨i, _, hs⟩
    rw [inv.hashed i s hs]
    exact hs
  · intro hs
    exact ⟨_, hash_string_lt _, hs⟩

theorem lookup_current_scope_none (t : SymbolTable) (name : String) :
    symbol_lookup_current_scope t name = none ↔
      ∀ s ∈ t.buckets (hash_string name), ¬ (s.name = name ∧ s.scope_level = t.scope_level) := by
  simp [symbol_lookup_current_scope, List.find?_eq_none]

theorem lookup_current_scope_some (t : SymbolTable) (name : String) (r : Symbol)
    (h : symbol_lookup_current_scope t name = some r) :
    r ∈ t.buckets (hash_string name) ∧ r.name = name ∧ r.scope_level = t.scope_level := by
  unfold symbol_lookup_current_scope at h
  have h1 := List.find?_some h
  have h2 := List.mem_of_find?_eq_some h
  simp only [decide_eq_true_eq] at h1
  exact ⟨h2, h1.1, h1.2⟩

theorem symbol_declare_of_some (t : SymbolTable) (name : String) (kind : SymbolKind)
    (type : DataType) (line : Int) (e : Symbol)
    (h : symbol_lookup_current_scope t name = some e) :
    symbol_declare t name kind type line = (none, t) := by
  simp [symbol_declare, h]

theorem symbol_declare_of_none (t : SymbolTable) (name : String) (kind : SymbolKind)
    (type : DataType) (line : Int) (h : symbol_lookup_current_scope t name = none) :
    (symbol_declare t name kind type line).1 = some (declared_symbol t name kind type line) ∧
    (symbol_declare t name kind type line).2.buckets =
      bucket_set t.buckets (hash_string name)
        (declared_symbol t name kind type line :: t.buckets (hash_string name)) ∧
    (symbol_declare t name kind type line).2.scope_level = t.scope_level := by
  simp [symbol_declare, h, declared_symbol]

theorem tableInv_create : TableInv symbol_table_create := by
  refine ⟨?_, ?_, ?_⟩ <;> intro i <;> simp [symbol_table_create]

theorem tableInv_enter_scope {t : SymbolTable} (inv : TableInv t) :
    TableInv (symbol_enter_scope t) := by
  refine ⟨inv.hashed, ?_, inv.unique⟩
  intro i s hs
  have := inv.levels i s hs
  simp only [symbol_enter_scope]
  omega

theorem exit_scope_bucket (t : SymbolTable) (h : t.scope_level ≠ 0) (i : Nat)
    (hi : i < SYMBOL_TABLE_SIZE) :
    (symbol_exit_scope t).buckets i =
      (t.buckets i).filter (fun sym => decide (sym.scope_level ≠ t.scope_level)) := by
  simp [symbol_exit_scope, h, hi]

theorem exit_scope_bucket_high (t : SymbolTable) (i : Nat) (hi : ¬ i < SYMBOL_TABLE_SIZE) :
    (symbol_exit_scope t).buckets i = t.buckets i := by
  unfold symbol_exit_scope
  split
  · rfl
  · simp [hi]

theorem tableInv_exit_scope {t : SymbolTable} (inv : TableInv t) :
    TableInv (symbol_exit_scope t) := by
  by_cases h : t.scope_level = 0
  · simp only [symbol_exit_scope, if_pos h]
    exact inv
  · have hlev : (symbol_exit_scope t).scope_level = t.scope_level - 1 := by
      simp [symbol_exit_scope, h]
    have hb : ∀ i, ∀ s ∈ (symbol_exit_scope t).buckets i,
        s ∈ t.buckets i ∧ s.scope_level ≠ t.scope_level := by
      intro i s hs
      by_cases hi : i < SYMBOL_TABLE_SIZE
      · rw [exit_scope_bucket t h i hi] at hs
        simpa using hs
      · rw [exit_scope_bucket_high t i hi] at hs
        have := inv.hashed i s hs
        have := hash_string_lt s.name
        omega
    refine ⟨fun i s hs => inv.hashed i s (hb i s hs).1, ?_, ?_⟩
    · intro i s hs
      have h1 := inv.levels i s (hb i s hs).1
      have h2 := (hb i s hs).2
      rw [hlev]
      omega
    · intro i
      by_cases hi : i < SYMBOL_TABLE_SIZE
      · rw [exit_scope_bucket t h i hi]
        exact (inv.unique i).filter _
      · rw [exit_scope_bucket_high t i hi]
        exact inv.unique i

theorem tableInv_declare {t : SymbolTable} (inv : TableInv t) (name : String)
    (kind : SymbolKind) (type : DataType) (line : Int) :
    TableInv (symbol_declare t name kind type line).2 := by
  cases h : symbol_lookup_current_scope t name with
  | some e =>
    rw [symbol_declare_of_some t name kind type line e h]
    exact inv
  | none =>
    obtain ⟨_, hb, hl⟩ := symbol_declare_of_none t name kind type line h
    have hfresh := (lookup_current_scope_none t name).mp h
    have hmem : ∀ i, ∀ s ∈ (symbol_declare t name kind type line).2.buckets i,
        (i = hash_string name ∧ s = declared_symbol t name kind type line) ∨ s ∈ t.buckets i := by
      intro i s hs
      rw [hb] at hs
      simp only [bucket_set] at hs
      split at hs
      · rename_i e
        rcases List.mem_cons.mp hs with h1 | h1
        · exact Or.inl ⟨e, h1⟩
        · rw [e]
          exact Or.inr h1
      · exact Or.inr hs
    refine ⟨?_, ?_, ?_⟩
    · intro i s hs
      rcases hmem i s hs with ⟨e, h1⟩ | h1
      · rw [h1, e]
        rfl
      · exact inv.hashed i s h1
    · intro i s hs
      rw [hl]
      rcases hmem i s hs with ⟨_, h1⟩ | h1
      · rw [h1]
        exact le_refl _
      · exact inv.levels i s h1
    · intro i
      rw [hb]
      simp only [bucket_set]
      split
      · refine List.pairwise_cons.mpr ⟨?_, inv.unique _⟩
        intro s hs hc
        exact hfresh s hs ⟨hc.1.symm, hc.2.symm⟩
      · exact inv.unique i

theorem symbol_declare_function_of_some (t : SymbolTable) (name : String)
    (return_type : DataType) (line : Int) (e : Symbol)
    (h : symbol_lookup_current_scope t name = some e) :
    symbol_declare_function t name return_type line = (none, t) := by
  simp [symbol_declare_function, symbol_declare, h]

theorem symbol_declare_function_of_none (t : SymbolTable) (name : String)
    (return_type : DataType) (line : Int) (h : symbol_lookup_current_scope t name = none) :
    symbol_declare_function t name return_type line =
      (some (declared_function t name return_type line),
        { t with buckets := bucket_set t.buckets (hash_string name)
                    (declared_function t name return_type line :: t.buckets (hash_string name)) }) := by
  have hd : decide (SYMBOL_FUNCTION = SYMBOL_VARIABLE ∨ SYMBOL_FUNCTION = SYMBOL_PARAMETER)
      = false := by decide
  have hb : ∀ (b : Nat → List Symbol) (i : Nat) (x y : Symbol) (c : List Symbol),
      bucket_set (bucket_set b i (x :: c)) i (y :: (bucket_set b i (x :: c) i).tail)
        = bucket_set b i (y :: c) := by
    intro b i x y c
    funext j
    simp only [bucket_set]
    split <;> simp
  simp only [symbol_declare_function, symbol_declare, h, declared_function, hd, hb]
  simp

theorem tableInv_declare_function {t : SymbolTable} (inv : TableInv t) (name : String)
    (return_type : DataType) (line : Int) :
    TableInv (symbol_declare_function t name return_type line).2 := by
  cases h : symbol_lookup_current_scope t name with
  | some e =>
    rw [symbol_declare_function_of_some t name return_type line e h]
    exact inv
  | none =>
    rw [symbol_declare_function_of_none t name return_type line h]
    have hfresh := (lookup_current_scope_none t name).mp h
    have hmem : ∀ i, ∀ s ∈ bucket_set t.buckets (hash_string name)
        (declared_function t name return_type line :: t.buckets (hash_string name)) i,
        (i = hash_string name ∧ s = declared_function t name return_type line) ∨
          s ∈ t.buckets i := by
      intro i s hs
      simp only [bucket_set] at hs
      split at hs
      · rename_i e
        rcases List.mem_cons.mp hs with h1 | h1
        · exact Or.inl ⟨e, h1⟩
        · rw [e]
          exact Or.inr h1
      · exact Or.inr hs
    refine ⟨?_, ?_, ?_⟩
    · intro i s hs
      rcases hmem i s hs with ⟨e, h1⟩ | h1
      · rw [h1, e]
        rfl
      · exact inv.hashed i s h1
    · intro i s hs
      rcases hmem i s hs with ⟨_, h1⟩ | h1
      · rw [h1]
        exact le_refl _
      · exact inv.levels i s h1
    · intro i
      simp only [bucket_set]
      split
      · refine List.pairwise_cons.mpr ⟨?_, inv.unique _⟩
        intro s hs hc
        exact hfresh s hs ⟨hc.1.symm, hc.2.symm⟩
      · exact inv.unique i

theorem tableInv_of_reachable {t : SymbolTable} (h : Reachable t) : TableInv t := by
  induction h with
  | create => exact tableInv_create
  | enter_scope _ ih => exact tableInv_enter_scope ih
  | exit_scope _ ih => exact tableInv_exit_scope ih
  | declare name kind type line _ ih => exact tableInv_declare ih name kind type line
  | declare_function name rt line _ ih => exact tableInv_declare_function ih name rt line

/-- The search loop of `symbol_lookup` over a chain, started with `found`. -/
theorem lookup_fold_spec (name : String) (chain : List Symbol) :
    ∀ found : Option Symbol, (∀ f, found = some f → f.name = name) →
      ((chain.foldl
          (fun found sym =>
            if sym.name = name then
              match found with
              | none => some sym
              | some f => if sym.scope_level > f.scope_level then some sym else some f
            else found)
          found = none ↔ found = none ∧ ∀ s ∈ chain, s.name ≠ name) ∧
       ∀ x, chain.foldl
          (fun found sym =>
            if sym.name = name then
              match found with
              | none => some sym
              | some f => if sym.scope_level > f.scope_level then some sym else some f
            else found)
          found = some x →
        (found = some x ∨ x ∈ chain) ∧ x.name = name ∧
        (∀ s ∈ chain, s.name = name → s.scope_level ≤ x.scope_level) ∧
        (∀ f, found = some f → f.scope_level ≤ x.scope_level)) := by
  induction chain with
  | nil =>
    intro found hf
    simp only [List.foldl_nil, List.not_mem_nil, false_implies, implies_true, and_true,
      or_false, true_and]
    intro x hx
    refine ⟨hx, hf x hx, fun f hfx => ?_⟩
    rw [hx] at hfx
    cases hfx
    exact le_refl _
  | cons a rest ih =>
    intro found hf
    simp only [List.foldl_cons]
    by_cases ha : a.name = name
    · simp only [if_pos ha]
      cases found with
      | none =>
        obtain ⟨h1, h2⟩ := ih (some a) (fun f hfa => by cases hfa; exact ha)
        refine ⟨?_, ?_⟩
        · constructor
          · intro hn
            exact absurd (h1.mp hn).1 (by simp)
          · intro hn
            exact absurd ha (hn.2 a (List.mem_cons_self _ _))
        · intro x hx
          obtain ⟨k1, k2, k3, k4⟩ := h2 x hx
          refine ⟨Or.inr ?_, k2, ?_, fun f hfx => by cases hfx⟩
          · rcases k1 with k | k
            · cases k
              exact List.mem_cons_self _ _
            · exact List.mem_cons_of_mem _ k
          · intro s hs hsn
            rcases List.mem_cons.mp hs with e | e
            · rw [e]
              exact k4 a rfl
            · exact k3 s e hsn
      | some f =>
        have hfn := hf f rfl
        by_cases hgt : a.scope_level > f.scope_level
        · simp only [if_pos hgt]
          obtain ⟨h1, h2⟩ := ih (some a) (fun f hfa => by cases hfa; exact ha)
          refine ⟨?_, ?_⟩
          · constructor
            · intro hn
              exact absurd (h1.mp hn).1 (by simp)
            · intro hn
              exact absurd hn.1 (by simp)
          · intro x hx
            obtain ⟨k1, k2, k3, k4⟩ := h2 x hx
            have hax := k4 a rfl
            refine ⟨Or.inr ?_, k2, ?_, ?_⟩
            · rcases k1 with k | k
              · cases k
                exact List.mem_cons_self _ _
              · exact List.mem_cons_of_mem _ k
            · intro s hs hsn
              rcases List.mem_cons.mp hs with e | e
              · rw [e]
                exact hax
              · exact k3 s e hsn
            · intro g hg
              cases hg
              omega
        · simp only [if_neg hgt]
          obtain ⟨h1, h2⟩ := ih (some f) (fun g hg => by cases hg; exact hfn)
          refine ⟨?_, ?_⟩
          · constructor
            · intro hn
              exact absurd (h1.mp hn).1 (by simp)
            · intro hn
              exact absurd hn.1 (by simp)
          · intro x hx
            obtain ⟨k1, k2, k3, k4⟩ := h2 x hx
            have hfx := k4 f rfl
            refine ⟨?_, k2, ?_, ?_⟩
            · rcases k1 with k | k
              · exact Or.inl k
              · exact Or.inr (List.mem_cons_of_mem _ k)
            · intro s hs hsn
              rcases List.mem_cons.mp hs with e | e
              · rw [e]
                omega
              · exact k3 s e hsn
            · intro g hg
              cases hg
              exact hfx
    · simp only [if_neg ha]
      obtain ⟨h1, h2⟩ := ih found hf
      refine ⟨?_, ?_⟩
      · rw [h1]
        constructor
        · rintro ⟨k1, k2⟩
          refine ⟨k1, fun s hs => ?_⟩
          rcases List.mem_cons.mp hs with e | e
          · rw [e]
            exact ha
          · exact k2 s e
        · rintro ⟨k1, k2⟩
          exact ⟨k1, fun s hs => k2 s (List.mem_cons_of_mem _ hs)⟩
      · intro x hx
        obtain ⟨k1, k2, k3, k4⟩ := h2 x hx
        refine ⟨?_, k2, ?_, k4⟩
        · rcases k1 with k | k
          · exact Or.inl k
          · exact Or.inr (List.mem_cons_of_mem _ k)
        · intro s hs hsn
          rcases List.mem_cons.mp hs with e | e
          · rw [e] at hsn
            exact absurd hsn ha
          · exact k3 s e hsn

theorem reachable_table_shadow : Reachable table_shadow :=
  Reachable.declare _ _ _ _ (Reachable.enter_scope (Reachable.declare _ _ _ _ Reachable.create))

/-- What `symbol_lookup` returns, in terms of the chain of the name's bucket. -/
theorem symbol_lookup_spec (t : SymbolTable) (name : String) :
    (symbol_lookup t name = none ↔ ∀ s ∈ t.buckets (hash_string name), s.name ≠ name) ∧
    ∀ r, symbol_lookup t name = some r →
      r ∈ t.buckets (hash_string name) ∧ r.name = name ∧
      ∀ s ∈ t.buckets (hash_string name), s.name = name → s.scope_level ≤ r.scope_level := by
  have h := lookup_fold_spec name (t.buckets (hash_string name)) none (fun f hf => by cases hf)
  obtain ⟨h1, h2⟩ := h
  refine ⟨?_, ?_⟩
  · unfold symbol_lookup
    exact h1.trans ⟨fun h => h.2, fun h => ⟨rfl, h⟩⟩
  · intro r hr
    unfold symbol_lookup at hr
    obtain ⟨k1, k2, k3, _⟩ := h2 r hr
    refine ⟨?_, k2, k3⟩
    rcases k1 with k | k
    · cases k
    · exact k

/-- A found symbol stays found when nothing deeper of that name follows. -/
theorem lookup_fold_keep (name : String) (x : Symbol) (rest : List Symbol)
    (h : ∀ s ∈ rest, s.name = name → s.scope_level ≤ x.scope_level) :
    rest.foldl
      (fun found sym =>
        if sym.name = name then
          match found with
          | none => some sym
          | some f => if sym.scope_level > f.scope_level then some sym else some f
        else found)
      (some x) = some x := by
  induction rest with
  | nil => rfl
  | cons a rest ih =>
    simp only [List.foldl_cons]
    by_cases ha : a.name = name
    · have := h a (List.mem_cons_self _ _) ha
      simp only [if_pos ha, if_neg (not_lt.mpr this)]
      exact ih (fun s hs => h s (List.mem_cons_of_mem _ hs))
    · simp only [if_neg ha]
      exact ih (fun s hs => h s (List.mem_cons_of_mem _ hs))

/-- The lookup of a name whose chain starts with a symbol of that name that
nothing in the rest of the chain is deeper than. -/
theorem symbol_lookup_head (t : SymbolTable) (name : String) (x : Symbol) (rest : List Symbol)
    (hb : t.buckets (hash_string name) = x :: rest) (hx : x.name = name)
    (h : ∀ s ∈ rest, s.name = name → s.scope_level ≤ x.scope_level) :
    symbol_lookup t name = some x := by
  unfold symbol_lookup
  rw [hb, List.foldl_cons, if_pos hx]
  exact lookup_fold_keep name x rest h

theorem symbols_exit_scope (t : SymbolTable) (h : t.scope_level ≠ 0) :
    (symbol_exit_scope t).symbols =
      t.symbols.filter (fun sym => decide (sym.scope_level ≠ t.scope_level)) := by
  unfold SymbolTable.symbols
  rw [List.filter_flatMap]
  apply List.flatMap_congr
  intro i hi
  exact exit_scope_bucket t h i (List.mem_range.mp hi)

theorem symbols_pairwise_of_inv {t : SymbolTable} (inv : TableInv t) :
    t.symbols.Pairwise (fun a b => ¬ (a.name = b.name ∧ a.scope_level = b.scope_level)) := by
  unfold SymbolTable.symbols
  rw [List.pairwise_flatMap]
  refine ⟨fun i _ => inv.unique i, ?_⟩
  refine (List.pairwise_lt_range _).imp ?_
  intro i j hij x hx y hy hc
  have h1 := inv.hashed i x hx
  have h2 := inv.hashed j y hy
  rw [hc.1] at h1
  omega

/-- C11: `types_compatible a b` is true if and only if neither `a` nor `b` is
VOID or ERROR and `a = b`; over the sixteen pairs that is exactly (INT, INT)
and (UNKNOWN, UNKNOWN). -/
theorem types_compatible_iff (a b : DataType) :
    (types_compatible a b = true ↔
      a ≠ TYPE_VOID ∧ a ≠ TYPE_ERROR ∧ b ≠ TYPE_VOID ∧ b ≠ TYPE_ERROR ∧ a = b) ∧
    (types_compatible a b = true ↔
      (a = TYPE_INT ∧ b = TYPE_INT) ∨ (a = TYPE_UNKNOWN ∧ b = TYPE_UNKNOWN)) := by
  cases a <;> cases b <;> decide

/-- C12: in every table reachable through create, enter_scope, exit_scope and
declare (and declare_function), `symbol_lookup name` is NULL exactly when no
symbol of the table has that name, and otherwise is a symbol of the table with
that name whose scope level is at least that of every symbol with that name. -/
theorem symbol_lookup_returns_deepest (t : SymbolTable) (h : Reachable t) (name : String) :
    (symbol_lookup t name = none ↔ ∀ s ∈ t.symbols, s.name ≠ name) ∧
    ∀ r, symbol_lookup t name = some r →
      r ∈ t.symbols ∧ r.name = name ∧
      ∀ s ∈ t.symbols, s.name = name → s.scope_level ≤ r.scope_level := by
  have inv := tableInv_of_reachable h
  obtain ⟨h1, h2⟩ := symbol_lookup_spec t name
  refine ⟨?_, ?_⟩
  · rw [h1]
    constructor
    · intro k s hs hn
      have hs2 := (mem_symbols_of_inv inv s).mp hs
      rw [hn] at hs2
      exact k s hs2 hn
    · intro k s hs
      exact k s ((mem_symbols t s).mpr ⟨_, hash_string_lt _, hs⟩)
  · intro r hr
    obtain ⟨k1, k2, k3⟩ := h2 r hr
    refine ⟨(mem_symbols t r).mpr ⟨_, hash_string_lt _, k1⟩, k2, ?_⟩
    intro s hs hn
    have hs2 := (mem_symbols_of_inv inv s).mp hs
    rw [hn] at hs2
    exact k3 s hs2 hn

theorem symbol_lookup_returns_deepest_witness :
    Reachable table_shadow ∧
    (symbol_lookup table_shadow "x" = none ↔ ∀ s ∈ table_shadow.symbols, s.name ≠ "x") ∧
    ∀ r, symbol_lookup table_shadow "x" = some r →
      r ∈ table_shadow.symbols ∧ r.name = "x" ∧
      ∀ s ∈ table_shadow.symbols, s.name = "x" → s.scope_level ≤ r.scope_level :=
  ⟨reachable_table_shadow, symbol_lookup_returns_deepest table_shadow reachable_table_shadow "x"⟩

/-- C13: on a reachable table `symbol_declare name kind type line` returns NULL
if and only if a symbol named `name` exists at the current scope level, and
then leaves the table as it was; otherwise the new symbol carries `name`,
`kind`, `type`, `line` and the current scope level, the table gains exactly
that symbol at an unchanged scope level, and both `symbol_lookup name` and
`symbol_lookup_current_scope name` return it afterwards. -/
theorem symbol_declare_contract (t : SymbolTable) (h : Reachable t) (name : String)
    (kind : SymbolKind) (type : DataType) (line : Int) :
    ((symbol_declare t name kind type line).1 = none ↔
      ∃ s ∈ t.symbols, s.name = name ∧ s.scope_level = t.scope_level) ∧
    ((symbol_declare t name kind type line).1 = none →
      (symbol_declare t name kind type line).2 = t) ∧
    ∀ sym, (symbol_declare t name kind type line).1 = some sym →
      sym.name = name ∧ sym.kind = kind ∧ sym.type = type ∧ sym.line_declared = line ∧
      sym.scope_level = t.scope_level ∧
      (∀ s, s ∈ (symbol_declare t name kind type line).2.symbols ↔ s = sym ∨ s ∈ t.symbols) ∧
      (symbol_declare t name kind type line).2.scope_level = t.scope_level ∧
      symbol_lookup (symbol_declare t name kind type line).2 name = some sym ∧
      symbol_lookup_current_scope (symbol_declare t name kind type line).2 name = some sym := by
  have inv := tableInv_of_reachable h
  cases hl : symbol_lookup_current_scope t name with
  | some e =>
    rw [symbol_declare_of_some t name kind type line e hl]
    obtain ⟨k1, k2, k3⟩ := lookup_current_scope_some t name e hl
    refine ⟨⟨fun _ => ⟨e, (mem_symbols t e).mpr ⟨_, hash_string_lt _, k1⟩, k2, k3⟩, fun _ => rfl⟩,
      fun _ => rfl, fun sym hs => by cases hs⟩
  | none =>
    obtain ⟨h1, hb, hlev⟩ := symbol_declare_of_none t name kind type line hl
    have hfresh := (lookup_current_scope_none t name).mp hl
    have hchain : (symbol_declare t name kind type line).2.buckets (hash_string name) =
        declared_symbol t name kind type line :: t.buckets (hash_string name) := by
      rw [hb]
      simp [bucket_set]
    refine ⟨⟨fun k => ?_, ?_⟩, fun k => ?_, ?_⟩
    · rw [h1] at k
      cases k
    · rintro ⟨s, hs, hn, hsl⟩
      have hs2 := (mem_symbols_of_inv inv s).mp hs
      rw [hn] at hs2
      exact absurd ⟨hn, hsl⟩ (hfresh s hs2)
    · rw [h1] at k
      cases k
    · intro sym hs
      rw [h1] at hs
      cases hs
      refine ⟨rfl, rfl, rfl, rfl, rfl, ?_, hlev, ?_, ?_⟩
      · intro s
        rw [mem_symbols, mem_symbols, hb]
        constructor
        · rintro ⟨i, hi, hs⟩
          simp only [bucket_set] at hs
          split at hs
          · rename_i e
            rcases List.mem_cons.mp hs with k | k
            · exact Or.inl k
            · exact Or.inr ⟨hash_string name, hash_string_lt _, k⟩
          · exact Or.inr ⟨i, hi, hs⟩
        · rintro (k | ⟨i, hi, hs⟩)
          · refine ⟨hash_string name, hash_string_lt _, ?_⟩
            simp [bucket_set, k]
          · refine ⟨i, hi, ?_⟩
            simp only [bucket_set]
            split
            · rename_i e
              rw [← e]
              exact List.mem_cons_of_mem _ hs
            · exact hs
      · refine symbol_lookup_head _ name _ _ hchain rfl ?_
        intro s hs _
        exact inv.levels _ s hs
      · unfold symbol_lookup_current_scope
        rw [hchain, hlev]
        simp [declared_symbol]

theorem symbol_declare_contract_witness :
    Reachable table_shadow ∧
    ((symbol_declare table_shadow "y" SYMBOL_VARIABLE TYPE_INT 3).1 = none ↔
      ∃ s ∈ table_shadow.symbols, s.name = "y" ∧ s.scope_level = table_shadow.scope_level) ∧
    ((symbol_declare table_shadow "y" SYMBOL_VARIABLE TYPE_INT 3).1 = none →
      (symbol_declare table_shadow "y" SYMBOL_VARIABLE TYPE_INT 3).2 = table_shadow) ∧
    ∀ sym, (symbol_declare table_shadow "y" SYMBOL_VARIABLE TYPE_INT 3).1 = some sym →
      sym.name = "y" ∧ sym.kind = SYMBOL_VARIABLE ∧ sym.type = TYPE_INT ∧ sym.line_declared = 3 ∧
      sym.scope_level = table_shadow.scope_level ∧
      (∀ s, s ∈ (symbol_declare table_shadow "y" SYMBOL_VARIABLE TYPE_INT 3).2.symbols ↔
        s = sym ∨ s ∈ table_shadow.symbols) ∧
      (symbol_declare table_shadow "y" SYMBOL_VARIABLE TYPE_INT 3).2.scope_level =
        table_shadow.scope_level ∧
      symbol_lookup (symbol_declare table_shadow "y" SYMBOL_VARIABLE TYPE_INT 3).2 "y" = some sym ∧
      symbol_lookup_current_scope (symbol_declare table_shadow "y" SYMBOL_VARIABLE TYPE_INT 3).2 "y"
        = some sym :=
  ⟨reachable_table_shadow,
    symbol_declare_contract table_shadow reachable_table_shadow "y" SYMBOL_VARIABLE TYPE_INT 3⟩

/-- C14: `symbol_exit_scope` at scope level 0 leaves the whole table unchanged;
at any other level `L` it removes exactly the symbols whose scope level is `L`,
keeps the others as they were and in their order, and sets the level to
`L - 1`. -/
theorem symbol_exit_scope_contract (t : SymbolTable) :
    if t.scope_level = 0 then symbol_exit_scope t = t
    else
      (symbol_exit_scope t).symbols =
        t.symbols.filter (fun sym => decide (sym.scope_level ≠ t.scope_level)) ∧
      (∀ i, i < SYMBOL_TABLE_SIZE → (symbol_exit_scope t).buckets i =
        (t.buckets i).filter (fun sym => decide (sym.scope_level ≠ t.scope_level))) ∧
      (symbol_exit_scope t).scope_level = t.scope_level - 1 := by
  split
  · rename_i h
    simp [symbol_exit_scope, h]
  · rename_i h
    refine ⟨symbols_exit_scope t h, fun i hi => exit_scope_bucket t h i hi, ?_⟩
    simp [symbol_exit_scope, h]

/-- C15: in every table reachable from `symbol_table_create` through
`symbol_enter_scope`, `symbol_exit_scope`, `symbol_declare` and
`symbol_declare_function`, no two symbols have the same name and the same
scope level. -/
theorem names_unique_per_scope_level (t : SymbolTable) (h : Reachable t) :
    t.symbols.Pairwise (fun a b => ¬ (a.name = b.name ∧ a.scope_level = b.scope_level)) :=
  symbols_pairwise_of_inv (tableInv_of_reachable h)

theorem names_unique_per_scope_level_witness :
    Reachable table_shadow ∧
    table_shadow.symbols.Pairwise
      (fun a b => ¬ (a.name = b.name ∧ a.scope_level = b.scope_level)) :=
  ⟨reachable_table_shadow, names_unique_per_scope_level table_shadow reachable_table_shadow⟩

theorem ErrOnly.err_refl (a : SemanticAnalyzer) : ErrOnly a a :=
  ⟨rfl, rfl, rfl, rfl, rfl, [], (List.append_nil _).symm⟩

theorem ErrOnly.err_trans {a b c : SemanticAnalyzer} (h1 : ErrOnly a b) (h2 : ErrOnly b c) :
    ErrOnly a c :=
  ⟨h2.symtab.trans h1.symtab, h2.return_type.trans h1.return_type, h2.in_loop.trans h1.in_loop,
    h2.enters.trans h1.enters, h2.exits.trans h1.exits, by
      obtain ⟨e1, h3⟩ := h1.errors
      obtain ⟨e2, h4⟩ := h2.errors
      exact ⟨e1 ++ e2, by rw [h4, h3, List.append_assoc]⟩⟩

theorem semantic_error_errOnly (a : SemanticAnalyzer) (line : Int) (msg : String) :
    ErrOnly a (semantic_error a line msg) := by
  unfold semantic_error
  split
  · exact ErrOnly.err_refl a
  · exact ⟨rfl, rfl, rfl, rfl, rfl, _, rfl⟩

/-- Expression analysis writes nothing but diagnostics. -/
theorem analyze_expression_errOnly :
    ∀ (n : Nat) (node : ASTNode), node.size ≤ n →
      (∀ a, ErrOnly a (analyze_expression a node).2) ∧
      (∀ a func_name fi line k, ErrOnly a (analyze_args a func_name fi line k node).2) := by
  intro n
  induction n with
  | zero =>
    intro node hn
    cases node with
    | null =>
      constructor
      · intro a
        rw [analyze_expression]
        exact ErrOnly.err_refl a
      · intro a f fi line k
        rw [analyze_args]
        exact ErrOnly.err_refl a
    | node ty text dt ln fc ns => simp only [ASTNode.size] at hn; omega
  | succ n ih =>
    intro node hn
    cases node with
    | null =>
      constructor
      · intro a
        rw [analyze_expression]
        exact ErrOnly.err_refl a
      · intro a f fi line k
        rw [analyze_args]
        exact ErrOnly.err_refl a
    | node ty text dt ln fc ns =>
      have hchild : ∀ k a, ErrOnly a (analyze_expression a
          (get_child (.node ty text dt ln fc ns) k)).2 := by
        intro k
        have := get_child_size ty text dt ln fc ns k
        exact (ih _ (by omega)).1
      have hfc : fc.size ≤ n := by simp only [ASTNode.size] at hn; omega
      have hns : ns.size ≤ n := by simp only [ASTNode.size] at hn; omega
      have hexpr : ∀ a, ErrOnly a (analyze_expression a (.node ty text dt ln fc ns)).2 := by
        intro a
        cases ty
        case AST_IDENTIFIER =>
          simp only [analyze_expression]
          split
          · exact semantic_error_errOnly _ _ _
          · split
            · exact semantic_error_errOnly _ _ _
            · exact ErrOnly.err_refl a
        case AST_ASSIGNMENT =>
          simp only [analyze_expression]
          split
          · exact semantic_error_errOnly _ _ _
          · split
            · exact semantic_error_errOnly _ _ _
            · split
              · exact hchild 1 a
              · exact (hchild 1 a).err_trans (semantic_error_errOnly _ _ _)
        case AST_BINARY_EXPR =>
          simp only [analyze_expression]
          have h1 := hchild 0 a
          have h2 := hchild 1 (analyze_expression a (get_child (.node AST_BINARY_EXPR text dt ln fc ns) 0)).2
          split
          · exact (h1.err_trans h2).err_trans (semantic_error_errOnly _ _ _)
          · split
            · exact (h1.err_trans h2).err_trans (semantic_error_errOnly _ _ _)
            · split
              · exact h1.err_trans h2
              · exact h1.err_trans h2
        case AST_UNARY_EXPR =>
          simp only [analyze_expression]
          split
          · exact (hchild 0 a).err_trans (semantic_error_errOnly _ _ _)
          · exact hchild 0 a
        case AST_FUNCTION_CALL =>
          simp only [analyze_expression]
          have hargs : ∀ a f fi line k, ErrOnly a (analyze_args a f fi line k
              (get_child (.node AST_FUNCTION_CALL text dt ln fc ns) 0).first_child).2 := by
            have h1 := get_child_size AST_FUNCTION_CALL text dt ln fc ns 0
            have h2 := first_child_size_le (get_child (.node AST_FUNCTION_CALL text dt ln fc ns) 0)
            exact (ih _ (by omega)).2
          split
          · exact semantic_error_errOnly _ _ _
          · split
            · exact semantic_error_errOnly _ _ _
            · split
              · exact ErrOnly.err_refl a
              · split
                · split
                  · exact (hargs _ _ _ _ _).err_trans (semantic_error_errOnly _ _ _)
                  · exact hargs _ _ _ _ _
                · split
                  · exact semantic_error_errOnly _ _ _
                  · exact ErrOnly.err_refl a
        case AST_EXPR_STATEMENT =>
          simp only [analyze_expression]
          split
          · exact ErrOnly.err_refl a
          · exact (ih _ hfc).1 a
        all_goals
          simp only [analyze_expression]
          exact ErrOnly.err_refl a
      refine ⟨hexpr, ?_⟩
      intro a f fi line k
      simp only [analyze_args]
      have h1 := hexpr a
      have h2 : ∀ b, ErrOnly b (analyze_args b f fi line (k + 1) ns).2 :=
        fun b => (ih _ hns).2 b f fi line (k + 1)
      split
      · split
        · exact h1.err_trans (h2 _)
        · exact (h1.err_trans (semantic_error_errOnly _ _ _)).err_trans (h2 _)
      · exact h1.err_trans (h2 _)

theorem analyze_expression_keeps (a : SemanticAnalyzer) (node : ASTNode) :
    ErrOnly a (analyze_expression a node).2 :=
  (analyze_expression_errOnly node.size node (le_refl _)).1 a

theorem analyze_return_errOnly (a : SemanticAnalyzer) (node : ASTNode) :
    ErrOnly a (analyze_return a node) := by
  cases node with
  | null => exact ErrOnly.err_refl a
  | node ty text dt ln fc ns =>
    simp only [analyze_return]
    have h1 := analyze_expression_keeps a fc
    split
    · split
      · exact semantic_error_errOnly _ _ _
      · split
        · exact semantic_error_errOnly _ _ _
        · split
          · exact semantic_error_errOnly _ _ _
          · exact ErrOnly.err_refl a
    · split
      · exact h1.err_trans (semantic_error_errOnly _ _ _)
      · split
        · exact h1.err_trans (semantic_error_errOnly _ _ _)
        · split
          · exact h1.err_trans (semantic_error_errOnly _ _ _)
          · exact h1

theorem analyze_condition_errOnly (a : SemanticAnalyzer) (condition : ASTNode) (line : Int)
    (message : String) : ErrOnly a (analyze_condition a condition line message) := by
  simp only [analyze_condition]
  split
  · exact (analyze_expression_keeps a condition).err_trans (semantic_error_errOnly _ _ _)
  · exact analyze_expression_keeps a condition

theorem ScopeBalanced.bal_refl (a : SemanticAnalyzer) : ScopeBalanced a a := ⟨rfl, rfl⟩

theorem ScopeBalanced.bal_trans {a b c : SemanticAnalyzer} (h1 : ScopeBalanced a b)
    (h2 : ScopeBalanced b c) : ScopeBalanced a c :=
  ⟨h2.level.trans h1.level, by have := h1.calls; have := h2.calls; omega⟩

theorem ErrOnly.balanced {a b : SemanticAnalyzer} (h : ErrOnly a b) : ScopeBalanced a b :=
  ⟨by rw [h.symtab], by rw [h.enters, h.exits]⟩

theorem symbol_declare_level (t : SymbolTable) (name : String) (kind : SymbolKind)
    (type : DataType) (line : Int) :
    (symbol_declare t name kind type line).2.scope_level = t.scope_level := by
  unfold symbol_declare
  split <;> rfl

theorem analyze_var_decl_balanced (a : SemanticAnalyzer) (node : ASTNode) :
    ScopeBalanced a (analyze_var_decl a node) := by
  cases node with
  | null => exact ScopeBalanced.bal_refl a
  | node ty text dt ln fc ns =>
    simp only [analyze_var_decl]
    split
    · exact (semantic_error_errOnly _ _ _).balanced
    · split
      · exact (semantic_error_errOnly _ _ _).balanced
      · have hd := symbol_declare_level a.symtab (cstr text) SYMBOL_VARIABLE
          (datatype_from_string dt) ln
        split
        · rename_i tbl hsd
          rw [hsd] at hd
          have h0 : ScopeBalanced a { a with symtab := tbl } := ⟨hd, rfl⟩
          exact h0.bal_trans (semantic_error_errOnly _ _ _).balanced
        · rename_i sym tbl hsd
          rw [hsd] at hd
          have h0 : ScopeBalanced a { a with symtab := tbl } := ⟨hd, rfl⟩
          split
          · exact h0
          · split
            · exact h0.bal_trans ((analyze_expression_keeps _ fc).err_trans
                (semantic_error_errOnly _ _ _)).balanced
            · exact h0.bal_trans (analyze_expression_keeps _ fc).balanced

/-- An enter call, a balanced stretch and an exit call make a balanced stretch:
the exit call is made above level 0. -/
theorem enter_exit_balanced (a a2 : SemanticAnalyzer) (h0 : 0 ≤ a.symtab.scope_level)
    (h : ScopeBalanced
      { a with symtab := symbol_enter_scope a.symtab, enter_calls := a.enter_calls + 1 } a2) :
    ScopeBalanced a
      { a2 with symtab := symbol_exit_scope a2.symtab, exit_calls := a2.exit_calls + 1 } := by
  have hl : a2.symtab.scope_level = a.symtab.scope_level + 1 := h.level
  have hc := h.calls
  simp only at hc
  refine ⟨?_, ?_⟩
  · have hne : a2.symtab.scope_level ≠ 0 := by omega
    simp only [symbol_exit_scope, if_neg hne]
    omega
  · simp only
    omega

theorem set_in_loop_balanced (a : SemanticAnalyzer) (b : Bool) :
    ScopeBalanced a { a with in_loop := b } := ⟨rfl, rfl⟩

theorem ScopeBalanced.nonneg {a b : SemanticAnalyzer} (h : ScopeBalanced a b)
    (h0 : 0 ≤ a.symtab.scope_level) : 0 ≤ b.symtab.scope_level := by
  rw [h.level]
  exact h0

/-- Statement analysis is balanced. -/
theorem analyze_statement_balanced :
    ∀ (n : Nat) (node : ASTNode), node.size ≤ n →
      (∀ a, 0 ≤ a.symtab.scope_level → ScopeBalanced a (analyze_statement a node)) ∧
      (∀ a, 0 ≤ a.symtab.scope_level → ScopeBalanced a (analyze_stmts a node)) := by
  intro n
  induction n with
  | zero =>
    intro node hn
    cases node with
    | null =>
      constructor
      · intro a _
        rw [analyze_statement]
        exact ScopeBalanced.bal_refl a
      · intro a _
        rw [analyze_stmts]
        exact ScopeBalanced.bal_refl a
    | node ty text dt ln fc ns => simp only [ASTNode.size] at hn; omega
  | succ n ih =>
    intro node hn
    cases node with
    | null =>
      constructor
      · intro a _
        rw [analyze_statement]
        exact ScopeBalanced.bal_refl a
      · intro a _
        rw [analyze_stmts]
        exact ScopeBalanced.bal_refl a
    | node ty text dt ln fc ns =>
      have hchild : ∀ k a, 0 ≤ a.symtab.scope_level →
          ScopeBalanced a (analyze_statement a (get_child (.node ty text dt ln fc ns) k)) := by
        intro k
        have := get_child_size ty text dt ln fc ns k
        exact (ih _ (by omega)).1
      have hfc : fc.size ≤ n := by simp only [ASTNode.size] at hn; omega
      have hns : ns.size ≤ n := by simp only [ASTNode.size] at hn; omega
      have hif : ∀ a, 0 ≤ a.symtab.scope_level →
          ScopeBalanced a (analyze_if a (.node ty text dt ln fc ns)) := by
        intro a h0
        simp only [analyze_if]
        have h1 : ScopeBalanced a
            (if get_child (.node ty text dt ln fc ns) 0 = .null then a
             else analyze_condition a (get_child (.node ty text dt ln fc ns) 0) ln
               "Kosul ifadesi void olamaz") := by
          split
          · exact ScopeBalanced.bal_refl a
          · exact (analyze_condition_errOnly _ _ _ _).balanced
        have h2 := hchild 1 _ (h1.nonneg h0)
        split
        · exact (h1.bal_trans h2).bal_trans (hchild 2 _ ((h1.bal_trans h2).nonneg h0))
        · exact h1.bal_trans h2
      have hstmt : ∀ a, 0 ≤ a.symtab.scope_level →
          ScopeBalanced a (analyze_statement a (.node ty text dt ln fc ns)) := by
        intro a h0
        cases ty
        case AST_VAR_DECL =>
          simp only [analyze_statement]
          exact analyze_var_decl_balanced a _
        case AST_BLOCK =>
          simp only [analyze_statement, analyze_block]
          refine enter_exit_balanced a _ h0 ((ih _ hfc).2 _ ?_)
          simp only [symbol_enter_scope]
          omega
        case AST_IF =>
          simp only [analyze_statement]
          exact hif a h0
        case AST_IF_ELSE =>
          simp only [analyze_statement]
          exact hif a h0
        case AST_WHILE =>
          simp only [analyze_statement, analyze_while]
          have h1 : ScopeBalanced a
              (if get_child (.node AST_WHILE text dt ln fc ns) 0 = .null then a
               else analyze_condition a (get_child (.node AST_WHILE text dt ln fc ns) 0) ln
                 "Dongu kosulu void olamaz") := by
            split
            · exact ScopeBalanced.bal_refl a
            · exact (analyze_condition_errOnly _ _ _ _).balanced
          have h2 := h1.bal_trans (set_in_loop_balanced _ true)
          have h3 := h2.bal_trans (hchild 1 _ (h2.nonneg h0))
          exact h3.bal_trans (set_in_loop_balanced _ _)
        case AST_FOR =>
          simp only [analyze_statement, analyze_for]
          have h1 : 0 ≤ (symbol_enter_scope a.symtab).scope_level := by
            simp only [symbol_enter_scope]
            omega
          have hinit : ∀ b, 0 ≤ b.symtab.scope_level → ScopeBalanced b
              (if get_child (.node AST_FOR text dt ln fc ns) 0 ≠ .null ∧
                  ¬ (get_child (.node AST_FOR text dt ln fc ns) 0).is AST_EMPTY then
                analyze_statement b (get_child (.node AST_FOR text dt ln fc ns) 0)
               else b) := by
            intro b hb
            split
            · exact hchild 0 b hb
            · exact ScopeBalanced.bal_refl b
          have hcond : ∀ b, ScopeBalanced b
              (if get_child (.node AST_FOR text dt ln fc ns) 1 ≠ .null ∧
                  ¬ (get_child (.node AST_FOR text dt ln fc ns) 1).is AST_EMPTY then
                analyze_condition b (get_child (.node AST_FOR text dt ln fc ns) 1) ln
                  "For dongusu kosulu void olamaz"
               else b) := by
            intro b
            split
            · exact (analyze_condition_errOnly _ _ _ _).balanced
            · exact ScopeBalanced.bal_refl b
          have hupd : ∀ b, ScopeBalanced b
              (if get_child (.node AST_FOR text dt ln fc ns) 2 ≠ .null ∧
                  ¬ (get_child (.node AST_FOR text dt ln fc ns) 2).is AST_EMPTY then
                (analyze_expression b (get_child (.node AST_FOR text dt ln fc ns) 2)).2
               else b) := by
            intro b
            split
            · exact (analyze_expression_keeps _ _).balanced
            · exact ScopeBalanced.bal_refl b
          have k1 := hinit
            { a with symtab := symbol_enter_scope a.symtab, enter_calls := a.enter_calls + 1 } h1
          have k2 := k1.bal_trans (hcond _)
          have k3 := k2.bal_trans (hupd _)
          generalize (if get_child (.node AST_FOR text dt ln fc ns) 2 ≠ .null ∧
                  ¬ (get_child (.node AST_FOR text dt ln fc ns) 2).is AST_EMPTY then
                (analyze_expression _ (get_child (.node AST_FOR text dt ln fc ns) 2)).2
               else _) = c3 at k3 ⊢
          have k4 := k3.bal_trans (set_in_loop_balanced _ true)
          have k5 := k4.bal_trans (hchild 3 _ (k4.nonneg h1))
          exact enter_exit_balanced a
            { analyze_statement { c3 with in_loop := true }
                (get_child (.node AST_FOR text dt ln fc ns) 3) with in_loop := c3.in_loop }
            h0 (k5.bal_trans (set_in_loop_balanced _ _))
        case AST_RETURN =>
          simp only [analyze_statement]
          exact (analyze_return_errOnly a _).balanced
        case AST_EXPR_STATEMENT =>
          simp only [analyze_statement]
          split
          · exact ScopeBalanced.bal_refl a
          · exact (analyze_expression_keeps a fc).balanced
        case AST_ASSIGNMENT =>
          simp only [analyze_statement]
          exact (analyze_expression_keeps a _).balanced
        all_goals
          simp only [analyze_statement]
          exact (ih _ hfc).2 a h0
      refine ⟨hstmt, ?_⟩
      intro a h0
      simp only [analyze_stmts]
      exact (hstmt a h0).bal_trans ((ih _ hns).2 _ ((hstmt a h0).nonneg h0))

theorem analyze_stmts_balanced (a : SemanticAnalyzer) (node : ASTNode)
    (h0 : 0 ≤ a.symtab.scope_level) : ScopeBalanced a (analyze_stmts a node) :=
  (analyze_statement_balanced node.size node (le_refl _)).2 a h0

theorem declare_params_balanced (line : Int) (ps : List (String × DataType)) :
    ∀ a, ScopeBalanced a (declare_params a line ps) := by
  induction ps with
  | nil => intro a; exact ScopeBalanced.bal_refl a
  | cons p rest ih =>
    intro a
    obtain ⟨pname, ptype⟩ := p
    simp only [declare_params]
    have hd := symbol_declare_level a.symtab pname SYMBOL_PARAMETER ptype line
    split
    · rename_i tbl hsd
      rw [hsd] at hd
      have h0 : ScopeBalanced a { a with symtab := tbl } := ⟨hd, rfl⟩
      exact (h0.bal_trans (semantic_error_errOnly _ _ _).balanced).bal_trans (ih _)
    · rename_i sym tbl hsd
      rw [hsd] at hd
      have h0 : ScopeBalanced a { a with symtab := tbl } := ⟨hd, rfl⟩
      exact h0.bal_trans (ih _)

/-- The function `analyze_function` is balanced. -/
theorem analyze_function_balanced (a : SemanticAnalyzer) (node : ASTNode)
    (h0 : 0 ≤ a.symtab.scope_level) : ScopeBalanced a (analyze_function a node) := by
  cases node with
  | null => exact ScopeBalanced.bal_refl a
  | node ty text dt ln fc ns =>
    simp only [analyze_function]
    split
    · exact ScopeBalanced.bal_refl a
    · rename_i func _
      split
      · exact ScopeBalanced.bal_refl a
      · rename_i fi _
        have h1 : ScopeBalanced a
            { a with symtab := symbol_set_current_function a.symtab (some func)
                     current_return_type := fi.return_type } := ⟨rfl, rfl⟩
        have h2 := declare_params_balanced ln fi.params
          { a with symtab := symbol_enter_scope (symbol_set_current_function a.symtab (some func))
                   current_return_type := fi.return_type
                   enter_calls := a.enter_calls + 1 }
        have h2n : 0 ≤ (declare_params
          { a with symtab := symbol_enter_scope (symbol_set_current_function a.symtab (some func))
                   current_return_type := fi.return_type
                   enter_calls := a.enter_calls + 1 } ln fi.params).symtab.scope_level := by
          rw [h2.level]
          simp only [symbol_enter_scope, symbol_set_current_function]
          omega
        generalize declare_params _ ln fi.params = a3 at h2 h2n ⊢
        have h3 : ScopeBalanced a3
            (if (get_child (.node ty text dt ln fc ns) 1).is AST_BLOCK then
              analyze_stmts a3 (get_child (.node ty text dt ln fc ns) 1).first_child
             else a3) := by
          split
          · exact analyze_stmts_balanced a3 _ h2n
          · exact ScopeBalanced.bal_refl a3
        generalize (if (get_child (.node ty text dt ln fc ns) 1).is AST_BLOCK then
              analyze_stmts a3 (get_child (.node ty text dt ln fc ns) 1).first_child
             else a3) = a4 at h3 ⊢
        have h4 := enter_exit_balanced
          { a with symtab := symbol_set_current_function a.symtab (some func)
                   current_return_type := fi.return_type } a4 h0 (h2.bal_trans h3)
        exact (h1.bal_trans h4).bal_trans ⟨rfl, rfl⟩

/-- The traversal `analyze_node` is balanced. -/
theorem analyze_node_balanced :
    ∀ (n : Nat) (node : ASTNode), node.size ≤ n →
      (∀ a, 0 ≤ a.symtab.scope_level → ScopeBalanced a (analyze_node a node)) ∧
      (∀ a, 0 ≤ a.symtab.scope_level → ScopeBalanced a (analyze_nodes a node)) := by
  intro n
  induction n with
  | zero =>
    intro node hn
    cases node with
    | null =>
      constructor
      · intro a _
        rw [analyze_node]
        exact ScopeBalanced.bal_refl a
      · intro a _
        rw [analyze_nodes]
        exact ScopeBalanced.bal_refl a
    | node ty text dt ln fc ns => simp only [ASTNode.size] at hn; omega
  | succ n ih =>
    intro node hn
    cases node with
    | null =>
      constructor
      · intro a _
        rw [analyze_node]
        exact ScopeBalanced.bal_refl a
      · intro a _
        rw [analyze_nodes]
        exact ScopeBalanced.bal_refl a
    | node ty text dt ln fc ns =>
      have hfc : fc.size ≤ n := by simp only [ASTNode.size] at hn; omega
      have hns : ns.size ≤ n := by simp only [ASTNode.size] at hn; omega
      have hnode : ∀ a, 0 ≤ a.symtab.scope_level →
          ScopeBalanced a (analyze_node a (.node ty text dt ln fc ns)) := by
        intro a h0
        cases ty
        case AST_FUNCTION =>
          simp only [analyze_node]
          exact analyze_function_balanced a _ h0
        case AST_VAR_DECL =>
          simp only [analyze_node]
          exact analyze_var_decl_balanced a _
        all_goals
          simp only [analyze_node]
          exact (ih _ hfc).2 a h0
      refine ⟨hnode, ?_⟩
      intro a h0
      simp only [analyze_nodes]
      exact (hnode a h0).bal_trans ((ih _ hns).2 _ ((hnode a h0).nonneg h0))

theorem symbol_declare_function_level (t : SymbolTable) (name : String) (rt : DataType)
    (line : Int) : (symbol_declare_function t name rt line).2.scope_level = t.scope_level := by
  have h := symbol_declare_level t name SYMBOL_FUNCTION rt line
  unfold symbol_declare_function
  split
  · rename_i t2 heq
    rw [heq] at h
    exact h
  · rename_i f t2 heq
    rw [heq] at h
    exact h

theorem symtab_add_parameter_level (t : SymbolTable) (f name : String) (ty : DataType) :
    (symtab_add_parameter t f name ty).scope_level = t.scope_level := by
  unfold symtab_add_parameter
  split <;> rfl

theorem collect_params_level (f : String) (node : ASTNode) :
    ∀ t, (collect_params t f node).scope_level = t.scope_level := by
  induction node with
  | null => intro t; rfl
  | node ty text dt ln fc ns _ ihn =>
    intro t
    simp only [collect_params]
    split
    · rw [ihn, symtab_add_parameter_level]
    · exact ihn t

/-- Pass 1 makes no scope call and stays at its scope level. -/
theorem collect_functions_loop_balanced (node : ASTNode) :
    ∀ a, ScopeBalanced a (collect_functions_loop a node) := by
  induction node with
  | null => intro a; exact ScopeBalanced.bal_refl a
  | node ty text dt ln fc ns _ ihn =>
    intro a
    simp only [collect_functions_loop]
    split
    · split
      · exact (semantic_error_errOnly _ _ _).balanced.bal_trans (ihn _)
      · have hd := symbol_declare_function_level a.symtab (cstr text) (datatype_from_string dt) ln
        split
        · exact (semantic_error_errOnly _ _ _).balanced.bal_trans (ihn _)
        · rename_i sym tbl hsd
          rw [hsd] at hd
          refine ScopeBalanced.bal_trans ?_ (ihn _)
          refine ⟨?_, rfl⟩
          simp only
          split
          · rw [collect_params_level]
            exact hd
          · exact hd
    · exact ihn a

/-- C16: scope symmetry.  For every AST, `semantic_analyze` on a freshly
created analyzer makes as many `symbol_enter_scope` calls as
`symbol_exit_scope` calls and leaves the symbol table at scope level 0. -/
theorem analysis_balances_scopes (program : ASTNode) :
    (semantic_analyze semantic_create program).2.enter_calls =
      (semantic_analyze semantic_create program).2.exit_calls ∧
    (semantic_analyze semantic_create program).2.symtab.scope_level = 0 := by
  cases program with
  | null => exact ⟨rfl, rfl⟩
  | node ty text dt ln fc ns =>
    simp only [semantic_analyze, collect_functions]
    have h1 := collect_functions_loop_balanced fc semantic_create
    have h0 : (0 : Int) ≤ semantic_create.symtab.scope_level := le_refl _
    have h2 := (analyze_node_balanced _ (.node ty text dt ln fc ns) (le_refl _)).1 _ (h1.nonneg h0)
    have h3 := h1.bal_trans h2
    have hl := h3.level
    have hc := h3.calls
    have e1 : semantic_create.enter_calls = 0 := rfl
    have e2 : semantic_create.exit_calls = 0 := rfl
    have e3 : semantic_create.symtab.scope_level = 0 := rfl
    rw [e1, e2] at hc
    rw [e3] at hl
    exact ⟨by omega, hl⟩

theorem bucket_set_twice (b : Nat → List Symbol) (i : Nat) (x y : List Symbol) :
    bucket_set (bucket_set b i x) i y = bucket_set b i y := by
  funext j
  simp only [bucket_set]
  split <;> rfl

/-- What `semantic_analyze` does with `prog_ana body`: the body is analyzed
from `ana_body_state`, then the function scope is left. -/
theorem semantic_analyze_prog_ana (body : ASTNode) :
    semantic_analyze semantic_create (prog_ana body) =
      (decide ((analyze_stmts ana_body_state body).errors.length = 0),
        { analyze_stmts ana_body_state body with
          symtab := symbol_set_current_function
            (symbol_exit_scope (analyze_stmts ana_body_state body).symtab) none
          exit_calls := (analyze_stmts ana_body_state body).exit_calls + 1 }) := by
  simp [semantic_analyze, prog_ana, collect_functions, collect_functions_loop, semantic_create,
    symbol_table_create, symbol_lookup, hash_ana, cstr, datatype_from_string,
    symbol_declare_function, symbol_declare, symbol_lookup_current_scope, bucket_set,
    get_child, sibling_at, ASTNode.is, ASTNode.first_child, collect_params,
    analyze_node, analyze_nodes, analyze_function, symbol_set_current_function,
    symbol_enter_scope, declare_params, SymbolTable.cur_local_offset, ana_body_state, ana_symbol, bucket_set_twice]

theorem lookup_current_scope_declare (t : SymbolTable) (name : String) (kind : SymbolKind)
    (type : DataType) (line : Int) (h : symbol_lookup_current_scope t name = none) :
    symbol_lookup_current_scope (symbol_declare t name kind type line).2 name =
      some (declared_symbol t name kind type line) := by
  obtain ⟨_, hb, hlev⟩ := symbol_declare_of_none t name kind type line h
  unfold symbol_lookup_current_scope
  rw [hb, hlev]
  simp [bucket_set, declared_symbol]

/-- A declaration of a name that exists at the current scope level records the
redeclaration diagnostic, with the line of the existing symbol, and does
nothing else. -/
theorem analyze_var_decl_redeclared (a : SemanticAnalyzer) (name : String) (line : Int)
    (init : Option Arith) (next : ASTNode) (existing : Symbol)
    (h : symbol_lookup_current_scope a.symtab name = some existing) :
    analyze_var_decl a (var_decl_node name line init next) =
      semantic_error a line
        ("'" ++ name ++ "' degiskeni ayni kapsamda zaten tanimlanmis (satir "
          ++ fmt_d existing.line_declared ++ ")") := by
  simp [analyze_var_decl, var_decl_node, cstr, datatype_from_string, h]

theorem init_node_analysis (init : Option Arith) (a : SemanticAnalyzer)
    (h : init_node init ≠ .null) :
    analyze_expression a (init_node init) = (TYPE_INT, a) := by
  cases init with
  | none => exact absurd rfl h
  | some e => exact analyze_expression_arith e a .null

/-- A declaration `int name [= init]` of a name that does not exist at the
current scope level declares it and records nothing. -/
theorem analyze_var_decl_fresh (a : SemanticAnalyzer) (name : String) (line : Int)
    (init : Option Arith) (next : ASTNode)
    (h : symbol_lookup_current_scope a.symtab name = none) :
    analyze_var_decl a (var_decl_node name line init next) =
      { a with symtab := (symbol_declare a.symtab name SYMBOL_VARIABLE TYPE_INT line).2 } := by
  obtain ⟨h1, _, _⟩ := symbol_declare_of_none a.symtab name SYMBOL_VARIABLE TYPE_INT line h
  have hv : ¬ (TYPE_INT = TYPE_VOID) := by decide
  simp only [analyze_var_decl, var_decl_node, cstr, Option.getD, datatype_from_string, h,
    if_true, if_neg hv]
  split
  · rename_i tbl heq
    rw [heq] at h1
    cases h1
  · rename_i sym tbl heq
    rw [heq]
    by_cases hi : init_node init = .null
    · simp [hi]
    · simp [hi, init_node_analysis init _ hi, types_compatible]

theorem ana_body_state_fresh (name : String) :
    symbol_lookup_current_scope ana_body_state.symtab name = none := by
  rw [lookup_current_scope_none]
  intro s hs
  simp only [ana_body_state, bucket_set] at hs
  split at hs
  · simp only [List.mem_singleton] at hs
    subst hs
    simp [ana_symbol, ana_body_state]
  · cases hs

/-- The analysis of `int ana() { int name [= i1]; int name [= i2]; }`. -/
theorem semantic_analyze_prog_redeclare (name : String) (l1 l2 : Int)
    (i1 i2 : Option Arith) :
    (semantic_analyze semantic_create (prog_redeclare name l1 l2 i1 i2)).1 = false ∧
    (semantic_analyze semantic_create (prog_redeclare name l1 l2 i1 i2)).2.errors =
      [{ line := l2
         message := fmt_buffer ("'" ++ name ++ "' degiskeni ayni kapsamda zaten tanimlanmis (satir "
           ++ fmt_d l1 ++ ")") }] := by
  have h1 := analyze_var_decl_fresh ana_body_state name l1 i1 (var_decl_node name l2 i2 .null)
    (ana_body_state_fresh name)
  have h2 := lookup_current_scope_declare ana_body_state.symtab name SYMBOL_VARIABLE TYPE_INT l1
    (ana_body_state_fresh name)
  have h3 := analyze_var_decl_redeclared
    { ana_body_state with
      symtab := (symbol_declare ana_body_state.symtab name SYMBOL_VARIABLE TYPE_INT l1).2 }
    name l2 i2 .null _ h2
  have hbody : (analyze_stmts ana_body_state
      (var_decl_node name l1 i1 (var_decl_node name l2 i2 .null))).errors =
      [{ line := l2
         message := fmt_buffer ("'" ++ name ++ "' degiskeni ayni kapsamda zaten tanimlanmis (satir "
           ++ fmt_d l1 ++ ")") }] := by
    have e1 : analyze_statement ana_body_state
        (var_decl_node name l1 i1 (var_decl_node name l2 i2 .null)) =
        analyze_var_decl ana_body_state
          (var_decl_node name l1 i1 (var_decl_node name l2 i2 .null)) := by
      simp only [var_decl_node, analyze_statement]
    have e2 : ∀ b, analyze_statement b (var_decl_node name l2 i2 .null) =
        analyze_var_decl b (var_decl_node name l2 i2 .null) := by
      intro b
      simp only [var_decl_node, analyze_statement]
    have e3 : analyze_stmts ana_body_state
        (var_decl_node name l1 i1 (var_decl_node name l2 i2 .null)) =
        analyze_var_decl (analyze_statement ana_body_state
          (var_decl_node name l1 i1 (var_decl_node name l2 i2 .null)))
          (var_decl_node name l2 i2 .null) := by
      conv => lhs; simp only [var_decl_node, analyze_stmts]
      rw [← e2]
      simp only [var_decl_node, analyze_stmts]
    rw [e3, e1, h1, h3]
    simp [semantic_error, MAX_SEMANTIC_ERRORS, ana_body_state, declared_symbol]
  rw [prog_redeclare, semantic_analyze_prog_ana]
  simp only [hbody]
  exact ⟨by simp, trivial⟩

/-- A declaration of a name that exists at the current scope level, whatever
its declared (non-void) type and its initializer, appends exactly the
redeclaration diagnostic while the diagnostic array has room. -/
theorem analyze_var_decl_existing (a : SemanticAnalyzer) (text dt : Option String) (ln : Int)
    (fc ns : ASTNode) (existing : Symbol) (hv : datatype_from_string dt ≠ TYPE_VOID)
    (h : symbol_lookup_current_scope a.symtab (cstr text) = some existing)
    (hroom : a.errors.length < MAX_SEMANTIC_ERRORS) :
    analyze_var_decl a (.node AST_VAR_DECL text dt ln fc ns) =
      { a with errors := a.errors ++
          [{ line := ln
             message := fmt_buffer ("'" ++ cstr text
               ++ "' degiskeni ayni kapsamda zaten tanimlanmis (satir "
               ++ fmt_d existing.line_declared ++ ")") }] } := by
  have hroom2 : ¬ a.errors.length ≥ MAX_SEMANTIC_ERRORS := by omega
  simp only [analyze_var_decl, if_neg hv, h, semantic_error, if_neg hroom2]

theorem analyze_args_well_typed (a : SemanticAnalyzer) (f : String) (fi : FunctionInfo)
    (line : Int) (arg : ASTNode) :
    ∀ k, well_typed_args a fi k arg →
      analyze_args a f fi line k arg = (k + count_siblings arg, a) := by
  induction arg with
  | null =>
    intro k _
    rw [analyze_args]
    rfl
  | node ty text dt ln fc ns _ ihn =>
    intro k h
    obtain ⟨⟨t, h1, h2⟩, h3⟩ := h
    simp only [analyze_args, h1, count_siblings]
    rw [show k + (count_siblings ns + 1) = k + 1 + count_siblings ns by omega]
    cases hp : fi.params.get? k with
    | none => exact ihn (k + 1) h3
    | some p =>
      simp only [h2 p hp, if_true]
      exact ihn (k + 1) h3

/-- A call with well typed arguments whose number differs from the number of
parameters records the arity diagnostic and nothing else. -/
theorem analyze_call_arity (a : SemanticAnalyzer) (text dt : Option String) (ln : Int)
    (fc ns : ASTNode) (func : Symbol) (fi : FunctionInfo)
    (hl : symbol_lookup a.symtab (cstr text) = some func) (hk : func.kind = SYMBOL_FUNCTION)
    (hf : func.func_info = some fi)
    (hargs : well_typed_args a fi 0 (call_args (.node AST_FUNCTION_CALL text dt ln fc ns)))
    (hne : count_siblings (call_args (.node AST_FUNCTION_CALL text dt ln fc ns))
      ≠ fi.params.length) :
    analyze_expression a (.node AST_FUNCTION_CALL text dt ln fc ns) =
      (fi.return_type,
        semantic_error a ln
          ("'" ++ cstr text ++ "' fonksiyonu " ++ fmt_d fi.param_count ++ " parametre bekliyor, "
            ++ fmt_d (count_siblings (call_args (.node AST_FUNCTION_CALL text dt ln fc ns)))
            ++ " verildi")) := by
  simp only [analyze_expression, hl, hk, hf, ne_eq, not_true_eq_false, if_false]
  simp only [call_args] at hargs hne ⊢
  split
  · rename_i hb
    simp only [hb, if_true] at hargs hne ⊢
    rw [analyze_args_well_typed a _ fi ln _ 0 hargs]
    simp only [Nat.zero_add, FunctionInfo.param_count]
    rw [if_pos (by exact_mod_cast hne)]
  · rename_i hb
    simp only [hb] at hargs hne ⊢
    simp only [count_siblings, FunctionInfo.param_count] at hne ⊢
    rw [if_pos (by exact_mod_cast hne)]

theorem call_node_ne_null (f : String) (line : Int) (es : List Arith) :
    call_node f line es ≠ .null := by
  simp [call_node]

theorem count_siblings_args_chain (es : List Arith) :
    count_siblings (args_chain es) = es.length := by
  induction es with
  | nil => rfl
  | cons e rest ih =>
    cases e <;> simp [args_chain, Arith.to_ast, count_siblings, ih]

theorem well_typed_args_chain (a : SemanticAnalyzer) (fi : FunctionInfo)
    (hp : ∀ p ∈ fi.params, p.2 = TYPE_INT) (es : List Arith) :
    ∀ k, well_typed_args a fi k (args_chain es) := by
  induction es with
  | nil => intro k; trivial
  | cons e rest ih =>
    intro k
    have h1 := analyze_expression_arith e a (args_chain rest)
    have h2 : ∀ p, fi.params.get? k = some p → types_compatible p.2 TYPE_INT = true := by
      intro p hpk
      rw [hp p (List.mem_iff_get?.mpr ⟨k, hpk⟩)]
      rfl
    cases e with
    | lit text line => exact ⟨⟨TYPE_INT, h1, h2⟩, ih (k + 1)⟩
    | bin op line l r => exact ⟨⟨TYPE_INT, h1, h2⟩, ih (k + 1)⟩

theorem analyze_args_chain (a : SemanticAnalyzer) (f : String) (fi : FunctionInfo) (line : Int)
    (k : Nat) (es : List Arith) (hp : ∀ p ∈ fi.params, p.2 = TYPE_INT) :
    analyze_args a f fi line k (args_chain es) = (k + es.length, a) := by
  rw [analyze_args_well_typed a f fi line _ k (well_typed_args_chain a fi hp es k),
    count_siblings_args_chain]

/-- The FUNCTION_CALL case of `analyze_expression` at `call_node`. -/
theorem analyze_expression_call_node (a : SemanticAnalyzer) (f : String) (line : Int)
    (es : List Arith) :
    analyze_expression a (call_node f line es) =
      match symbol_lookup a.symtab f with
      | none => (TYPE_ERROR, semantic_error a line ("'" ++ f ++ "' fonksiyonu tanimlanmamis"))
      | some func =>
        if func.kind ≠ SYMBOL_FUNCTION then
          (TYPE_ERROR, semantic_error a line ("'" ++ f ++ "' bir fonksiyon degil"))
        else
          match func.func_info with
          | none => (TYPE_ERROR, a)
          | some fi =>
            (fi.return_type,
              if ((analyze_args a f fi line 0 (args_chain es)).1 : Int) ≠ fi.param_count then
                semantic_error (analyze_args a f fi line 0 (args_chain es)).2 line
                  ("'" ++ f ++ "' fonksiyonu " ++ fmt_d fi.param_count ++ " parametre bekliyor, "
                    ++ fmt_d (analyze_args a f fi line 0 (args_chain es)).1 ++ " verildi")
              else (analyze_args a f fi line 0 (args_chain es)).2) := by
  cases h1 : symbol_lookup a.symtab f with
  | none =>
    simp only [call_node, analyze_expression, cstr, Option.getD, h1]
  | some func =>
    by_cases h2 : func.kind ≠ SYMBOL_FUNCTION
    · simp only [call_node, analyze_expression, cstr, Option.getD, h1, h2, if_true, ne_eq,
        not_false_eq_true]
    · cases h3 : func.func_info with
      | none =>
        simp only [call_node, analyze_expression, cstr, Option.getD, h1, h2, h3, if_false]
      | some fi =>
        simp only [call_node, analyze_expression, cstr, Option.getD, h1, h2, h3, if_false,
          get_child, sibling_at, ASTNode.is, ASTNode.first_child, decide_True, if_true]

set_option maxRecDepth 4000 in
set_option maxHeartbeats 1000000 in
theorem semantic_analyze_prog_arity (line : Int) (es : List Arith) (h : es.length ≠ 2) :
    (semantic_analyze semantic_create (prog_arity line es)).1 = false ∧
    (semantic_analyze semantic_create (prog_arity line es)).2.errors =
      [{ line := line
         message := fmt_buffer ("'topla' fonksiyonu " ++ fmt_d 2 ++ " parametre bekliyor, "
           ++ fmt_d es.length ++ " verildi") }] := by
  have h2 : ¬ ((es.length : Int) = 2) := by exact_mod_cast h
  simp [prog_arity, function_node, return_node, ast_binary, ast_ident,
    ast, ast_append_child, ast_append_sibling, ast_create_typed_node,
    ast_create_node, ast_set_type,
    semantic_analyze, collect_functions, collect_functions_loop, semantic_create,
    symbol_table_create, symbol_lookup, hash_topla, hash_ana, hash_a, hash_b, cstr,
    datatype_from_string, symbol_declare_function, symbol_declare, symbol_lookup_current_scope,
    bucket_set, get_child, sibling_at, ASTNode.is, ASTNode.first_child, ASTNode.text,
    collect_params, symtab_add_parameter, symbol_add_parameter, MAX_PARAMS,
    analyze_node, analyze_nodes, analyze_function, symbol_set_current_function,
    symbol_enter_scope, declare_params, SymbolTable.cur_local_offset, analyze_stmts,
    analyze_statement, analyze_return, analyze_expression, analyze_args, types_compatible,
    symbol_exit_scope, semantic_error, is_comparison_op, FunctionInfo.param_count,
    SYMBOL_TABLE_SIZE, call_node_ne_null, analyze_expression_call_node, analyze_args_chain, h, h2,
    MAX_SEMANTIC_ERRORS]

theorem hash_g : hash_string "g" = 12 := by decide

/-- C19 as stated fails for a `void` child in a `void` function: `return g();`
with `void g()` is accepted, here and in the whole program, although
`types_compatible` is false on (VOID, VOID). -/
theorem void_return_of_void_call_accepted :
    void_return_state.current_return_type = TYPE_VOID ∧
    (analyze_expression void_return_state (get_child return_void_call 0)).1 = TYPE_VOID ∧
    types_compatible TYPE_VOID TYPE_VOID = false ∧
    (analyze_return void_return_state return_void_call).errors = void_return_state.errors ∧
    (semantic_analyze semantic_create prog_void_return).1 = true ∧
    (semantic_analyze semantic_create prog_void_return).2.errors = [] := by
  refine ⟨rfl, ?_, by decide, ?_, ?_, ?_⟩
  all_goals
    simp [void_return_state, return_void_call, prog_void_return,
      semantic_analyze, collect_functions, collect_functions_loop, semantic_create,
      symbol_table_create, symbol_lookup, hash_g, hash_ana, cstr,
      datatype_from_string, symbol_declare_function, symbol_declare, symbol_lookup_current_scope,
      bucket_set, get_child, sibling_at, ASTNode.is, ASTNode.first_child, ASTNode.text,
      collect_params, analyze_node, analyze_nodes, analyze_function, symbol_set_current_function,
      symbol_enter_scope, declare_params, SymbolTable.cur_local_offset, analyze_stmts,
      analyze_statement, analyze_return, analyze_expression, analyze_args, types_compatible,
      symbol_exit_scope, semantic_error, FunctionInfo.param_count, SYMBOL_TABLE_SIZE]

/-- C19, amended: for a RETURN with a child of type `U` in a function of
return type `T`, while the diagnostic array has room, `analyze_return` records
nothing beyond the child's own diagnostics if and only if
`types_compatible T U` or `T = U = VOID`, and in every other case appends
exactly one diagnostic, on the line of the statement. -/
theorem return_with_child_checked (a : SemanticAnalyzer) (text dt : Option String) (ln : Int)
    (fc ns : ASTNode) (hfc : fc ≠ .null)
    (hroom : (analyze_expression a fc).2.errors.length < MAX_SEMANTIC_ERRORS) :
    ((analyze_return a (.node AST_RETURN text dt ln fc ns)).errors =
        (analyze_expression a fc).2.errors ↔
      (types_compatible a.current_return_type (analyze_expression a fc).1 = true ∨
        (a.current_return_type = TYPE_VOID ∧ (analyze_expression a fc).1 = TYPE_VOID))) ∧
    (¬ (types_compatible a.current_return_type (analyze_expression a fc).1 = true ∨
        (a.current_return_type = TYPE_VOID ∧ (analyze_expression a fc).1 = TYPE_VOID)) →
      ∃ msg, analyze_return a (.node AST_RETURN text dt ln fc ns) =
        { (analyze_expression a fc).2 with
          errors := (analyze_expression a fc).2.errors ++ [{ line := ln, message := msg }] }) := by
  have hroom2 : ¬ (analyze_expression a fc).2.errors.length ≥ MAX_SEMANTIC_ERRORS := by omega
  simp only [analyze_return, if_neg hfc]
  generalize analyze_expression a fc = r at hroom hroom2 ⊢
  obtain ⟨U, a1⟩ := r
  simp only at hroom hroom2 ⊢
  generalize a.current_return_type = T
  cases T <;> cases U <;>
    simp [types_compatible, semantic_error, hroom2]

theorem literal_one_ne_null : literal_one ≠ .null := by
  simp [literal_one]

theorem literal_one_room :
    (analyze_expression semantic_create literal_one).2.errors.length < MAX_SEMANTIC_ERRORS := by
  simp [literal_one, analyze_expression, semantic_create, MAX_SEMANTIC_ERRORS]

theorem return_with_child_checked_witness :
    literal_one ≠ .null ∧
    (analyze_expression semantic_create literal_one).2.errors.length < MAX_SEMANTIC_ERRORS ∧
    ((analyze_return semantic_create (.node AST_RETURN none none 3 literal_one .null)).errors =
        (analyze_expression semantic_create literal_one).2.errors ↔
      (types_compatible semantic_create.current_return_type
          (analyze_expression semantic_create literal_one).1 = true ∨
        (semantic_create.current_return_type = TYPE_VOID ∧
          (analyze_expression semantic_create literal_one).1 = TYPE_VOID))) ∧
    (¬ (types_compatible semantic_create.current_return_type
          (analyze_expression semantic_create literal_one).1 = true ∨
        (semantic_create.current_return_type = TYPE_VOID ∧
          (analyze_expression semantic_create literal_one).1 = TYPE_VOID)) →
      ∃ msg, analyze_return semantic_create (.node AST_RETURN none none 3 literal_one .null) =
        { (analyze_expression semantic_create literal_one).2 with
          errors := (analyze_expression semantic_create literal_one).2.errors ++
            [{ line := 3, message := msg }] }) :=
  ⟨literal_one_ne_null, literal_one_room,
    return_with_child_checked semantic_create none none 3 literal_one .null literal_one_ne_null
      literal_one_room⟩

theorem hash_y : hash_string "y" = 30 := by decide

theorem hash_z : hash_string "z" = 31 := by decide

/-- C20: one undeclared identifier `y` is diagnosed twice inside a binary
expression, an assignment and an argument list (the enclosing construct adds a
type mismatch on the ERROR type), and once as the initializer of a
declaration, the only place where ERROR is tested. -/
theorem undeclared_identifier_cascades :
    (semantic_analyze semantic_create prog_undeclared_operand).2.errors =
      [{ line := 1, message := fmt_buffer ("'" ++ "y" ++ "' degiskeni tanimlanmamis") },
       { line := 1, message := fmt_buffer ("Tip uyumsuzlugu: " ++ datatype_to_string TYPE_ERROR
          ++ " ve " ++ datatype_to_string TYPE_INT ++ " arasinda islem yapilamaz") }] ∧
    (semantic_analyze semantic_create prog_undeclared_assigned).2.errors =
      [{ line := 2, message := fmt_buffer ("'" ++ "y" ++ "' degiskeni tanimlanmamis") },
       { line := 2, message := fmt_buffer ("Tip uyumsuzlugu: '" ++ "x" ++ "' tipi "
          ++ datatype_to_string TYPE_INT ++ ", ancak " ++ datatype_to_string TYPE_ERROR
          ++ " atanmaya calisiliyor") }] ∧
    (semantic_analyze semantic_create prog_undeclared_argument).2.errors =
      [{ line := 2, message := fmt_buffer ("'" ++ "y" ++ "' degiskeni tanimlanmamis") },
       { line := 2, message := fmt_buffer ("'" ++ "f" ++ "' fonksiyonu " ++ fmt_d 1
          ++ ". parametre: beklenen " ++ datatype_to_string TYPE_INT ++ ", gelen "
          ++ datatype_to_string TYPE_ERROR) }] ∧
    (semantic_analyze semantic_create prog_undeclared_initializer).2.errors =
      [{ line := 1, message := fmt_buffer ("'" ++ "y" ++ "' degiskeni tanimlanmamis") }] := by
  refine ⟨?_, ?_, ?_, ?_⟩
  all_goals
    simp [prog_undeclared_operand, prog_undeclared_assigned, prog_undeclared_argument,
      prog_undeclared_initializer, prog_ana, ident_node, num_node,
      semantic_analyze, collect_functions, collect_functions_loop, semantic_create,
      symbol_table_create, symbol_lookup, hash_f, hash_ana, hash_a, hash_x, hash_y, hash_z, cstr,
      datatype_from_string, symbol_declare_function, symbol_declare, symbol_lookup_current_scope,
      bucket_set, get_child, sibling_at, ASTNode.is, ASTNode.first_child, ASTNode.text,
      collect_params, symtab_add_parameter, symbol_add_parameter, MAX_PARAMS,
      analyze_node, analyze_nodes, analyze_function, symbol_set_current_function,
      symbol_enter_scope, declare_params, SymbolTable.cur_local_offset, analyze_stmts,
      analyze_statement, analyze_var_decl, analyze_return, analyze_expression, analyze_args,
      types_compatible, symbol_exit_scope, semantic_error, is_comparison_op,
      FunctionInfo.param_count, SYMBOL_TABLE_SIZE, MAX_SEMANTIC_ERRORS]

theorem Diagnosed.diag_trans {a b c : SemanticAnalyzer} (h1 : Diagnosed a b)
    (h2 : Diagnosed b c) : Diagnosed a c := by
  induction h2 with
  | start => exact h1
  | keep _ hc ih => exact ih.keep hc
  | error line msg _ ih => exact ih.error line msg

theorem Diagnosed.diag_same {a b : SemanticAnalyzer} (h : b.errors = a.errors) :
    Diagnosed a b := (Diagnosed.start a).keep h

theorem semantic_error_diagnosed (a : SemanticAnalyzer) (line : Int) (msg : String) :
    Diagnosed a (semantic_error a line msg) := (Diagnosed.start a).error line msg

theorem semantic_error_length (a : SemanticAnalyzer) (line : Int) (msg : String) :
    (semantic_error a line msg).errors.length =
      if a.errors.length < MAX_SEMANTIC_ERRORS then a.errors.length + 1 else a.errors.length := by
  unfold semantic_error
  by_cases h : a.errors.length ≥ MAX_SEMANTIC_ERRORS
  · rw [if_pos h, if_neg (by omega)]
  · rw [if_neg h, if_pos (by omega)]
    simp

/-- The bound of the diagnostics array is kept along every `Diagnosed` stretch. -/
theorem Diagnosed.bounded {a b : SemanticAnalyzer} (h : Diagnosed a b)
    (ha : a.errors.length ≤ MAX_SEMANTIC_ERRORS) : b.errors.length ≤ MAX_SEMANTIC_ERRORS := by
  induction h with
  | start => exact ha
  | keep _ hc ih => rw [hc]; exact ih
  | error line msg _ ih =>
    rw [semantic_error_length]
    split <;> omega

/-- Expression analysis is a `Diagnosed` stretch. -/
theorem analyze_expression_diagnosed :
    ∀ (n : Nat) (node : ASTNode), node.size ≤ n →
      (∀ a, Diagnosed a (analyze_expression a node).2) ∧
      (∀ a func_name fi line k, Diagnosed a (analyze_args a func_name fi line k node).2) := by
  intro n
  induction n with
  | zero =>
    intro node hn
    cases node with
    | null =>
      constructor
      · intro a
        rw [analyze_expression]
        exact Diagnosed.start a
      · intro a f fi line k
        rw [analyze_args]
        exact Diagnosed.start a
    | node ty text dt ln fc ns => simp only [ASTNode.size] at hn; omega
  | succ n ih =>
    intro node hn
    cases node with
    | null =>
      constructor
      · intro a
        rw [analyze_expression]
        exact Diagnosed.start a
      · intro a f fi line k
        rw [analyze_args]
        exact Diagnosed.start a
    | node ty text dt ln fc ns =>
      have hchild : ∀ k a, Diagnosed a (analyze_expression a
          (get_child (.node ty text dt ln fc ns) k)).2 := by
        intro k
        have := get_child_size ty text dt ln fc ns k
        exact (ih _ (by omega)).1
      have hfc : fc.size ≤ n := by simp only [ASTNode.size] at hn; omega
      have hns : ns.size ≤ n := by simp only [ASTNode.size] at hn; omega
      have hexpr : ∀ a, Diagnosed a (analyze_expression a (.node ty text dt ln fc ns)).2 := by
        intro a
        cases ty
        case AST_IDENTIFIER =>
          simp only [analyze_expression]
          split
          · exact semantic_error_diagnosed _ _ _
          · split
            · exact semantic_error_diagnosed _ _ _
            · exact Diagnosed.start a
        case AST_ASSIGNMENT =>
          simp only [analyze_expression]
          split
          · exact semantic_error_diagnosed _ _ _
          · split
            · exact semantic_error_diagnosed _ _ _
            · split
              · exact hchild 1 a
              · exact (hchild 1 a).diag_trans (semantic_error_diagnosed _ _ _)
        case AST_BINARY_EXPR =>
          simp only [analyze_expression]
          have h1 := hchild 0 a
          have h2 := hchild 1 (analyze_expression a (get_child (.node AST_BINARY_EXPR text dt ln fc ns) 0)).2
          split
          · exact (h1.diag_trans h2).diag_trans (semantic_error_diagnosed _ _ _)
          · split
            · exact (h1.diag_trans h2).diag_trans (semantic_error_diagnosed _ _ _)
            · split
              · exact h1.diag_trans h2
              · exact h1.diag_trans h2
        case AST_UNARY_EXPR =>
          simp only [analyze_expression]
          split
          · exact (hchild 0 a).diag_trans (semantic_error_diagnosed _ _ _)
          · exact hchild 0 a
        case AST_FUNCTION_CALL =>
          simp only [analyze_expression]
          have hargs : ∀ a f fi line k, Diagnosed a (analyze_args a f fi line k
              (get_child (.node AST_FUNCTION_CALL text dt ln fc ns) 0).first_child).2 := by
            have h1 := get_child_size AST_FUNCTION_CALL text dt ln fc ns 0
            have h2 := first_child_size_le (get_child (.node AST_FUNCTION_CALL text dt ln fc ns) 0)
            exact (ih _ (by omega)).2
          split
          · exact semantic_error_diagnosed _ _ _
          · split
            · exact semantic_error_diagnosed _ _ _
            · split
              · exact Diagnosed.start a
              · split
                · split
                  · exact (hargs _ _ _ _ _).diag_trans (semantic_error_diagnosed _ _ _)
                  · exact hargs _ _ _ _ _
                · split
                  · exact semantic_error_diagnosed _ _ _
                  · exact Diagnosed.start a
        case AST_EXPR_STATEMENT =>
          simp only [analyze_expression]
          split
          · exact Diagnosed.start a
          · exact (ih _ hfc).1 a
        all_goals
          simp only [analyze_expression]
          exact Diagnosed.start a
      refine ⟨hexpr, ?_⟩
      intro a f fi line k
      simp only [analyze_args]
      have h1 := hexpr a
      have h2 : ∀ b, Diagnosed b (analyze_args b f fi line (k + 1) ns).2 :=
        fun b => (ih _ hns).2 b f fi line (k + 1)
      split
      · split
        · exact h1.diag_trans (h2 _)
        · exact (h1.diag_trans (semantic_error_diagnosed _ _ _)).diag_trans (h2 _)
      · exact h1.diag_trans (h2 _)

theorem analyze_expression_diag (a : SemanticAnalyzer) (node : ASTNode) :
    Diagnosed a (analyze_expression a node).2 :=
  (analyze_expression_diagnosed node.size node (le_refl _)).1 a

theorem analyze_return_diagnosed (a : SemanticAnalyzer) (node : ASTNode) :
    Diagnosed a (analyze_return a node) := by
  cases node with
  | null => exact Diagnosed.start a
  | node ty text dt ln fc ns =>
    simp only [analyze_return]
    have h1 := analyze_expression_diag a fc
    split
    · split
      · exact semantic_error_diagnosed _ _ _
      · split
        · exact semantic_error_diagnosed _ _ _
        · split
          · exact semantic_error_diagnosed _ _ _
          · exact Diagnosed.start a
    · split
      · exact h1.diag_trans (semantic_error_diagnosed _ _ _)
      · split
        · exact h1.diag_trans (semantic_error_diagnosed _ _ _)
        · split
          · exact h1.diag_trans (semantic_error_diagnosed _ _ _)
          · exact h1

theorem analyze_condition_diagnosed (a : SemanticAnalyzer) (condition : ASTNode) (line : Int)
    (message : String) : Diagnosed a (analyze_condition a condition line message) := by
  simp only [analyze_condition]
  split
  · exact (analyze_expression_diag a condition).diag_trans (semantic_error_diagnosed _ _ _)
  · exact analyze_expression_diag a condition

theorem analyze_var_decl_diagnosed (a : SemanticAnalyzer) (node : ASTNode) :
    Diagnosed a (analyze_var_decl a node) := by
  cases node with
  | null => exact Diagnosed.start a
  | node ty text dt ln fc ns =>
    simp only [analyze_var_decl]
    split
    · exact semantic_error_diagnosed _ _ _
    · split
      · exact semantic_error_diagnosed _ _ _
      · split
        · rename_i tbl hsd
          have h0 : Diagnosed a { a with symtab := tbl } := Diagnosed.diag_same rfl
          exact h0.diag_trans (semantic_error_diagnosed _ _ _)
        · rename_i sym tbl hsd
          have h0 : Diagnosed a { a with symtab := tbl } := Diagnosed.diag_same rfl
          split
          · exact h0
          · split
            · exact h0.diag_trans ((analyze_expression_diag _ fc).diag_trans
                (semantic_error_diagnosed _ _ _))
            · exact h0.diag_trans (analyze_expression_diag _ fc)

/-- Statement analysis is a `Diagnosed` stretch. -/
theorem analyze_statement_diagnosed :
    ∀ (n : Nat) (node : ASTNode), node.size ≤ n →
      (∀ a, Diagnosed a (analyze_statement a node)) ∧
      (∀ a, Diagnosed a (analyze_stmts a node)) := by
  intro n
  induction n with
  | zero =>
    intro node hn
    cases node with
    | null =>
      constructor
      · intro a
        rw [analyze_statement]
        exact Diagnosed.start a
      · intro a
        rw [analyze_stmts]
        exact Diagnosed.start a
    | node ty text dt ln fc ns => simp only [ASTNode.size] at hn; omega
  | succ n ih =>
    intro node hn
    cases node with
    | null =>
      constructor
      · intro a
        rw [analyze_statement]
        exact Diagnosed.start a
      · intro a
        rw [analyze_stmts]
        exact Diagnosed.start a
    | node ty text dt ln fc ns =>
      have hchild : ∀ k a,
          Diagnosed a (analyze_statement a (get_child (.node ty text dt ln fc ns) k)) := by
        intro k
        have := get_child_size ty text dt ln fc ns k
        exact (ih _ (by omega)).1
      have hfc : fc.size ≤ n := by simp only [ASTNode.size] at hn; omega
      have hns : ns.size ≤ n := by simp only [ASTNode.size] at hn; omega
      have hif : ∀ a, Diagnosed a (analyze_if a (.node ty text dt ln fc ns)) := by
        intro a
        simp only [analyze_if]
        have h1 : Diagnosed a
            (if get_child (.node ty text dt ln fc ns) 0 = .null then a
             else analyze_condition a (get_child (.node ty text dt ln fc ns) 0) ln
               "Kosul ifadesi void olamaz") := by
          split
          · exact Diagnosed.start a
          · exact analyze_condition_diagnosed _ _ _ _
        have h2 := hchild 1 (if get_child (.node ty text dt ln fc ns) 0 = .null then a
             else analyze_condition a (get_child (.node ty text dt ln fc ns) 0) ln
               "Kosul ifadesi void olamaz")
        split
        · exact (h1.diag_trans h2).diag_trans (hchild 2 _)
        · exact h1.diag_trans h2
      have hstmt : ∀ a, Diagnosed a (analyze_statement a (.node ty text dt ln fc ns)) := by
        intro a
        cases ty
        case AST_VAR_DECL =>
          simp only [analyze_statement]
          exact analyze_var_decl_diagnosed a _
        case AST_BLOCK =>
          simp only [analyze_statement, analyze_block]
          have h1 : Diagnosed a { a with symtab := symbol_enter_scope a.symtab,
                                         enter_calls := a.enter_calls + 1 } :=
            Diagnosed.diag_same rfl
          exact (h1.diag_trans ((ih _ hfc).2 _)).keep rfl
        case AST_IF =>
          simp only [analyze_statement]
          exact hif a
        case AST_IF_ELSE =>
          simp only [analyze_statement]
          exact hif a
        case AST_WHILE =>
          simp only [analyze_statement, analyze_while]
          have h1 : Diagnosed a
              (if get_child (.node AST_WHILE text dt ln fc ns) 0 = .null then a
               else analyze_condition a (get_child (.node AST_WHILE text dt ln fc ns) 0) ln
                 "Dongu kosulu void olamaz") := by
            split
            · exact Diagnosed.start a
            · exact analyze_condition_diagnosed _ _ _ _
          generalize (if get_child (.node AST_WHILE text dt ln fc ns) 0 = .null then a
               else analyze_condition a (get_child (.node AST_WHILE text dt ln fc ns) 0) ln
                 "Dongu kosulu void olamaz") = c1 at h1 ⊢
          have h2 : Diagnosed a { c1 with in_loop := true } := h1.keep rfl
          exact (h2.diag_trans (hchild 1 _)).keep rfl
        case AST_FOR =>
          simp only [analyze_statement, analyze_for]
          have hinit : ∀ b, Diagnosed b
              (if get_child (.node AST_FOR text dt ln fc ns) 0 ≠ .null ∧
                  ¬ (get_child (.node AST_FOR text dt ln fc ns) 0).is AST_EMPTY then
                analyze_statement b (get_child (.node AST_FOR text dt ln fc ns) 0)
               else b) := by
            intro b
            split
            · exact hchild 0 b
            · exact Diagnosed.start b
          have hcond : ∀ b, Diagnosed b
              (if get_child (.node AST_FOR text dt ln fc ns) 1 ≠ .null ∧
                  ¬ (get_child (.node AST_FOR text dt ln fc ns) 1).is AST_EMPTY then
                analyze_condition b (get_child (.node AST_FOR text dt ln fc ns) 1) ln
                  "For dongusu kosulu void olamaz"
               else b) := by
            intro b
            split
            · exact analyze_condition_diagnosed _ _ _ _
            · exact Diagnosed.start b
          have hupd : ∀ b, Diagnosed b
              (if get_child (.node AST_FOR text dt ln fc ns) 2 ≠ .null ∧
                  ¬ (get_child (.node AST_FOR text dt ln fc ns) 2).is AST_EMPTY then
                (analyze_expression b (get_child (.node AST_FOR text dt ln fc ns) 2)).2
               else b) := by
            intro b
            split
            · exact analyze_expression_diag _ _
            · exact Diagnosed.start b
          have k0 : Diagnosed a { a with symtab := symbol_enter_scope a.symtab,
                                         enter_calls := a.enter_calls + 1 } :=
            Diagnosed.diag_same rfl
          have k1 := k0.diag_trans (hinit _)
          have k2 := k1.diag_trans (hcond _)
          have k3 := k2.diag_trans (hupd _)
          generalize (if get_child (.node AST_FOR text dt ln fc ns) 2 ≠ .null ∧
                  ¬ (get_child (.node AST_FOR text dt ln fc ns) 2).is AST_EMPTY then
                (analyze_expression _ (get_child (.node AST_FOR text dt ln fc ns) 2)).2
               else _) = c3 at k3 ⊢
          have k4 : Diagnosed a { c3 with in_loop := true } := k3.keep rfl
          exact (k4.diag_trans (hchild 3 _)).keep rfl
        case AST_RETURN =>
          simp only [analyze_statement]
          exact analyze_return_diagnosed a _
        case AST_EXPR_STATEMENT =>
          simp only [analyze_statement]
          split
          · exact Diagnosed.start a
          · exact analyze_expression_diag a fc
        case AST_ASSIGNMENT =>
          simp only [analyze_statement]
          exact analyze_expression_diag a _
        all_goals
          simp only [analyze_statement]
          exact (ih _ hfc).2 a
      refine ⟨hstmt, ?_⟩
      intro a
      simp only [analyze_stmts]
      exact (hstmt a).diag_trans ((ih _ hns).2 _)

theorem analyze_stmts_diagnosed (a : SemanticAnalyzer) (node : ASTNode) :
    Diagnosed a (analyze_stmts a node) :=
  (analyze_statement_diagnosed node.size node (le_refl _)).2 a

theorem declare_params_diagnosed (line : Int) (ps : List (String × DataType)) :
    ∀ a, Diagnosed a (declare_params a line ps) := by
  induction ps with
  | nil => intro a; exact Diagnosed.start a
  | cons p rest ih =>
    intro a
    obtain ⟨pname, ptype⟩ := p
    simp only [declare_params]
    split
    · rename_i tbl hsd
      have h0 : Diagnosed a { a with symtab := tbl } := Diagnosed.diag_same rfl
      exact (h0.diag_trans (semantic_error_diagnosed _ _ _)).diag_trans (ih _)
    · rename_i sym tbl hsd
      have h0 : Diagnosed a { a with symtab := tbl } := Diagnosed.diag_same rfl
      exact h0.diag_trans (ih _)

theorem analyze_function_diagnosed (a : SemanticAnalyzer) (node : ASTNode) :
    Diagnosed a (analyze_function a node) := by
  cases node with
  | null => exact Diagnosed.start a
  | node ty text dt ln fc ns =>
    simp only [analyze_function]
    split
    · exact Diagnosed.start a
    · rename_i func _
      split
      · exact Diagnosed.start a
      · rename_i fi _
        have h1 : Diagnosed a
            { a with symtab := symbol_enter_scope (symbol_set_current_function a.symtab (some func))
                     current_return_type := fi.return_type
                     enter_calls := a.enter_calls + 1 } := Diagnosed.diag_same rfl
        have h2 := h1.diag_trans (declare_params_diagnosed ln fi.params _)
        generalize declare_params _ ln fi.params = a3 at h2 ⊢
        have h3 : Diagnosed a3
            (if (get_child (.node ty text dt ln fc ns) 1).is AST_BLOCK then
              analyze_stmts a3 (get_child (.node ty text dt ln fc ns) 1).first_child
             else a3) := by
          split
          · exact analyze_stmts_diagnosed a3 _
          · exact Diagnosed.start a3
        exact (h2.diag_trans h3).keep rfl

/-- The traversal `analyze_node` is a `Diagnosed` stretch. -/
theorem analyze_node_diagnosed :
    ∀ (n : Nat) (node : ASTNode), node.size ≤ n →
      (∀ a, Diagnosed a (analyze_node a node)) ∧
      (∀ a, Diagnosed a (analyze_nodes a node)) := by
  intro n
  induction n with
  | zero =>
    intro node hn
    cases node with
    | null =>
      constructor
      · intro a
        rw [analyze_node]
        exact Diagnosed.start a
      · intro a
        rw [analyze_nodes]
        exact Diagnosed.start a
    | node ty text dt ln fc ns => simp only [ASTNode.size] at hn; omega
  | succ n ih =>
    intro node hn
    cases node with
    | null =>
      constructor
      · intro a
        rw [analyze_node]
        exact Diagnosed.start a
      · intro a
        rw [analyze_nodes]
        exact Diagnosed.start a
    | node ty text dt ln fc ns =>
      have hfc : fc.size ≤ n := by simp only [ASTNode.size] at hn; omega
      have hns : ns.size ≤ n := by simp only [ASTNode.size] at hn; omega
      have hnode : ∀ a, Diagnosed a (analyze_node a (.node ty text dt ln fc ns)) := by
        intro a
        cases ty
        case AST_FUNCTION =>
          simp only [analyze_node]
          exact analyze_function_diagnosed a _
        case AST_VAR_DECL =>
          simp only [analyze_node]
          exact analyze_var_decl_diagnosed a _
        all_goals
          simp only [analyze_node]
          exact (ih _ hfc).2 a
      refine ⟨hnode, ?_⟩
      intro a
      simp only [analyze_nodes]
      exact (hnode a).diag_trans ((ih _ hns).2 _)

/-- Pass 1 is a `Diagnosed` stretch. -/
theorem collect_functions_loop_diagnosed (node : ASTNode) :
    ∀ a, Diagnosed a (collect_functions_loop a node) := by
  induction node with
  | null => intro a; exact Diagnosed.start a
  | node ty text dt ln fc ns _ ihn =>
    intro a
    simp only [collect_functions_loop]
    split
    · split
      · exact (semantic_error_diagnosed _ _ _).diag_trans (ihn _)
      · split
        · exact (semantic_error_diagnosed _ _ _).diag_trans (ihn _)
        · refine Diagnosed.diag_trans ?_ (ihn _)
          exact Diagnosed.diag_same rfl
    · exact ihn a

/-- The whole of `semantic_analyze` is a `Diagnosed` stretch. -/
theorem semantic_analyze_diagnosed (a : SemanticAnalyzer) (program : ASTNode) :
    Diagnosed a (semantic_analyze a program).2 := by
  cases program with
  | null => exact Diagnosed.start a
  | node ty text dt ln fc ns =>
    simp only [semantic_analyze, collect_functions]
    exact (collect_functions_loop_diagnosed fc a).diag_trans
      ((analyze_node_diagnosed _ _ (le_refl _)).1 _)

theorem prog_arith_ne_null (e : Arith) : prog_arith e ≠ .null := by
  simp [prog_arith, ast_program, ast_function, ast_return, ast,
    ast_append_child, ast_append_sibling, ast_create_typed_node,
    ast_create_node, ast_set_type]

/-- C21: diagnostic collection.  With fewer than 100 diagnostics recorded
`semantic_error` appends one diagnostic, the line and the formatted message,
and otherwise it leaves the analyzer unchanged; a count of at most 100 stays
at most 100 through `semantic_error` and through the whole of
`semantic_analyze`; and for every AST (a tree, not the NULL pointer, for which
`semantic_analyze` returns false at once) `semantic_analyze` on a fresh
analyzer returns true if and only if the final `error_count` is 0. -/
theorem diagnostics_collected (a : SemanticAnalyzer) (line : Int) (msg : String)
    (program : ASTNode) :
    (a.error_count < MAX_SEMANTIC_ERRORS →
      semantic_error a line msg =
        { a with errors := a.errors ++ [{ line := line, message := fmt_buffer msg }] } ∧
      (semantic_error a line msg).error_count = a.error_count + 1) ∧
    (¬ a.error_count < MAX_SEMANTIC_ERRORS → semantic_error a line msg = a) ∧
    (a.error_count ≤ MAX_SEMANTIC_ERRORS →
      (semantic_error a line msg).error_count ≤ MAX_SEMANTIC_ERRORS ∧
      (semantic_analyze a program).2.error_count ≤ MAX_SEMANTIC_ERRORS) ∧
    (semantic_analyze semantic_create program).2.error_count ≤ MAX_SEMANTIC_ERRORS ∧
    (program ≠ .null →
      ((semantic_analyze semantic_create program).1 = true ↔
        (semantic_analyze semantic_create program).2.error_count = 0)) := by
  simp only [SemanticAnalyzer.error_count]
  refine ⟨?_, ?_, ?_, ?_, ?_⟩
  · intro h
    have h1 : ¬ (a.errors.length ≥ MAX_SEMANTIC_ERRORS) := by omega
    simp only [semantic_error, if_neg h1, List.length_append, List.length_singleton]
    exact ⟨trivial, by push_cast; rfl⟩
  · intro h
    have h1 : a.errors.length ≥ MAX_SEMANTIC_ERRORS := by omega
    simp only [semantic_error, if_pos h1]
  · intro h
    have h1 : a.errors.length ≤ MAX_SEMANTIC_ERRORS := by omega
    have h2 := (semantic_error_diagnosed a line msg).bounded h1
    have h3 := (semantic_analyze_diagnosed a program).bounded h1
    constructor <;> omega
  · have h1 : semantic_create.errors.length ≤ MAX_SEMANTIC_ERRORS := by
      simp [semantic_create, MAX_SEMANTIC_ERRORS]
    have h3 := (semantic_analyze_diagnosed semantic_create program).bounded h1
    omega
  · intro hne
    cases program with
    | null => exact absurd rfl hne
    | node ty text dt ln fc ns =>
      simp only [semantic_analyze, decide_eq_true_eq]
      omega

theorem diagnostics_collected_witness :
    prog_arith (.lit "1" 0) ≠ .null ∧
    ((semantic_analyze semantic_create (prog_arith (.lit "1" 0))).1 = true ↔
      (semantic_analyze semantic_create (prog_arith (.lit "1" 0))).2.error_count = 0) :=
  ⟨prog_arith_ne_null _,
    (diagnostics_collected semantic_create 3 "x" (prog_arith (.lit "1" 0))).2.2.2.2
      (prog_arith_ne_null _)⟩

theorem Framed.fr_refl (a : SemanticAnalyzer) : Framed a a :=
  ⟨rfl, fun _ _ => ⟨[], rfl, fun _ h => by cases h⟩⟩

theorem Framed.fr_trans {a b c : SemanticAnalyzer} (h1 : Framed a b) (h2 : Framed b c) :
    Framed a c := by
  refine ⟨h2.level.trans h1.level, ?_⟩
  intro i hi
  obtain ⟨e1, k1, l1⟩ := h1.grow i hi
  obtain ⟨e2, k2, l2⟩ := h2.grow i hi
  refine ⟨e2 ++ e1, by rw [k2, k1, List.append_assoc], ?_⟩
  intro s hs
  rcases List.mem_append.mp hs with h | h
  · rw [l2 s h, h1.level]
  · exact l1 s h

theorem Framed.of_symtab_eq {a b : SemanticAnalyzer} (h : b.symtab = a.symtab) : Framed a b :=
  ⟨by rw [h], fun _ _ => ⟨[], by rw [h]; rfl, fun _ h => by cases h⟩⟩

theorem ErrOnly.framed {a b : SemanticAnalyzer} (h : ErrOnly a b) : Framed a b :=
  Framed.of_symtab_eq h.symtab

theorem Framed.scoped {a b : SemanticAnalyzer} (h : Framed a b) (ha : Scoped a.symtab) :
    Scoped b.symtab := by
  refine ⟨by rw [h.level]; exact ha.1, ?_⟩
  intro i hi s hs
  obtain ⟨e, k, l⟩ := h.grow i hi
  rw [k] at hs
  rw [h.level]
  rcases List.mem_append.mp hs with h1 | h1
  · rw [l s h1]
  · exact ha.2 i hi s h1

/-- The call `symbol_declare` puts at most one symbol, of the current level, in
front of one chain. -/
theorem symbol_declare_framed (a : SemanticAnalyzer) (name : String) (kind : SymbolKind)
    (type : DataType) (line : Int) :
    Framed a { a with symtab := (symbol_declare a.symtab name kind type line).2 } := by
  cases h : symbol_lookup_current_scope a.symtab name with
  | some e =>
    rw [symbol_declare_of_some _ _ _ _ _ e h]
    exact Framed.fr_refl a
  | none =>
    obtain ⟨_, hb, hl⟩ := symbol_declare_of_none a.symtab name kind type line h
    refine ⟨hl, ?_⟩
    intro i _
    simp only [hb, bucket_set]
    by_cases hi : i = hash_string name
    · subst hi
      refine ⟨[declared_symbol a.symtab name kind type line], by simp, ?_⟩
      intro s hs
      simp only [List.mem_singleton] at hs
      subst hs
      rfl
    · exact ⟨[], by simp [hi], fun _ h => by cases h⟩

theorem analyze_var_decl_framed (a : SemanticAnalyzer) (node : ASTNode) :
    Framed a (analyze_var_decl a node) := by
  cases node with
  | null => exact Framed.fr_refl a
  | node ty text dt ln fc ns =>
    simp only [analyze_var_decl]
    split
    · exact (semantic_error_errOnly _ _ _).framed
    · split
      · exact (semantic_error_errOnly _ _ _).framed
      · have hd := symbol_declare_framed a (cstr text) SYMBOL_VARIABLE
          (datatype_from_string dt) ln
        split
        · rename_i tbl hsd
          rw [hsd] at hd
          exact hd.fr_trans (semantic_error_errOnly _ _ _).framed
        · rename_i sym tbl hsd
          rw [hsd] at hd
          split
          · exact hd
          · split
            · exact hd.fr_trans ((analyze_expression_keeps _ fc).err_trans
                (semantic_error_errOnly _ _ _)).framed
            · exact hd.fr_trans (analyze_expression_keeps _ fc).framed

theorem scoped_enter_scope {t : SymbolTable} (h : Scoped t) : Scoped (symbol_enter_scope t) := by
  refine ⟨?_, ?_⟩
  · have := h.1
    simp only [symbol_enter_scope]
    omega
  · intro i hi s hs
    have := h.2 i hi s hs
    simp only [symbol_enter_scope]
    omega

/-- Leaving a scope entered from `a` restores the chains of `a`: the symbols
declared in between are dropped and nothing else is. -/
theorem enter_exit_restores (a a2 : SemanticAnalyzer) (ha : Scoped a.symtab)
    (h : Framed
      { a with symtab := symbol_enter_scope a.symtab, enter_calls := a.enter_calls + 1 } a2) :
    (symbol_exit_scope a2.symtab).scope_level = a.symtab.scope_level ∧
    ∀ i, i < SYMBOL_TABLE_SIZE → (symbol_exit_scope a2.symtab).buckets i = a.symtab.buckets i := by
  have hl : a2.symtab.scope_level = a.symtab.scope_level + 1 := h.level
  have h0 := ha.1
  have hne : a2.symtab.scope_level ≠ 0 := by omega
  refine ⟨?_, ?_⟩
  · simp only [symbol_exit_scope, if_neg hne]
    omega
  · intro i hi
    rw [exit_scope_bucket _ hne i hi]
    obtain ⟨e, k, l⟩ := h.grow i hi
    simp only [symbol_enter_scope] at k l
    rw [k, List.filter_append]
    have h1 : e.filter (fun sym => decide (sym.scope_level ≠ a2.symtab.scope_level)) = [] := by
      rw [List.filter_eq_nil_iff]
      intro s hs
      have := l s hs
      simp only [decide_eq_true_eq, ne_eq, not_not]
      omega
    have h2 : (a.symtab.buckets i).filter
        (fun sym => decide (sym.scope_level ≠ a2.symtab.scope_level)) = a.symtab.buckets i := by
      rw [List.filter_eq_self]
      intro s hs
      have := ha.2 i hi s hs
      simp only [decide_eq_true_eq, ne_eq]
      omega
    rw [h1, h2, List.nil_append]

theorem enter_exit_framed (a a2 b : SemanticAnalyzer) (ha : Scoped a.symtab)
    (h : Framed
      { a with symtab := symbol_enter_scope a.symtab, enter_calls := a.enter_calls + 1 } a2)
    (hb : b.symtab = symbol_exit_scope a2.symtab) : Framed a b := by
  obtain ⟨h1, h2⟩ := enter_exit_restores a a2 ha h
  refine ⟨by rw [hb, h1], ?_⟩
  intro i hi
  exact ⟨[], by rw [hb, h2 i hi]; rfl, fun _ h => by cases h⟩

theorem set_in_loop_framed (a : SemanticAnalyzer) (b : Bool) :
    Framed a { a with in_loop := b } := Framed.of_symtab_eq rfl

/-- Statement analysis keeps the scope level and the symbols it found. -/
theorem analyze_statement_framed :
    ∀ (n : Nat) (node : ASTNode), node.size ≤ n →
      (∀ a, Scoped a.symtab → Framed a (analyze_statement a node)) ∧
      (∀ a, Scoped a.symtab → Framed a (analyze_stmts a node)) := by
  intro n
  induction n with
  | zero =>
    intro node hn
    cases node with
    | null =>
      constructor
      · intro a _
        rw [analyze_statement]
        exact Framed.fr_refl a
      · intro a _
        rw [analyze_stmts]
        exact Framed.fr_refl a
    | node ty text dt ln fc ns => simp only [ASTNode.size] at hn; omega
  | succ n ih =>
    intro node hn
    cases node with
    | null =>
      constructor
      · intro a _
        rw [analyze_statement]
        exact Framed.fr_refl a
      · intro a _
        rw [analyze_stmts]
        exact Framed.fr_refl a
    | node ty text dt ln fc ns =>
      have hchild : ∀ k a, Scoped a.symtab →
          Framed a (analyze_statement a (get_child (.node ty text dt ln fc ns) k)) := by
        intro k
        have := get_child_size ty text dt ln fc ns k
        exact (ih _ (by omega)).1
      have hfc : fc.size ≤ n := by simp only [ASTNode.size] at hn; omega
      have hns : ns.size ≤ n := by simp only [ASTNode.size] at hn; omega
      have hif : ∀ a, Scoped a.symtab →
          Framed a (analyze_if a (.node ty text dt ln fc ns)) := by
        intro a h0
        simp only [analyze_if]
        have h1 : Framed a
            (if get_child (.node ty text dt ln fc ns) 0 = .null then a
             else analyze_condition a (get_child (.node ty text dt ln fc ns) 0) ln
               "Kosul ifadesi void olamaz") := by
          split
          · exact Framed.fr_refl a
          · exact (analyze_condition_errOnly _ _ _ _).framed
        have h2 := hchild 1 _ (h1.scoped h0)
        split
        · exact (h1.fr_trans h2).fr_trans (hchild 2 _ ((h1.fr_trans h2).scoped h0))
        · exact h1.fr_trans h2
      have hstmt : ∀ a, Scoped a.symtab →
          Framed a (analyze_statement a (.node ty text dt ln fc ns)) := by
        intro a h0
        cases ty
        case AST_VAR_DECL =>
          simp only [analyze_statement]
          exact analyze_var_decl_framed a _
        case AST_BLOCK =>
          simp only [analyze_statement, analyze_block]
          exact enter_exit_framed a _ _ h0 ((ih _ hfc).2 _ (scoped_enter_scope h0)) rfl
        case AST_IF =>
          simp only [analyze_statement]
          exact hif a h0
        case AST_IF_ELSE =>
          simp only [analyze_statement]
          exact hif a h0
        case AST_WHILE =>
          simp only [analyze_statement, analyze_while]
          have h1 : Framed a
              (if get_child (.node AST_WHILE text dt ln fc ns) 0 = .null then a
               else analyze_condition a (get_child (.node AST_WHILE text dt ln fc ns) 0) ln
                 "Dongu kosulu void olamaz") := by
            split
            · exact Framed.fr_refl a
            · exact (analyze_condition_errOnly _ _ _ _).framed
          have h2 := h1.fr_trans (set_in_loop_framed _ true)
          have h3 := h2.fr_trans (hchild 1 _ (h2.scoped h0))
          exact h3.fr_trans (set_in_loop_framed _ _)
        case AST_FOR =>
          simp only [analyze_statement, analyze_for]
          have h1 : Scoped (symbol_enter_scope a.symtab) := scoped_enter_scope h0
          have hinit : ∀ b, Scoped b.symtab → Framed b
              (if get_child (.node AST_FOR text dt ln fc ns) 0 ≠ .null ∧
                  ¬ (get_child (.node AST_FOR text dt ln fc ns) 0).is AST_EMPTY then
                analyze_statement b (get_child (.node AST_FOR text dt ln fc ns) 0)
               else b) := by
            intro b hb
            split
            · exact hchild 0 b hb
            · exact Framed.fr_refl b
          have hcond : ∀ b, Framed b
              (if get_child (.node AST_FOR text dt ln fc ns) 1 ≠ .null ∧
                  ¬ (get_child (.node AST_FOR text dt ln fc ns) 1).is AST_EMPTY then
                analyze_condition b (get_child (.node AST_FOR text dt ln fc ns) 1) ln
                  "For dongusu kosulu void olamaz"
               else b) := by
            intro b
            split
            · exact (analyze_condition_errOnly _ _ _ _).framed
            · exact Framed.fr_refl b
          have hupd : ∀ b, Framed b
              (if get_child (.node AST_FOR text dt ln fc ns) 2 ≠ .null ∧
                  ¬ (get_child (.node AST_FOR text dt ln fc ns) 2).is AST_EMPTY then
                (analyze_expression b (get_child (.node AST_FOR text dt ln fc ns) 2)).2
               else b) := by
            intro b
            split
            · exact (analyze_expression_keeps _ _).framed
            · exact Framed.fr_refl b
          have k1 := hinit
            { a with symtab := symbol_enter_scope a.symtab, enter_calls := a.enter_calls + 1 } h1
          have k2 := k1.fr_trans (hcond _)
          have k3 := k2.fr_trans (hupd _)
          generalize (if get_child (.node AST_FOR text dt ln fc ns) 2 ≠ .null ∧
                  ¬ (get_child (.node AST_FOR text dt ln fc ns) 2).is AST_EMPTY then
                (analyze_expression _ (get_child (.node AST_FOR text dt ln fc ns) 2)).2
               else _) = c3 at k3 ⊢
          have k4 := k3.fr_trans (set_in_loop_framed _ true)
          have k5 := k4.fr_trans (hchild 3 _ (k4.scoped h1))
          exact enter_exit_framed a
            { analyze_statement { c3 with in_loop := true }
                (get_child (.node AST_FOR text dt ln fc ns) 3) with in_loop := c3.in_loop } _
            h0 (k5.fr_trans (set_in_loop_framed _ _)) rfl
        case AST_RETURN =>
          simp only [analyze_statement]
          exact (analyze_return_errOnly a _).framed
        case AST_EXPR_STATEMENT =>
          simp only [analyze_statement]
          split
          · exact Framed.fr_refl a
          · exact (analyze_expression_keeps a fc).framed
        case AST_ASSIGNMENT =>
          simp only [analyze_statement]
          exact (analyze_expression_keeps a _).framed
        all_goals
          simp only [analyze_statement]
          exact (ih _ hfc).2 a h0
      refine ⟨hstmt, ?_⟩
      intro a h0
      simp only [analyze_stmts]
      exact (hstmt a h0).fr_trans ((ih _ hns).2 _ ((hstmt a h0).scoped h0))

theorem analyze_stmts_framed (a : SemanticAnalyzer) (node : ASTNode)
    (h0 : Scoped a.symtab) : Framed a (analyze_stmts a node) :=
  (analyze_statement_framed node.size node (le_refl _)).2 a h0

theorem analyze_stmt_framed (a : SemanticAnalyzer) (node : ASTNode)
    (h0 : Scoped a.symtab) : Framed a (analyze_statement a node) :=
  (analyze_statement_framed node.size node (le_refl _)).1 a h0

theorem declare_params_framed (line : Int) (ps : List (String × DataType)) :
    ∀ a, Framed a (declare_params a line ps) := by
  induction ps with
  | nil => intro a; exact Framed.fr_refl a
  | cons p rest ih =>
    intro a
    obtain ⟨pname, ptype⟩ := p
    simp only [declare_params]
    have hd := symbol_declare_framed a pname SYMBOL_PARAMETER ptype line
    split
    · rename_i tbl hsd
      rw [hsd] at hd
      exact (hd.fr_trans (semantic_error_errOnly _ _ _).framed).fr_trans (ih _)
    · rename_i sym tbl hsd
      rw [hsd] at hd
      exact hd.fr_trans (ih _)

/-- A name found at the current level stays found at the current level. -/
theorem Framed.keeps_current {a b : SemanticAnalyzer} (h : Framed a b) (name : String)
    (e : Symbol) (he : symbol_lookup_current_scope a.symtab name = some e) :
    ∃ e2, symbol_lookup_current_scope b.symtab name = some e2 := by
  obtain ⟨hm, hn, hl⟩ := lookup_current_scope_some _ _ _ he
  cases h2 : symbol_lookup_current_scope b.symtab name with
  | some e2 => exact ⟨e2, rfl⟩
  | none =>
    rw [lookup_current_scope_none] at h2
    obtain ⟨ex, k, _⟩ := h.grow _ (hash_string_lt name)
    exact absurd ⟨hn, by rw [h.level]; exact hl⟩
      (h2 e (by rw [k]; exact List.mem_append_right _ hm))

theorem analyze_stmts_from (k : Nat) :
    ∀ (stmt : ASTNode) (a : SemanticAnalyzer),
      analyze_stmts a stmt = analyze_stmts (state_before k stmt a) (sibling_at k stmt) := by
  induction k with
  | zero => intro stmt a; rfl
  | succ k ih =>
    intro stmt a
    cases stmt with
    | null => simp [state_before, sibling_at]
    | node ty text dt ln fc ns =>
      simp only [state_before, sibling_at]
      rw [← ih]
      simp only [analyze_stmts]

theorem state_before_framed (k : Nat) :
    ∀ (stmt : ASTNode) (a : SemanticAnalyzer), Scoped a.symtab →
      Framed a (state_before k stmt a) := by
  induction k with
  | zero => intro stmt a _; exact Framed.fr_refl a
  | succ k ih =>
    intro stmt a h
    cases stmt with
    | null => exact Framed.fr_refl a
    | node ty text dt ln fc ns =>
      simp only [state_before]
      have h1 := analyze_stmt_framed a (.node ty text dt ln fc ns) h
      exact h1.fr_trans (ih _ _ (h1.scoped h))

theorem function_entry_scoped (a : SemanticAnalyzer) (func : Symbol) (fi : FunctionInfo)
    (ln : Int) (hs : Scoped a.symtab) : Scoped (function_entry a func fi ln).symtab := by
  unfold function_entry
  refine (declare_params_framed ln fi.params _).scoped ?_
  exact scoped_enter_scope hs

theorem analyze_for_phases (a : SemanticAnalyzer) (ty : ASTNodeType) (text dt : Option String)
    (ln : Int) (fc ns : ASTNode) :
    analyze_for a (.node ty text dt ln fc ns) =
      { analyze_statement { for_update_state a (.node ty text dt ln fc ns) ln with in_loop := true }
          (get_child (.node ty text dt ln fc ns) 3) with
        in_loop := (for_update_state a (.node ty text dt ln fc ns) ln).in_loop
        symtab := symbol_exit_scope
          (analyze_statement
            { for_update_state a (.node ty text dt ln fc ns) ln with in_loop := true }
            (get_child (.node ty text dt ln fc ns) 3)).symtab
        exit_calls :=
          (analyze_statement
            { for_update_state a (.node ty text dt ln fc ns) ln with in_loop := true }
            (get_child (.node ty text dt ln fc ns) 3)).exit_calls + 1 } := by
  simp only [analyze_for, for_update_state, for_cond_state, for_init_state]

theorem for_cond_state_symtab (a : SemanticAnalyzer) (node : ASTNode) (ln : Int) :
    (for_cond_state a node ln).symtab = (for_init_state a node).symtab := by
  unfold for_cond_state
  split
  · exact (analyze_condition_errOnly _ _ _ _).symtab
  · rfl

theorem for_update_state_symtab (a : SemanticAnalyzer) (node : ASTNode) (ln : Int) :
    (for_update_state a node ln).symtab = (for_init_state a node).symtab := by
  unfold for_update_state
  split
  · rw [(analyze_expression_keeps _ _).symtab, for_cond_state_symtab]
  · exact for_cond_state_symtab a node ln

theorem for_init_state_framed (a : SemanticAnalyzer) (node : ASTNode) (hs : Scoped a.symtab) :
    Framed { a with symtab := symbol_enter_scope a.symtab, enter_calls := a.enter_calls + 1 }
      (for_init_state a node) := by
  unfold for_init_state
  simp only
  split
  · exact analyze_stmt_framed _ _ (scoped_enter_scope hs)
  · exact Framed.fr_refl _

/-- The chains of the table are those of before the loop once `analyze_for`
has left the scope of the loop. -/
theorem analyze_for_restores (a : SemanticAnalyzer) (ty : ASTNodeType) (text dt : Option String)
    (ln : Int) (fc ns : ASTNode) (hs : Scoped a.symtab) :
    (analyze_for a (.node ty text dt ln fc ns)).symtab.scope_level = a.symtab.scope_level ∧
    ∀ i, i < SYMBOL_TABLE_SIZE →
      (analyze_for a (.node ty text dt ln fc ns)).symtab.buckets i = a.symtab.buckets i := by
  rw [analyze_for_phases]
  simp only
  have h1 := for_init_state_framed a (.node ty text dt ln fc ns) hs
  have h2 : Framed (for_init_state a (.node ty text dt ln fc ns))
      { for_update_state a (.node ty text dt ln fc ns) ln with in_loop := true } :=
    Framed.of_symtab_eq (for_update_state_symtab _ _ _)
  have h3 := h1.fr_trans h2
  have h4 := h3.fr_trans (analyze_stmt_framed _ (get_child (.node ty text dt ln fc ns) 3)
    (h3.scoped (scoped_enter_scope hs)))
  exact enter_exit_restores a _ hs h4

theorem symbol_lookup_congr (t u : SymbolTable) (name : String)
    (h : u.buckets (hash_string name) = t.buckets (hash_string name)) :
    symbol_lookup u name = symbol_lookup t name := by
  unfold symbol_lookup
  rw [h]

/-- The table after a declaration of a name that is not found at the current
level, of a non-void type. -/
theorem analyze_var_decl_symtab (a : SemanticAnalyzer) (ty : ASTNodeType)
    (text dt : Option String) (ln : Int) (fc ns : ASTNode)
    (hv : datatype_from_string dt ≠ TYPE_VOID)
    (h : symbol_lookup_current_scope a.symtab (cstr text) = none) :
    (analyze_var_decl a (.node ty text dt ln fc ns)).symtab =
      (symbol_declare a.symtab (cstr text) SYMBOL_VARIABLE (datatype_from_string dt) ln).2 := by
  simp only [analyze_var_decl, if_neg hv, h]
  split
  · rename_i tbl heq
    rw [(semantic_error_errOnly _ _ _).symtab, heq]
  · rename_i sym tbl heq
    rw [heq]
    split
    · rfl
    · split
      · rw [((analyze_expression_keeps _ fc).err_trans (semantic_error_errOnly _ _ _)).symtab]
      · rw [(analyze_expression_keeps _ fc).symtab]

theorem scoped_create : Scoped semantic_create.symtab := by
  refine ⟨le_refl _, ?_⟩
  intro i _ s hs
  cases hs

theorem LocalsStep.ls_refl (g : CodeGenerator) : LocalsStep g g :=
  ⟨⟨[], (List.append_nil _).symm⟩, fun h => h⟩

theorem LocalsStep.ls_trans {g1 g2 g3 : CodeGenerator} (h1 : LocalsStep g1 g2)
    (h2 : LocalsStep g2 g3) : LocalsStep g1 g3 := by
  obtain ⟨l1, k1⟩ := h1.more
  obtain ⟨l2, k2⟩ := h2.more
  exact ⟨⟨l1 ++ l2, by rw [k2, k1, List.append_assoc]⟩, fun h => h2.ok (h1.ok h)⟩

theorem LocalsStep.ls_same {g1 g2 : CodeGenerator} (h1 : g2.locals = g1.locals)
    (h2 : g2.local_offset = g1.local_offset) : LocalsStep g1 g2 :=
  ⟨⟨[], by rw [h1, List.append_nil]⟩, fun h => ⟨by rw [h1, h2]; exact h.count,
    by rw [h1]; exact h.slots, by rw [h1]; exact h.names⟩⟩

theorem localsOK_clear (g : CodeGenerator) : LocalsOK (clear_locals g) :=
  ⟨rfl, fun i l h => by simp [clear_locals] at h, by simp [clear_locals]⟩

theorem find_local_of_none (g : CodeGenerator) (name : String)
    (h : g.locals.find? (fun l => decide (l.name = name)) = none) : find_local g name = -1 := by
  simp only [find_local, h]

theorem find_local_of_some (g : CodeGenerator) (name : String) (l : LocalSymbol)
    (h : g.locals.find? (fun l => decide (l.name = name)) = some l) :
    find_local g name = l.offset := by
  simp only [find_local, h]

/-- A found name is the name of an entry of the table. -/
theorem find_local_found (g : CodeGenerator) (name : String) (h : 0 ≤ find_local g name) :
    ∃ l, g.locals.find? (fun l => decide (l.name = name)) = some l ∧ l ∈ g.locals ∧
      l.name = name ∧ find_local g name = l.offset := by
  cases hf : g.locals.find? (fun l => decide (l.name = name)) with
  | none =>
    rw [find_local_of_none g name hf] at h
    omega
  | some l =>
    have h1 := List.find?_some hf
    simp only [decide_eq_true_eq] at h1
    exact ⟨l, rfl, List.mem_of_find?_eq_some hf, h1, find_local_of_some g name l hf⟩

theorem find_local_not_found (g : CodeGenerator) (name : String) (h : ¬ 0 ≤ find_local g name)
    (ok : LocalsOK g) : ∀ l ∈ g.locals, l.name ≠ name := by
  intro l hl hn
  cases hf : g.locals.find? (fun l => decide (l.name = name)) with
  | none =>
    rw [List.find?_eq_none] at hf
    exact absurd (by simpa using hn) (hf l hl)
  | some m =>
    rw [find_local_of_some g name m hf] at h
    obtain ⟨i, hi⟩ := List.mem_iff_get?.mp (List.mem_of_find?_eq_some hf)
    have := ok.slots i m hi
    omega

/-- Under the invariant two names with the same slot are the same name. -/
theorem find_local_injective (g : CodeGenerator) (ok : LocalsOK g) (x y : String)
    (hx : 0 ≤ find_local g x) (h : find_local g x = find_local g y) : x = y := by
  obtain ⟨lx, _, mx, nx, ox⟩ := find_local_found g x hx
  obtain ⟨ly, _, my, ny, oy⟩ := find_local_found g y (by rw [← h]; exact hx)
  obtain ⟨i, hi⟩ := List.mem_iff_get?.mp mx
  obtain ⟨j, hj⟩ := List.mem_iff_get?.mp my
  have h1 := ok.slots i lx hi
  have h2 := ok.slots j ly hj
  have hij : i = j := by
    have : (i : Int) = j := by rw [← h1, ← h2, ← ox, ← oy, h]
    exact_mod_cast this
  subst hij
  rw [hi] at hj
  cases hj
  rw [← nx, ← ny]

/-- A slot once found is found again after the table has grown. -/
theorem LocalsStep.stable {g1 g2 : CodeGenerator} (h : LocalsStep g1 g2) (name : String)
    (hx : 0 ≤ find_local g1 name) : find_local g2 name = find_local g1 name := by
  obtain ⟨l, hf, _, _, ho⟩ := find_local_found g1 name hx
  obtain ⟨ls, k⟩ := h.more
  rw [ho]
  apply find_local_of_some
  rw [k, List.find?_append, hf]
  rfl

/-- The function `add_local` keeps the invariant of the local table. -/
theorem add_local_localsStep (g : CodeGenerator) (name : String) :
    LocalsStep g (add_local g name).2 := by
  unfold add_local
  simp only
  split
  · exact LocalsStep.ls_refl g
  · rename_i hex
    split
    · exact LocalsStep.ls_refl g
    · refine ⟨⟨_, rfl⟩, ?_⟩
      intro ok
      refine ⟨?_, ?_, ?_⟩
      · simp only [List.length_append, List.length_singleton]
        rw [ok.count]
        push_cast
        rfl
      · intro i l hi
        simp only at hi
        rcases Nat.lt_or_ge i g.locals.length with h | h
        · rw [List.get?_eq_getElem?, List.getElem?_append_left h] at hi
          exact ok.slots i l (by rw [List.get?_eq_getElem?]; exact hi)
        · rw [List.get?_eq_getElem?, List.getElem?_append_right h] at hi
          rcases Nat.eq_or_lt_of_le h with he | hlt
          · rw [← he, Nat.sub_self] at hi
            simp only [List.getElem?_cons_zero, Option.some.injEq] at hi
            rw [← hi, ← he]
            exact ok.count
          · have : i - g.locals.length = (i - g.locals.length - 1) + 1 := by omega
            rw [this, List.getElem?_cons_succ] at hi
            simp at hi
      · simp only [List.map_append, List.map_cons, List.map_nil]
        rw [List.nodup_append]
        refine ⟨ok.names, List.nodup_singleton _, ?_⟩
        intro x hx hx2
        simp only [List.mem_singleton] at hx2
        subst hx2
        obtain ⟨l, hl, hn⟩ := List.mem_map.mp hx
        exact find_local_not_found g _ hex ok l hl hn

/-- With the name known or room in the table, `add_local` returns the slot
under which the name is found afterwards. -/
theorem add_local_slot (g : CodeGenerator) (name : String) (ok : LocalsOK g)
    (hroom : 0 ≤ find_local g name ∨ g.locals.length < MAX_LOCAL_SYMBOLS) :
    (add_local g name).1 = find_local (add_local g name).2 name ∧
    0 ≤ find_local (add_local g name).2 name := by
  unfold add_local
  simp only
  split
  · rename_i hex
    exact ⟨rfl, hex⟩
  · rename_i hex
    have hfull : ¬ g.locals.length ≥ MAX_LOCAL_SYMBOLS := by
      rcases hroom with h | h
      · exact absurd h hex
      · omega
    rw [if_neg hfull]
    simp only
    have hnone : g.locals.find? (fun l => decide (l.name = name)) = none := by
      rw [List.find?_eq_none]
      intro l hl
      simpa using find_local_not_found g name hex ok l hl
    have hfind : find_local
        { g with local_offset := g.local_offset + 1
                 locals := g.locals ++ [{ name := name, offset := g.local_offset }] } name =
        g.local_offset := by
      refine find_local_of_some _ name { name := name, offset := g.local_offset } ?_
      simp only
      rw [List.find?_append, hnone]
      simp
    rw [hfind]
    exact ⟨rfl, by rw [ok.count]; exact Int.natCast_nonneg _⟩

/-- With the table full, `add_local` answers slot 0 for an unknown name and
leaves the table as it is. -/
theorem add_local_full (g : CodeGenerator) (name : String)
    (hnew : ¬ 0 ≤ find_local g name) (hfull : g.locals.length ≥ MAX_LOCAL_SYMBOLS) :
    add_local g name = (0, g) := by
  unfold add_local
  simp only
  rw [if_neg hnew, if_pos hfull]

theorem emit_localsStep (g g' : CodeGenerator) (op : OpCode) (x : Int)
    (h : emit g op x = some g') : LocalsStep g g' := by
  unfold emit at h
  split at h
  · exact Option.noConfusion h
  · cases h
    exact LocalsStep.ls_same rfl rfl

theorem emit_simple_localsStep (g g' : CodeGenerator) (op : OpCode)
    (h : emit_simple g op = some g') : LocalsStep g g' := emit_localsStep g g' op 0 h

theorem new_label_localsStep (g g' : CodeGenerator) (l : Nat)
    (h : new_label g = some (l, g')) : LocalsStep g g' := by
  unfold new_label at h
  split at h
  · exact Option.noConfusion h
  · cases h
    exact LocalsStep.ls_same rfl rfl

theorem set_label_localsStep (g : CodeGenerator) (l : Nat) : LocalsStep g (set_label g l) :=
  LocalsStep.ls_same rfl rfl

theorem emit_jump_localsStep (g g' : CodeGenerator) (op : OpCode) (l : Nat)
    (h : emit_jump g op l = some g') : LocalsStep g g' := by
  unfold emit_jump at h
  split at h
  · exact emit_localsStep g g' op _ h
  · simp only [Option.bind_eq_bind, Option.bind_eq_some] at h
    obtain ⟨g1, h1, h⟩ := h
    split at h
    · exact Option.noConfusion h
    · cases h
      exact (emit_localsStep g g1 op _ h1).ls_trans (LocalsStep.ls_same rfl rfl)

/-- Expression generation only appends to the local table. -/
theorem gen_expression_localsStep :
    ∀ (n : Nat) (node : ASTNode), node.size ≤ n →
      (∀ g g', gen_expression g node = some g' → LocalsStep g g') ∧
      (∀ g g', gen_args g node = some g' → LocalsStep g g') := by
  intro n
  induction n with
  | zero =>
    intro node hn
    cases node with
    | null =>
      constructor
      · intro g g' h
        rw [gen_expression] at h
        cases h
        exact LocalsStep.ls_refl g
      · intro g g' h
        rw [gen_args] at h
        cases h
        exact LocalsStep.ls_refl g
    | node ty text dt ln fc ns => simp only [ASTNode.size] at hn; omega
  | succ n ih =>
    intro node hn
    cases node with
    | null =>
      constructor
      · intro g g' h
        rw [gen_expression] at h
        cases h
        exact LocalsStep.ls_refl g
      · intro g g' h
        rw [gen_args] at h
        cases h
        exact LocalsStep.ls_refl g
    | node ty text dt ln fc ns =>
      have hchild : ∀ k, (get_child (.node ty text dt ln fc ns) k).size ≤ n := by
        intro k
        have := get_child_size ty text dt ln fc ns k
        omega
      have hfc : fc.size ≤ n := by simp only [ASTNode.size] at hn; omega
      have hns : ns.size ≤ n := by simp only [ASTNode.size] at hn; omega
      have hexpr : ∀ g g',
          gen_expression g (.node ty text dt ln fc ns) = some g' → LocalsStep g g' := by
        intro g g' h
        cases ty
        case AST_NUMBER_LITERAL =>
          simp only [gen_expression] at h
          exact emit_localsStep g g' _ _ h
        case AST_STRING_LITERAL =>
          simp only [gen_expression] at h
          exact emit_localsStep g g' _ _ h
        case AST_IDENTIFIER =>
          simp only [gen_expression] at h
          split at h
          · exact emit_localsStep g g' _ _ h
          · exact emit_localsStep g g' _ _ h
        case AST_ASSIGNMENT =>
          simp only [gen_expression, Option.bind_eq_bind, Option.bind_eq_some] at h
          obtain ⟨g1, h1, g2, h2, h⟩ := h
          have s1 := (ih _ (hchild 1)).1 g g1 h1
          have s2 := emit_simple_localsStep g1 g2 _ h2
          split at h
          · split at h
            · exact (s1.ls_trans s2).ls_trans (emit_localsStep g2 g' _ _ h)
            · exact ((s1.ls_trans s2).ls_trans (add_local_localsStep g2 _)).ls_trans
                (emit_localsStep _ g' _ _ h)
          · cases h
            exact s1.ls_trans s2
        case AST_BINARY_EXPR =>
          simp only [gen_expression, Option.bind_eq_bind, Option.bind_eq_some] at h
          obtain ⟨g1, h1, g2, h2, h⟩ := h
          have s1 := (ih _ (hchild 0)).1 g g1 h1
          have s2 := (ih _ (hchild 1)).1 g1 g2 h2
          split at h
          · exact (s1.ls_trans s2).ls_trans (emit_simple_localsStep g2 g' _ h)
          · cases h
            exact s1.ls_trans s2
        case AST_UNARY_EXPR =>
          simp only [gen_expression, Option.bind_eq_bind, Option.bind_eq_some] at h
          obtain ⟨g1, h1, h⟩ := h
          have s1 := (ih _ (hchild 0)).1 g g1 h1
          split at h
          · exact s1.ls_trans (emit_simple_localsStep g1 g' _ h)
          · cases h
            exact s1
        case AST_FUNCTION_CALL =>
          have hcall : ∀ g1, (if find_function g1 (cstr text) ≥ 0 then
                emit g1 OP_CALL (find_function g1 (cstr text))
              else emit g1 OP_PUSH 0) = some g' → LocalsStep g1 g' := by
            intro g1 h
            split at h
            · exact emit_localsStep g1 g' _ _ h
            · exact emit_localsStep g1 g' _ _ h
          simp only [gen_expression, Option.bind_eq_bind] at h
          split at h
          · simp only [Option.bind_eq_some] at h
            obtain ⟨g1, h1, h⟩ := h
            exact ((ih _ (le_trans (first_child_size_le _) (hchild 0))).2 g g1 h1).ls_trans
              (hcall g1 h)
          · simp only [Option.some_bind] at h
            exact hcall g h
        case AST_EXPR_STATEMENT =>
          simp only [gen_expression] at h
          exact (ih _ hfc).1 g g' h
        all_goals
          simp only [gen_expression] at h
          cases h
          exact LocalsStep.ls_refl g
      refine ⟨hexpr, ?_⟩
      intro g g' h
      simp only [gen_args, Option.bind_eq_bind, Option.bind_eq_some] at h
      obtain ⟨g1, h1, h⟩ := h
      exact (hexpr g g1 h1).ls_trans ((ih _ hns).2 g1 g' h)

theorem gen_expression_locals (g g' : CodeGenerator) (node : ASTNode)
    (h : gen_expression g node = some g') : LocalsStep g g' :=
  (gen_expression_localsStep node.size node (le_refl _)).1 g g' h

theorem gen_var_decl_localsStep (g g' : CodeGenerator) (node : ASTNode)
    (h : gen_var_decl g node = some g') : LocalsStep g g' := by
  cases node with
  | null =>
    simp only [gen_var_decl] at h
    cases h
    exact LocalsStep.ls_refl g
  | node ty text dt ln fc ns =>
    simp only [gen_var_decl] at h
    split at h
    · cases h
      exact add_local_localsStep g _
    · simp only [Option.bind_eq_bind, Option.bind_eq_some] at h
      obtain ⟨g1, h1, h⟩ := h
      exact ((add_local_localsStep g _).ls_trans (gen_expression_locals _ g1 fc h1)).ls_trans
        (emit_localsStep g1 g' _ _ h)

theorem gen_return_localsStep (g g' : CodeGenerator) (node : ASTNode)
    (h : gen_return g node = some g') : LocalsStep g g' := by
  cases node with
  | null =>
    simp only [gen_return] at h
    cases h
    exact LocalsStep.ls_refl g
  | node ty text dt ln fc ns =>
    simp only [gen_return] at h
    split at h
    · exact emit_simple_localsStep g g' _ h
    · simp only [Option.bind_eq_bind, Option.bind_eq_some] at h
      obtain ⟨g1, h1, h⟩ := h
      exact (gen_expression_locals g g1 fc h1).ls_trans (emit_simple_localsStep g1 g' _ h)

theorem gen_while_localsStep (ty : ASTNodeType) (text dt : Option String) (ln : Int)
    (fc ns : ASTNode)
    (hs : ∀ k g g', gen_statement g (get_child (.node ty text dt ln fc ns) k) = some g' →
      LocalsStep g g') :
    ∀ g g', gen_while g (.node ty text dt ln fc ns) = some g' → LocalsStep g g' := by
  intro g g' h
  simp only [gen_while, Option.bind_eq_bind, Option.bind_eq_some] at h
  obtain ⟨⟨l1, g1⟩, hA, ⟨l2, g2⟩, hB, g3, hC, g4, hD, g5, hE, g6, hF, hG⟩ := h
  simp only at hB hC hD hE hF hG
  cases hG
  have sA := new_label_localsStep g g1 l1 hA
  have sB := new_label_localsStep g1 g2 l2 hB
  have s1 := set_label_localsStep g2 l1
  have sC := gen_expression_locals _ g3 _ hC
  have sD := emit_jump_localsStep g3 g4 OP_JZ l2 hD
  have sE := hs 1 g4 g5 hE
  have sF := emit_jump_localsStep g5 g6 OP_JMP l1 hF
  have s2 := set_label_localsStep g6 l2
  exact sA.ls_trans (sB.ls_trans (s1.ls_trans (sC.ls_trans (sD.ls_trans (sE.ls_trans
    (sF.ls_trans s2))))))

theorem gen_if_localsStep (ty : ASTNodeType) (text dt : Option String) (ln : Int)
    (fc ns : ASTNode)
    (hs : ∀ k g g', gen_statement g (get_child (.node ty text dt ln fc ns) k) = some g' →
      LocalsStep g g') :
    ∀ g g', gen_if g (.node ty text dt ln fc ns) = some g' → LocalsStep g g' := by
  intro g g' h
  by_cases hc : (if ty = AST_IF_ELSE then get_child (.node ty text dt ln fc ns) 2
      else .null) ≠ .null
  · simp only [gen_if, Option.bind_eq_bind, if_pos hc, Option.bind_eq_some] at h
    obtain ⟨⟨l1, g1⟩, hA, ⟨l2, g2⟩, hB, g3, hC, g4, hD, g5, hE, g6, hF, g7, hG, hH⟩ := h
    simp only at hB hC hD hE hF hG hH
    cases hH
    have hty : ty = AST_IF_ELSE := by
      by_contra hne
      rw [if_neg hne] at hc
      exact hc rfl
    rw [if_pos hty] at hG
    have sA := new_label_localsStep g g1 l1 hA
    have sB := new_label_localsStep g1 g2 l2 hB
    have sC := gen_expression_locals _ g3 _ hC
    have sD := emit_jump_localsStep g3 g4 OP_JZ l1 hD
    have sE := hs 1 g4 g5 hE
    have sF := emit_jump_localsStep g5 g6 OP_JMP l2 hF
    have s1 := set_label_localsStep g6 l1
    have sG := hs 2 _ g7 hG
    have s2 := set_label_localsStep g7 l2
    exact sA.ls_trans (sB.ls_trans (sC.ls_trans (sD.ls_trans (sE.ls_trans (sF.ls_trans
      (s1.ls_trans (sG.ls_trans s2)))))))
  · simp only [gen_if, Option.bind_eq_bind, if_neg hc, Option.bind_eq_some] at h
    obtain ⟨⟨l1, g1⟩, hA, ⟨l2, g2⟩, hB, g3, hC, g4, hD, g5, hE, hH⟩ := h
    simp only at hB hC hD hE hH
    cases hH
    have sA := new_label_localsStep g g1 l1 hA
    have sB := new_label_localsStep g1 g2 l2 hB
    have sC := gen_expression_locals _ g3 _ hC
    have sD := emit_jump_localsStep g3 g4 OP_JZ l2 hD
    have sE := hs 1 g4 g5 hE
    have s2 := set_label_localsStep g5 l2
    exact sA.ls_trans (sB.ls_trans (sC.ls_trans (sD.ls_trans (sE.ls_trans s2))))

theorem gen_for_localsStep (ty : ASTNodeType) (text dt : Option String) (ln : Int)
    (fc ns : ASTNode)
    (hs : ∀ k g g', gen_statement g (get_child (.node ty text dt ln fc ns) k) = some g' →
      LocalsStep g g') :
    ∀ g g', gen_for g (.node ty text dt ln fc ns) = some g' → LocalsStep g g' := by
  intro g g' h
  simp only [gen_for, Option.bind_eq_bind, Option.bind_eq_some] at h
  obtain ⟨⟨l1, g1⟩, hA, ⟨l2, g2⟩, hB, h⟩ := h
  simp only at hB h
  have sA := new_label_localsStep g g1 l1 hA
  have sB := new_label_localsStep g1 g2 l2 hB
  obtain ⟨g3, hI, h⟩ := optional_part h
  have sI : LocalsStep g2 g3 := by
    rcases hI with hI | hI
    · exact hs 0 _ _ hI
    · rw [hI]; exact LocalsStep.ls_refl _
  have s1 := set_label_localsStep g3 l1
  have hcond : ∃ g4, LocalsStep (set_label g3 l1) g4 ∧
      ((gen_statement g4 (get_child (.node ty text dt ln fc ns) 3)).bind fun gen =>
        if get_child (.node ty text dt ln fc ns) 2 ≠ .null ∧
            ¬ (get_child (.node ty text dt ln fc ns) 2).is AST_EMPTY = true then
          (gen_expression gen (get_child (.node ty text dt ln fc ns) 2)).bind fun gen =>
            (emit_simple gen OP_POP).bind fun y =>
              (emit_jump y OP_JMP l1).bind fun gen => some (set_label gen l2)
        else
          (some gen).bind fun y =>
            (emit_jump y OP_JMP l1).bind fun gen => some (set_label gen l2)) = some g' := by
    split at h
    · simp only [Option.bind_eq_some] at h
      obtain ⟨ga, ha, gb, hb, h⟩ := h
      refine ⟨gb, ?_, ?_⟩
      · exact (gen_expression_locals _ ga _ ha).ls_trans (emit_jump_localsStep ga gb OP_JZ l2 hb)
      · simpa only [Option.bind_eq_some] using h
    · simp only [Option.some_bind] at h
      exact ⟨_, LocalsStep.ls_refl _, h⟩
  obtain ⟨g4, sC, h⟩ := hcond
  simp only [Option.bind_eq_some] at h
  obtain ⟨g5, hE, h⟩ := h
  have sE := hs 3 g4 g5 hE
  have hupd : ∃ g6, LocalsStep g5 g6 ∧
      ((emit_jump g6 OP_JMP l1).bind fun gen => some (set_label gen l2)) = some g' := by
    split at h
    · simp only [Option.bind_eq_some] at h
      obtain ⟨ga, ha, gb, hb, h⟩ := h
      refine ⟨gb, ?_, ?_⟩
      · exact (gen_expression_locals _ ga _ ha).ls_trans (emit_simple_localsStep ga gb _ hb)
      · simpa only [Option.bind_eq_some] using h
    · simp only [Option.some_bind] at h
      exact ⟨_, LocalsStep.ls_refl _, h⟩
  obtain ⟨g6, sU, h⟩ := hupd
  simp only [Option.bind_eq_some] at h
  obtain ⟨g7, hF, hG⟩ := h
  cases hG
  have sF := emit_jump_localsStep g6 g7 OP_JMP l1 hF
  have s2 := set_label_localsStep g7 l2
  exact sA.ls_trans (sB.ls_trans (sI.ls_trans (s1.ls_trans (sC.ls_trans (sE.ls_trans
    (sU.ls_trans (sF.ls_trans s2)))))))

/-- Statement generation only appends to the local table and keeps its
invariant. -/
theorem gen_statement_localsStep :
    ∀ (n : Nat) (node : ASTNode), node.size ≤ n →
      (∀ g g', gen_statement g node = some g' → LocalsStep g g') ∧
      (∀ g g', gen_stmts g node = some g' → LocalsStep g g') := by
  intro n
  induction n with
  | zero =>
    intro node hn
    cases node with
    | null =>
      constructor
      · intro g g' h
        rw [gen_statement] at h
        cases h
        exact LocalsStep.ls_refl g
      · intro g g' h
        rw [gen_stmts] at h
        cases h
        exact LocalsStep.ls_refl g
    | node ty text dt ln fc ns => simp only [ASTNode.size] at hn; omega
  | succ n ih =>
    intro node hn
    cases node with
    | null =>
      constructor
      · intro g g' h
        rw [gen_statement] at h
        cases h
        exact LocalsStep.ls_refl g
      · intro g g' h
        rw [gen_stmts] at h
        cases h
        exact LocalsStep.ls_refl g
    | node ty text dt ln fc ns =>
      have hchild : ∀ k g g',
          gen_statement g (get_child (.node ty text dt ln fc ns) k) = some g' →
            LocalsStep g g' := by
        intro k
        have := get_child_size ty text dt ln fc ns k
        exact (ih _ (by omega)).1
      have hfc : fc.size ≤ n := by simp only [ASTNode.size] at hn; omega
      have hns : ns.size ≤ n := by simp only [ASTNode.size] at hn; omega
      have hstmt : ∀ g g',
          gen_statement g (.node ty text dt ln fc ns) = some g' → LocalsStep g g' := by
        intro g g' h
        cases ty
        case AST_VAR_DECL =>
          simp only [gen_statement] at h
          exact gen_var_decl_localsStep g g' _ h
        case AST_BLOCK =>
          simp only [gen_statement, gen_block] at h
          exact (ih _ hfc).2 g g' h
        case AST_IF =>
          simp only [gen_statement] at h
          exact gen_if_localsStep _ text dt ln fc ns hchild g g' h
        case AST_IF_ELSE =>
          simp only [gen_statement] at h
          exact gen_if_localsStep _ text dt ln fc ns hchild g g' h
        case AST_WHILE =>
          simp only [gen_statement] at h
          exact gen_while_localsStep _ text dt ln fc ns hchild g g' h
        case AST_FOR =>
          simp only [gen_statement] at h
          exact gen_for_localsStep _ text dt ln fc ns hchild g g' h
        case AST_RETURN =>
          simp only [gen_statement] at h
          exact gen_return_localsStep g g' _ h
        case AST_EXPR_STATEMENT =>
          simp only [gen_statement] at h
          split at h
          · cases h
            exact LocalsStep.ls_refl g
          · simp only [Option.bind_eq_bind, Option.bind_eq_some] at h
            obtain ⟨g1, h1, h⟩ := h
            exact (gen_expression_locals g g1 fc h1).ls_trans (emit_simple_localsStep g1 g' _ h)
        case AST_ASSIGNMENT =>
          simp only [gen_statement, Option.bind_eq_bind, Option.bind_eq_some] at h
          obtain ⟨g1, h1, h⟩ := h
          exact (gen_expression_locals g g1 _ h1).ls_trans (emit_simple_localsStep g1 g' _ h)
        all_goals
          simp only [gen_statement] at h
          cases h
          exact LocalsStep.ls_refl g
      refine ⟨hstmt, ?_⟩
      intro g g' h
      simp only [gen_stmts, Option.bind_eq_bind, Option.bind_eq_some] at h
      obtain ⟨g1, h1, h⟩ := h
      exact (hstmt g g1 h1).ls_trans ((ih _ hns).2 g1 g' h)

theorem gen_statement_locals (g g' : CodeGenerator) (node : ASTNode)
    (h : gen_statement g node = some g') : LocalsStep g g' :=
  (gen_statement_localsStep node.size node (le_refl _)).1 g g' h

theorem gen_stmts_locals (g g' : CodeGenerator) (node : ASTNode)
    (h : gen_stmts g node = some g') : LocalsStep g g' :=
  (gen_statement_localsStep node.size node (le_refl _)).2 g g' h

theorem add_param_locals_localsStep (ps : List (String × DataType)) :
    ∀ g, LocalsStep g (add_param_locals g ps) := by
  induction ps with
  | nil => intro g; exact LocalsStep.ls_refl g
  | cons p rest ih =>
    intro g
    obtain ⟨pname, ptype⟩ := p
    simp only [add_param_locals]
    exact (add_local_localsStep g pname).ls_trans (ih _)

theorem add_ast_params_localsStep (node : ASTNode) :
    ∀ g, LocalsStep g (add_ast_params g node) := by
  induction node with
  | null => intro g; exact LocalsStep.ls_refl g
  | node ty text dt ln fc ns _ ihn =>
    intro g
    simp only [add_ast_params]
    split
    · split
      · exact (add_local_localsStep g _).ls_trans (ihn _)
      · exact ihn g
    · exact ihn g

theorem add_local_found (g : CodeGenerator) (name : String) (h : 0 ≤ find_local g name) :
    add_local g name = (find_local g name, g) := by
  unfold add_local
  simp only
  rw [if_pos h]

theorem register_function_localsStep (g g' : CodeGenerator) (name : String)
    (pc lc : Int) (idx : Nat) (h : register_function g name pc lc = some (idx, g')) :
    LocalsStep g g' := by
  unfold register_function at h
  split at h
  · exact Option.noConfusion h
  · have e := Option.some.inj h
    simp only [Prod.mk.injEq] at e
    obtain ⟨_, e2⟩ := e
    rw [← e2]
    exact LocalsStep.ls_same rfl rfl

/-- The body of a function is generated from a generator whose local table
satisfies the invariant, and the invariant holds when the body is done. -/
theorem gen_function_body_locals (g g' : CodeGenerator) (ty : ASTNodeType)
    (text dt : Option String) (ln : Int) (fc ns : ASTNode)
    (h : gen_function g (.node ty text dt ln fc ns) = some g') :
    ∃ gb ge, LocalsOK gb ∧
      (if (get_child (.node ty text dt ln fc ns) 1).is AST_BLOCK then
        gen_block gb (get_child (.node ty text dt ln fc ns) 1)
       else some gb) = some ge ∧
      LocalsOK ge ∧ g'.locals = ge.locals := by
  simp only [gen_function, Option.bind_eq_bind, Option.bind_eq_some] at h
  obtain ⟨⟨idx, g1⟩, hreg, g2, hent, h⟩ := h
  simp only at hent h
  have hb : ∃ g3, (if (get_child (.node ty text dt ln fc ns) 1).is AST_BLOCK then
        gen_block g2 (get_child (.node ty text dt ln fc ns) 1)
       else some g2) = some g3 ∧
      ((emit g3 OP_PUSH 0).bind fun gen =>
        (emit_simple gen OP_RETVAL).bind fun gen =>
          some { gen with current_func_idx := -1 }) = some g' := by
    by_cases hc : (get_child (.node ty text dt ln fc ns) 1).is AST_BLOCK = true
    · rw [if_pos hc] at h
      simp only [Option.bind_eq_some] at h
      obtain ⟨g3, h3, h⟩ := h
      exact ⟨g3, by rw [if_pos hc]; exact h3, by simpa only [Option.bind_eq_some] using h⟩
    · rw [if_neg hc] at h
      simp only [Option.some_bind] at h
      exact ⟨g2, by rw [if_neg hc], h⟩
  obtain ⟨g3, hbody, h⟩ := hb
  simp only [Option.bind_eq_some] at h
  obtain ⟨g4, hpush, g5, hret, hfin⟩ := h
  cases hfin
  have h0 := localsOK_clear g
  have sA : ∀ g0, LocalsStep g0 (match (symbol_lookup g0.symtab (cstr text)).bind
      (fun sym => sym.func_info) with
      | some fi => add_param_locals g0 fi.params
      | none => g0) := by
    intro g0
    split
    · exact add_param_locals_localsStep _ _
    · exact LocalsStep.ls_refl _
  have sB : ∀ g0, LocalsStep g0 (if (get_child (.node ty text dt ln fc ns) 0).is AST_PARAM_LIST
      then add_ast_params g0 (get_child (.node ty text dt ln fc ns) 0).first_child
      else g0) := by
    intro g0
    split
    · exact add_ast_params_localsStep _ _
    · exact LocalsStep.ls_refl _
  have s1 := register_function_localsStep _ g1 _ _ _ idx hreg
  have s2 := emit_localsStep _ g2 OP_ENTER _ hent
  have sC : LocalsStep g1 g2 := by
    refine (LocalsStep.ls_same ?_ ?_).ls_trans s2
    all_goals (split <;> rfl)
  have ok2 : LocalsOK g2 := sC.ok (s1.ok ((sB _).ok ((sA _).ok h0)))
  have s3 : LocalsStep g2 g3 := by
    split at hbody
    · cases hn : get_child (.node ty text dt ln fc ns) 1 with
      | null =>
        rw [hn, gen_block] at hbody
        cases hbody
        exact LocalsStep.ls_refl _
      | node t2 x2 d2 l2 fc2 ns2 =>
        rw [hn, gen_block] at hbody
        exact gen_stmts_locals _ _ _ hbody
    · cases hbody
      exact LocalsStep.ls_refl _
  refine ⟨g2, g3, ok2, hbody, s3.ok ok2, ?_⟩
  obtain ⟨l4, k4⟩ := (emit_localsStep g3 g4 _ _ hpush).more
  have e4 : g4.locals = g3.locals := by
    unfold emit at hpush
    split at hpush
    · exact Option.noConfusion hpush
    · cases hpush; rfl
  have e5 : g5.locals = g4.locals := by
    unfold emit_simple emit at hret
    split at hret
    · exact Option.noConfusion hret
    · cases hret; rfl
  simp only
  rw [e5, e4]

/-- C24 (amended): slot assignment within the capacity of the local table.
The body of a function is generated from a local table in which the entry at
index `i` has slot `i` and no name occurs twice; statement and expression
generation keep that and never change the slot of a name they found; in such
a table two names with the same slot are the same name; an IDENTIFIER of a
known name emits `LOAD` with the slot of the name; and while a name is known
or the table has fewer than 64 entries, a VAR_DECL with initializer and an
ASSIGNMENT emit `STORE` with the slot under which the name is found
afterwards. -/
theorem slots_unique_within_capacity :
    (∀ (g g' : CodeGenerator) (ty : ASTNodeType) (text dt : Option String) (ln : Int)
        (fc ns : ASTNode), gen_function g (.node ty text dt ln fc ns) = some g' →
      ∃ gb ge, LocalsOK gb ∧
        (if (get_child (.node ty text dt ln fc ns) 1).is AST_BLOCK then
          gen_block gb (get_child (.node ty text dt ln fc ns) 1)
         else some gb) = some ge ∧
        LocalsOK ge ∧ g'.locals = ge.locals) ∧
    (∀ (g g' : CodeGenerator) (node : ASTNode), LocalsOK g →
      gen_statement g node = some g' ∨ gen_stmts g node = some g' ∨
        gen_expression g node = some g' →
      LocalsOK g' ∧ ∀ x, 0 ≤ find_local g x → find_local g' x = find_local g x) ∧
    (∀ (g : CodeGenerator) (x y : String), LocalsOK g → 0 ≤ find_local g x →
      find_local g x = find_local g y → x = y) ∧
    (∀ (g : CodeGenerator) (text dt : Option String) (ln : Int) (fc ns : ASTNode),
      0 ≤ find_local g (cstr text) →
      gen_expression g (.node AST_IDENTIFIER text dt ln fc ns) =
        emit g OP_LOAD (find_local g (cstr text))) ∧
    (∀ (g g2 : CodeGenerator) (ty : ASTNodeType) (text dt : Option String) (ln : Int)
        (fc ns : ASTNode), fc ≠ .null → LocalsOK g →
      0 ≤ find_local g (cstr text) ∨ g.locals.length < MAX_LOCAL_SYMBOLS →
      gen_expression (add_local g (cstr text)).2 fc = some g2 →
      gen_var_decl g (.node ty text dt ln fc ns) = emit g2 OP_STORE (find_local g2 (cstr text)) ∧
      0 ≤ find_local g2 (cstr text)) ∧
    (∀ (g g1 g2 : CodeGenerator) (text dt : Option String) (ln : Int) (fc ns : ASTNode),
      (get_child (.node AST_ASSIGNMENT text dt ln fc ns) 0).is AST_IDENTIFIER = true →
      LocalsOK g →
      gen_expression g (get_child (.node AST_ASSIGNMENT text dt ln fc ns) 1) = some g1 →
      emit_simple g1 OP_DUP = some g2 →
      0 ≤ find_local g2 (cstr (get_child (.node AST_ASSIGNMENT text dt ln fc ns) 0).text) ∨
        g2.locals.length < MAX_LOCAL_SYMBOLS →
      gen_expression g (.node AST_ASSIGNMENT text dt ln fc ns) =
        emit (add_local g2 (cstr (get_child (.node AST_ASSIGNMENT text dt ln fc ns) 0).text)).2
          OP_STORE
          (find_local
            (add_local g2 (cstr (get_child (.node AST_ASSIGNMENT text dt ln fc ns) 0).text)).2
            (cstr (get_child (.node AST_ASSIGNMENT text dt ln fc ns) 0).text)) ∧
      0 ≤ find_local
            (add_local g2 (cstr (get_child (.node AST_ASSIGNMENT text dt ln fc ns) 0).text)).2
            (cstr (get_child (.node AST_ASSIGNMENT text dt ln fc ns) 0).text)) := by
  refine ⟨gen_function_body_locals, ?_, fun g x y ok => find_local_injective g ok x y, ?_, ?_, ?_⟩
  · intro g g' node ok h
    have hs : LocalsStep g g' := by
      rcases h with h | h | h
      · exact gen_statement_locals g g' node h
      · exact gen_stmts_locals g g' node h
      · exact gen_expression_locals g g' node h
    exact ⟨hs.ok ok, fun x hx => hs.stable x hx⟩
  · intro g text dt ln fc ns h
    simp only [gen_expression]
    rw [if_pos h]
  · intro g g2 ty text dt ln fc ns hfc ok hroom hg
    obtain ⟨h1, h2⟩ := add_local_slot g (cstr text) ok hroom
    have hst := (gen_expression_locals _ g2 fc hg).stable (cstr text) h2
    simp only [gen_var_decl, if_neg hfc, hg, Option.bind_eq_bind, Option.some_bind]
    rw [hst, h1]
    exact ⟨rfl, h2⟩
  · intro g g1 g2 text dt ln fc ns hid ok hg1 hg2 hroom
    have ok2 : LocalsOK g2 :=
      (emit_simple_localsStep g1 g2 _ hg2).ok ((gen_expression_locals g g1 _ hg1).ok ok)
    obtain ⟨h1, h2⟩ := add_local_slot g2 _ ok2 hroom
    refine ⟨?_, h2⟩
    simp only [gen_expression, hg1, hg2, hid, Option.bind_eq_bind, Option.some_bind, if_true]
    split
    · rename_i hf
      rw [add_local_found g2 _ hf]
    · rw [← h1]

theorem gen_after_five_eq :
    gen_expression (add_local gen_cleared "a").2
      (.node AST_NUMBER_LITERAL (some "5") none 1 .null .null) = some gen_after_five := by
  simp [gen_expression, add_local, find_local, gen_cleared, clear_locals, codegen_create, emit,
    cstr, atoi_five, gen_after_five, MAX_LOCAL_SYMBOLS, MAX_CODE_SIZE]

theorem slots_unique_within_capacity_witness :
    LocalsOK gen_cleared ∧ gen_cleared.locals.length < MAX_LOCAL_SYMBOLS ∧
    gen_expression (add_local gen_cleared "a").2
      (.node AST_NUMBER_LITERAL (some "5") none 1 .null .null) = some gen_after_five ∧
    gen_var_decl gen_cleared
        (.node AST_VAR_DECL (some "a") (some "int") 1
          (.node AST_NUMBER_LITERAL (some "5") none 1 .null .null) .null) =
      emit gen_after_five OP_STORE (find_local gen_after_five "a") ∧
    0 ≤ find_local gen_after_five "a" :=
  ⟨localsOK_clear _, by decide, gen_after_five_eq,
    slots_unique_within_capacity.2.2.2.2.1 gen_cleared gen_after_five AST_VAR_DECL (some "a")
      (some "int") 1 (.node AST_NUMBER_LITERAL (some "5") none 1 .null .null) .null
      (by simp) (localsOK_clear _) (Or.inr (by decide)) gen_after_five_eq⟩

theorem ana_body_state_entered :
    ana_body_state =
      { ana_entry_state with
        symtab := symbol_enter_scope ana_entry_state.symtab
        enter_calls := ana_entry_state.enter_calls + 1 } := by
  simp [ana_body_state, ana_entry_state, symbol_enter_scope, SymbolTable.cur_local_offset]

theorem scoped_ana_entry : Scoped ana_entry_state.symtab := by
  refine ⟨le_refl _, ?_⟩
  intro i _ s hs
  simp only [ana_entry_state, bucket_set] at hs
  split at hs
  · simp only [List.mem_singleton] at hs
    subst hs
    exact le_refl _
  · cases hs

/-- Whatever the body, the table the analyzer leaves for `prog_ana body` holds
the symbol of `ana` with its empty signature. -/
theorem prog_ana_table (body : ASTNode) :
    (symbol_lookup
        (semantic_get_symbol_table (semantic_analyze semantic_create (prog_ana body)).2)
        "ana").bind (fun sym => sym.func_info)
      = some { return_type := TYPE_INT, params := [] } := by
  rw [semantic_analyze_prog_ana]
  have hs : Scoped ana_body_state.symtab := by
    rw [ana_body_state_entered]
    exact scoped_enter_scope scoped_ana_entry
  have hf := analyze_stmts_framed ana_body_state body hs
  rw [ana_body_state_entered] at hf
  have hr := (enter_exit_restores ana_entry_state _ scoped_ana_entry hf).2 21 (by decide)
  rw [← ana_body_state_entered] at hr
  simp only [semantic_get_symbol_table, symbol_lookup, symbol_set_current_function, hash_ana, hr]
  simp [ana_entry_state, bucket_set, ana_symbol]

/-- Code generation for `prog_ana body`: the body is generated from
`gen_ana_body`, then the tail follows. -/
theorem codegen_prog_ana (body : ASTNode) (st : SymbolTable)
    (hst : (symbol_lookup st "ana").bind (fun sym => sym.func_info)
      = some { return_type := TYPE_INT, params := [] }) :
    codegen_generate (codegen_create st) (prog_ana body) =
      (gen_stmts (gen_ana_body st) body).bind gen_tail := by
  simp only [prog_ana, codegen_generate, codegen_run, codegen_create, gen_node, gen_functions,
    gen_function, clear_locals, cstr, Option.getD, hst, add_param_locals, get_child,
    sibling_at, ASTNode.is, ASTNode.first_child, add_ast_params, register_function,
    current_address, Bytecode.code_size, emit, emit_simple, gen_block,
    FunctionInfo.param_count, MAX_FUNCTIONS, MAX_CODE_SIZE, gen_tail, gen_ana_body]
  simp
  cases gen_stmts _ body with
  | none => simp
  | some g =>
    simp only [Option.some_bind, Option.bind_assoc, List.length_append, List.length_singleton,
      Option.map_eq_map, Option.map_bind]

theorem compile_prog_ana (body : ASTNode) :
    compile (prog_ana body) =
      (gen_stmts
        (gen_ana_body
          (semantic_get_symbol_table (semantic_analyze semantic_create (prog_ana body)).2))
        body).bind gen_tail :=
  codegen_prog_ana body _ (prog_ana_table body)

theorem gen_stmts_decl_chain (names : List String) (rest : ASTNode) :
    ∀ g, gen_stmts g (decl_chain names rest) = gen_stmts (add_locals g names) rest := by
  induction names with
  | nil => intro g; rfl
  | cons n ns ih =>
    intro g
    simp only [decl_chain, var_decl_node, init_node, gen_stmts, gen_statement, gen_var_decl,
      cstr, Option.getD, if_true, Option.bind_eq_bind, Option.some_bind]
    exact ih _

theorem add_local_same (g : CodeGenerator) (name : String) :
    (add_local g name).2 =
      { g with locals := (add_local g name).2.locals
               local_offset := (add_local g name).2.local_offset } := by
  unfold add_local
  simp only
  split
  · rfl
  · split <;> rfl

theorem add_locals_same (names : List String) :
    ∀ g, add_locals g names =
      { g with locals := (add_locals g names).locals
               local_offset := (add_locals g names).local_offset } := by
  induction names with
  | nil => intro g; rfl
  | cons n ns ih =>
    intro g
    have h1 := ih (add_local g n).2
    have h2 := add_local_same g n
    simp only [add_locals, List.foldl_cons] at h1 ⊢
    rw [h1]
    generalize (List.foldl (fun g n => (add_local g n).2) (add_local g n).2 ns).locals = ls
    generalize (List.foldl (fun g n => (add_local g n).2) (add_local g n).2 ns).local_offset = k
    rw [h2]

theorem add_locals_localsStep (names : List String) :
    ∀ g, LocalsStep g (add_locals g names) := by
  induction names with
  | nil => intro g; exact LocalsStep.ls_refl g
  | cons n ns ih =>
    intro g
    exact (add_local_localsStep g n).ls_trans (ih _)

/-- Fresh names that fit are appended to the table in their order. -/
theorem add_locals_names (names : List String) :
    ∀ g, LocalsOK g → names.Nodup → (∀ n ∈ names, ∀ l ∈ g.locals, l.name ≠ n) →
      g.locals.length + names.length ≤ MAX_LOCAL_SYMBOLS →
      (add_locals g names).locals.map (fun l => l.name) =
        g.locals.map (fun l => l.name) ++ names := by
  induction names with
  | nil => intro g _ _ _ _; simp [add_locals]
  | cons n ns ih =>
    intro g ok hnd hfresh hroom
    have hn : ¬ 0 ≤ find_local g n := by
      have hnone : g.locals.find? (fun l => decide (l.name = n)) = none := by
        rw [List.find?_eq_none]
        intro l hl
        simpa using hfresh n (List.mem_cons_self _ _) l hl
      rw [find_local_of_none g n hnone]
      omega
    simp only [List.length_cons] at hroom
    have hfull : ¬ g.locals.length ≥ MAX_LOCAL_SYMBOLS := by omega
    have hadd : (add_local g n).2.locals = g.locals ++ [{ name := n, offset := g.local_offset }] := by
      unfold add_local
      simp only
      rw [if_neg hn, if_neg hfull]
    have h := ih (add_local g n).2 ((add_local_localsStep g n).ok ok) (List.nodup_cons.mp hnd).2
      (by
        intro m hm l hl
        rw [hadd] at hl
        rcases List.mem_append.mp hl with h1 | h1
        · exact hfresh m (List.mem_cons_of_mem _ hm) l h1
        · simp only [List.mem_singleton] at h1
          subst h1
          intro he
          simp only at he
          subst he
          exact (List.nodup_cons.mp hnd).1 hm)
      (by rw [hadd]; simp only [List.length_append, List.length_singleton]; omega)
    simp only [add_locals, List.foldl_cons] at h ⊢
    rw [h, hadd]
    simp

theorem localsOK_gen_ana_body (st : SymbolTable) : LocalsOK (gen_ana_body st) :=
  ⟨rfl, fun i l h => by simp [gen_ana_body] at h, by simp [gen_ana_body]⟩

/-- The local table after the sixty-four declarations: it is full, its first
entry is `v0` with slot 0, and `yeni` is not in it. -/
theorem locals_after_decls (st : SymbolTable) :
    (add_locals (gen_ana_body st) local_names).locals.length = 64 ∧
    find_local (add_locals (gen_ana_body st) local_names) "v0" = 0 ∧
    add_local (add_locals (gen_ana_body st) local_names) "yeni" =
      (0, add_locals (gen_ana_body st) local_names) := by
  have ok0 := localsOK_gen_ana_body st
  have okf := (add_locals_localsStep local_names (gen_ana_body st)).ok ok0
  have hnames := add_locals_names local_names (gen_ana_body st) ok0 (by decide)
    (by intro n _ l hl; simp [gen_ana_body] at hl)
    (by
      have h1 : (gen_ana_body st).locals.length = 0 := rfl
      have h2 : local_names.length = 64 := by decide
      rw [h1, h2]
      decide)
  have h0 : (gen_ana_body st).locals.map (fun l => l.name) = [] := rfl
  rw [h0, List.nil_append] at hnames
  generalize add_locals (gen_ana_body st) local_names = gf at okf hnames ⊢
  have hlen : gf.locals.length = 64 := by
    have := congrArg List.length hnames
    rw [List.length_map] at this
    rw [this]
    rfl
  refine ⟨hlen, ?_, ?_⟩
  · cases hl : gf.locals with
    | nil => rw [hl] at hlen; cases hlen
    | cons l0 rest =>
      rw [hl] at hnames
      have hn0 : l0.name = "v0" := by
        have := congrArg List.head? hnames
        simpa [local_names] using this
      have ho := okf.slots 0 l0 (by rw [hl]; rfl)
      refine (find_local_of_some gf "v0" l0 ?_).trans ho
      rw [hl, List.find?_cons, hn0]
      rfl
  · refine add_local_full gf "yeni" ?_ (by rw [hlen]; decide)
    have hnone : gf.locals.find? (fun l => decide (l.name = "yeni")) = none := by
      rw [List.find?_eq_none]
      intro l hl
      have hm : l.name ∈ gf.locals.map (fun l => l.name) := List.mem_map_of_mem _ hl
      rw [hnames] at hm
      have hy : "yeni" ∉ local_names := by decide
      intro he
      simp only [decide_eq_true_eq] at he
      rw [he] at hm
      exact hy hm
    rw [find_local_of_none gf "yeni" hnone]
    omega

/-- C26: at the top level (`fp ≤ 0`) RETVAL on a non-empty operand stack stops
the interpreter and `vm_execute` returns the popped value; RET stops it and
`vm_execute` returns 0.  Stated for the main loop from any running state whose
next instruction is the RETVAL or the RET. -/
theorem toplevel_return_stops (bc : Bytecode) (vm : VM) (operand : Int) (fuel : Nat)
    (hr : vm.running = true) (hpc : 0 ≤ vm.pc) (hfp : vm.fp ≤ 0) :
    (bc.code.get? vm.pc.toNat = some ⟨OP_RETVAL, operand⟩ → 0 < vm.sp → vm.sp ≤ VM_STACK_SIZE →
      vm_loop bc (fuel + 1) vm =
        .returned (vm.stack (vm.sp - 1))
          { vm with pc := vm.pc + 1, sp := vm.sp - 1, running := false
                    exit_code := vm.stack (vm.sp - 1) }) ∧
    (bc.code.get? vm.pc.toNat = some ⟨OP_RET, operand⟩ →
      vm_loop bc (fuel + 1) vm =
        .returned 0 { vm with pc := vm.pc + 1, running := false, exit_code := 0 }) := by
  have hlt : ∀ inst, bc.code.get? vm.pc.toNat = some inst → vm.pc < bc.code_size := by
    intro inst h
    have h1 : vm.pc.toNat < bc.code.length := by
      by_contra hc
      rw [List.get?_eq_getElem?, List.getElem?_eq_none (by omega)] at h
      cases h
    simp only [Bytecode.code_size]
    omega
  have hge : ¬ vm.pc < 0 := by omega
  constructor
  · intro hfetch h1 h2
    have h3 : ¬ vm.sp ≤ 0 := by omega
    have h4 : ¬ vm.sp - 1 ≥ VM_STACK_SIZE := by omega
    simp only [vm_loop, hr, hlt _ hfetch, and_self, if_true, vm_step, hge, if_false, hfetch,
      vm_exec_inst, pop, h3, h4, Option.bind_eq_bind, Option.some_bind, hfp]
    cases fuel <;> simp [vm_loop]
  · intro hfetch
    simp only [vm_loop, hr, hlt _ hfetch, and_self, if_true, vm_step, hge, if_false, hfetch,
      vm_exec_inst, hfp]
    cases fuel <;> simp [vm_loop]

theorem toplevel_return_stops_witness :
    (vm_toplevel.running = true ∧ 0 ≤ vm_toplevel.pc ∧ vm_toplevel.fp ≤ 0 ∧
      0 < vm_toplevel.sp ∧ vm_toplevel.sp ≤ VM_STACK_SIZE) ∧
    vm_loop { code := [⟨OP_RETVAL, 0⟩], functions := [], main_entry := 0 } (0 + 1) vm_toplevel =
      .returned (vm_toplevel.stack (vm_toplevel.sp - 1))
        { vm_toplevel with pc := vm_toplevel.pc + 1, sp := vm_toplevel.sp - 1, running := false
                           exit_code := vm_toplevel.stack (vm_toplevel.sp - 1) } ∧
    vm_toplevel.stack (vm_toplevel.sp - 1) = 7 ∧
    vm_loop { code := [⟨OP_RET, 0⟩], functions := [], main_entry := 0 } (0 + 1) vm_toplevel =
      .returned 0 { vm_toplevel with pc := vm_toplevel.pc + 1, running := false, exit_code := 0 } :=
  ⟨⟨rfl, by decide, by decide, by decide, by decide⟩,
    (toplevel_return_stops { code := [⟨OP_RETVAL, 0⟩], functions := [], main_entry := 0 }
      vm_toplevel 0 0 rfl (by decide) (by decide)).1 rfl (by decide) (by decide),
    rfl,
    (toplevel_return_stops { code := [⟨OP_RET, 0⟩], functions := [], main_entry := 0 }
      vm_toplevel 0 0 rfl (by decide) (by decide)).2 rfl⟩

/-- C27: a CALL whose operand is outside `[0, function_count)`, or that is
executed with `fp ≥ VM_CALL_STACK_SIZE - 1`, traps: `running` is cleared, the
exit code is -1, one diagnostic is printed, and `fp`, `sp`, the frame stack and
the operand stack are as before. -/
theorem call_rejects_bad_target (bc : Bytecode) (vm : VM) (operand : Int)
    (h : operand < 0 ∨ operand ≥ bc.function_count ∨ vm.fp ≥ VM_CALL_STACK_SIZE - 1) :
    ∃ msg, vm_exec_inst bc vm ⟨OP_CALL, operand⟩ =
      some { vm with running := false, exit_code := -1, errlog := vm.errlog ++ [(vm.pc, msg)] } := by
  by_cases h1 : operand < 0 ∨ operand ≥ bc.function_count
  · refine ⟨"Gecersiz fonksiyon indeksi", ?_⟩
    simp only [vm_exec_inst, h1, if_true, vm_error]
  · have h2 : vm.fp ≥ VM_CALL_STACK_SIZE - 1 := by
      rcases h with h | h | h
      · exact absurd (Or.inl h) h1
      · exact absurd (Or.inr h) h1
      · exact h
    have h3 : operand.toNat < bc.functions.length := by
      simp only [Bytecode.function_count] at h1
      omega
    refine ⟨"Cagri yigini tasmasi (call stack overflow)", ?_⟩
    simp only [vm_exec_inst, h1, if_false, List.get?_eq_getElem?, List.getElem?_eq_getElem h3,
      h2, if_true, vm_error]

theorem call_rejects_bad_target_witness :
    (((0 : Int) < 0 ∨ (0 : Int) ≥ bc_one_param.function_count ∨
      vm_frames_full.fp ≥ VM_CALL_STACK_SIZE - 1)) ∧
    ∃ msg, vm_exec_inst bc_one_param vm_frames_full ⟨OP_CALL, 0⟩ =
      some { vm_frames_full with
        running := false, exit_code := -1
        errlog := vm_frames_full.errlog ++ [(vm_frames_full.pc, msg)] } :=
  ⟨Or.inr (Or.inr (by decide)),
    call_rejects_bad_target bc_one_param vm_frames_full 0 (Or.inr (Or.inr (by decide)))⟩

/-- The interpreter has no test on a jump target.  A JMP with operand -1 sets
`pc = -1` with `running` still set and nothing printed; the loop guard
`pc < code_size` holds, and the next fetch reads `code[-1]`, outside the code
array.  What the run does from there depends on the word the read yields,
which the program text does not determine: in this development such a run has
the result `undefined`, for any number of further steps. -/
theorem unpatched_jump_is_not_trapped :
    (∃ vm, vm_step bc_jump_unpatched (vm_enter_main vm_create bc_jump_unpatched) = some vm ∧
      vm.pc = -1 ∧ vm.running = true ∧ vm.exit_code = 0 ∧ vm.errlog = [] ∧
      vm.pc < bc_jump_unpatched.code_size ∧ vm_step bc_jump_unpatched vm = none) ∧
    ∀ fuel, vm_execute (fuel + 2) vm_create bc_jump_unpatched = .undefined := by
  constructor
  · simp [bc_jump_unpatched, vm_enter_main, vm_create, vm_step, vm_exec_inst, Bytecode.code_size]
  · intro fuel
    simp [vm_execute, bc_jump_unpatched, vm_enter_main, vm_create, vm_loop, vm_step, vm_exec_inst,
      Bytecode.code_size]

/-- C30: RETVAL executed with `fp > 0` on a non-empty operand stack pops `v`,
sets `sp := frames[fp].base_ptr - param_count` (of the function recorded in
the frame), `pc := frames[fp].return_addr`, `fp := fp - 1`, and then pushes
`v`; when that push lands inside the stack, `sp` is
`base_ptr - param_count + 1` afterwards and the top of the stack is `v`. -/
theorem retval_unwinds (bc : Bytecode) (vm : VM) (operand p : Int)
    (hfp : vm.fp > 0) (hsp : 0 < vm.sp) (hsp2 : vm.sp ≤ VM_STACK_SIZE)
    (hp : frame_param_count bc vm = some p) :
    vm_exec_inst bc vm ⟨OP_RETVAL, operand⟩ =
      push { vm with
          sp := (vm.frames vm.fp).base_ptr - p
          pc := (vm.frames vm.fp).return_addr
          fp := vm.fp - 1 }
        (vm.stack (vm.sp - 1)) ∧
    (0 ≤ (vm.frames vm.fp).base_ptr - p → (vm.frames vm.fp).base_ptr - p < VM_STACK_SIZE →
      ∃ vm', vm_exec_inst bc vm ⟨OP_RETVAL, operand⟩ = some vm' ∧
        vm'.sp = (vm.frames vm.fp).base_ptr - p + 1 ∧
        vm'.stack (vm'.sp - 1) = vm.stack (vm.sp - 1) ∧
        vm'.pc = (vm.frames vm.fp).return_addr ∧ vm'.fp = vm.fp - 1 ∧
        vm'.frames = vm.frames ∧ vm'.running = vm.running ∧ vm'.exit_code = vm.exit_code ∧
        vm'.errlog = vm.errlog) := by
  have h1 : ¬ vm.sp ≤ 0 := by omega
  have h2 : ¬ vm.sp - 1 ≥ VM_STACK_SIZE := by omega
  have h3 : ¬ vm.fp ≤ 0 := by omega
  have hp2 : frame_param_count bc { vm with sp := vm.sp - 1 } = some p := hp
  have hmain : vm_exec_inst bc vm ⟨OP_RETVAL, operand⟩ =
      push { vm with
          sp := (vm.frames vm.fp).base_ptr - p
          pc := (vm.frames vm.fp).return_addr
          fp := vm.fp - 1 }
        (vm.stack (vm.sp - 1)) := by
    simp only [vm_exec_inst, pop, h1, h2, if_false, Option.bind_eq_bind, Option.some_bind, h3,
      hp2]
  refine ⟨hmain, ?_⟩
  intro h4 h5
  have h6 : ¬ (vm.frames vm.fp).base_ptr - p ≥ VM_STACK_SIZE := by omega
  have h7 : ¬ (vm.frames vm.fp).base_ptr - p < 0 := by omega
  rw [hmain]
  simp [push, h6, h7, arr_set]

theorem retval_unwinds_witness :
    (vm_in_call.fp > 0 ∧ 0 < vm_in_call.sp ∧ vm_in_call.sp ≤ VM_STACK_SIZE ∧
      frame_param_count bc_one_param vm_in_call = some 1) ∧
    vm_exec_inst bc_one_param vm_in_call ⟨OP_RETVAL, 0⟩ =
      push { vm_in_call with
          sp := (vm_in_call.frames vm_in_call.fp).base_ptr - 1
          pc := (vm_in_call.frames vm_in_call.fp).return_addr
          fp := vm_in_call.fp - 1 }
        (vm_in_call.stack (vm_in_call.sp - 1)) ∧
    (vm_in_call.frames vm_in_call.fp).base_ptr - 1 = 32 :=
  ⟨⟨by decide, by decide, by decide, by simp [frame_param_count, vm_in_call, bc_one_param, arr_set]⟩,
    (retval_unwinds bc_one_param vm_in_call 0 1 (by decide) (by decide) (by decide)
      (by simp [frame_param_count, vm_in_call, bc_one_param, arr_set])).1,
    by simp [vm_in_call, arr_set]⟩

theorem atoi_forty_two : atoi "42" = 42 := by decide

/-- C25 (amended): for every literal, the code generated for
`int ana() { return N; }` is `ENTER 32; PUSH N; RETVAL; PUSH 0; RETVAL; HALT`:
the `PUSH N; RETVAL` of the body is followed by the default return of
`gen_function` and the HALT of `codegen_generate`. -/
theorem return_literal_code (text : String) :
    compile (prog_return_literal text) =
      some { code := [⟨OP_ENTER, 32⟩, ⟨OP_PUSH, atoi text⟩, ⟨OP_RETVAL, 0⟩,
                      ⟨OP_PUSH, 0⟩, ⟨OP_RETVAL, 0⟩, ⟨OP_HALT, 0⟩]
             functions := [⟨"ana", 0, 0, 32⟩]
             main_entry := 0 } := by
  rw [prog_return_literal, compile_prog_arith]
  simp [Arith.code, MAX_CODE_SIZE, bc_arith]

/-- C25 (counterexample): the code generated for `int ana() { return 42; }`
has six instructions and its last two are `RETVAL; HALT`, not
`PUSH 42; RETVAL`. -/
theorem return_literal_code_ends_with_halt :
    ∃ bc, compile (prog_return_literal "42") = some bc ∧
      bc.code = [⟨OP_ENTER, 32⟩, ⟨OP_PUSH, 42⟩, ⟨OP_RETVAL, 0⟩,
                 ⟨OP_PUSH, 0⟩, ⟨OP_RETVAL, 0⟩, ⟨OP_HALT, 0⟩] ∧
      bc.code.drop (bc.code.length - 2) = [⟨OP_RETVAL, 0⟩, ⟨OP_HALT, 0⟩] ∧
      bc.code.drop (bc.code.length - 2) ≠ [⟨OP_PUSH, 42⟩, ⟨OP_RETVAL, 0⟩] := by
  refine ⟨{ code := [⟨OP_ENTER, 32⟩, ⟨OP_PUSH, 42⟩, ⟨OP_RETVAL, 0⟩,
                      ⟨OP_PUSH, 0⟩, ⟨OP_RETVAL, 0⟩, ⟨OP_HALT, 0⟩]
            functions := [⟨"ana", 0, 0, 32⟩]
            main_entry := 0 }, ?_, rfl, ?_, ?_⟩
  · rw [prog_return_literal, compile_prog_arith]
    simp [Arith.code, MAX_CODE_SIZE, bc_arith, atoi_forty_two]
  · simp
  · simp

theorem lookup_current_scope_declare_other (t : SymbolTable) (n m : String) (kind : SymbolKind)
    (type : DataType) (line : Int) (h : m ≠ n) :
    symbol_lookup_current_scope (symbol_declare t n kind type line).2 m =
      symbol_lookup_current_scope t m := by
  cases hc : symbol_lookup_current_scope t n with
  | some e => rw [symbol_declare_of_some _ _ _ _ _ e hc]
  | none =>
    obtain ⟨_, hb, hl⟩ := symbol_declare_of_none t n kind type line hc
    unfold symbol_lookup_current_scope
    rw [hb, hl]
    simp only [bucket_set]
    split
    · rename_i he
      rw [he, List.find?_cons]
      have : decide ((declared_symbol t n kind type line).name = m ∧
          (declared_symbol t n kind type line).scope_level = t.scope_level) = false := by
        simp only [declared_symbol, decide_eq_false_iff_not, not_and]
        intro hn
        exact absurd hn.symm h
      rw [this]
    · rfl

theorem varsOnly_declare (t : SymbolTable) (n : String) (line : Int) (h : VarsOnly t) :
    VarsOnly (symbol_declare t n SYMBOL_VARIABLE TYPE_INT line).2 := by
  cases hc : symbol_lookup_current_scope t n with
  | some e =>
    rw [symbol_declare_of_some _ _ _ _ _ e hc]
    exact h
  | none =>
    obtain ⟨_, hb, _⟩ := symbol_declare_of_none t n SYMBOL_VARIABLE TYPE_INT line hc
    intro i s hs
    rw [hb] at hs
    simp only [bucket_set] at hs
    split at hs
    · rcases List.mem_cons.mp hs with h1 | h1
      · subst h1
        exact Or.inr ⟨rfl, rfl⟩
      · exact h _ s h1
    · exact h i s hs

theorem declare_vars_facts (names : List String) :
    ∀ a, (declare_vars a names).errors = a.errors ∧
      (declare_vars a names).current_return_type = a.current_return_type ∧
      (VarsOnly a.symtab → VarsOnly (declare_vars a names).symtab) ∧
      (∀ m, m ∉ names →
        symbol_lookup_current_scope (declare_vars a names).symtab m =
          symbol_lookup_current_scope a.symtab m) ∧
      Framed a (declare_vars a names) := by
  induction names with
  | nil => intro a; exact ⟨rfl, rfl, id, fun _ _ => rfl, Framed.fr_refl a⟩
  | cons n ns ih =>
    intro a
    obtain ⟨h1, h2, h3, h4, h5⟩ :=
      ih { a with symtab := (symbol_declare a.symtab n SYMBOL_VARIABLE TYPE_INT 1).2 }
    refine ⟨h1, h2, fun hv => h3 (varsOnly_declare _ _ _ hv), ?_, ?_⟩
    · intro m hm
      simp only [List.mem_cons, not_or] at hm
      exact (h4 m hm.2).trans (lookup_current_scope_declare_other _ _ _ _ _ _ hm.1)
    · exact (symbol_declare_framed a n SYMBOL_VARIABLE TYPE_INT 1).fr_trans h5

/-- A chain of declarations of distinct names, none of them found at the
current level, is analyzed without a diagnostic: it declares the names. -/
theorem analyze_stmts_decl_chain (names : List String) (rest : ASTNode) :
    ∀ a, names.Nodup → (∀ n ∈ names, symbol_lookup_current_scope a.symtab n = none) →
      analyze_stmts a (decl_chain names rest) = analyze_stmts (declare_vars a names) rest := by
  induction names with
  | nil => intro a _ _; rfl
  | cons n ns ih =>
    intro a hnd hfresh
    have hn := hfresh n (List.mem_cons_self _ _)
    have hstep : analyze_statement a (var_decl_node n 1 none (decl_chain ns rest)) =
        { a with symtab := (symbol_declare a.symtab n SYMBOL_VARIABLE TYPE_INT 1).2 } := by
      rw [← analyze_var_decl_fresh a n 1 none (decl_chain ns rest) hn]
      simp only [var_decl_node, analyze_statement]
    have hrest := ih { a with symtab := (symbol_declare a.symtab n SYMBOL_VARIABLE TYPE_INT 1).2 }
      (List.nodup_cons.mp hnd).2
      (by
        intro m hm
        have hne : m ≠ n := by
          intro he
          subst he
          exact (List.nodup_cons.mp hnd).1 hm
        rw [lookup_current_scope_declare_other _ _ _ _ _ _ hne]
        exact hfresh m (List.mem_cons_of_mem _ hm))
    have hunf : analyze_stmts a (decl_chain (n :: ns) rest) =
        analyze_stmts (analyze_statement a (var_decl_node n 1 none (decl_chain ns rest)))
          (decl_chain ns rest) := by
      simp only [decl_chain, var_decl_node, analyze_stmts]
    rw [hunf, hstep, hrest]
    rfl

theorem varsOnly_ana_body_state : VarsOnly ana_body_state.symtab := by
  intro i s hs
  simp only [ana_body_state, bucket_set] at hs
  split at hs
  · simp only [List.mem_singleton] at hs
    exact Or.inl hs
  · cases hs

/-- The analyzer accepts the program with sixty-five local names. -/
theorem analyze_prog_locals_overflow :
    (semantic_analyze semantic_create prog_locals_overflow).1 = true := by
  have hnd : local_names.Nodup := by decide
  have hy : "yeni" ∉ local_names := by decide
  rw [prog_locals_overflow, semantic_analyze_prog_ana,
    analyze_stmts_decl_chain local_names _ ana_body_state hnd
      (fun n _ => ana_body_state_fresh n)]
  obtain ⟨e1, e2, e3, e4, _⟩ := declare_vars_facts local_names ana_body_state
  have hyeni := (e4 "yeni" hy).trans (ana_body_state_fresh "yeni")
  have hvars := e3 varsOnly_ana_body_state
  -- the first name stays in its chain
  have hfirst : ∃ e, symbol_lookup_current_scope
      (declare_vars ana_body_state local_names).symtab "v0" = some e := by
    have h1 := lookup_current_scope_declare ana_body_state.symtab "v0" SYMBOL_VARIABLE TYPE_INT 1
      (ana_body_state_fresh "v0")
    have h2 := (declare_vars_facts local_names.tail
      { ana_body_state with
        symtab := (symbol_declare ana_body_state.symtab "v0" SYMBOL_VARIABLE TYPE_INT 1).2 }).2.2.2.2
    exact h2.keeps_current "v0" _ h1
  generalize declare_vars ana_body_state local_names = S at e1 e2 hyeni hvars hfirst ⊢
  have hdecl := analyze_var_decl_fresh S "yeni" 2 (some (.lit "5" 2))
    (return_node 3 (ident_node "v0" 3 .null) .null) hyeni
  have hfr := symbol_declare_framed S "yeni" SYMBOL_VARIABLE TYPE_INT 2
  have hvars2 := varsOnly_declare S.symtab "yeni" 2 hvars
  obtain ⟨e, he⟩ := hfirst
  obtain ⟨e', he'⟩ := hfr.keeps_current "v0" e he
  obtain ⟨hm, hname, _⟩ := lookup_current_scope_some _ _ _ he'
  have hlook : ∃ r, symbol_lookup
      (symbol_declare S.symtab "yeni" SYMBOL_VARIABLE TYPE_INT 2).2 "v0" = some r ∧
      r.kind = SYMBOL_VARIABLE ∧ r.type = TYPE_INT := by
    cases hl : symbol_lookup (symbol_declare S.symtab "yeni" SYMBOL_VARIABLE TYPE_INT 2).2 "v0" with
    | none =>
      exact absurd hname (((symbol_lookup_spec _ "v0").1.mp hl) e' hm)
    | some r =>
      obtain ⟨k1, k2, _⟩ := (symbol_lookup_spec _ "v0").2 r hl
      rcases hvars2 _ r k1 with h | h
      · rw [h] at k2
        exact absurd k2 (by decide)
      · exact ⟨r, rfl, h⟩
  obtain ⟨r, hr, hk, hty⟩ := hlook
  have hk2 : ¬ (r.kind = SYMBOL_FUNCTION) := by rw [hk]; decide
  have hunf : analyze_stmts S (var_decl_node "yeni" 2 (some (.lit "5" 2))
      (return_node 3 (ident_node "v0" 3 .null) .null)) =
      analyze_stmts (analyze_var_decl S (var_decl_node "yeni" 2 (some (.lit "5" 2))
        (return_node 3 (ident_node "v0" 3 .null) .null)))
        (return_node 3 (ident_node "v0" 3 .null) .null) := by
    simp only [var_decl_node, analyze_stmts, analyze_statement]
  rw [hunf, hdecl]
  simp [return_node, ident_node, analyze_stmts, analyze_statement, analyze_return,
    analyze_expression, cstr, hr, hk2, hty, e1, e2, ana_body_state, types_compatible]

/-- C24 (counterexample): in `int ana() { int v0; ... int v63; int yeni = 5;
return v0; }`, which the analyzer accepts, the local table is full when `yeni`
is declared, `add_local` answers slot 0 for it, and the generated code stores
the initializer of `yeni` in slot 0 and loads `v0` from slot 0: two different
names, one slot. -/
theorem full_table_shares_slot :
    "yeni" ≠ "v0" ∧
    (semantic_analyze semantic_create prog_locals_overflow).1 = true ∧
    (∀ st, find_local (add_locals (gen_ana_body st) local_names) "v0" = 0 ∧
      (add_local (add_locals (gen_ana_body st) local_names) "yeni").1 = 0) ∧
    compile prog_locals_overflow =
      some { code := [⟨OP_ENTER, 32⟩, ⟨OP_PUSH, 5⟩, ⟨OP_STORE, 0⟩, ⟨OP_LOAD, 0⟩, ⟨OP_RETVAL, 0⟩,
                      ⟨OP_PUSH, 0⟩, ⟨OP_RETVAL, 0⟩, ⟨OP_HALT, 0⟩]
             functions := [⟨"ana", 0, 0, 32⟩], main_entry := 0 } := by
  refine ⟨by decide, analyze_prog_locals_overflow, fun st => ?_, ?_⟩
  · obtain ⟨_, h1, h2⟩ := locals_after_decls st
    exact ⟨h1, by rw [h2]⟩
  · rw [prog_locals_overflow, compile_prog_ana, gen_stmts_decl_chain]
    generalize semantic_get_symbol_table (semantic_analyze semantic_create _).2 = st
    obtain ⟨_, hv0, hadd⟩ := locals_after_decls st
    have hsame := add_locals_same local_names (gen_ana_body st)
    have hbc : (add_locals (gen_ana_body st) local_names).bc = (gen_ana_body st).bc := by
      rw [hsame]
    have hpend : (add_locals (gen_ana_body st) local_names).pending = [] := by
      rw [hsame]
      rfl
    generalize add_locals (gen_ana_body st) local_names = gf at hv0 hadd hbc hpend
    have hfind : ∀ (c : Bytecode) (p : List PendingJump),
        find_local { gf with bc := c, pending := p } "v0" = 0 := fun _ _ => hv0
    simp [var_decl_node, init_node, Arith.to_ast, return_node, ident_node, gen_stmts,
      gen_statement, gen_var_decl, cstr, hadd, gen_expression, gen_return, emit, emit_simple,
      hbc, hpend, hfind, gen_ana_body, gen_tail, patch_jumps, patch_loop, atoi_five,
      MAX_CODE_SIZE]

theorem pop_of_room (vm : VM) (h1 : 0 < vm.sp) (h2 : vm.sp ≤ VM_STACK_SIZE) :
    pop vm = some (vm.stack (vm.sp - 1), { vm with sp := vm.sp - 1 }) := by
  have k1 : ¬ vm.sp ≤ 0 := by omega
  have k2 : ¬ vm.sp - 1 ≥ VM_STACK_SIZE := by omega
  simp only [pop, if_neg k1, if_neg k2]

theorem push_of_room (vm : VM) (v : Int) (h1 : 0 ≤ vm.sp) (h2 : vm.sp < VM_STACK_SIZE) :
    push vm v = some { vm with stack := arr_set vm.stack vm.sp v, sp := vm.sp + 1 } := by
  have k1 : ¬ vm.sp ≥ VM_STACK_SIZE := by omega
  have k2 : ¬ vm.sp < 0 := by omega
  simp only [push, if_neg k1, if_neg k2]

/-- The common shape of the binary cases on a stack with two cells. -/
theorem binop_of_two (vm : VM) (f : Int → Int → Int) (h1 : 2 ≤ vm.sp)
    (h2 : vm.sp ≤ VM_STACK_SIZE) :
    binop vm f =
      some { vm with
        stack := arr_set vm.stack (vm.sp - 2) (f (vm.stack (vm.sp - 2)) (vm.stack (vm.sp - 1)))
        sp := vm.sp - 1 } := by
  have hV : VM_STACK_SIZE = 1024 := rfl
  have p1 := pop_of_room vm (by omega) h2
  have p2 := pop_of_room { vm with sp := vm.sp - 1 } (by simp only; omega) (by simp only; omega)
  have p3 := push_of_room { vm with sp := vm.sp - 1 - 1 }
    (f (vm.stack (vm.sp - 2)) (vm.stack (vm.sp - 1))) (by simp only; omega) (by simp only; omega)
  have e1 : vm.sp - 1 - 1 = vm.sp - 2 := by omega
  have e2 : vm.sp - 2 + 1 = vm.sp - 1 := by omega
  simp only [binop, p1, Option.bind_eq_bind, Option.some_bind, p2]
  simp only [e1] at p3 ⊢
  rw [p3]
  simp only [e2]

/-- C31: left-then-right operand order.  For ADD, SUB, MUL, DIV, MOD, EQ, NEQ,
LT, GT, LEQ and GEQ, executed on an operand stack with at least two cells that
ends in `a`, `b` (`b` on top), where the operation is defined and its value
`r = a op b` does not overflow: the state afterwards is the state before with
`r` written over `a` and `sp` decreased by one, nothing else changed; and for
a comparison `r` is 1 when it holds and 0 when it does not. -/
theorem binary_opcodes_left_then_right (bc : Bytecode) (vm : VM) (op : OpCode) (operand r : Int)
    (h2 : 2 ≤ vm.sp) (hmax : vm.sp ≤ VM_STACK_SIZE)
    (hr : spec_binop op (vm.stack (vm.sp - 2)) (vm.stack (vm.sp - 1)) = some r)
    (hdef : binop_defined op (vm.stack (vm.sp - 2)) (vm.stack (vm.sp - 1)))
    (hov : INT_MIN ≤ r ∧ r ≤ INT_MAX) :
    vm_exec_inst bc vm ⟨op, operand⟩ =
      some { vm with stack := arr_set vm.stack (vm.sp - 2) r, sp := vm.sp - 1 } ∧
    (op = OP_EQ → (r = 1 ↔ vm.stack (vm.sp - 2) = vm.stack (vm.sp - 1)) ∧
      (r = 0 ↔ ¬ vm.stack (vm.sp - 2) = vm.stack (vm.sp - 1))) ∧
    (op = OP_NEQ → (r = 1 ↔ vm.stack (vm.sp - 2) ≠ vm.stack (vm.sp - 1)) ∧
      (r = 0 ↔ ¬ vm.stack (vm.sp - 2) ≠ vm.stack (vm.sp - 1))) ∧
    (op = OP_LT → (r = 1 ↔ vm.stack (vm.sp - 2) < vm.stack (vm.sp - 1)) ∧
      (r = 0 ↔ ¬ vm.stack (vm.sp - 2) < vm.stack (vm.sp - 1))) ∧
    (op = OP_GT → (r = 1 ↔ vm.stack (vm.sp - 2) > vm.stack (vm.sp - 1)) ∧
      (r = 0 ↔ ¬ vm.stack (vm.sp - 2) > vm.stack (vm.sp - 1))) ∧
    (op = OP_LEQ → (r = 1 ↔ vm.stack (vm.sp - 2) ≤ vm.stack (vm.sp - 1)) ∧
      (r = 0 ↔ ¬ vm.stack (vm.sp - 2) ≤ vm.stack (vm.sp - 1))) ∧
    (op = OP_GEQ → (r = 1 ↔ vm.stack (vm.sp - 2) ≥ vm.stack (vm.sp - 1)) ∧
      (r = 0 ↔ ¬ vm.stack (vm.sp - 2) ≥ vm.stack (vm.sp - 1))) := by
  generalize ha : vm.stack (vm.sp - 2) = a at hr hdef ⊢
  generalize hb : vm.stack (vm.sp - 1) = b at hr hdef ⊢
  have hw := wrap32_of_range r hov.1 hov.2
  have hbin := fun f => binop_of_two vm f h2 hmax
  have p1 := pop_of_room vm (by omega) hmax
  have hV : VM_STACK_SIZE = 1024 := rfl
  have p2 := pop_of_room { vm with sp := vm.sp - 1 } (by simp only; omega) (by simp only; omega)
  have p3 := fun v => push_of_room { vm with sp := vm.sp - 1 - 1 } v
    (by simp only; omega) (by simp only; omega)
  have e1 : vm.sp - 1 - 1 = vm.sp - 2 := by omega
  have e2 : vm.sp - 2 + 1 = vm.sp - 1 := by omega
  simp only [e1] at p2 p3
  cases op
  case OP_ADD =>
    simp only [spec_binop, Option.some.injEq] at hr
    subst hr
    refine ⟨?_, ?_⟩
    · simp only [vm_exec_inst, hbin, ha, hb, hw]
    · simp
  case OP_SUB =>
    simp only [spec_binop, Option.some.injEq] at hr
    subst hr
    refine ⟨?_, ?_⟩
    · simp only [vm_exec_inst, hbin, ha, hb, hw]
    · simp
  case OP_MUL =>
    simp only [spec_binop, Option.some.injEq] at hr
    subst hr
    refine ⟨?_, ?_⟩
    · simp only [vm_exec_inst, hbin, ha, hb, hw]
    · simp
  case OP_DIV =>
    simp only [spec_binop, Option.some.injEq] at hr
    subst hr
    have hb0 : ¬ b = 0 := (hdef (Or.inl rfl)).1
    refine ⟨?_, ?_⟩
    · simp only [vm_exec_inst, p1, p2, Option.bind_eq_bind, Option.some_bind, hb, ha, e1,
        if_neg hb0, p3, hw, e2]
    · simp
  case OP_MOD =>
    simp only [spec_binop, Option.some.injEq] at hr
    subst hr
    have hb0 : ¬ b = 0 := (hdef (Or.inr rfl)).1
    refine ⟨?_, ?_⟩
    · simp only [vm_exec_inst, p1, p2, Option.bind_eq_bind, Option.some_bind, hb, ha, e1,
        if_neg hb0, p3, hw, e2]
    · simp
  case OP_EQ =>
    simp only [spec_binop, Option.some.injEq] at hr
    subst hr
    refine ⟨?_, ?_⟩
    · simp only [vm_exec_inst, hbin, ha, hb, bool_int]
      by_cases h : a = b <;> simp [h]
    · by_cases h : a = b <;> simp [h]
  case OP_NEQ =>
    simp only [spec_binop, Option.some.injEq] at hr
    subst hr
    refine ⟨?_, ?_⟩
    · simp only [vm_exec_inst, hbin, ha, hb, bool_int]
      by_cases h : a = b <;> simp [h]
    · by_cases h : a = b <;> simp [h]
  case OP_LT =>
    simp only [spec_binop, Option.some.injEq] at hr
    subst hr
    refine ⟨?_, ?_⟩
    · simp only [vm_exec_inst, hbin, ha, hb, bool_int]
      by_cases h : a < b <;> simp [h]
    · by_cases h : a < b <;> simp [h]
  case OP_GT =>
    simp only [spec_binop, Option.some.injEq] at hr
    subst hr
    refine ⟨?_, ?_⟩
    · simp only [vm_exec_inst, hbin, ha, hb, bool_int]
      by_cases h : a > b <;> simp [h]
    · by_cases h : a > b <;> simp [h]
  case OP_LEQ =>
    simp only [spec_binop, Option.some.injEq] at hr
    subst hr
    refine ⟨?_, ?_⟩
    · simp only [vm_exec_inst, hbin, ha, hb, bool_int]
      by_cases h : a ≤ b <;> simp [h]
    · by_cases h : a ≤ b <;> simp [h]
  case OP_GEQ =>
    simp only [spec_binop, Option.some.injEq] at hr
    subst hr
    refine ⟨?_, ?_⟩
    · simp only [vm_exec_inst, hbin, ha, hb, bool_int]
      by_cases h : a ≥ b <;> simp [h]
    · by_cases h : a ≥ b <;> simp [h]
  all_goals (simp only [spec_binop] at hr; cases hr)

theorem binary_opcodes_left_then_right_witness :
    (2 ≤ vm_three_four.sp ∧ vm_three_four.sp ≤ VM_STACK_SIZE ∧
      spec_binop OP_SUB (vm_three_four.stack (vm_three_four.sp - 2))
        (vm_three_four.stack (vm_three_four.sp - 1)) = some (-1)) ∧
    vm_exec_inst { code := [], functions := [], main_entry := 0 } vm_three_four ⟨OP_SUB, 0⟩ =
      some { vm_three_four with
        stack := arr_set vm_three_four.stack (vm_three_four.sp - 2) (-1)
        sp := vm_three_four.sp - 1 } :=
  ⟨⟨by decide, by decide, by decide⟩,
    (binary_opcodes_left_then_right { code := [], functions := [], main_entry := 0 }
      vm_three_four OP_SUB 0 (-1) (by decide) (by decide) (by decide)
      (by intro h; rcases h with h | h <;> cases h) (by decide)).1⟩

/-- C32 (counterexample): a LOAD traps although its address is in range when
the operand stack is full, and a STORE traps although its address is in range
when the operand stack is empty.  `ENTER 1024; LOAD 0` reads slot 0 of the
frame with base pointer 0, address 0, and the push of the value traps with
exit code -1; `ENTER 0; STORE 0` traps in the pop. -/
theorem load_store_trap_with_address_in_range :
    (∃ vm, vm_execute 3 vm_create bc_load_full = .returned (-1) vm ∧
      vm.errlog = [(2, "Yigin tasmasi (stack overflow)")] ∧
      vm.fp = 0 ∧ (vm.frames vm.fp).base_ptr + 0 = 0 ∧ vm.sp = 1024) ∧
    (∃ vm, vm_execute 3 vm_create bc_store_empty = .returned (-1) vm ∧
      vm.errlog = [(2, "Yigin bos (stack underflow)")] ∧
      vm.fp = 0 ∧ (vm.frames vm.fp).base_ptr + 0 = 0 ∧ vm.sp = 0) := by
  constructor
  · simp [vm_execute, bc_load_full, vm_enter_main, vm_create, vm_loop, vm_step, vm_exec_inst,
      Bytecode.code_size, get_local, push, vm_error, arr_set, VM_STACK_SIZE]
  · simp [vm_execute, bc_store_empty, vm_enter_main, vm_create, vm_loop, vm_step, vm_exec_inst,
      Bytecode.code_size, set_local, pop, vm_error, arr_set, VM_STACK_SIZE]

/-- C32 (amended): with `fp ≥ 0`, a LOAD on an operand stack with room for one
more value and a STORE on a non-empty operand stack trap (the run stops with
exit code -1) exactly when `frames[fp].base_ptr + slot` lies outside
`[0, VM_STACK_SIZE)`; otherwise LOAD pushes the value at that address and
STORE pops the top of the stack into that address and changes no other cell,
and neither touches `running` or the exit code. -/
theorem load_store_bounds_checked (bc : Bytecode) (vm : VM) (slot : Int)
    (hfp : 0 ≤ vm.fp) (hsp : 0 ≤ vm.sp) (hmax : vm.sp ≤ VM_STACK_SIZE) :
    (vm.sp < VM_STACK_SIZE →
      ((vm.frames vm.fp).base_ptr + slot < 0 ∨ (vm.frames vm.fp).base_ptr + slot ≥ VM_STACK_SIZE →
        vm_exec_inst bc vm ⟨OP_LOAD, slot⟩ =
          some { vm with
            running := false, exit_code := -1
            errlog := vm.errlog ++ [(vm.pc, "Gecersiz lokal degisken adresi")]
            stack := arr_set vm.stack vm.sp 0, sp := vm.sp + 1 }) ∧
      (0 ≤ (vm.frames vm.fp).base_ptr + slot → (vm.frames vm.fp).base_ptr + slot < VM_STACK_SIZE →
        vm_exec_inst bc vm ⟨OP_LOAD, slot⟩ =
          some { vm with
            stack := arr_set vm.stack vm.sp (vm.stack ((vm.frames vm.fp).base_ptr + slot))
            sp := vm.sp + 1 })) ∧
    (0 < vm.sp →
      ((vm.frames vm.fp).base_ptr + slot < 0 ∨ (vm.frames vm.fp).base_ptr + slot ≥ VM_STACK_SIZE →
        vm_exec_inst bc vm ⟨OP_STORE, slot⟩ =
          some { vm with
            running := false, exit_code := -1
            errlog := vm.errlog ++ [(vm.pc, "Gecersiz lokal degisken adresi")]
            sp := vm.sp - 1 }) ∧
      (0 ≤ (vm.frames vm.fp).base_ptr + slot → (vm.frames vm.fp).base_ptr + slot < VM_STACK_SIZE →
        vm_exec_inst bc vm ⟨OP_STORE, slot⟩ =
          some { vm with
            stack := arr_set vm.stack ((vm.frames vm.fp).base_ptr + slot) (vm.stack (vm.sp - 1))
            sp := vm.sp - 1 })) := by
  have hfp2 : ¬ vm.fp < 0 := by omega
  refine ⟨fun hroom => ⟨fun hout => ?_, fun h0 h1 => ?_⟩, fun hne => ⟨fun hout => ?_, fun h0 h1 => ?_⟩⟩
  · have k1 : ¬ vm.sp ≥ VM_STACK_SIZE := by omega
    have k2 : ¬ vm.sp < 0 := by omega
    simp only [vm_exec_inst, get_local, if_neg hfp2, if_pos hout, push, vm_error, if_neg k1,
      if_neg k2]
  · have hin : ¬ ((vm.frames vm.fp).base_ptr + slot < 0 ∨
        (vm.frames vm.fp).base_ptr + slot ≥ VM_STACK_SIZE) := by omega
    simp only [vm_exec_inst, get_local, if_neg hfp2, if_neg hin]
    exact push_of_room vm _ hsp hroom
  · have p := pop_of_room vm hne hmax
    simp only [vm_exec_inst, p, Option.bind_eq_bind, Option.some_bind, set_local, if_neg hfp2,
      if_pos hout, vm_error]
  · have hin : ¬ ((vm.frames vm.fp).base_ptr + slot < 0 ∨
        (vm.frames vm.fp).base_ptr + slot ≥ VM_STACK_SIZE) := by omega
    have p := pop_of_room vm hne hmax
    simp only [vm_exec_inst, p, Option.bind_eq_bind, Option.some_bind, set_local, if_neg hfp2,
      if_neg hin]

theorem load_store_bounds_checked_witness :
    (0 ≤ vm_frame_32.fp ∧ 0 < vm_frame_32.sp ∧ vm_frame_32.sp ≤ VM_STACK_SIZE ∧
      (vm_frame_32.frames vm_frame_32.fp).base_ptr + 3 = 35) ∧
    vm_exec_inst bc_load_full vm_frame_32 ⟨OP_STORE, 3⟩ =
      some { vm_frame_32 with
        stack := arr_set vm_frame_32.stack
          ((vm_frame_32.frames vm_frame_32.fp).base_ptr + 3) (vm_frame_32.stack (vm_frame_32.sp - 1))
        sp := vm_frame_32.sp - 1 } :=
  ⟨⟨by decide, by decide, by decide, by decide⟩,
    (load_store_bounds_checked bc_load_full vm_frame_32 3 (by decide) (by decide)
      (by decide)).2 (by decide) |>.2 (by decide) (by decide)⟩

theorem wrap32_wrap32 (x : Int) : wrap32 (wrap32 x) = wrap32 x := by
  have h := wrap32_range x
  exact wrap32_of_range _ h.1 h.2

theorem wrap32_atoi (t : String) : wrap32 (atoi t) = atoi t := by
  unfold atoi
  split
  · rfl
  · split
    · exact wrap32_wrap32 _
    · split
      · exact wrap32_wrap32 _
      · exact wrap32_wrap32 _

set_option maxRecDepth 4000 in
set_option maxHeartbeats 1000000 in
theorem compile_prog_call_right (ta tb : String) :
    compile (prog_call_right ta tb) = some (bc_call_right (atoi ta) (atoi tb)) := by
  simp [compile, prog_call_right, ast_program, ast_function, ast_return, ast_binary,
    ast_ident, ast_call, ast_num, ast, ast_append_child, ast_append_sibling,
    ast_create_typed_node, ast_create_node, ast_set_type, bc_call_right,
    semantic_get_symbol_table,
    semantic_analyze, collect_functions, collect_functions_loop, semantic_create,
    symbol_table_create, symbol_lookup, hash_kimlik, hash_ana, hash_x, cstr,
    datatype_from_string, symbol_declare_function, symbol_declare, symbol_lookup_current_scope,
    bucket_set, get_child, sibling_at, ASTNode.is, ASTNode.first_child, ASTNode.text,
    collect_params, symtab_add_parameter, symbol_add_parameter, MAX_PARAMS,
    analyze_node, analyze_nodes, analyze_function, symbol_set_current_function,
    symbol_enter_scope, declare_params, SymbolTable.cur_local_offset, analyze_stmts,
    analyze_statement, analyze_return, analyze_expression, analyze_args, types_compatible,
    symbol_exit_scope, semantic_error, is_comparison_op, FunctionInfo.param_count,
    SYMBOL_TABLE_SIZE,
    codegen_generate, codegen_run, codegen_create, gen_node, gen_functions, gen_function,
    clear_locals, add_param_locals, add_ast_params, add_local, find_local, register_function,
    current_address, Bytecode.code_size, emit, emit_simple, gen_block, gen_stmts, gen_statement,
    gen_return, gen_expression, gen_args, binary_opcode, find_function, find_function_from,
    patch_jumps, patch_loop, MAX_CODE_SIZE, MAX_FUNCTIONS, MAX_LOCAL_SYMBOLS]

set_option maxRecDepth 4000 in
set_option maxHeartbeats 1000000 in
theorem run_bc_call_right (a b : Int) :
    ∃ vm, vm_execute 10 vm_create (bc_call_right a b) = .returned (wrap32 b) vm ∧
      vm.errlog = [] := by
  simp [vm_execute, vm_enter_main, frame_param_count, bc_call_right, vm_loop, vm_step,
    vm_exec_inst, vm_create, push, pop, peek, binop,
    get_local, set_local, arr_set, Bytecode.code_size, Bytecode.function_count, VM_STACK_SIZE,
    VM_CALL_STACK_SIZE]

set_option maxRecDepth 4000 in
set_option maxHeartbeats 1000000 in
theorem steps_bc_call_right (a b : Int) :
    ∃ before after,
      vm_steps (bc_call_right a b) 3 (vm_enter_main vm_create (bc_call_right a b)) = some before ∧
      (bc_call_right a b).code.get? before.pc.toNat = some ⟨OP_CALL, 0⟩ ∧
      before.sp = 34 ∧ before.stack 32 = a ∧ before.stack 33 = b ∧
      vm_steps (bc_call_right a b) 4 before = some after ∧
      (bc_call_right a b).code.get? after.pc.toNat = some ⟨OP_ADD, 0⟩ ∧
      after.sp = 33 ∧ after.stack 32 = b ∧ after.stack 31 = 0 := by
  simp [bc_call_right, vm_steps, vm_enter_main, frame_param_count, vm_step, vm_exec_inst,
    vm_create, push, pop, peek, get_local, set_local, arr_set, Bytecode.code_size,
    Bytecode.function_count, VM_STACK_SIZE, VM_CALL_STACK_SIZE]

/-- C37 (failing input): compiled and run in a fresh VM, `int kimlik(int x)
{ return x; }  int ana() { return A + kimlik(B); }` returns `B`, not `A + B`:
the RETVAL of the callee leaves its value in the cell of the left operand, and
ADD then takes the local below it, which is 0, as its left operand.  The
run ends without a trap. -/
theorem call_as_right_operand_loses_left (ta tb : String) :
    ∃ bc, compile (prog_call_right ta tb) = some bc ∧
      (∃ vm, vm_execute 10 vm_create bc = .returned (atoi tb) vm ∧ vm.errlog = []) ∧
      (atoi ta ≠ 0 → atoi tb ≠ atoi ta + atoi tb) ∧
      ∃ before after,
        vm_steps bc 3 (vm_enter_main vm_create bc) = some before ∧
        bc.code.get? before.pc.toNat = some ⟨OP_CALL, 0⟩ ∧
        before.sp = 34 ∧ before.stack 32 = atoi ta ∧ before.stack 33 = atoi tb ∧
        vm_steps bc 4 before = some after ∧
        bc.code.get? after.pc.toNat = some ⟨OP_ADD, 0⟩ ∧
        after.sp = 33 ∧ after.stack 32 = atoi tb ∧ after.stack 31 = 0 := by
  refine ⟨_, compile_prog_call_right ta tb, ?_, ?_, steps_bc_call_right _ _⟩
  · have := run_bc_call_right (atoi ta) (atoi tb)
    rwa [wrap32_atoi] at this
  · intro h1 h2
    omega

set_option maxRecDepth 4000 in
set_option maxHeartbeats 1000000 in
theorem analyze_prog_shadow (tu tw : String) :
    (semantic_analyze semantic_create (prog_shadow tu tw)).1 = true ∧
    (semantic_analyze semantic_create (prog_shadow tu tw)).2.errors = [] := by
  simp [prog_shadow, ast_program, ast_function, ast_return, ast_var_decl,
    ast_ident, ast_num, ast, ast_append_child, ast_append_sibling,
    ast_create_typed_node, ast_create_node, ast_set_type,
    semantic_analyze, collect_functions, collect_functions_loop, semantic_create,
    symbol_table_create, symbol_lookup, hash_ana, hash_x, cstr,
    datatype_from_string, symbol_declare_function, symbol_declare, symbol_lookup_current_scope,
    bucket_set, get_child, sibling_at, ASTNode.is, ASTNode.first_child, ASTNode.text,
    collect_params, symtab_add_parameter, symbol_add_parameter, MAX_PARAMS,
    analyze_node, analyze_nodes, analyze_function, symbol_set_current_function,
    symbol_enter_scope, declare_params, SymbolTable.cur_local_offset, analyze_stmts,
    analyze_statement, analyze_block, analyze_var_decl, analyze_return, analyze_expression,
    types_compatible, symbol_exit_scope, semantic_error, FunctionInfo.param_count,
    SYMBOL_TABLE_SIZE]

set_option maxRecDepth 4000 in
set_option maxHeartbeats 1000000 in
theorem compile_prog_shadow (tu tw : String) :
    compile (prog_shadow tu tw) = some (bc_shadow (atoi tu) (atoi tw)) := by
  simp [compile, prog_shadow, ast_program, ast_function, ast_return, ast_var_decl,
    ast_ident, ast_num, ast, ast_append_child, ast_append_sibling,
    ast_create_typed_node, ast_create_node, ast_set_type, bc_shadow,
    semantic_get_symbol_table,
    semantic_analyze, collect_functions, collect_functions_loop, semantic_create,
    symbol_table_create, symbol_lookup, hash_ana, hash_x, cstr,
    datatype_from_string, symbol_declare_function, symbol_declare, symbol_lookup_current_scope,
    bucket_set, get_child, sibling_at, ASTNode.is, ASTNode.first_child, ASTNode.text,
    collect_params, symtab_add_parameter, symbol_add_parameter, MAX_PARAMS,
    analyze_node, analyze_nodes, analyze_function, symbol_set_current_function,
    symbol_enter_scope, declare_params, SymbolTable.cur_local_offset, analyze_stmts,
    analyze_statement, analyze_block, analyze_var_decl, analyze_return, analyze_expression,
    types_compatible, symbol_exit_scope, semantic_error, FunctionInfo.param_count,
    SYMBOL_TABLE_SIZE,
    codegen_generate, codegen_run, codegen_create, gen_node, gen_functions, gen_function,
    clear_locals, add_param_locals, add_ast_params, add_local, find_local, register_function,
    current_address, Bytecode.code_size, emit, emit_simple, gen_block, gen_stmts, gen_statement,
    gen_var_decl, gen_return, gen_expression, patch_jumps, patch_loop, MAX_CODE_SIZE,
    MAX_FUNCTIONS, MAX_LOCAL_SYMBOLS]

set_option maxRecDepth 4000 in
set_option maxHeartbeats 1000000 in
theorem run_bc_shadow (u w : Int) :
    ∃ vm, vm_execute 8 vm_create (bc_shadow u w) = .returned w vm ∧ vm.errlog = [] := by
  simp [vm_execute, vm_enter_main, frame_param_count, bc_shadow, vm_loop, vm_step,
    vm_exec_inst, vm_create, push, pop, peek, binop,
    get_local, set_local, arr_set, Bytecode.code_size, Bytecode.function_count, VM_STACK_SIZE,
    VM_CALL_STACK_SIZE]

/-- C38 (failing input): `int ana() { int x = U; { int x = W; } return x; }` is
accepted by the analyzer without a diagnostic, and compiled and run in a fresh
VM it returns `W`, not `U`: the generator keeps one flat local table per
function, so the inner `x` is given the slot of the outer `x` and its
initializer is stored over the outer value. -/
theorem shadowing_overwrites_outer_variable (tu tw : String) :
    (semantic_analyze semantic_create (prog_shadow tu tw)).1 = true ∧
    (semantic_analyze semantic_create (prog_shadow tu tw)).2.errors = [] ∧
    ∃ bc, compile (prog_shadow tu tw) = some bc ∧
      bc.code = [⟨OP_ENTER, 32⟩, ⟨OP_PUSH, atoi tu⟩, ⟨OP_STORE, 0⟩, ⟨OP_PUSH, atoi tw⟩,
                 ⟨OP_STORE, 0⟩, ⟨OP_LOAD, 0⟩, ⟨OP_RETVAL, 0⟩, ⟨OP_PUSH, 0⟩, ⟨OP_RETVAL, 0⟩,
                 ⟨OP_HALT, 0⟩] ∧
      ∃ vm, vm_execute 8 vm_create bc = .returned (atoi tw) vm ∧ vm.errlog = [] :=
  ⟨(analyze_prog_shadow tu tw).1, (analyze_prog_shadow tu tw).2, _, compile_prog_shadow tu tw,
    rfl, run_bc_shadow (atoi tu) (atoi tw)⟩

set_option maxRecDepth 4000 in
set_option maxHeartbeats 1000000 in
theorem compile_prog_recurse : compile prog_recurse = some bc_recurse := by
  simp [compile, prog_recurse, ast_program, ast_function, ast_return, ast_binary,
    ast_ident, ast_call, ast_num, ast, ast_append_child, ast_append_sibling,
    ast_create_typed_node, ast_create_node, ast_set_type, bc_recurse,
    semantic_get_symbol_table,
    semantic_analyze, collect_functions, collect_functions_loop, semantic_create,
    symbol_table_create, symbol_lookup, hash_f, hash_ana, cstr,
    datatype_from_string, symbol_declare_function, symbol_declare, symbol_lookup_current_scope,
    bucket_set, get_child, sibling_at, ASTNode.is, ASTNode.first_child, ASTNode.text,
    collect_params, symtab_add_parameter, symbol_add_parameter, MAX_PARAMS,
    analyze_node, analyze_nodes, analyze_function, symbol_set_current_function,
    symbol_enter_scope, declare_params, SymbolTable.cur_local_offset, analyze_stmts,
    analyze_statement, analyze_return, analyze_expression, analyze_args, types_compatible,
    symbol_exit_scope, semantic_error, is_comparison_op, FunctionInfo.param_count,
    SYMBOL_TABLE_SIZE,
    codegen_generate, codegen_run, codegen_create, gen_node, gen_functions, gen_function,
    clear_locals, add_param_locals, add_ast_params, add_local, find_local, register_function,
    current_address, Bytecode.code_size, emit, emit_simple, gen_block, gen_stmts, gen_statement,
    gen_return, gen_expression, gen_args, binary_opcode, find_function, find_function_from,
    patch_jumps, patch_loop, MAX_CODE_SIZE, MAX_FUNCTIONS, MAX_LOCAL_SYMBOLS]

theorem analyze_prog_recurse :
    (semantic_analyze semantic_create prog_recurse).1 = true := by
  simp [prog_recurse, ast_program, ast_function, ast_return, ast_binary,
    ast_ident, ast_call, ast_num, ast, ast_append_child, ast_append_sibling,
    ast_create_typed_node, ast_create_node, ast_set_type,
    semantic_analyze, collect_functions, collect_functions_loop, semantic_create,
    symbol_table_create, symbol_lookup, hash_f, hash_ana, cstr,
    datatype_from_string, symbol_declare_function, symbol_declare, symbol_lookup_current_scope,
    bucket_set, get_child, sibling_at, ASTNode.is, ASTNode.first_child, ASTNode.text,
    collect_params, symtab_add_parameter, symbol_add_parameter, MAX_PARAMS,
    analyze_node, analyze_nodes, analyze_function, symbol_set_current_function,
    symbol_enter_scope, declare_params, SymbolTable.cur_local_offset, analyze_stmts,
    analyze_statement, analyze_return, analyze_expression, analyze_args, types_compatible,
    symbol_exit_scope, semantic_error, is_comparison_op, FunctionInfo.param_count,
    SYMBOL_TABLE_SIZE]

theorem recurse_first_call :
    ∃ vm, vm_steps bc_recurse 2 (vm_enter_main vm_create bc_recurse) = some vm ∧
      at_depth 1 vm := by
  simp [bc_recurse, vm_steps, vm_enter_main, vm_step, vm_exec_inst, vm_create, arr_set,
    Bytecode.code_size, Bytecode.function_count, VM_CALL_STACK_SIZE, at_depth]

/-- One more level of the recursion: ENTER, then CALL. -/
theorem recurse_deeper (k : Nat) (vm : VM) (h : at_depth k vm) (hk1 : 1 ≤ k) (hk : k < 63) :
    ∃ vm', vm_steps bc_recurse 2 vm = some vm' ∧ at_depth (k + 1) vm' := by
  obtain ⟨hpc, hr, hfp, hsp, herr⟩ := h
  have hk0 : ¬ k = 0 := by omega
  have hk63 : ¬ (63 : Int) ≤ k := by omega
  have hk62 : ¬ (62 : Int) < k := by omega
  simp [bc_recurse, vm_steps, vm_step, vm_exec_inst, arr_set, hpc, hr, hk0, hk63, hk62,
    Bytecode.code_size, Bytecode.function_count, VM_CALL_STACK_SIZE, at_depth, herr, hfp, hsp]
  ring

theorem recurse_depth (n : Nat) (hn : n ≤ 62) :
    ∃ vm, vm_steps bc_recurse (2 + 2 * n) (vm_enter_main vm_create bc_recurse) = some vm ∧
      at_depth (n + 1) vm := by
  induction n with
  | zero => exact recurse_first_call
  | succ n ih =>
    obtain ⟨vm, h1, h2⟩ := ih (by omega)
    obtain ⟨vm', h3, h4⟩ := recurse_deeper (n + 1) vm h2 (by omega) (by omega)
    refine ⟨vm', ?_, h4⟩
    have e : 2 + 2 * (n + 1) = (2 + 2 * n) + 2 := by omega
    rw [e, vm_steps_add, h1]
    exact h3

/-- C36 (failing input): the stack pointer leaves `[0, VM_STACK_SIZE]`.
ENTER writes its operand to `sp` unchecked: after `ENTER 2000` the run goes on
with `sp = 2000` and the POP reads `stack[1999]`, after `ENTER -5` the PUSH
writes `stack[-5]`; neither run has a defined result.  CALL adds the callee's
`local_count` to `sp` unchecked: in the compiled program `int f() { return
f(); }  int ana() { return f(); }`, which the analyzer accepts, the run reaches
the entry of `f` in frame 32 with `sp = 1056`, still running and with nothing
printed. -/
theorem stack_pointer_leaves_range :
    (∃ vm, vm_steps bc_enter_wide 1 (vm_enter_main vm_create bc_enter_wide) = some vm ∧
      vm.sp = 2000 ∧ vm.running = true ∧ vm.errlog = []) ∧
    (∀ fuel, vm_execute (fuel + 2) vm_create bc_enter_wide = .undefined) ∧
    (∃ vm, vm_steps bc_enter_negative 1 (vm_enter_main vm_create bc_enter_negative) = some vm ∧
      vm.sp = -5 ∧ vm.running = true ∧ vm.errlog = []) ∧
    (∀ fuel, vm_execute (fuel + 2) vm_create bc_enter_negative = .undefined) ∧
    (semantic_analyze semantic_create prog_recurse).1 = true ∧
    (∃ bc, compile prog_recurse = some bc ∧
      ∃ vm, vm_steps bc 64 (vm_enter_main vm_create bc) = some vm ∧
        vm.sp = 1056 ∧ vm.fp = 32 ∧ vm.running = true ∧ vm.errlog = []) := by
  refine ⟨?_, ?_, ?_, ?_, analyze_prog_recurse, _, compile_prog_recurse, ?_⟩
  · simp [bc_enter_wide, vm_steps, vm_enter_main, vm_create, vm_step, vm_exec_inst,
      Bytecode.code_size, arr_set]
  · intro fuel
    simp [vm_execute, bc_enter_wide, vm_enter_main, vm_create, vm_loop, vm_step, vm_exec_inst,
      Bytecode.code_size, pop, arr_set, VM_STACK_SIZE]
  · simp [bc_enter_negative, vm_steps, vm_enter_main, vm_create, vm_step, vm_exec_inst,
      Bytecode.code_size, arr_set]
  · intro fuel
    simp [vm_execute, bc_enter_negative, vm_enter_main, vm_create, vm_loop, vm_step,
      vm_exec_inst, Bytecode.code_size, push, arr_set, VM_STACK_SIZE]
  · obtain ⟨vm, h1, h2⟩ := recurse_depth 31 (by decide)
    obtain ⟨_, hr, hfp, hsp, herr⟩ := h2
    exact ⟨vm, h1, by rw [hsp]; rfl, by rw [hfp]; rfl, hr, herr⟩

theorem inScopeOf_enter (t : SymbolTable) : InScopeOf t (symbol_enter_scope t) :=
  ⟨rfl, rfl, rfl, fun _ => ⟨[], rfl, fun _ h => by cases h⟩, fun _ _ => rfl⟩

theorem symbol_declare_scopes_tail (t : SymbolTable) (name : String) (kind : SymbolKind)
    (type : DataType) (line : Int) :
    (symbol_declare t name kind type line).2.scopes.tail = t.scopes.tail ∧
    (symbol_declare t name kind type line).2.current_function = t.current_function := by
  unfold symbol_declare
  simp only
  split
  · exact ⟨rfl, rfl⟩
  · refine ⟨?_, rfl⟩
    simp only
    split
    · split
      · rename_i heq
        rw [heq]
      · rename_i heq
        rw [heq]
        rfl
    · rfl

theorem inScopeOf_declare {base u : SymbolTable} (h : InScopeOf base u) (name : String)
    (kind : SymbolKind) (type : DataType) (line : Int) :
    InScopeOf base (symbol_declare u name kind type line).2 := by
  cases hc : symbol_lookup_current_scope u name with
  | some e =>
    rw [symbol_declare_of_some _ _ _ _ _ e hc]
    exact h
  | none =>
    obtain ⟨_, hb, hl⟩ := symbol_declare_of_none u name kind type line hc
    obtain ⟨hs, hf⟩ := symbol_declare_scopes_tail u name kind type line
    refine ⟨by rw [hl, h.level], by rw [hs, h.scopes], by rw [hf, h.function], ?_, ?_⟩
    · intro i
      obtain ⟨extra, k, l⟩ := h.grow i
      rw [hb]
      simp only [bucket_set]
      split
      · rename_i he
        subst he
        refine ⟨declared_symbol u name kind type line :: extra, by rw [k]; rfl, ?_⟩
        intro s hs
        rcases List.mem_cons.mp hs with h1 | h1
        · rw [h1]
          exact h.level
        · exact l s h1
      · exact ⟨extra, k, l⟩
    · intro i hi
      rw [hb]
      simp only [bucket_set]
      have hne : ¬ i = hash_string name := by
        intro he
        exact hi (he ▸ hash_string_lt name)
      rw [if_neg hne]
      exact h.high i hi

theorem inScopeOf_declare_function {base u : SymbolTable} (h : InScopeOf base u) (name : String)
    (return_type : DataType) (line : Int) :
    InScopeOf base (symbol_declare_function u name return_type line).2 := by
  cases hc : symbol_lookup_current_scope u name with
  | some e =>
    rw [symbol_declare_function_of_some _ _ _ _ e hc]
    exact h
  | none =>
    rw [symbol_declare_function_of_none _ _ _ _ hc]
    refine ⟨h.level, h.scopes, h.function, ?_, ?_⟩
    · intro i
      obtain ⟨extra, k, l⟩ := h.grow i
      simp only [bucket_set]
      split
      · rename_i he
        subst he
        refine ⟨declared_function u name return_type line :: extra, by rw [k]; rfl, ?_⟩
        intro s hs
        rcases List.mem_cons.mp hs with h1 | h1
        · rw [h1]
          exact h.level
        · exact l s h1
      · exact ⟨extra, k, l⟩
    · intro i hi
      simp only [bucket_set]
      have hne : ¬ i = hash_string name := by
        intro he
        exact hi (he ▸ hash_string_lt name)
      rw [if_neg hne]
      exact h.high i hi

theorem inScopeOf_declare_calls (base : SymbolTable) (calls : List DeclCall) :
    ∀ u, InScopeOf base u → InScopeOf base (declare_calls u calls) := by
  induction calls with
  | nil => intro u h; exact h
  | cons c cs ih =>
    intro u h
    simp only [declare_calls, List.foldl_cons]
    cases c with
    | declare name kind type line => exact ih _ (inScopeOf_declare h name kind type line)
    | declare_function name rt line => exact ih _ (inScopeOf_declare_function h name rt line)

theorem reachable_level_nonneg {t : SymbolTable} (h : Reachable t) : 0 ≤ t.scope_level := by
  induction h with
  | create => exact le_refl _
  | enter_scope _ ih =>
    simp only [symbol_enter_scope]
    omega
  | exit_scope _ ih =>
    unfold symbol_exit_scope
    split
    · exact ih
    · simp only
      omega
  | declare name kind type line _ ih =>
    rw [symbol_declare_level]
    exact ih
  | declare_function name rt line _ ih =>
    rw [symbol_declare_function_level]
    exact ih

/-- Leaving a scope entered from `base` gives back the chains, the scopes and
the level of `base`. -/
theorem exit_of_inScopeOf {base u : SymbolTable} (h : InScopeOf base u)
    (h0 : 0 ≤ base.scope_level)
    (hlev : ∀ i, ∀ s ∈ base.buckets i, s.scope_level ≤ base.scope_level) :
    (symbol_exit_scope u).scope_level = base.scope_level ∧
    (symbol_exit_scope u).scopes = base.scopes ∧
    (symbol_exit_scope u).buckets = base.buckets ∧
    (symbol_exit_scope u).current_function = base.current_function := by
  have hne : u.scope_level ≠ 0 := by rw [h.level]; omega
  refine ⟨?_, ?_, ?_, ?_⟩
  · simp only [symbol_exit_scope, if_neg hne]
    rw [h.level]
    omega
  · simp only [symbol_exit_scope, if_neg hne]
    exact h.scopes
  · funext i
    by_cases hi : i < SYMBOL_TABLE_SIZE
    · rw [exit_scope_bucket _ hne i hi]
      obtain ⟨e, k, l⟩ := h.grow i
      rw [k, List.filter_append]
      have h1 : e.filter (fun sym => decide (sym.scope_level ≠ u.scope_level)) = [] := by
        rw [List.filter_eq_nil_iff]
        intro s hs
        have := l s hs
        simp only [decide_eq_true_eq, ne_eq, not_not]
        rw [h.level]
        exact this
      have h2 : (base.buckets i).filter
          (fun sym => decide (sym.scope_level ≠ u.scope_level)) = base.buckets i := by
        rw [List.filter_eq_self]
        intro s hs
        have := hlev i s hs
        simp only [decide_eq_true_eq, ne_eq]
        rw [h.level]
        omega
      rw [h1, h2, List.nil_append]
    · rw [exit_scope_bucket_high _ i hi]
      exact h.high i hi
  · simp only [symbol_exit_scope, if_neg hne]
    exact h.function

/-- C39: entering and leaving a scope is a round trip.  For every reachable
table `T` and every sequence of `symbol_declare` and `symbol_declare_function`
calls made after `symbol_enter_scope`, the table after the matching
`symbol_exit_scope` has the scope level, the next-slot counter, the scopes and
the hash chains of `T`, and `symbol_lookup` returns for every name what it
returns in `T`. -/
theorem scope_round_trip (T : SymbolTable) (h : Reachable T) (calls : List DeclCall) :
    (symbol_exit_scope (declare_calls (symbol_enter_scope T) calls)).scope_level
      = T.scope_level ∧
    (symbol_exit_scope (declare_calls (symbol_enter_scope T) calls)).cur_local_offset
      = T.cur_local_offset ∧
    (∀ n, symbol_lookup (symbol_exit_scope (declare_calls (symbol_enter_scope T) calls)) n
      = symbol_lookup T n) ∧
    (symbol_exit_scope (declare_calls (symbol_enter_scope T) calls)).scopes = T.scopes ∧
    (symbol_exit_scope (declare_calls (symbol_enter_scope T) calls)).buckets = T.buckets := by
  have hin := inScopeOf_declare_calls T calls _ (inScopeOf_enter T)
  obtain ⟨h1, h2, h3, _⟩ := exit_of_inScopeOf hin (reachable_level_nonneg h)
    (tableInv_of_reachable h).levels
  refine ⟨h1, ?_, ?_, h2, h3⟩
  · simp only [SymbolTable.cur_local_offset, h2]
  · intro n
    exact symbol_lookup_congr _ _ n (by rw [h3])

theorem scope_round_trip_witness :
    Reachable table_shadow ∧
    (symbol_exit_scope (declare_calls (symbol_enter_scope table_shadow)
        [.declare "x" SYMBOL_VARIABLE TYPE_INT 3, .declare_function "f" TYPE_INT 4])).scope_level
      = table_shadow.scope_level :=
  ⟨reachable_table_shadow,
    (scope_round_trip table_shadow reachable_table_shadow
      [.declare "x" SYMBOL_VARIABLE TYPE_INT 3, .declare_function "f" TYPE_INT 4]).1⟩

theorem level_chain_head (n : Nat) : ∃ rest, level_chain n = (n : Int) :: rest := by
  cases n with
  | zero => exact ⟨[], rfl⟩
  | succ n => exact ⟨level_chain n, by simp [level_chain]⟩

/-- The current scope is the head of the chain and has the current level. -/
theorem SlotInv.head {t : SymbolTable} (inv : SlotInv t) :
    ∃ s rest, t.scopes = s :: rest ∧ s.level = t.scope_level := by
  obtain ⟨r, hr⟩ := level_chain_head t.scope_level.toNat
  have h := inv.levels
  rw [hr] at h
  cases hs : t.scopes with
  | nil => rw [hs] at h; cases h
  | cons s rest =>
    rw [hs] at h
    simp only [List.map_cons, List.cons.injEq] at h
    refine ⟨s, rest, rfl, ?_⟩
    rw [h.1]
    exact Int.toNat_of_nonneg inv.nonneg

/-- No counter of the chain exceeds the counter of the current scope. -/
theorem SlotInv.counter_le {t : SymbolTable} (inv : SlotInv t) :
    ∀ sc ∈ t.scopes, sc.local_offset ≤ t.cur_local_offset := by
  obtain ⟨s, rest, hs, _⟩ := inv.head
  have h := inv.sorted
  rw [hs] at h
  intro sc hsc
  rw [hs] at hsc
  simp only [SymbolTable.cur_local_offset, hs]
  rcases List.mem_cons.mp hsc with h1 | h1
  · rw [h1]
  · exact (List.pairwise_cons.mp h).1 sc h1

theorem slotInv_create : SlotInv symbol_table_create := by
  refine ⟨le_refl _, rfl, ?_, ?_, ?_, ?_⟩
  · simp [symbol_table_create]
  · intro i x hx
    cases hx
  · intro i j x hx
    cases hx
  · intro i _
    rfl

theorem slotInv_enter_scope {t : SymbolTable} (inv : SlotInv t) :
    SlotInv (symbol_enter_scope t) := by
  have h0 := inv.nonneg
  refine ⟨?_, ?_, ?_, ?_, inv.inj, inv.high⟩
  · simp only [symbol_enter_scope]
    omega
  · simp only [symbol_enter_scope, List.map_cons]
    have e : (t.scope_level + 1).toNat = t.scope_level.toNat + 1 := by omega
    rw [e, level_chain, inv.levels, Int.toNat_of_nonneg h0]
  · simp only [symbol_enter_scope]
    rw [List.pairwise_cons]
    exact ⟨fun sc hsc => inv.counter_le sc hsc, inv.sorted⟩
  · intro i x hx hslot
    obtain ⟨sc, h1, h2⟩ := inv.bound i x hx hslot
    exact ⟨sc, List.mem_cons_of_mem _ h1, h2⟩

theorem slotInv_exit_scope {t : SymbolTable} (inv : SlotInv t) :
    SlotInv (symbol_exit_scope t) := by
  by_cases h : t.scope_level = 0
  · simp only [symbol_exit_scope, if_pos h]
    exact inv
  · have h0 := inv.nonneg
    obtain ⟨s, rest, hs, hsl⟩ := inv.head
    have hsub : ∀ i, ∀ x ∈ (symbol_exit_scope t).buckets i,
        x ∈ t.buckets i ∧ x.scope_level ≠ t.scope_level := by
      intro i x hx
      by_cases hi : i < SYMBOL_TABLE_SIZE
      · rw [exit_scope_bucket t h i hi, List.mem_filter] at hx
        exact ⟨hx.1, by simpa using hx.2⟩
      · rw [exit_scope_bucket_high t i hi, inv.high i hi] at hx
        cases hx
    have hsc : (symbol_exit_scope t).scopes = rest := by
      simp only [symbol_exit_scope, if_neg h, hs, List.tail_cons]
    have hlv : (symbol_exit_scope t).scope_level = t.scope_level - 1 := by
      simp only [symbol_exit_scope, if_neg h]
    refine ⟨by rw [hlv]; omega, ?_, ?_, ?_, ?_, ?_⟩
    · rw [hsc, hlv]
      have hl := inv.levels
      obtain ⟨n, hn⟩ : ∃ n : Nat, t.scope_level.toNat = n + 1 := ⟨t.scope_level.toNat - 1, by omega⟩
      have e : (t.scope_level - 1).toNat = n := by omega
      rw [hn, level_chain, hs, List.map_cons, List.cons.injEq] at hl
      rw [e]
      exact hl.2
    · rw [hsc]
      have := inv.sorted
      rw [hs] at this
      exact (List.pairwise_cons.mp this).2
    · intro i x hx hslot
      obtain ⟨hm, hne⟩ := hsub i x hx
      obtain ⟨sc, h1, h2, h3⟩ := inv.bound i x hm hslot
      rw [hs] at h1
      rcases List.mem_cons.mp h1 with e | e
      · rw [e, hsl] at h2
        exact absurd h2.symm hne
      · exact ⟨sc, by rw [hsc]; exact e, h2, h3⟩
    · intro i j x hx y hy
      exact inv.inj i j x (hsub i x hx).1 y (hsub j y hy).1
    · intro i hi
      rw [exit_scope_bucket_high t i hi]
      exact inv.high i hi

theorem symbol_declare_scopes (t : SymbolTable) (name : String) (kind : SymbolKind)
    (type : DataType) (line : Int) (s : Scope) (rest : List Scope)
    (h : symbol_lookup_current_scope t name = none) (hs : t.scopes = s :: rest) :
    (symbol_declare t name kind type line).2.scopes =
      if kind = SYMBOL_VARIABLE ∨ kind = SYMBOL_PARAMETER then
        { s with local_offset := s.local_offset + 1 } :: rest
      else s :: rest := by
  simp only [symbol_declare, h, hs]
  by_cases hk : kind = SYMBOL_VARIABLE ∨ kind = SYMBOL_PARAMETER
  · simp [hk]
  · simp [hk]

/-- Where the symbols of the table are after a successful declaration. -/
theorem symbol_declare_mem (t : SymbolTable) (name : String) (kind : SymbolKind)
    (type : DataType) (line : Int) (h : symbol_lookup_current_scope t name = none) :
    ∀ i, ∀ x ∈ (symbol_declare t name kind type line).2.buckets i,
      x = declared_symbol t name kind type line ∨ x ∈ t.buckets i := by
  obtain ⟨_, hb, _⟩ := symbol_declare_of_none t name kind type line h
  intro i x hx
  rw [hb] at hx
  simp only [bucket_set] at hx
  split at hx
  · rename_i e
    rcases List.mem_cons.mp hx with h1 | h1
    · exact Or.inl h1
    · rw [e]
      exact Or.inr h1
  · exact Or.inr hx

theorem slotInv_declare {t : SymbolTable} (inv : SlotInv t) (name : String)
    (kind : SymbolKind) (type : DataType) (line : Int) :
    SlotInv (symbol_declare t name kind type line).2 := by
  cases h : symbol_lookup_current_scope t name with
  | some e =>
    rw [symbol_declare_of_some t name kind type line e h]
    exact inv
  | none =>
    obtain ⟨_, hb, hl⟩ := symbol_declare_of_none t name kind type line h
    obtain ⟨s, rest, hs, hsl⟩ := inv.head
    have hsc := symbol_declare_scopes t name kind type line s rest h hs
    have hmem := symbol_declare_mem t name kind type line h
    have hcur : t.cur_local_offset = s.local_offset := by
      simp only [SymbolTable.cur_local_offset, hs]
    have hsorted := inv.sorted
    rw [hs] at hsorted
    have hold : ∀ i, ∀ y ∈ t.buckets i, y.is_slot → y.offset < s.local_offset := by
      intro i y hy hslot
      obtain ⟨sc, h1, _, h3⟩ := inv.bound i y hy hslot
      have := inv.counter_le sc h1
      rw [hcur] at this
      omega
    have hhigh : ∀ i, ¬ i < SYMBOL_TABLE_SIZE →
        (symbol_declare t name kind type line).2.buckets i = [] := by
      intro i hi
      rw [hb]
      simp only [bucket_set]
      have hne : ¬ i = hash_string name := by
        intro he
        exact hi (he ▸ hash_string_lt name)
      rw [if_neg hne]
      exact inv.high i hi
    by_cases hk : kind = SYMBOL_VARIABLE ∨ kind = SYMBOL_PARAMETER
    · rw [if_pos hk] at hsc
      have hoff : (declared_symbol t name kind type line).offset = s.local_offset := by
        simp only [declared_symbol, if_pos hk, hcur]
      refine ⟨by rw [hl]; exact inv.nonneg, ?_, ?_, ?_, ?_, hhigh⟩
      · rw [hsc, hl, ← inv.levels, hs]
        rfl
      · rw [hsc, List.pairwise_cons]
        refine ⟨?_, (List.pairwise_cons.mp hsorted).2⟩
        intro b hb2
        have := (List.pairwise_cons.mp hsorted).1 b hb2
        simp only
        omega
      · intro i x hx hslot
        rw [hsc]
        rcases hmem i x hx with e | e
        · refine ⟨_, List.mem_cons_self _ _, ?_, ?_⟩
          · rw [e]
            exact hsl
          · rw [e, hoff]
            simp only
            omega
        · obtain ⟨sc, h1, h2, h3⟩ := inv.bound i x e hslot
          rw [hs] at h1
          rcases List.mem_cons.mp h1 with e2 | e2
          · refine ⟨_, List.mem_cons_self _ _, ?_, ?_⟩
            · rw [← h2, e2]
            · rw [e2] at h3
              simp only
              omega
          · exact ⟨sc, List.mem_cons_of_mem _ e2, h2, h3⟩
      · intro i j x hx y hy sx sy hxy
        rcases hmem i x hx with ex | ex
        · rcases hmem j y hy with ey | ey
          · rw [ex, ey]
          · have := hold j y ey sy
            rw [ex, hoff] at hxy
            omega
        · rcases hmem j y hy with ey | ey
          · have := hold i x ex sx
            rw [ey, hoff] at hxy
            omega
          · exact inv.inj i j x ex y ey sx sy hxy
    · rw [if_neg hk] at hsc
      have hnot : ¬ (declared_symbol t name kind type line).is_slot := hk
      refine ⟨by rw [hl]; exact inv.nonneg, ?_, ?_, ?_, ?_, hhigh⟩
      · rw [hsc, hl, ← inv.levels, hs]
      · rw [hsc]
        exact hsorted
      · intro i x hx hslot
        rw [hsc, ← hs]
        rcases hmem i x hx with e | e
        · rw [e] at hslot
          exact absurd hslot hnot
        · exact inv.bound i x e hslot
      · intro i j x hx y hy sx sy hxy
        rcases hmem i x hx with ex | ex
        · rw [ex] at sx
          exact absurd sx hnot
        · rcases hmem j y hy with ey | ey
          · rw [ey] at sy
            exact absurd sy hnot
          · exact inv.inj i j x ex y ey sx sy hxy

theorem slotInv_declare_function {t : SymbolTable} (inv : SlotInv t) (name : String)
    (return_type : DataType) (line : Int) :
    SlotInv (symbol_declare_function t name return_type line).2 := by
  cases h : symbol_lookup_current_scope t name with
  | some e =>
    rw [symbol_declare_function_of_some t name return_type line e h]
    exact inv
  | none =>
    rw [symbol_declare_function_of_none t name return_type line h]
    have hnot : ¬ (declared_function t name return_type line).is_slot := by
      intro hs
      rcases hs with hs | hs <;> cases hs
    have hmem : ∀ i, ∀ x ∈ bucket_set t.buckets (hash_string name)
        (declared_function t name return_type line :: t.buckets (hash_string name)) i,
        x = declared_function t name return_type line ∨ x ∈ t.buckets i := by
      intro i x hx
      simp only [bucket_set] at hx
      split at hx
      · rename_i e
        rcases List.mem_cons.mp hx with h1 | h1
        · exact Or.inl h1
        · rw [e]
          exact Or.inr h1
      · exact Or.inr hx
    refine ⟨inv.nonneg, inv.levels, inv.sorted, ?_, ?_, ?_⟩
    · intro i x hx hslot
      rcases hmem i x hx with e | e
      · rw [e] at hslot
        exact absurd hslot hnot
      · exact inv.bound i x e hslot
    · intro i j x hx y hy sx sy hxy
      rcases hmem i x hx with ex | ex
      · rw [ex] at sx
        exact absurd sx hnot
      · rcases hmem j y hy with ey | ey
        · rw [ey] at sy
          exact absurd sy hnot
        · exact inv.inj i j x ex y ey sx sy hxy
    · intro i hi
      simp only [bucket_set]
      have hne : ¬ i = hash_string name := by
        intro he
        exact hi (he ▸ hash_string_lt name)
      rw [if_neg hne]
      exact inv.high i hi

theorem slotInv_of_reachable {t : SymbolTable} (h : Reachable t) : SlotInv t := by
  induction h with
  | create => exact slotInv_create
  | enter_scope _ ih => exact slotInv_enter_scope ih
  | exit_scope _ ih => exact slotInv_exit_scope ih
  | declare name kind type line _ ih => exact slotInv_declare ih name kind type line
  | declare_function name rt line _ ih => exact slotInv_declare_function ih name rt line

/-- C34: inner declarations get non-overlapping slots.  In every table
reachable through `symbol_table_create`, `symbol_enter_scope`,
`symbol_exit_scope`, `symbol_declare` (and `symbol_declare_function`), any two
VARIABLE or PARAMETER symbols of the table have different offsets; the first
symbol with a slot declared in a newly entered scope gets the next-slot
counter of the parent scope as its offset; and in every such table whose
current scope has a parent, a declared symbol with a slot gets an offset of at
least the parent's next-slot counter. -/
theorem inner_declarations_get_fresh_slots (t : SymbolTable) (h : Reachable t) :
    t.symbols.Pairwise (fun a b => a.is_slot → b.is_slot → a.offset ≠ b.offset) ∧
    (∀ name kind type line sym, kind = SYMBOL_VARIABLE ∨ kind = SYMBOL_PARAMETER →
      (symbol_declare (symbol_enter_scope t) name kind type line).1 = some sym →
      sym.offset = t.cur_local_offset ∧ sym.scope_level = t.scope_level + 1) ∧
    (∀ s p rest name kind type line sym, t.scopes = s :: p :: rest →
      kind = SYMBOL_VARIABLE ∨ kind = SYMBOL_PARAMETER →
      (symbol_declare t name kind type line).1 = some sym →
      sym.scope_level = t.scope_level ∧ p.local_offset ≤ sym.offset) := by
  have inv := slotInv_of_reachable h
  have tinv := tableInv_of_reachable h
  have hdecl : ∀ (u : SymbolTable) name kind type line sym,
      kind = SYMBOL_VARIABLE ∨ kind = SYMBOL_PARAMETER →
      (symbol_declare u name kind type line).1 = some sym →
      sym.offset = u.cur_local_offset ∧ sym.scope_level = u.scope_level := by
    intro u name kind type line sym hk hsym
    cases hc : symbol_lookup_current_scope u name with
    | some e =>
      rw [symbol_declare_of_some u name kind type line e hc] at hsym
      cases hsym
    | none =>
      obtain ⟨h1, _, _⟩ := symbol_declare_of_none u name kind type line hc
      rw [h1] at hsym
      cases hsym
      simp only [declared_symbol, if_pos hk, and_self]
  refine ⟨?_, ?_, ?_⟩
  · refine (symbols_pairwise_of_inv tinv).imp_of_mem ?_
    intro a b ha hb hclash sa sb hoff
    obtain ⟨i, _, hi⟩ := (mem_symbols t a).mp ha
    obtain ⟨j, _, hj⟩ := (mem_symbols t b).mp hb
    have e := inv.inj i j a hi b hj sa sb hoff
    exact hclash ⟨by rw [e], by rw [e]⟩
  · intro name kind type line sym hk hsym
    obtain ⟨h1, h2⟩ := hdecl _ name kind type line sym hk hsym
    exact ⟨h1, h2⟩
  · intro s p rest name kind type line sym hs hk hsym
    obtain ⟨h1, h2⟩ := hdecl _ name kind type line sym hk hsym
    refine ⟨h2, ?_⟩
    rw [h1]
    have hsorted := inv.sorted
    rw [hs] at hsorted
    have := (List.pairwise_cons.mp hsorted).1 p (List.mem_cons_self _ _)
    simp only [SymbolTable.cur_local_offset, hs]
    exact this

theorem inner_declarations_get_fresh_slots_witness :
    Reachable table_shadow ∧
    table_shadow.symbols.Pairwise (fun a b => a.is_slot → b.is_slot → a.offset ≠ b.offset) :=
  ⟨reachable_table_shadow,
    (inner_declarations_get_fresh_slots table_shadow reachable_table_shadow).1⟩

theorem prog_shadow_eq (tu tw : String) : prog_shadow tu tw = prog_ana (shadow_body tu tw) := by
  simp [prog_shadow, prog_ana, shadow_body, decl_x, return_x, ast_program, ast_function,
    ast_return, ast_var_decl, ast_ident, ast_num, ast, ast_append_child, ast_append_sibling,
    ast_create_typed_node, ast_create_node, ast_set_type]

theorem gen_outer_x (st : SymbolTable) (tu : String) (next : ASTNode) :
    gen_var_decl (gen_ana_body st) (decl_x tu next) = some (gen_after_outer_x st (atoi tu)) := by
  simp [gen_var_decl, decl_x, add_local, find_local, gen_expression, emit, gen_ana_body, cstr,
    gen_after_outer_x, MAX_LOCAL_SYMBOLS, MAX_CODE_SIZE]

/-- C33 (failing input): the analyzer accepts `int ana() { int x = U; { int x =
W; } return x; }`, and its code generation calls `gen_var_decl` for the inner
declaration with the generator the outer declaration has left, whose local
table holds `x`: `add_local` finds the name and returns its slot, the reuse
path. -/
theorem reuse_path_reached_in_accepted_program (tu tw : String) :
    (semantic_analyze semantic_create (prog_shadow tu tw)).1 = true ∧
    (semantic_analyze semantic_create (prog_shadow tu tw)).2.errors = [] ∧
    gen_var_decl (gen_ana_body (shadow_table tu tw))
        (decl_x tu (.node AST_BLOCK none none 0 (decl_x tw .null) return_x)) =
      some (gen_after_outer_x (shadow_table tu tw) (atoi tu)) ∧
    compile (prog_shadow tu tw) =
      ((gen_var_decl (gen_ana_body (shadow_table tu tw))
          (decl_x tu (.node AST_BLOCK none none 0 (decl_x tw .null) return_x))).bind fun g1 =>
        (gen_var_decl g1 (decl_x tw .null)).bind fun g2 => gen_stmts g2 return_x).bind
        gen_tail ∧
    (gen_after_outer_x (shadow_table tu tw) (atoi tu)).locals = [{ name := "x", offset := 0 }] ∧
    find_local (gen_after_outer_x (shadow_table tu tw) (atoi tu)) "x" = 0 ∧
    add_local (gen_after_outer_x (shadow_table tu tw) (atoi tu)) "x" =
      (0, gen_after_outer_x (shadow_table tu tw) (atoi tu)) := by
  have hf : ∀ st u, find_local (gen_after_outer_x st u) "x" = 0 := by
    intro st u
    simp [find_local, gen_after_outer_x]
  refine ⟨(analyze_prog_shadow tu tw).1, (analyze_prog_shadow tu tw).2, gen_outer_x _ tu _, ?_,
    rfl, hf _ _, ?_⟩
  · unfold shadow_table
    rw [prog_shadow_eq, compile_prog_ana]
    simp only [shadow_body, decl_x, return_x, gen_stmts, gen_statement, gen_block,
      Option.bind_eq_bind, Option.bind_some]
  · have h := add_local_found (gen_after_outer_x (shadow_table tu tw) (atoi tu)) "x"
      (by rw [hf])
    rw [h, hf]

theorem tree_names_sibling_at (k : Nat) : ∀ n : ASTNode, tree_names (sibling_at k n) ⊆ tree_names n := by
  induction k with
  | zero => intro n; simp only [sibling_at]; exact fun _ h => h
  | succ k ih =>
    intro n
    cases n with
    | null => simp only [sibling_at]; exact fun _ h => h
    | node ty text dt ln fc ns =>
      simp only [sibling_at, tree_names]
      intro x hx
      exact List.mem_append_right _ (ih ns hx)

theorem tree_names_get_child (ty : ASTNodeType) (text dt : Option String) (ln : Int)
    (fc ns : ASTNode) (k : Nat) :
    tree_names (get_child (.node ty text dt ln fc ns) k) ⊆ tree_names (.node ty text dt ln fc ns) := by
  intro x hx
  simp only [get_child] at hx
  simp only [tree_names]
  exact List.mem_append_left _ (List.mem_append_right _ (tree_names_sibling_at k fc hx))

theorem tree_names_child (ty : ASTNodeType) (text dt : Option String) (ln : Int)
    (fc ns : ASTNode) : tree_names fc ⊆ tree_names (.node ty text dt ln fc ns) := by
  intro x hx
  simp only [tree_names]
  exact List.mem_append_left _ (List.mem_append_right _ hx)

theorem tree_names_next (ty : ASTNodeType) (text dt : Option String) (ln : Int)
    (fc ns : ASTNode) : tree_names ns ⊆ tree_names (.node ty text dt ln fc ns) := by
  intro x hx
  simp only [tree_names]
  exact List.mem_append_right _ hx

theorem tree_names_first_child (n : ASTNode) : tree_names n.first_child ⊆ tree_names n := by
  cases n with
  | null => exact fun _ h => h
  | node ty text dt ln fc ns => exact tree_names_child ty text dt ln fc ns

theorem Emits.em_refl (N : List String) (g : CodeGenerator) : Emits N g g :=
  ⟨LocalsStep.ls_refl g, ⟨[], (List.append_nil _).symm, fun _ _ h => by cases h⟩, rfl, rfl,
    rfl, fun _ h => Or.inl h⟩

theorem Emits.em_trans {N : List String} {g1 g2 g3 : CodeGenerator} (h1 : Emits N g1 g2)
    (h2 : Emits N g2 g3) : Emits N g1 g3 := by
  obtain ⟨s1, c1, b1⟩ := h1.code
  obtain ⟨s2, c2, b2⟩ := h2.code
  obtain ⟨ls, hls⟩ := h2.locals.more
  refine ⟨h1.locals.ls_trans h2.locals, ⟨s1 ++ s2, by rw [c2, c1, List.append_assoc], ?_⟩,
    h2.functions.trans h1.functions, h2.main_entry.trans h1.main_entry,
    h2.symtab.trans h1.symtab, ?_⟩
  · intro ok inst hi hop
    rcases List.mem_append.mp hi with hi | hi
    · obtain ⟨a, b⟩ := b1 ok inst hi hop
      refine ⟨a, lt_of_lt_of_le b ?_⟩
      rw [hls, List.length_append]
      push_cast
      omega
    · exact b2 (h1.locals.ok ok) inst hi hop
  · intro l hl
    rcases h2.names l hl with h | h
    · exact h1.names l h
    · exact Or.inr h

/-- A change that touches neither the bytecode nor the local table. -/
theorem Emits.em_same {N : List String} {g g' : CodeGenerator} (hbc : g'.bc = g.bc)
    (hl : g'.locals = g.locals) (ho : g'.local_offset = g.local_offset)
    (hs : g'.symtab = g.symtab) : Emits N g g' :=
  ⟨LocalsStep.ls_same hl ho, ⟨[], by rw [hbc, List.append_nil], fun _ _ h => by cases h⟩,
    by rw [hbc], by rw [hbc], hs, fun l h => Or.inl (by rw [hl] at h; exact h)⟩

theorem emit_emits (N : List String) (g g' : CodeGenerator) (op : OpCode) (x : Int)
    (hx : LocalsOK g → (op = OP_LOAD ∨ op = OP_STORE) → 0 ≤ x ∧ x < g.locals.length)
    (h : emit g op x = some g') : Emits N g g' := by
  have s := emit_localsStep g g' op x h
  unfold emit at h
  split at h
  · exact Option.noConfusion h
  · cases h
    refine ⟨s, ⟨_, rfl, ?_⟩, rfl, rfl, rfl, fun l hl => Or.inl hl⟩
    intro ok inst hi hop
    simp only [List.mem_singleton] at hi
    subst hi
    exact hx ok hop

theorem emit_plain (N : List String) (g g' : CodeGenerator) (op : OpCode) (x : Int)
    (h1 : op ≠ OP_LOAD) (h2 : op ≠ OP_STORE) (h : emit g op x = some g') : Emits N g g' :=
  emit_emits N g g' op x (fun _ hop => by rcases hop with e | e <;> contradiction) h

theorem emit_simple_plain (N : List String) (g g' : CodeGenerator) (op : OpCode)
    (h1 : op ≠ OP_LOAD) (h2 : op ≠ OP_STORE) (h : emit_simple g op = some g') : Emits N g g' :=
  emit_plain N g g' op 0 h1 h2 h

theorem new_label_emits (N : List String) (g g' : CodeGenerator) (l : Nat)
    (h : new_label g = some (l, g')) : Emits N g g' := by
  unfold new_label at h
  split at h
  · exact Option.noConfusion h
  · cases h
    exact Emits.em_same rfl rfl rfl rfl

theorem set_label_emits (N : List String) (g : CodeGenerator) (l : Nat) :
    Emits N g (set_label g l) :=
  Emits.em_same rfl rfl rfl rfl

theorem emit_jump_emits (N : List String) (g g' : CodeGenerator) (op : OpCode) (l : Nat)
    (h1 : op ≠ OP_LOAD) (h2 : op ≠ OP_STORE)
    (h : emit_jump g op l = some g') : Emits N g g' := by
  unfold emit_jump at h
  split at h
  · exact emit_plain N g g' op _ h1 h2 h
  · simp only [Option.bind_eq_bind, Option.bind_eq_some] at h
    obtain ⟨g1, e1, h⟩ := h
    split at h
    · exact Option.noConfusion h
    · cases h
      exact (emit_plain N g g1 op _ h1 h2 e1).em_trans (Emits.em_same rfl rfl rfl rfl)

/-- Under the invariant a found slot is an index of the local table. -/
theorem find_local_bound (g : CodeGenerator) (name : String) (ok : LocalsOK g)
    (h : 0 ≤ find_local g name) : find_local g name < g.locals.length := by
  obtain ⟨l, _, hm, _, ho⟩ := find_local_found g name h
  obtain ⟨i, hi⟩ := List.mem_iff_get?.mp hm
  have hs := ok.slots i l hi
  have hlt : i < g.locals.length := by
    rw [List.get?_eq_getElem?] at hi
    by_contra hc
    rw [List.getElem?_eq_none (by omega)] at hi
    cases hi
  rw [ho, hs]
  exact_mod_cast hlt

theorem add_local_emits (N : List String) (g : CodeGenerator) (name : String) (hn : name ∈ N) :
    Emits N g (add_local g name).2 ∧
    (LocalsOK g → 0 ≤ (add_local g name).1 ∧
      (add_local g name).1 < ((add_local g name).2.locals.length : Int)) := by
  have s := add_local_localsStep g name
  unfold add_local at s ⊢
  simp only at s ⊢
  split
  · rename_i hex
    rw [if_pos hex] at s
    exact ⟨Emits.em_refl N g, fun ok => ⟨hex, find_local_bound g name ok hex⟩⟩
  · rename_i hex
    rw [if_neg hex] at s
    split
    · rename_i hfull
      refine ⟨Emits.em_refl N g, fun _ => ⟨le_refl _, ?_⟩⟩
      simp only [MAX_LOCAL_SYMBOLS] at hfull
      have : (0 : Int) < (g.locals.length : Int) := by exact_mod_cast (by omega : 0 < g.locals.length)
      exact this
    · rename_i hfull
      rw [if_neg hfull] at s
      refine ⟨⟨s, ⟨[], (List.append_nil _).symm, fun _ _ h => by cases h⟩, rfl, rfl, rfl, ?_⟩, ?_⟩
      · intro l hl
        simp only [List.mem_append, List.mem_singleton] at hl
        rcases hl with hl | hl
        · exact Or.inl hl
        · subst hl
          exact Or.inr hn
      · intro ok
        simp only [List.length_append, List.length_singleton]
        rw [ok.count]
        push_cast
        omega

/-- A generation step followed by one `emit`. -/
theorem Emits.then_emit {N : List String} {g g1 g' : CodeGenerator} (s : Emits N g g1)
    (op : OpCode) (x : Int)
    (hx : LocalsOK g → (op = OP_LOAD ∨ op = OP_STORE) → 0 ≤ x ∧ x < g1.locals.length)
    (h : emit g1 op x = some g') : Emits N g g' := by
  have s2 := emit_localsStep g1 g' op x h
  obtain ⟨seg, c1, b1⟩ := s.code
  unfold emit at h
  split at h
  · exact Option.noConfusion h
  · cases h
    refine ⟨s.locals.ls_trans s2, ⟨seg ++ [{ opcode := op, operand := x }], ?_, ?_⟩, s.functions,
      s.main_entry, s.symtab, s.names⟩
    · simp only
      rw [c1, List.append_assoc]
    · intro ok inst hi hop
      rcases List.mem_append.mp hi with hi | hi
      · exact b1 ok inst hi hop
      · simp only [List.mem_singleton] at hi
        subst hi
        exact hx ok hop

theorem binary_opcode_plain (s : String) (op : OpCode) (h : binary_opcode s = some op) :
    op ≠ OP_LOAD ∧ op ≠ OP_STORE := by
  have hc := binary_opcode_cases s op h
  constructor
  · intro hj
    rcases hc with e | e | e | e | e | e | e | e | e | e | e <;> subst e <;> cases hj
  · intro hj
    rcases hc with e | e | e | e | e | e | e | e | e | e | e <;> subst e <;> cases hj

/-- Expression generation appends code whose LOAD and STORE operands are
slots of the local table, and adds only names the tree assigns. -/
theorem gen_expression_emits_size :
    ∀ (n : Nat) (node : ASTNode), node.size ≤ n → ∀ N : List String, tree_names node ⊆ N →
      (∀ g g', gen_expression g node = some g' → Emits N g g') ∧
      (∀ g g', gen_args g node = some g' → Emits N g g') := by
  intro n
  induction n with
  | zero =>
    intro node hn N _
    cases node with
    | null =>
      constructor
      · intro g g' h
        rw [gen_expression] at h
        cases h
        exact Emits.em_refl N g
      · intro g g' h
        rw [gen_args] at h
        cases h
        exact Emits.em_refl N g
    | node ty text dt ln fc ns => simp only [ASTNode.size] at hn; omega
  | succ n ih =>
    intro node hn N hN
    cases node with
    | null =>
      constructor
      · intro g g' h
        rw [gen_expression] at h
        cases h
        exact Emits.em_refl N g
      · intro g g' h
        rw [gen_args] at h
        cases h
        exact Emits.em_refl N g
    | node ty text dt ln fc ns =>
      have hchild : ∀ k, (get_child (.node ty text dt ln fc ns) k).size ≤ n := by
        intro k
        have := get_child_size ty text dt ln fc ns k
        omega
      have hNchild : ∀ k, tree_names (get_child (.node ty text dt ln fc ns) k) ⊆ N :=
        fun k => (tree_names_get_child ty text dt ln fc ns k).trans hN
      have hfc : fc.size ≤ n := by simp only [ASTNode.size] at hn; omega
      have hns : ns.size ≤ n := by simp only [ASTNode.size] at hn; omega
      have hNfc : tree_names fc ⊆ N := (tree_names_child ty text dt ln fc ns).trans hN
      have hNns : tree_names ns ⊆ N := (tree_names_next ty text dt ln fc ns).trans hN
      have hexpr : ∀ g g',
          gen_expression g (.node ty text dt ln fc ns) = some g' → Emits N g g' := by
        intro g g' h
        cases ty
        case AST_NUMBER_LITERAL =>
          simp only [gen_expression] at h
          exact emit_plain N g g' _ _ (by decide) (by decide) h
        case AST_STRING_LITERAL =>
          simp only [gen_expression] at h
          exact emit_plain N g g' _ _ (by decide) (by decide) h
        case AST_IDENTIFIER =>
          simp only [gen_expression] at h
          split at h
          · rename_i hf
            exact emit_emits N g g' _ _ (fun ok _ => ⟨hf, find_local_bound g _ ok hf⟩) h
          · exact emit_plain N g g' _ _ (by decide) (by decide) h
        case AST_ASSIGNMENT =>
          simp only [gen_expression, Option.bind_eq_bind, Option.bind_eq_some] at h
          obtain ⟨g1, h1, g2, h2, h⟩ := h
          have s1 := (ih _ (hchild 1) N (hNchild 1)).1 g g1 h1
          have s2 := emit_simple_plain N g1 g2 _ (by decide) (by decide) h2
          split at h
          · rename_i hid
            split at h
            · rename_i hf
              exact (s1.em_trans s2).em_trans
                (emit_emits N g2 g' _ _ (fun ok _ => ⟨hf, find_local_bound g2 _ ok hf⟩) h)
            · have hname : cstr (get_child (.node AST_ASSIGNMENT text dt ln fc ns) 0).text ∈ N := by
                apply hN
                simp only [get_child, sibling_at] at hid ⊢
                simp only [tree_names, hid, and_self, if_true]
                simp
              obtain ⟨sa, ba⟩ := add_local_emits N g2 _ hname
              refine ((s1.em_trans s2).em_trans sa).then_emit _ _ ?_ h
              intro ok _
              exact ba ((s1.em_trans s2).locals.ok ok)
          · cases h
            exact s1.em_trans s2
        case AST_BINARY_EXPR =>
          simp only [gen_expression, Option.bind_eq_bind, Option.bind_eq_some] at h
          obtain ⟨g1, h1, g2, h2, h⟩ := h
          have s1 := (ih _ (hchild 0) N (hNchild 0)).1 g g1 h1
          have s2 := (ih _ (hchild 1) N (hNchild 1)).1 g1 g2 h2
          split at h
          · rename_i op hop
            obtain ⟨hop1, hop2⟩ := binary_opcode_plain _ _ hop
            exact (s1.em_trans s2).em_trans (emit_simple_plain N g2 g' _ hop1 hop2 h)
          · cases h
            exact s1.em_trans s2
        case AST_UNARY_EXPR =>
          simp only [gen_expression, Option.bind_eq_bind, Option.bind_eq_some] at h
          obtain ⟨g1, h1, h⟩ := h
          have s1 := (ih _ (hchild 0) N (hNchild 0)).1 g g1 h1
          split at h
          · exact s1.em_trans (emit_simple_plain N g1 g' _ (by decide) (by decide) h)
          · cases h
            exact s1
        case AST_FUNCTION_CALL =>
          have hcall : ∀ g1, (if find_function g1 (cstr text) ≥ 0 then
                emit g1 OP_CALL (find_function g1 (cstr text))
              else emit g1 OP_PUSH 0) = some g' → Emits N g1 g' := by
            intro g1 h
            split at h
            · exact emit_plain N g1 g' _ _ (by decide) (by decide) h
            · exact emit_plain N g1 g' _ _ (by decide) (by decide) h
          simp only [gen_expression, Option.bind_eq_bind] at h
          split at h
          · simp only [Option.bind_eq_some] at h
            obtain ⟨g1, h1, h⟩ := h
            exact ((ih _ (le_trans (first_child_size_le _) (hchild 0)) N
              ((tree_names_first_child _).trans (hNchild 0))).2 g g1 h1).em_trans (hcall g1 h)
          · simp only [Option.some_bind] at h
            exact hcall g h
        case AST_EXPR_STATEMENT =>
          simp only [gen_expression] at h
          exact (ih _ hfc N hNfc).1 g g' h
        all_goals
          simp only [gen_expression] at h
          cases h
          exact Emits.em_refl N g
      refine ⟨hexpr, ?_⟩
      intro g g' h
      simp only [gen_args, Option.bind_eq_bind, Option.bind_eq_some] at h
      obtain ⟨g1, h1, h⟩ := h
      exact (hexpr g g1 h1).em_trans ((ih _ hns N hNns).2 g1 g' h)

theorem gen_expression_emits (N : List String) (g g' : CodeGenerator) (node : ASTNode)
    (hN : tree_names node ⊆ N) (h : gen_expression g node = some g') : Emits N g g' :=
  (gen_expression_emits_size node.size node (le_refl _) N hN).1 g g' h

theorem gen_var_decl_emits (N : List String) (g g' : CodeGenerator) (ty : ASTNodeType)
    (text dt : Option String) (ln : Int) (fc ns : ASTNode)
    (hname : cstr text ∈ N) (hN : tree_names fc ⊆ N)
    (h : gen_var_decl g (.node ty text dt ln fc ns) = some g') : Emits N g g' := by
  obtain ⟨sa, ba⟩ := add_local_emits N g (cstr text) hname
  simp only [gen_var_decl] at h
  split at h
  · cases h
    exact sa
  · simp only [Option.bind_eq_bind, Option.bind_eq_some] at h
    obtain ⟨g1, h1, h⟩ := h
    have se := gen_expression_emits N _ g1 fc hN h1
    refine (sa.em_trans se).then_emit _ _ ?_ h
    intro ok _
    obtain ⟨b1, b2⟩ := ba ok
    obtain ⟨ls, hls⟩ := se.locals.more
    refine ⟨b1, lt_of_lt_of_le b2 ?_⟩
    rw [hls, List.length_append]
    push_cast
    omega

theorem gen_return_emits (N : List String) (g g' : CodeGenerator) (ty : ASTNodeType)
    (text dt : Option String) (ln : Int) (fc ns : ASTNode) (hN : tree_names fc ⊆ N)
    (h : gen_return g (.node ty text dt ln fc ns) = some g') : Emits N g g' := by
  simp only [gen_return] at h
  split at h
  · exact emit_simple_plain N g g' _ (by decide) (by decide) h
  · simp only [Option.bind_eq_bind, Option.bind_eq_some] at h
    obtain ⟨g1, h1, h⟩ := h
    exact (gen_expression_emits N g g1 fc hN h1).em_trans
      (emit_simple_plain N g1 g' _ (by decide) (by decide) h)

theorem gen_while_emits (N : List String) (ty : ASTNodeType) (text dt : Option String) (ln : Int)
    (fc ns : ASTNode)
    (hN : ∀ k, tree_names (get_child (.node ty text dt ln fc ns) k) ⊆ N)
    (hs : ∀ k g g', gen_statement g (get_child (.node ty text dt ln fc ns) k) = some g' →
      Emits N g g') :
    ∀ g g', gen_while g (.node ty text dt ln fc ns) = some g' → Emits N g g' := by
  intro g g' h
  simp only [gen_while, Option.bind_eq_bind, Option.bind_eq_some] at h
  obtain ⟨⟨l1, g1⟩, hA, ⟨l2, g2⟩, hB, g3, hC, g4, hD, g5, hE, g6, hF, hG⟩ := h
  simp only at hB hC hD hE hF hG
  cases hG
  have sA := new_label_emits N g g1 l1 hA
  have sB := new_label_emits N g1 g2 l2 hB
  have s1 := set_label_emits N g2 l1
  have sC := gen_expression_emits N _ g3 _ (hN 0) hC
  have sD := emit_jump_emits N g3 g4 OP_JZ l2 (by decide) (by decide) hD
  have sE := hs 1 g4 g5 hE
  have sF := emit_jump_emits N g5 g6 OP_JMP l1 (by decide) (by decide) hF
  have s2 := set_label_emits N g6 l2
  exact sA.em_trans (sB.em_trans (s1.em_trans (sC.em_trans (sD.em_trans (sE.em_trans
    (sF.em_trans s2))))))

theorem gen_if_emits (N : List String) (ty : ASTNodeType) (text dt : Option String) (ln : Int)
    (fc ns : ASTNode)
    (hN : ∀ k, tree_names (get_child (.node ty text dt ln fc ns) k) ⊆ N)
    (hs : ∀ k g g', gen_statement g (get_child (.node ty text dt ln fc ns) k) = some g' →
      Emits N g g') :
    ∀ g g', gen_if g (.node ty text dt ln fc ns) = some g' → Emits N g g' := by
  intro g g' h
  by_cases hc : (if ty = AST_IF_ELSE then get_child (.node ty text dt ln fc ns) 2
      else .null) ≠ .null
  · simp only [gen_if, Option.bind_eq_bind, if_pos hc, Option.bind_eq_some] at h
    obtain ⟨⟨l1, g1⟩, hA, ⟨l2, g2⟩, hB, g3, hC, g4, hD, g5, hE, g6, hF, g7, hG, hH⟩ := h
    simp only at hB hC hD hE hF hG hH
    cases hH
    have hty : ty = AST_IF_ELSE := by
      by_contra hne
      rw [if_neg hne] at hc
      exact hc rfl
    rw [if_pos hty] at hG
    have sA := new_label_emits N g g1 l1 hA
    have sB := new_label_emits N g1 g2 l2 hB
    have sC := gen_expression_emits N _ g3 _ (hN 0) hC
    have sD := emit_jump_emits N g3 g4 OP_JZ l1 (by decide) (by decide) hD
    have sE := hs 1 g4 g5 hE
    have sF := emit_jump_emits N g5 g6 OP_JMP l2 (by decide) (by decide) hF
    have s1 := set_label_emits N g6 l1
    have sG := hs 2 _ g7 hG
    have s2 := set_label_emits N g7 l2
    exact sA.em_trans (sB.em_trans (sC.em_trans (sD.em_trans (sE.em_trans (sF.em_trans
      (s1.em_trans (sG.em_trans s2)))))))
  · simp only [gen_if, Option.bind_eq_bind, if_neg hc, Option.bind_eq_some] at h
    obtain ⟨⟨l1, g1⟩, hA, ⟨l2, g2⟩, hB, g3, hC, g4, hD, g5, hE, hH⟩ := h
    simp only at hB hC hD hE hH
    cases hH
    have sA := new_label_emits N g g1 l1 hA
    have sB := new_label_emits N g1 g2 l2 hB
    have sC := gen_expression_emits N _ g3 _ (hN 0) hC
    have sD := emit_jump_emits N g3 g4 OP_JZ l2 (by decide) (by decide) hD
    have sE := hs 1 g4 g5 hE
    have s2 := set_label_emits N g5 l2
    exact sA.em_trans (sB.em_trans (sC.em_trans (sD.em_trans (sE.em_trans s2))))

theorem gen_for_emits (N : List String) (ty : ASTNodeType) (text dt : Option String) (ln : Int)
    (fc ns : ASTNode)
    (hN : ∀ k, tree_names (get_child (.node ty text dt ln fc ns) k) ⊆ N)
    (hs : ∀ k g g', gen_statement g (get_child (.node ty text dt ln fc ns) k) = some g' →
      Emits N g g') :
    ∀ g g', gen_for g (.node ty text dt ln fc ns) = some g' → Emits N g g' := by
  intro g g' h
  simp only [gen_for, Option.bind_eq_bind, Option.bind_eq_some] at h
  obtain ⟨⟨l1, g1⟩, hA, ⟨l2, g2⟩, hB, h⟩ := h
  simp only at hB h
  have sA := new_label_emits N g g1 l1 hA
  have sB := new_label_emits N g1 g2 l2 hB
  obtain ⟨g3, hI, h⟩ := optional_part h
  have sI : Emits N g2 g3 := by
    rcases hI with hI | hI
    · exact hs 0 _ _ hI
    · rw [hI]; exact Emits.em_refl N _
  have s1 := set_label_emits N g3 l1
  have hcond : ∃ g4, Emits N (set_label g3 l1) g4 ∧
      ((gen_statement g4 (get_child (.node ty text dt ln fc ns) 3)).bind fun gen =>
        if get_child (.node ty text dt ln fc ns) 2 ≠ .null ∧
            ¬ (get_child (.node ty text dt ln fc ns) 2).is AST_EMPTY = true then
          (gen_expression gen (get_child (.node ty text dt ln fc ns) 2)).bind fun gen =>
            (emit_simple gen OP_POP).bind fun y =>
              (emit_jump y OP_JMP l1).bind fun gen => some (set_label gen l2)
        else
          (some gen).bind fun y =>
            (emit_jump y OP_JMP l1).bind fun gen => some (set_label gen l2)) = some g' := by
    split at h
    · simp only [Option.bind_eq_some] at h
      obtain ⟨ga, ha, gb, hb, h⟩ := h
      refine ⟨gb, ?_, ?_⟩
      · exact (gen_expression_emits N _ ga _ (hN 1) ha).em_trans
          (emit_jump_emits N ga gb OP_JZ l2 (by decide) (by decide) hb)
      · simpa only [Option.bind_eq_some] using h
    · simp only [Option.some_bind] at h
      exact ⟨_, Emits.em_refl N _, h⟩
  obtain ⟨g4, sC, h⟩ := hcond
  simp only [Option.bind_eq_some] at h
  obtain ⟨g5, hE, h⟩ := h
  have sE := hs 3 g4 g5 hE
  have hupd : ∃ g6, Emits N g5 g6 ∧
      ((emit_jump g6 OP_JMP l1).bind fun gen => some (set_label gen l2)) = some g' := by
    split at h
    · simp only [Option.bind_eq_some] at h
      obtain ⟨ga, ha, gb, hb, h⟩ := h
      refine ⟨gb, ?_, ?_⟩
      · exact (gen_expression_emits N _ ga _ (hN 2) ha).em_trans
          (emit_simple_plain N ga gb _ (by decide) (by decide) hb)
      · simpa only [Option.bind_eq_some] using h
    · simp only [Option.some_bind] at h
      exact ⟨_, Emits.em_refl N _, h⟩
  obtain ⟨g6, sU, h⟩ := hupd
  simp only [Option.bind_eq_some] at h
  obtain ⟨g7, hF, hG⟩ := h
  cases hG
  have sF := emit_jump_emits N g6 g7 OP_JMP l1 (by decide) (by decide) hF
  have s2 := set_label_emits N g7 l2
  exact sA.em_trans (sB.em_trans (sI.em_trans (s1.em_trans (sC.em_trans (sE.em_trans
    (sU.em_trans (sF.em_trans s2)))))))

/-- Statement generation appends code whose LOAD and STORE operands are slots
of the local table, and adds only names the tree declares or assigns. -/
theorem gen_statement_emits_size :
    ∀ (n : Nat) (node : ASTNode), node.size ≤ n → ∀ N : List String, tree_names node ⊆ N →
      (∀ g g', gen_statement g node = some g' → Emits N g g') ∧
      (∀ g g', gen_stmts g node = some g' → Emits N g g') := by
  intro n
  induction n with
  | zero =>
    intro node hn N _
    cases node with
    | null =>
      constructor
      · intro g g' h
        rw [gen_statement] at h
        cases h
        exact Emits.em_refl N g
      · intro g g' h
        rw [gen_stmts] at h
        cases h
        exact Emits.em_refl N g
    | node ty text dt ln fc ns => simp only [ASTNode.size] at hn; omega
  | succ n ih =>
    intro node hn N hN
    cases node with
    | null =>
      constructor
      · intro g g' h
        rw [gen_statement] at h
        cases h
        exact Emits.em_refl N g
      · intro g g' h
        rw [gen_stmts] at h
        cases h
        exact Emits.em_refl N g
    | node ty text dt ln fc ns =>
      have hNchild : ∀ k, tree_names (get_child (.node ty text dt ln fc ns) k) ⊆ N :=
        fun k => (tree_names_get_child ty text dt ln fc ns k).trans hN
      have hchild : ∀ k g g',
          gen_statement g (get_child (.node ty text dt ln fc ns) k) = some g' →
            Emits N g g' := by
        intro k
        have := get_child_size ty text dt ln fc ns k
        exact (ih _ (by omega) N (hNchild k)).1
      have hfc : fc.size ≤ n := by simp only [ASTNode.size] at hn; omega
      have hns : ns.size ≤ n := by simp only [ASTNode.size] at hn; omega
      have hNfc : tree_names fc ⊆ N := (tree_names_child ty text dt ln fc ns).trans hN
      have hNns : tree_names ns ⊆ N := (tree_names_next ty text dt ln fc ns).trans hN
      have hstmt : ∀ g g',
          gen_statement g (.node ty text dt ln fc ns) = some g' → Emits N g g' := by
        intro g g' h
        cases ty
        case AST_VAR_DECL =>
          simp only [gen_statement] at h
          refine gen_var_decl_emits N g g' _ text dt ln fc ns ?_ hNfc h
          apply hN
          simp [tree_names]
        case AST_BLOCK =>
          simp only [gen_statement, gen_block] at h
          exact (ih _ hfc N hNfc).2 g g' h
        case AST_IF =>
          simp only [gen_statement] at h
          exact gen_if_emits N _ text dt ln fc ns hNchild hchild g g' h
        case AST_IF_ELSE =>
          simp only [gen_statement] at h
          exact gen_if_emits N _ text dt ln fc ns hNchild hchild g g' h
        case AST_WHILE =>
          simp only [gen_statement] at h
          exact gen_while_emits N _ text dt ln fc ns hNchild hchild g g' h
        case AST_FOR =>
          simp only [gen_statement] at h
          exact gen_for_emits N _ text dt ln fc ns hNchild hchild g g' h
        case AST_RETURN =>
          simp only [gen_statement] at h
          exact gen_return_emits N g g' _ text dt ln fc ns hNfc h
        case AST_EXPR_STATEMENT =>
          simp only [gen_statement] at h
          split at h
          · cases h
            exact Emits.em_refl N g
          · simp only [Option.bind_eq_bind, Option.bind_eq_some] at h
            obtain ⟨g1, h1, h⟩ := h
            exact (gen_expression_emits N g g1 fc hNfc h1).em_trans
              (emit_simple_plain N g1 g' _ (by decide) (by decide) h)
        case AST_ASSIGNMENT =>
          simp only [gen_statement, Option.bind_eq_bind, Option.bind_eq_some] at h
          obtain ⟨g1, h1, h⟩ := h
          exact (gen_expression_emits N g g1 _ hN h1).em_trans
            (emit_simple_plain N g1 g' _ (by decide) (by decide) h)
        all_goals
          simp only [gen_statement] at h
          cases h
          exact Emits.em_refl N g
      refine ⟨hstmt, ?_⟩
      intro g g' h
      simp only [gen_stmts, Option.bind_eq_bind, Option.bind_eq_some] at h
      obtain ⟨g1, h1, h⟩ := h
      exact (hstmt g g1 h1).em_trans ((ih _ hns N hNns).2 g1 g' h)

theorem gen_stmts_emits (N : List String) (g g' : CodeGenerator) (node : ASTNode)
    (hN : tree_names node ⊆ N) (h : gen_stmts g node = some g') : Emits N g g' :=
  (gen_statement_emits_size node.size node (le_refl _) N hN).2 g g' h

theorem add_param_locals_emits (N : List String) (ps : List (String × DataType))
    (hN : ∀ p ∈ ps, p.1 ∈ N) : ∀ g, Emits N g (add_param_locals g ps) := by
  induction ps with
  | nil => intro g; exact Emits.em_refl N g
  | cons p rest ih =>
    intro g
    obtain ⟨pname, ptype⟩ := p
    simp only [add_param_locals]
    exact (add_local_emits N g pname (hN (pname, ptype) (List.mem_cons_self _ _))).1.em_trans
      (ih (fun q hq => hN q (List.mem_cons_of_mem _ hq)) _)

theorem add_ast_params_emits (N : List String) (node : ASTNode) :
    ast_param_names node ⊆ N → ∀ g, Emits N g (add_ast_params g node) := by
  induction node with
  | null => intro _ g; exact Emits.em_refl N g
  | node ty text dt ln fc ns _ ihn =>
    intro hN g
    cases text with
    | none =>
      simp only [add_ast_params]
      simp only [ast_param_names] at hN
      exact ihn hN g
    | some name =>
      simp only [add_ast_params]
      simp only [ast_param_names] at hN
      split
      · rename_i hty
        rw [if_pos hty] at hN
        exact (add_local_emits N g name (hN (List.mem_cons_self _ _))).1.em_trans
          (ihn (fun x hx => hN (List.mem_cons_of_mem _ hx)) _)
      · rename_i hty
        rw [if_neg hty] at hN
        exact ihn hN g

theorem register_function_shape (g g' : CodeGenerator) (name : String)
    (pc lc : Int) (idx : Nat) (h : register_function g name pc lc = some (idx, g')) :
    g'.bc.code = g.bc.code ∧ g'.bc.main_entry = g.bc.main_entry ∧
    g'.bc.functions = g.bc.functions ++
      [{ name := name, entry_point := g.bc.code.length, param_count := pc, local_count := lc }] ∧
    g'.locals = g.locals ∧ g'.local_offset = g.local_offset := by
  unfold register_function at h
  split at h
  · exact Option.noConfusion h
  · have e := Option.some.inj h
    simp only [Prod.mk.injEq] at e
    obtain ⟨_, e2⟩ := e
    rw [← e2]
    exact ⟨rfl, rfl, rfl, rfl, rfl⟩

theorem emit_eq (g g' : CodeGenerator) (op : OpCode) (x : Int) (h : emit g op x = some g') :
    g' = { g with bc := { g.bc with code := g.bc.code ++ [{ opcode := op, operand := x }] } } := by
  unfold emit at h
  split at h
  · exact Option.noConfusion h
  · cases h
    rfl

theorem nodup_length_le_dedup (l N : List String) (hnd : l.Nodup) (hsub : ∀ x ∈ l, x ∈ N) :
    l.length ≤ N.dedup.length := by
  rw [← List.toFinset_card_of_nodup hnd, ← List.card_toFinset]
  apply Finset.card_le_card
  intro x hx
  rw [List.mem_toFinset] at hx ⊢
  exact hsub x hx

theorem add_local_bc (g : CodeGenerator) (name : String) :
    (add_local g name).2.bc = g.bc ∧ (add_local g name).2.symtab = g.symtab := by
  unfold add_local
  simp only
  split
  · exact ⟨rfl, rfl⟩
  · split
    · exact ⟨rfl, rfl⟩
    · exact ⟨rfl, rfl⟩

theorem add_param_locals_bc (ps : List (String × DataType)) :
    ∀ g, (add_param_locals g ps).bc = g.bc ∧ (add_param_locals g ps).symtab = g.symtab := by
  induction ps with
  | nil => intro g; exact ⟨rfl, rfl⟩
  | cons p rest ih =>
    intro g
    obtain ⟨pname, ptype⟩ := p
    simp only [add_param_locals]
    exact ⟨(ih _).1.trans (add_local_bc g pname).1, (ih _).2.trans (add_local_bc g pname).2⟩

theorem add_ast_params_bc (node : ASTNode) :
    ∀ g, (add_ast_params g node).bc = g.bc ∧ (add_ast_params g node).symtab = g.symtab := by
  induction node with
  | null => intro g; exact ⟨rfl, rfl⟩
  | node ty text dt ln fc ns _ ihn =>
    intro g
    simp only [add_ast_params]
    split
    · split
      · exact ⟨(ihn _).1.trans (add_local_bc g _).1, (ihn _).2.trans (add_local_bc g _).2⟩
      · exact ihn g
    · exact ihn g

/-- Registration of the function, the entry of `ana` and the prologue. -/
theorem function_prologue (G0 g1 g2 : CodeGenerator) (idx : Nat) (name : String) (pc a : Int)
    (hreg : register_function G0 name pc 32 = some (idx, g1))
    (hent : emit
      (if name = "ana" then
        { g1 with current_func_idx := idx, bc := { g1.bc with main_entry := a } }
       else { g1 with current_func_idx := idx }) OP_ENTER 32 = some g2) :
    g2.bc.code = G0.bc.code ++ [{ opcode := OP_ENTER, operand := 32 }] ∧
    g2.bc.functions = G0.bc.functions ++
      [{ name := name, entry_point := G0.bc.code.length, param_count := pc,
         local_count := 32 }] ∧
    g2.bc.main_entry = (if name = "ana" then a else G0.bc.main_entry) ∧
    g2.locals = G0.locals ∧ g2.local_offset = G0.local_offset ∧ g2.symtab = G0.symtab := by
  obtain ⟨rc, rm, rf, rl, ro⟩ := register_function_shape G0 g1 name pc 32 idx hreg
  have rs : g1.symtab = G0.symtab := by
    unfold register_function at hreg
    split at hreg
    · exact Option.noConfusion hreg
    · have e := Option.some.inj hreg
      simp only [Prod.mk.injEq] at e
      obtain ⟨_, e2⟩ := e
      rw [← e2]
  have e2 := emit_eq _ g2 _ _ hent
  rw [e2]
  by_cases hana : name = "ana"
  · simp only [if_pos hana]
    exact ⟨by rw [rc], rf, trivial, rl, ro, rs⟩
  · simp only [if_neg hana]
    exact ⟨by rw [rc], rf, rm, rl, ro, rs⟩

/-- The code `gen_function` appends: `ENTER 32`, the body, the default
return; the entry it adds to the function table; what it does to the entry of
`ana`; and the bound on the LOAD and STORE operands of the body when the
function has at most 32 names. -/
theorem gen_function_shape (g g' : CodeGenerator) (ty : ASTNodeType)
    (text dt : Option String) (ln : Int) (fc ns : ASTNode)
    (h : gen_function g (.node ty text dt ln fc ns) = some g') :
    ∃ (body : List Instruction) (pc : Int),
      g'.bc.code = g.bc.code ++ { opcode := OP_ENTER, operand := 32 } :: body ∧
      g'.bc.functions = g.bc.functions ++
        [{ name := cstr text, entry_point := g.bc.code.length, param_count := pc,
           local_count := 32 }] ∧
      g'.bc.main_entry = (if cstr text = "ana" then (g.bc.code.length : Int)
        else g.bc.main_entry) ∧
      g'.symtab = g.symtab ∧
      ((function_names g.symtab (.node ty text dt ln fc ns)).dedup.length ≤ 32 →
        ∀ inst ∈ body, (inst.opcode = OP_LOAD ∨ inst.opcode = OP_STORE) →
          0 ≤ inst.operand ∧ inst.operand < 32) := by
  simp only [gen_function, Option.bind_eq_bind, Option.bind_eq_some] at h
  obtain ⟨⟨idx, g1⟩, hreg, g2, hent, h⟩ := h
  simp only at hent h
  have hb : ∃ g3, (if (get_child (.node ty text dt ln fc ns) 1).is AST_BLOCK then
        gen_block g2 (get_child (.node ty text dt ln fc ns) 1)
       else some g2) = some g3 ∧
      ((emit g3 OP_PUSH 0).bind fun gen =>
        (emit_simple gen OP_RETVAL).bind fun gen =>
          some { gen with current_func_idx := -1 }) = some g' := by
    by_cases hc : (get_child (.node ty text dt ln fc ns) 1).is AST_BLOCK = true
    · rw [if_pos hc] at h
      simp only [Option.bind_eq_some] at h
      obtain ⟨g3, h3, h⟩ := h
      exact ⟨g3, by rw [if_pos hc]; exact h3, by simpa only [Option.bind_eq_some] using h⟩
    · rw [if_neg hc] at h
      simp only [Option.some_bind] at h
      exact ⟨g2, by rw [if_neg hc], h⟩
  obtain ⟨g3, hbody, h⟩ := hb
  simp only [Option.bind_eq_some] at h
  obtain ⟨g4, hpush, g5, hret, hfin⟩ := h
  cases hfin
  have hsig : ∀ fi, ((symbol_lookup (clear_locals g).symtab (cstr text)).bind
      fun sym => sym.func_info) = some fi →
      ∀ p ∈ fi.params, p.1 ∈ function_names g.symtab (.node ty text dt ln fc ns) := by
    intro fi hfi p hp
    have hfi2 : ((symbol_lookup g.symtab (cstr text)).bind fun sym => sym.func_info) =
        some fi := hfi
    unfold function_names
    refine List.mem_append_left _ (List.mem_append_left _ ?_)
    simp only [signature_names, ASTNode.text, hfi2]
    exact List.mem_map.mpr ⟨p, hp, rfl⟩
  have hast : (get_child (.node ty text dt ln fc ns) 0).is AST_PARAM_LIST = true →
      ast_param_names (get_child (.node ty text dt ln fc ns) 0).first_child ⊆
        function_names g.symtab (.node ty text dt ln fc ns) := by
    intro hpl x hx
    unfold function_names
    refine List.mem_append_left _ (List.mem_append_right _ ?_)
    rw [if_pos hpl]
    exact hx
  have hbn : (get_child (.node ty text dt ln fc ns) 1).is AST_BLOCK = true →
      tree_names (get_child (.node ty text dt ln fc ns) 1).first_child ⊆
        function_names g.symtab (.node ty text dt ln fc ns) := by
    intro hpl x hx
    unfold function_names
    refine List.mem_append_right _ ?_
    rw [if_pos hpl]
    exact hx
  generalize function_names g.symtab (.node ty text dt ln fc ns) = N at hsig hast hbn ⊢
  have key : ∃ (G0 : CodeGenerator) (pc : Int),
      register_function G0 (cstr text) pc 32 = some (idx, g1) ∧
      emit
        (if cstr text = "ana" then
          { g1 with current_func_idx := idx
                    bc := { g1.bc with main_entry := current_address G0 } }
         else { g1 with current_func_idx := idx }) OP_ENTER 32 = some g2 ∧
      G0.bc = g.bc ∧ G0.symtab = g.symtab ∧ Emits N (clear_locals g) G0 := by
    refine ⟨_, _, hreg, hent, ?_, ?_, ?_⟩
    · split
      · refine (add_ast_params_bc _ _).1.trans ?_
        split
        · exact (add_param_locals_bc _ _).1
        · rfl
      · split
        · exact (add_param_locals_bc _ _).1
        · rfl
    · split
      · refine (add_ast_params_bc _ _).2.trans ?_
        split
        · exact (add_param_locals_bc _ _).2
        · rfl
      · split
        · exact (add_param_locals_bc _ _).2
        · rfl
    · split
      · rename_i hpl
        refine Emits.em_trans ?_ (add_ast_params_emits N _ (hast hpl) _)
        split
        · rename_i fi hfi
          exact add_param_locals_emits N _ (hsig fi hfi) _
        · exact Emits.em_refl N _
      · split
        · rename_i fi hfi
          exact add_param_locals_emits N _ (hsig fi hfi) _
        · exact Emits.em_refl N _
  clear hreg hent h
  obtain ⟨G0, pc, hreg, hent, hbc0, hst0, e0⟩ := key
  obtain ⟨kc, kf, km, kl, ko, ks⟩ := function_prologue G0 g1 g2 idx _ _ _ hreg hent
  have e3 : Emits N g2 g3 := by
    split at hbody
    · rename_i hblk
      cases hn : get_child (.node ty text dt ln fc ns) 1 with
      | null =>
        rw [hn, gen_block] at hbody
        cases hbody
        exact Emits.em_refl N _
      | node t2 x2 d2 l2 fc2 ns2 =>
        have hsub := hbn hblk
        rw [hn] at hbody hsub
        rw [gen_block] at hbody
        exact gen_stmts_emits N _ _ _ hsub hbody
    · cases hbody
      exact Emits.em_refl N _
  obtain ⟨seg, c3, b3⟩ := e3.code
  have e4 := emit_eq g3 g4 _ _ hpush
  have e5 := emit_eq g4 g5 _ _ hret
  have ok0 : LocalsOK G0 := e0.locals.ok (localsOK_clear g)
  have ok2 : LocalsOK g2 := (LocalsStep.ls_same kl ko).ok ok0
  have ok3 : LocalsOK g3 := e3.locals.ok ok2
  have hnames : ∀ x ∈ g3.locals.map (fun l => l.name), x ∈ N := by
    intro x hx
    obtain ⟨l, hl, rfl⟩ := List.mem_map.mp hx
    rcases e3.names l hl with h2 | h2
    · rw [kl] at h2
      rcases e0.names l h2 with h0 | h0
      · simp [clear_locals] at h0
      · exact h0
    · exact h2
  have hlen : g3.locals.length ≤ N.dedup.length := by
    have := nodup_length_le_dedup _ N ok3.names hnames
    rwa [List.length_map] at this
  refine ⟨seg ++ [{ opcode := OP_PUSH, operand := 0 }, { opcode := OP_RETVAL, operand := 0 }],
    pc, ?_, ?_, ?_, ?_, ?_⟩
  · simp only
    rw [e5, e4]
    simp only
    rw [c3, kc, hbc0]
    simp
  · simp only
    rw [e5, e4]
    simp only
    rw [e3.functions, kf, hbc0]
  · simp only
    rw [e5, e4]
    simp only
    rw [e3.main_entry, km, hbc0]
    simp only [current_address, Bytecode.code_size, hbc0]
  · simp only
    rw [e5, e4]
    simp only
    rw [e3.symtab, ks, hst0]
  · intro h32 inst hi hop
    rcases List.mem_append.mp hi with hi | hi
    · obtain ⟨b1, b2⟩ := b3 ok2 inst hi hop
      refine ⟨b1, lt_of_lt_of_le b2 ?_⟩
      exact_mod_cast le_trans hlen h32
    · simp only [List.mem_cons, List.mem_singleton, List.not_mem_nil, or_false] at hi
      rcases hi with hi | hi <;> subst hi <;> rcases hop with hop | hop <;> cases hop

theorem PatchOf.po_refl (c : List Instruction) : PatchOf c c :=
  ⟨rfl, fun _ inst h => ⟨inst, h, rfl, fun _ => rfl⟩⟩

theorem PatchOf.po_trans {c1 c2 c3 : List Instruction} (h1 : PatchOf c1 c2)
    (h2 : PatchOf c2 c3) : PatchOf c1 c3 := by
  refine ⟨h2.1.trans h1.1, ?_⟩
  intro i inst hi
  obtain ⟨i2, a2, b2, d2⟩ := h1.2 i inst hi
  obtain ⟨i3, a3, b3, d3⟩ := h2.2 i i2 a2
  refine ⟨i3, a3, b3.trans b2, ?_⟩
  intro hj
  rw [d3 (by rw [b2]; exact hj), d2 hj]

/-- Read backwards: an instruction of the patched code that is no jump is the
instruction of the original code. -/
theorem PatchOf.back {c1 c2 : List Instruction} (h : PatchOf c1 c2) (i : Nat)
    (inst : Instruction) (hi : c2.get? i = some inst) (hj : ¬ is_jump inst.opcode) :
    c1.get? i = some inst := by
  have hlt : i < c1.length := by
    rw [← h.1]
    rw [List.get?_eq_getElem?] at hi
    by_contra hc
    rw [List.getElem?_eq_none (by omega)] at hi
    cases hi
  have h1 : c1.get? i = some (c1.get ⟨i, hlt⟩) := List.get?_eq_get hlt
  obtain ⟨i2, a2, b2, d2⟩ := h.2 i _ h1
  rw [hi] at a2
  cases a2
  rw [h1, d2 (by rw [← b2]; exact hj)]

theorem set_operand_patchOf (code : List Instruction) (addr : Nat) (t : Int)
    (inst0 : Instruction) (h0 : code.get? addr = some inst0) (hj : is_jump inst0.opcode) :
    PatchOf code (set_operand code addr t) := by
  refine ⟨set_operand_length code addr t, ?_⟩
  intro i inst hi
  rw [set_operand_get? code addr t inst0 h0 i]
  by_cases e : i = addr
  · subst e
    rw [h0] at hi
    cases hi
    rw [if_pos rfl]
    exact ⟨_, rfl, rfl, fun hn => absurd hj hn⟩
  · rw [if_neg e]
    exact ⟨inst, hi, rfl, fun _ => rfl⟩

/-- The loop of `patch_jumps` changes nothing but operands of jumps. -/
theorem patch_loop_patchOf (ps : List PendingJump) :
    ∀ g : CodeGenerator,
      (∀ pj ∈ ps, ∃ inst, g.bc.code.get? pj.address = some inst ∧ is_jump inst.opcode) →
      (patch_loop g ps).bc.functions = g.bc.functions ∧
      (patch_loop g ps).bc.main_entry = g.bc.main_entry ∧
      PatchOf g.bc.code (patch_loop g ps).bc.code := by
  induction ps with
  | nil =>
    intro g _
    exact ⟨rfl, rfl, PatchOf.po_refl _⟩
  | cons pj ps ih =>
    intro g hp
    simp only [patch_loop]
    split
    · exact ih g (fun q hq => hp q (List.mem_cons_of_mem _ hq))
    · obtain ⟨inst0, h0, hj0⟩ := hp pj (List.mem_cons_self _ _)
      have p1 := set_operand_patchOf g.bc.code pj.address
        (g.label_addresses.getD pj.target (-1)) inst0 h0 hj0
      obtain ⟨a, b, c⟩ := ih
        { g with bc := { g.bc with
            code := set_operand g.bc.code pj.address (g.label_addresses.getD pj.target (-1)) } }
        (by
          intro q hq
          obtain ⟨inst1, h1, hj1⟩ := hp q (List.mem_cons_of_mem _ hq)
          obtain ⟨i2, a2, b2, _⟩ := p1.2 _ _ h1
          exact ⟨i2, a2, by rw [b2]; exact hj1⟩)
      exact ⟨a, b, p1.po_trans c⟩

theorem get?_append_of_some {α : Type} (l1 l2 : List α) (i : Nat) (a : α)
    (h : l1.get? i = some a) : (l1 ++ l2).get? i = some a := by
  rw [List.get?_eq_getElem?] at h ⊢
  have hlt : i < l1.length := by
    by_contra hc
    rw [List.getElem?_eq_none (by omega)] at h
    cases h
  rw [List.getElem?_append_left hlt]
  exact h

/-- The child loop of the PROGRAM case appends code and function-table
entries and keeps the symbol table. -/
theorem gen_functions_grows (chain : ASTNode) :
    ∀ g g', gen_functions g chain = some g' →
      (∃ seg, g'.bc.code = g.bc.code ++ seg) ∧
      (∃ fs, g'.bc.functions = g.bc.functions ++ fs) ∧ g'.symtab = g.symtab := by
  induction chain with
  | null =>
    intro g g' h
    simp only [gen_functions] at h
    cases h
    exact ⟨⟨[], (List.append_nil _).symm⟩, ⟨[], (List.append_nil _).symm⟩, rfl⟩
  | node ty text dt ln fc ns _ ihn =>
    intro g g' h
    simp only [gen_functions] at h
    split at h
    · simp only [Option.bind_eq_bind, Option.bind_eq_some] at h
      obtain ⟨g1, h1, h⟩ := h
      obtain ⟨body, pc, c1, f1, _, s1, _⟩ := gen_function_shape g g1 ty text dt ln fc ns h1
      obtain ⟨⟨seg, c2⟩, ⟨fs, f2⟩, s2⟩ := ihn g1 g' h
      exact ⟨⟨_, by rw [c2, c1, List.append_assoc]⟩, ⟨_, by rw [f2, f1, List.append_assoc]⟩,
        s2.trans s1⟩
    · exact ihn g g' h

/-- The child loop of the PROGRAM case keeps the description of the entry of
`ana`. -/
theorem gen_functions_entry (chain : ASTNode) :
    ∀ g g' b, gen_functions g chain = some g' → EntryOK b g →
      EntryOK (b || has_function_named "ana" chain) g' := by
  induction chain with
  | null =>
    intro g g' b h ok
    simp only [gen_functions] at h
    cases h
    simpa only [has_function_named, Bool.or_false] using ok
  | node ty text dt ln fc ns _ ihn =>
    intro g g' b h ok
    simp only [gen_functions] at h
    split at h
    · rename_i hty
      simp only [Option.bind_eq_bind, Option.bind_eq_some] at h
      obtain ⟨g1, h1, h⟩ := h
      obtain ⟨body, pc, c1, f1, m1, _, _⟩ := gen_function_shape g g1 ty text dt ln fc ns h1
      have ok1 : EntryOK (b || decide (cstr text = "ana")) g1 := by
        by_cases hana : cstr text = "ana"
        · rw [if_pos hana] at m1
          simp only [hana, decide_True, Bool.or_true]
          refine ⟨?_, fun _ => ⟨?_, ?_, ?_⟩⟩
          · rw [m1]
            constructor
            · intro e
              omega
            · intro e
              cases e
          · rw [m1]
            exact Int.natCast_nonneg _
          · refine ⟨{ name := cstr text, entry_point := g.bc.code.length, param_count := pc,
                      local_count := 32 }, ?_, hana, ?_⟩
            · rw [f1]
              exact List.mem_append_right _ (List.mem_singleton_self _)
            · rw [m1]
          · rw [m1, c1, Int.toNat_ofNat, List.get?_eq_getElem?,
              List.getElem?_append_right (le_refl _), Nat.sub_self, List.getElem?_cons_zero]
        · rw [if_neg hana] at m1
          simp only [hana, decide_False, Bool.or_false]
          refine ⟨by rw [m1]; exact ok.1, fun hb => ?_⟩
          obtain ⟨a1, ⟨f, hf, hn, he⟩, a3⟩ := ok.2 hb
          rw [m1]
          refine ⟨a1, ⟨f, ?_, hn, he⟩, ?_⟩
          · rw [f1]
            exact List.mem_append_left _ hf
          · rw [c1]
            exact get?_append_of_some _ _ _ _ a3
      have := ihn g1 g' _ h ok1
      simpa only [has_function_named, hty, decide_True, Bool.true_and, Bool.or_assoc] using this
    · rename_i hty
      have := ihn g g' b h ok
      simpa only [has_function_named, hty, decide_False, Bool.false_and, Bool.false_or] using this

/-- The child loop split at its `k`-th child: the generator when the loop
reaches the child, the generator when `gen_function` has returned for it, and
what the rest of the loop appends. -/
theorem gen_functions_split (k : Nat) :
    ∀ (chain : ASTNode) (g gend : CodeGenerator), gen_functions g chain = some gend →
      (sibling_at k chain).is AST_FUNCTION = true →
      ∃ ga gb, gen_functions_upto k chain g = some ga ∧ ga.symtab = g.symtab ∧
        gen_function ga (sibling_at k chain) = some gb ∧
        (∃ seg, gend.bc.code = gb.bc.code ++ seg) ∧
        (∃ fs, gend.bc.functions = gb.bc.functions ++ fs) := by
  induction k with
  | zero =>
    intro chain g gend h hk
    cases chain with
    | null => simp [sibling_at, ASTNode.is] at hk
    | node ty text dt ln fc ns =>
      simp only [sibling_at, ASTNode.is, decide_eq_true_eq] at hk
      simp only [gen_functions, if_pos hk, Option.bind_eq_bind, Option.bind_eq_some] at h
      obtain ⟨g1, h1, h⟩ := h
      obtain ⟨c, f, _⟩ := gen_functions_grows ns g1 gend h
      exact ⟨g, g1, rfl, rfl, h1, c, f⟩
  | succ k ih =>
    intro chain g gend h hk
    cases chain with
    | null => simp [sibling_at, ASTNode.is] at hk
    | node ty text dt ln fc ns =>
      simp only [sibling_at] at hk ⊢
      simp only [gen_functions] at h
      simp only [gen_functions_upto]
      split at h
      · rename_i hty
        simp only [Option.bind_eq_bind, Option.bind_eq_some] at h
        obtain ⟨g1, h1, h⟩ := h
        obtain ⟨_, _, _, _, _, s1, _⟩ := gen_function_shape g g1 ty text dt ln fc ns h1
        obtain ⟨ga, gb, u, s, e, c, f⟩ := ih ns g1 gend h hk
        refine ⟨ga, gb, ?_, s.trans s1, e, c, f⟩
        rw [if_pos hty, h1]
        exact u
      · rename_i hty
        obtain ⟨ga, gb, u, s, e, c, f⟩ := ih ns g gend h hk
        refine ⟨ga, gb, ?_, s, e, c, f⟩
        rw [if_neg hty]
        exact u

/-- The stages of `codegen_generate` on a PROGRAM node: the child loop, the
final HALT, and the patching, which changes operands of jumps only. -/
theorem codegen_generate_parts (st : SymbolTable) (text dt : Option String) (ln : Int)
    (fc ns : ASTNode) (bc : Bytecode)
    (h : codegen_generate (codegen_create st) (.node AST_PROGRAM text dt ln fc ns) = some bc) :
    ∃ g1 g2 : CodeGenerator, gen_functions (codegen_create st) fc = some g1 ∧
      g2.bc.code = g1.bc.code ++ [{ opcode := OP_HALT, operand := 0 }] ∧
      g2.bc.functions = g1.bc.functions ∧ g2.bc.main_entry = g1.bc.main_entry ∧
      bc.functions = g2.bc.functions ∧ bc.main_entry = g2.bc.main_entry ∧
      PatchOf g2.bc.code bc.code := by
  simp only [codegen_generate, Option.map_eq_some'] at h
  obtain ⟨g, hrun, hbc⟩ := h
  simp only [codegen_run, Option.bind_eq_bind, Option.bind_eq_some] at hrun
  obtain ⟨g1, h1, g2, h2, h3⟩ := hrun
  cases h3
  have hnj : ¬ is_jump OP_HALT := by
    intro hj
    rcases hj with hj | hj | hj <;> cases hj
  have s : Step ∅ (codegen_create st) g2 :=
    (gen_node_step ∅ _ g1 _ h1).trans (emit_step ∅ g1 g2 OP_HALT 0 hnj (fun hc => by cases hc) h2)
  have inv2 : GenInv g2 := s.inv (genInv_create st)
  obtain ⟨pf, pm, pp⟩ := patch_loop_patchOf g2.pending g2 inv2.pendings
  have e2 := emit_eq g1 g2 _ _ h2
  simp only [gen_node] at h1
  refine ⟨g1, g2, h1, ?_, ?_, ?_, ?_, ?_, ?_⟩
  · rw [e2]
  · rw [e2]
  · rw [e2]
  · rw [← hbc]; exact pf
  · rw [← hbc]; exact pm
  · rw [← hbc]; exact pp

theorem entryOK_create (st : SymbolTable) : EntryOK false (codegen_create st) :=
  ⟨⟨fun _ => rfl, fun _ => rfl⟩, fun h => by cases h⟩

/-- C35: program entry.  After `codegen_generate` on a PROGRAM node with a
fresh generator, `main_entry` is -1 exactly when no FUNCTION child is named
`ana`.  With such a child, `main_entry` is the entry point of a function-table
entry named `ana`, the instruction at that address is `ENTER 32`, and
`vm_execute` sets `pc` to it and executes that instruction first.  Without
one, `vm_execute` returns -1 and leaves the interpreter state as it was. -/
theorem program_entry (st : SymbolTable) (text dt : Option String) (ln : Int)
    (fc ns : ASTNode) (bc : Bytecode)
    (h : codegen_generate (codegen_create st) (.node AST_PROGRAM text dt ln fc ns) = some bc) :
    (bc.main_entry = -1 ↔ has_function_named "ana" fc = false) ∧
    (has_function_named "ana" fc = true →
      0 ≤ bc.main_entry ∧
      (∃ f ∈ bc.functions, f.name = "ana" ∧ f.entry_point = bc.main_entry) ∧
      bc.code.get? bc.main_entry.toNat = some { opcode := OP_ENTER, operand := 32 } ∧
      ∀ (vm : VM) (fuel : Nat),
        (vm_enter_main vm bc).pc = bc.main_entry ∧
        vm_step bc (vm_enter_main vm bc) = some (vm_after_enter vm bc) ∧
        vm_execute (fuel + 1) vm bc = vm_loop bc fuel (vm_after_enter vm bc)) ∧
    (has_function_named "ana" fc = false →
      ∀ (vm : VM) (fuel : Nat), vm_execute fuel vm bc = .returned (-1) vm) := by
  obtain ⟨g1, g2, h1, c2, f2, m2, bf, bm, pp⟩ := codegen_generate_parts st text dt ln fc ns bc h
  have ok1 := gen_functions_entry fc _ g1 false h1 (entryOK_create st)
  simp only [Bool.false_or] at ok1
  have hm : bc.main_entry = g1.bc.main_entry := bm.trans m2
  have hf : bc.functions = g1.bc.functions := bf.trans f2
  refine ⟨by rw [hm]; exact ok1.1, ?_, ?_⟩
  · intro hana
    obtain ⟨a1, ⟨f, hfm, hn, he⟩, a3⟩ := ok1.2 hana
    have hcode : bc.code.get? bc.main_entry.toNat =
        some { opcode := OP_ENTER, operand := 32 } := by
      have hc2 : g2.bc.code.get? g1.bc.main_entry.toNat =
          some { opcode := OP_ENTER, operand := 32 } := by
        rw [c2]
        exact get?_append_of_some _ _ _ _ a3
      obtain ⟨i2, e2, _, d2⟩ := pp.2 _ _ hc2
      rw [hm, e2, d2 (by
        intro hj
        rcases hj with hj | hj | hj <;> cases hj)]
    have hpos : 0 ≤ bc.main_entry := by rw [hm]; exact a1
    have hlt : bc.main_entry < bc.code_size := by
      have : bc.main_entry.toNat < bc.code.length := by
        rw [List.get?_eq_getElem?] at hcode
        by_contra hc
        rw [List.getElem?_eq_none (by omega)] at hcode
        cases hcode
      simp only [Bytecode.code_size]
      omega
    refine ⟨hpos, ⟨f, by rw [hf]; exact hfm, hn, by rw [hm]; exact he⟩, hcode, ?_⟩
    intro vm fuel
    have hstep : vm_step bc (vm_enter_main vm bc) = some (vm_after_enter vm bc) := by
      have hpc : (vm_enter_main vm bc).pc = bc.main_entry := rfl
      have hfp : (vm_enter_main vm bc).fp = 0 := rfl
      simp only [vm_step, hpc, if_neg (not_lt.mpr hpos), hcode, vm_exec_inst, hfp, if_true,
        vm_after_enter]
    refine ⟨rfl, hstep, ?_⟩
    have hrun : (vm_enter_main vm bc).running = true ∧
        (vm_enter_main vm bc).pc < bc.code_size := ⟨rfl, hlt⟩
    simp only [vm_execute, if_neg (not_lt.mpr hpos), vm_loop, if_pos hrun, hstep]
  · intro hana vm fuel
    have : bc.main_entry = -1 := by rw [hm]; exact ok1.1.mpr hana
    simp only [vm_execute, this]
    rfl

theorem compile_prog_seven : compile prog_seven = some bc_seven := by
  rw [prog_seven, prog_return_literal, compile_prog_arith]
  simp [Arith.code, MAX_CODE_SIZE, bc_seven]

theorem program_entry_witness :
    compile prog_seven = some bc_seven ∧
    has_function_named "ana" prog_seven.first_child = true ∧
    (bc_seven.main_entry = -1 ↔ has_function_named "ana" prog_seven.first_child = false) ∧
    bc_seven.code.get? bc_seven.main_entry.toNat = some { opcode := OP_ENTER, operand := 32 } ∧
    vm_step bc_seven (vm_enter_main vm_create bc_seven) =
      some (vm_after_enter vm_create bc_seven) :=
  ⟨compile_prog_seven, by decide,
    (program_entry _ none none 0 prog_seven.first_child .null bc_seven compile_prog_seven).1,
    ((program_entry _ none none 0 prog_seven.first_child .null bc_seven compile_prog_seven).2.1
      (by decide)).2.2.1,
    ((((program_entry _ none none 0 prog_seven.first_child .null bc_seven compile_prog_seven).2.1
      (by decide)).2.2.2) vm_create 0).2.1⟩

theorem get?_of_append_lt {α : Type} (l1 l2 : List α) (i : Nat) (a : α)
    (h : (l1 ++ l2).get? i = some a) (hlt : i < l1.length) : l1.get? i = some a := by
  rw [List.get?_eq_getElem?] at h ⊢
  rw [List.getElem?_append_left hlt] at h
  exact h

theorem mem_of_append_get? {α : Type} (l1 l2 : List α) (i : Nat) (a : α)
    (h : (l1 ++ l2).get? i = some a) (hge : l1.length ≤ i) : a ∈ l2 := by
  rw [List.get?_eq_getElem?, List.getElem?_append_right hge] at h
  obtain ⟨hlt, he⟩ := List.getElem?_eq_some.mp h
  rw [← he]
  exact List.getElem_mem hlt

/-- C40: locals fit the ENTER reservation.  When `codegen_generate` succeeds
on a PROGRAM node and the `k`-th child is a FUNCTION whose parameter names and
declared or assigned names are at most 32 distinct names, the code generated
for that function starts with `ENTER 32`, its function-table entry has
`local_count` 32, and every LOAD and STORE in it has an operand in [0, 32). -/
theorem locals_fit_reservation (st : SymbolTable) (text dt : Option String) (ln : Int)
    (fc ns : ASTNode) (bc : Bytecode) (k : Nat)
    (h : codegen_generate (codegen_create st) (.node AST_PROGRAM text dt ln fc ns) = some bc)
    (hk : (sibling_at k fc).is AST_FUNCTION = true)
    (hn : (function_names st (sibling_at k fc)).dedup.length ≤ 32) :
    ∃ g g' : CodeGenerator,
      gen_functions_upto k fc (codegen_create st) = some g ∧
      gen_function g (sibling_at k fc) = some g' ∧
      g.bc.code.length < g'.bc.code.length ∧ g'.bc.code.length ≤ bc.code.length ∧
      bc.code.get? g.bc.code.length = some { opcode := OP_ENTER, operand := 32 } ∧
      (∃ f ∈ bc.functions, f.name = cstr (sibling_at k fc).text ∧
        f.entry_point = g.bc.code.length ∧ f.local_count = 32) ∧
      ∀ i inst, g.bc.code.length ≤ i → i < g'.bc.code.length → bc.code.get? i = some inst →
        (inst.opcode = OP_LOAD ∨ inst.opcode = OP_STORE) →
          0 ≤ inst.operand ∧ inst.operand < 32 := by
  obtain ⟨g1, g2, h1, c2, f2, m2, bf, bm, pp⟩ := codegen_generate_parts st text dt ln fc ns bc h
  obtain ⟨ga, gb, hu, hs, hg, ⟨seg, hc⟩, ⟨fs, hf⟩⟩ := gen_functions_split k fc _ g1 h1 hk
  have hst : ga.symtab = st := hs
  cases hnode : sibling_at k fc with
  | null =>
    rw [hnode] at hk
    simp [ASTNode.is] at hk
  | node ty x d l fc2 ns2 =>
    rw [hnode] at hg hn
    obtain ⟨body, pc, sc, sf, _, _, sb⟩ := gen_function_shape ga gb ty x d l fc2 ns2 hg
    rw [hst] at sb
    have hnj : ∀ inst : Instruction, (inst.opcode = OP_LOAD ∨ inst.opcode = OP_STORE) →
        ¬ is_jump inst.opcode := by
      intro inst hop hj
      rcases hop with e | e <;> rw [e] at hj <;> rcases hj with hj | hj | hj <;> cases hj
    have hlen2 : g2.bc.code.length = gb.bc.code.length + seg.length + 1 := by
      rw [c2, hc]
      simp only [List.length_append, List.length_singleton]
    have hlenb : gb.bc.code.length = ga.bc.code.length + (body.length + 1) := by
      rw [sc]
      simp only [List.length_append, List.length_cons]
    have hcode2 : g2.bc.code = ga.bc.code ++
        ({ opcode := OP_ENTER, operand := 32 } :: body ++
          (seg ++ [{ opcode := OP_HALT, operand := 0 }])) := by
      rw [c2, hc, sc]
      simp only [List.append_assoc, List.cons_append]
    refine ⟨ga, gb, hu, hg, by omega, by rw [pp.1]; omega, ?_, ?_, ?_⟩
    · have e2 : g2.bc.code.get? ga.bc.code.length =
          some { opcode := OP_ENTER, operand := 32 } := by
        rw [hcode2, List.get?_eq_getElem?, List.getElem?_append_right (le_refl _), Nat.sub_self,
          List.cons_append, List.getElem?_cons_zero]
      obtain ⟨i2, a2, _, d2⟩ := pp.2 _ _ e2
      rw [a2, d2 (by
        intro hj
        rcases hj with hj | hj | hj <;> cases hj)]
    · refine ⟨{ name := cstr x, entry_point := ga.bc.code.length, param_count := pc,
                local_count := 32 }, ?_, rfl, rfl, rfl⟩
      rw [bf, f2, hf, sf]
      exact List.mem_append_left _ (List.mem_append_right _ (List.mem_singleton_self _))
    · intro i inst hge hlt hi hop
      have b2 := pp.back i inst hi (hnj inst hop)
      rw [c2, hc, List.append_assoc] at b2
      have b3 := get?_of_append_lt _ _ i inst b2 hlt
      rw [sc] at b3
      have hm := mem_of_append_get? _ _ i inst b3 hge
      rcases List.mem_cons.mp hm with e | e
      · subst e
        rcases hop with e | e <;> cases e
      · exact sb hn inst e hop

theorem compile_prog_five :
    codegen_generate (codegen_create five_table) prog_five = some bc_five := by
  have h := compile_prog_ana (decl_x "5" return_x)
  unfold compile at h
  unfold five_table prog_five
  rw [h]
  simp [decl_x, return_x, gen_stmts, gen_statement, gen_var_decl, gen_return, gen_expression,
    add_local, find_local, gen_ana_body, emit, emit_simple, MAX_CODE_SIZE, MAX_LOCAL_SYMBOLS,
    cstr, atoi_five, gen_tail, patch_jumps, patch_loop, bc_five]

theorem function_names_five :
    function_names five_table (sibling_at 0 prog_five.first_child) = ["x"] := by
  have h := prog_ana_table (decl_x "5" return_x)
  simp only [function_names, signature_names, prog_five, prog_ana, ASTNode.first_child,
    sibling_at, ASTNode.text, cstr, Option.getD, five_table] at h ⊢
  rw [h]
  simp [get_child, sibling_at, ASTNode.is, ASTNode.first_child, ast_param_names, tree_names,
    decl_x, return_x, cstr]

theorem locals_fit_reservation_witness :
    codegen_generate (codegen_create five_table) prog_five = some bc_five ∧
    (sibling_at 0 prog_five.first_child).is AST_FUNCTION = true ∧
    (function_names five_table (sibling_at 0 prog_five.first_child)).dedup.length ≤ 32 ∧
    ∃ g g' : CodeGenerator,
      gen_functions_upto 0 prog_five.first_child (codegen_create five_table) = some g ∧
      gen_function g (sibling_at 0 prog_five.first_child) = some g' ∧
      g.bc.code.length < g'.bc.code.length ∧ g'.bc.code.length ≤ bc_five.code.length ∧
      bc_five.code.get? g.bc.code.length = some { opcode := OP_ENTER, operand := 32 } ∧
      (∃ f ∈ bc_five.functions, f.name = cstr (sibling_at 0 prog_five.first_child).text ∧
        f.entry_point = g.bc.code.length ∧ f.local_count = 32) ∧
      ∀ i inst, g.bc.code.length ≤ i → i < g'.bc.code.length →
        bc_five.code.get? i = some inst →
        (inst.opcode = OP_LOAD ∨ inst.opcode = OP_STORE) →
          0 ≤ inst.operand ∧ inst.operand < 32 :=
  ⟨compile_prog_five, by decide, by rw [function_names_five]; decide,
    locals_fit_reservation five_table none none 0 prog_five.first_child .null bc_five 0
      compile_prog_five (by decide) (by rw [function_names_five]; decide)⟩

/-- A `Diagnosed` stretch only appends diagnostics. -/
theorem Diagnosed.appends {a b : SemanticAnalyzer} (h : Diagnosed a b) :
    ∃ es, b.errors = a.errors ++ es := by
  induction h with
  | start => exact ⟨[], (List.append_nil _).symm⟩
  | keep _ hc ih =>
    obtain ⟨es, he⟩ := ih
    exact ⟨es, by rw [hc, he]⟩
  | error line msg _ ih =>
    obtain ⟨es, he⟩ := ih
    unfold semantic_error
    split
    · exact ⟨es, he⟩
    · exact ⟨es ++ [{ line := line, message := fmt_buffer msg }], by
        simp only [he, List.append_assoc]⟩

theorem analyze_condition_checked (a : SemanticAnalyzer) (c : ASTNode) (line : Int)
    (msg : String) :
    analyze_condition a c line msg =
      condition_checked (analyze_expression a c).2 (analyze_expression a c).1 line msg := by
  simp only [analyze_condition, condition_checked]

theorem analyze_if_phases (a : SemanticAnalyzer) (ty : ASTNodeType) (text dt : Option String)
    (ln : Int) (fc ns : ASTNode) :
    analyze_if a (.node ty text dt ln fc ns) =
      if_branches ty (if_cond_state a (.node ty text dt ln fc ns) ln)
        (.node ty text dt ln fc ns) := by
  simp only [analyze_if, if_cond_state, if_branches]

theorem analyze_while_phases (a : SemanticAnalyzer) (ty : ASTNodeType) (text dt : Option String)
    (ln : Int) (fc ns : ASTNode) :
    analyze_while a (.node ty text dt ln fc ns) =
      while_rest (while_cond_state a (.node ty text dt ln fc ns) ln)
        (.node ty text dt ln fc ns) := by
  simp only [analyze_while, while_cond_state, while_rest]

theorem analyze_for_after_update (a : SemanticAnalyzer) (ty : ASTNodeType)
    (text dt : Option String) (ln : Int) (fc ns : ASTNode) :
    analyze_for a (.node ty text dt ln fc ns) =
      for_after_update (for_update_state a (.node ty text dt ln fc ns) ln)
        (.node ty text dt ln fc ns) := by
  rw [analyze_for_phases]
  rfl

theorem for_after_cond_eq (a : SemanticAnalyzer) (node : ASTNode) (ln : Int) :
    for_after_cond (for_cond_state a node ln) node =
      for_after_update (for_update_state a node ln) node := by
  simp only [for_after_cond, for_update_state]

theorem for_after_init_eq (a : SemanticAnalyzer) (node : ASTNode) (ln : Int) :
    for_after_init (for_init_state a node) node ln =
      for_after_update (for_update_state a node ln) node := by
  rw [← for_after_cond_eq]
  simp only [for_after_init, for_cond_state]

theorem analyze_args_next (a : SemanticAnalyzer) (f : String) (fi : FunctionInfo) (line : Int)
    (k : Nat) (ty : ASTNodeType) (text dt : Option String) (ln : Int) (fc ns : ASTNode) :
    analyze_args a f fi line k (.node ty text dt ln fc ns) =
      analyze_args (arg_checked a f fi line k (.node ty text dt ln fc ns)) f fi line (k + 1)
        ns := by
  cases h : fi.params.get? k <;> simp only [analyze_args, arg_checked, arg_compared, h]

theorem analyze_statement_diag (a : SemanticAnalyzer) (node : ASTNode) :
    Diagnosed a (analyze_statement a node) :=
  (analyze_statement_diagnosed node.size node (le_refl _)).1 a

theorem analyze_node_diag (a : SemanticAnalyzer) (node : ASTNode) :
    Diagnosed a (analyze_node a node) :=
  (analyze_node_diagnosed node.size node (le_refl _)).1 a

theorem analyze_nodes_diag (a : SemanticAnalyzer) (node : ASTNode) :
    Diagnosed a (analyze_nodes a node) :=
  (analyze_node_diagnosed node.size node (le_refl _)).2 a

theorem analyze_args_diag (a : SemanticAnalyzer) (f : String) (fi : FunctionInfo) (line : Int)
    (k : Nat) (node : ASTNode) : Diagnosed a (analyze_args a f fi line k node).2 :=
  (analyze_expression_diagnosed node.size node (le_refl _)).2 a f fi line k

theorem condition_checked_diag (r : SemanticAnalyzer) (t : DataType) (line : Int)
    (msg : String) : Diagnosed r (condition_checked r t line msg) := by
  unfold condition_checked
  split
  · exact semantic_error_diagnosed _ _ _
  · exact Diagnosed.start _

theorem return_checked_diag (r : SemanticAnalyzer) (expected actual : DataType) (ln : Int) :
    Diagnosed r (return_checked r expected actual ln) := by
  unfold return_checked
  split
  · exact semantic_error_diagnosed _ _ _
  · split
    · exact semantic_error_diagnosed _ _ _
    · split
      · exact semantic_error_diagnosed _ _ _
      · exact Diagnosed.start _

theorem init_checked_diag (r : SemanticAnalyzer) (name : String) (vt it : DataType)
    (line : Int) : Diagnosed r (init_checked r name vt it line) := by
  unfold init_checked
  split
  · exact semantic_error_diagnosed _ _ _
  · exact Diagnosed.start _

theorem assign_checked_diag (r : SemanticAnalyzer) (name : String) (st rt : DataType)
    (line : Int) : Diagnosed r (assign_checked r name st rt line) := by
  unfold assign_checked
  split
  · exact Diagnosed.start _
  · exact semantic_error_diagnosed _ _ _

theorem binary_checked_diag (r : SemanticAnalyzer) (lt rt : DataType) (line : Int) :
    Diagnosed r (binary_checked r lt rt line) := by
  unfold binary_checked
  split
  · exact semantic_error_diagnosed _ _ _
  · split
    · exact semantic_error_diagnosed _ _ _
    · exact Diagnosed.start _

theorem unary_checked_diag (r : SemanticAnalyzer) (t : DataType) (line : Int) :
    Diagnosed r (unary_checked r t line) := by
  unfold unary_checked
  split
  · exact semantic_error_diagnosed _ _ _
  · exact Diagnosed.start _

theorem arity_checked_diag (r : SemanticAnalyzer) (f : String) (fi : FunctionInfo) (n : Nat)
    (line : Int) : Diagnosed r (arity_checked r f fi n line) := by
  unfold arity_checked
  split
  · exact semantic_error_diagnosed _ _ _
  · exact Diagnosed.start _

theorem arg_compared_diag (r : SemanticAnalyzer) (f : String) (fi : FunctionInfo) (line : Int)
    (k : Nat) (t : DataType) : Diagnosed r (arg_compared r f fi line k t) := by
  unfold arg_compared
  split
  · split
    · exact Diagnosed.start _
    · exact semantic_error_diagnosed _ _ _
  · exact Diagnosed.start _

theorem if_branches_diag (ty : ASTNodeType) (c : SemanticAnalyzer) (node : ASTNode) :
    Diagnosed c (if_branches ty c node) := by
  unfold if_branches
  split
  · exact (analyze_statement_diag _ _).diag_trans (analyze_statement_diag _ _)
  · exact analyze_statement_diag _ _

theorem while_rest_diag (c : SemanticAnalyzer) (node : ASTNode) :
    Diagnosed c (while_rest c node) := by
  unfold while_rest
  have h1 : Diagnosed c { c with in_loop := true } := Diagnosed.diag_same rfl
  exact (h1.diag_trans (analyze_statement_diag _ _)).diag_trans (Diagnosed.diag_same rfl)

theorem for_after_update_diag (c : SemanticAnalyzer) (node : ASTNode) :
    Diagnosed c (for_after_update c node) := by
  unfold for_after_update
  have h1 : Diagnosed c { c with in_loop := true } := Diagnosed.diag_same rfl
  exact (h1.diag_trans (analyze_statement_diag _ _)).diag_trans (Diagnosed.diag_same rfl)

theorem for_after_cond_diag (c : SemanticAnalyzer) (node : ASTNode) :
    Diagnosed c (for_after_cond c node) := by
  unfold for_after_cond
  split
  · exact (analyze_expression_diag _ _).diag_trans (for_after_update_diag _ _)
  · exact for_after_update_diag _ _

theorem for_after_init_diag (c : SemanticAnalyzer) (node : ASTNode) (ln : Int) :
    Diagnosed c (for_after_init c node ln) := by
  unfold for_after_init
  split
  · exact (analyze_condition_diagnosed _ _ _ _).diag_trans (for_after_cond_diag _ _)
  · exact for_after_cond_diag _ _

/-- A visit returns what its continuation makes of the analyzer the call
returns: the call sites and their continuations are those of the analyzer. -/
theorem invokes_result {p q : Visit} {k : SemanticAnalyzer → SemanticAnalyzer}
    (h : Invokes p q k) : p.result = k q.result := by
  cases h with
  | node_children a ty text dt ln fc ns h1 h2 =>
    cases ty
    case AST_FUNCTION => exact absurd rfl h1
    case AST_VAR_DECL => exact absurd rfl h2
    all_goals simp only [Visit.result, analyze_node]
  | node_function a text dt ln fc ns => simp only [Visit.result, analyze_node]
  | node_var_decl a text dt ln fc ns => simp only [Visit.result, analyze_node]
  | nodes_head a ty text dt ln fc ns => simp only [Visit.result, analyze_nodes]
  | nodes_next a ty text dt ln fc ns => simp only [Visit.result, analyze_nodes]
  | func_body a ty text dt ln fc ns func fi hl hf hb =>
    simp only [Visit.result, analyze_function, hl, hf, hb, if_true, function_entry]
  | stmts_head a ty text dt ln fc ns => simp only [Visit.result, analyze_stmts]
  | stmts_next a ty text dt ln fc ns => simp only [Visit.result, analyze_stmts]
  | stmt_var_decl a text dt ln fc ns => simp only [Visit.result, analyze_statement]
  | stmt_block a text dt ln fc ns => simp only [Visit.result, analyze_statement, analyze_block]
  | if_cond a ty text dt ln fc ns hty hc =>
    have hst : analyze_statement a (.node ty text dt ln fc ns) =
        analyze_if a (.node ty text dt ln fc ns) := by
      rcases hty with h | h <;> subst h <;> simp only [analyze_statement]
    simp only [Visit.result, hst, analyze_if_phases, if_cond_state, if_neg hc,
      analyze_condition_checked]
  | if_then a ty text dt ln fc ns hty hc =>
    have hst : analyze_statement a (.node ty text dt ln fc ns) =
        analyze_if a (.node ty text dt ln fc ns) := by
      rcases hty with h | h <;> subst h <;> simp only [analyze_statement]
    simp only [Visit.result, hst, analyze_if_phases, if_branches]
  | if_else a text dt ln fc ns hc =>
    simp only [Visit.result, analyze_statement, analyze_if_phases, if_branches, if_true]
  | while_cond a text dt ln fc ns hc =>
    simp only [Visit.result, analyze_statement, analyze_while_phases, while_cond_state,
      if_neg hc, analyze_condition_checked]
  | while_body a text dt ln fc ns hc =>
    simp only [Visit.result, analyze_statement, analyze_while_phases, while_rest]
  | for_init a text dt ln fc ns hc =>
    have h1 : analyze_statement
        { a with symtab := symbol_enter_scope a.symtab, enter_calls := a.enter_calls + 1 }
        (get_child (.node AST_FOR text dt ln fc ns) 0) =
        for_init_state a (.node AST_FOR text dt ln fc ns) := by
      simp only [for_init_state, if_pos hc]
    simp only [Visit.result, analyze_statement, h1, for_after_init_eq, analyze_for_after_update]
  | for_cond a text dt ln fc ns hc =>
    have h1 : condition_checked
        (analyze_expression (for_init_state a (.node AST_FOR text dt ln fc ns))
          (get_child (.node AST_FOR text dt ln fc ns) 1)).2
        (analyze_expression (for_init_state a (.node AST_FOR text dt ln fc ns))
          (get_child (.node AST_FOR text dt ln fc ns) 1)).1 ln
        "For dongusu kosulu void olamaz" =
        for_cond_state a (.node AST_FOR text dt ln fc ns) ln := by
      simp only [for_cond_state, if_pos hc, analyze_condition_checked]
    simp only [Visit.result, analyze_statement, h1, for_after_cond_eq, analyze_for_after_update]
  | for_update a text dt ln fc ns hc =>
    have h1 : (analyze_expression (for_cond_state a (.node AST_FOR text dt ln fc ns) ln)
          (get_child (.node AST_FOR text dt ln fc ns) 2)).2 =
        for_update_state a (.node AST_FOR text dt ln fc ns) ln := by
      simp only [for_update_state, if_pos hc]
    simp only [Visit.result, analyze_statement, h1, analyze_for_after_update]
  | for_body a text dt ln fc ns hc =>
    simp only [Visit.result, analyze_statement, analyze_for_phases]
  | return_value a text dt ln fc ns hfc =>
    simp only [Visit.result, analyze_statement, analyze_return, if_neg hfc, return_checked]
  | stmt_expression a text dt ln fc ns hfc =>
    simp only [Visit.result, analyze_statement, if_neg hfc]
  | stmt_assignment a text dt ln fc ns => simp only [Visit.result, analyze_statement]
  | stmt_other a ty text dt ln fc ns h1 h2 h3 h4 h5 h6 h7 h8 h9 =>
    cases ty
    case AST_VAR_DECL => exact absurd rfl h1
    case AST_BLOCK => exact absurd rfl h2
    case AST_IF => exact absurd rfl h3
    case AST_IF_ELSE => exact absurd rfl h4
    case AST_WHILE => exact absurd rfl h5
    case AST_FOR => exact absurd rfl h6
    case AST_RETURN => exact absurd rfl h7
    case AST_EXPR_STATEMENT => exact absurd rfl h8
    case AST_ASSIGNMENT => exact absurd rfl h9
    all_goals simp only [Visit.result, analyze_statement]
  | decl_init a ty text dt ln fc ns sym table hv hc hd hfc =>
    simp only [Visit.result, analyze_var_decl, if_neg hv, hc, hd, if_neg hfc, init_checked]
  | assign_right a text dt ln fc ns sym hid hl =>
    simp only [Visit.result, analyze_expression, hid, hl, not_true_eq_false, if_false,
      assign_checked]
    split <;> rfl
  | binary_left a text dt ln fc ns =>
    simp only [Visit.result, analyze_expression, binary_checked]
    repeat (first | rfl | split)
  | binary_right a text dt ln fc ns =>
    simp only [Visit.result, analyze_expression, binary_checked]
    repeat (first | rfl | split)
  | unary_operand a text dt ln fc ns =>
    simp only [Visit.result, analyze_expression, unary_checked]
    split <;> rfl
  | call_arguments a text dt ln fc ns func fi hl hk hf harg =>
    simp only [Visit.result, analyze_expression, hl, hk, hf, harg, ne_eq, not_true_eq_false,
      if_false, if_true, arity_checked]
  | expr_inner a text dt ln fc ns hfc =>
    simp only [Visit.result, analyze_expression, if_neg hfc]
  | args_head a f fi line k ty text dt ln fc ns =>
    simp only [Visit.result]
    rw [analyze_args_next, arg_checked]
  | args_next a f fi line k ty text dt ln fc ns =>
    simp only [Visit.result]
    rw [analyze_args_next]

/-- The continuation of a call site only appends diagnostics. -/
theorem invokes_continues {p q : Visit} {k : SemanticAnalyzer → SemanticAnalyzer}
    (h : Invokes p q k) : ∀ r, Diagnosed r (k r) := by
  intro r
  cases h with
  | node_children a ty text dt ln fc ns h1 h2 => exact Diagnosed.start _
  | node_function a text dt ln fc ns => exact Diagnosed.start _
  | node_var_decl a text dt ln fc ns => exact Diagnosed.start _
  | nodes_head a ty text dt ln fc ns => exact analyze_nodes_diag _ _
  | nodes_next a ty text dt ln fc ns => exact Diagnosed.start _
  | func_body a ty text dt ln fc ns func fi hl hf hb => exact Diagnosed.diag_same rfl
  | stmts_head a ty text dt ln fc ns => exact analyze_stmts_diagnosed _ _
  | stmts_next a ty text dt ln fc ns => exact Diagnosed.start _
  | stmt_var_decl a text dt ln fc ns => exact Diagnosed.start _
  | stmt_block a text dt ln fc ns => exact Diagnosed.diag_same rfl
  | if_cond a ty text dt ln fc ns hty hc =>
    exact (condition_checked_diag _ _ _ _).diag_trans (if_branches_diag _ _ _)
  | if_then a ty text dt ln fc ns hty hc =>
    simp only
    split
    · exact analyze_statement_diag _ _
    · exact Diagnosed.start _
  | if_else a text dt ln fc ns hc => exact Diagnosed.start _
  | while_cond a text dt ln fc ns hc =>
    exact (condition_checked_diag _ _ _ _).diag_trans (while_rest_diag _ _)
  | while_body a text dt ln fc ns hc => exact Diagnosed.diag_same rfl
  | for_init a text dt ln fc ns hc => exact for_after_init_diag _ _ _
  | for_cond a text dt ln fc ns hc =>
    exact (condition_checked_diag _ _ _ _).diag_trans (for_after_cond_diag _ _)
  | for_update a text dt ln fc ns hc => exact for_after_update_diag _ _
  | for_body a text dt ln fc ns hc => exact Diagnosed.diag_same rfl
  | return_value a text dt ln fc ns hfc => exact return_checked_diag _ _ _ _
  | stmt_expression a text dt ln fc ns hfc => exact Diagnosed.start _
  | stmt_assignment a text dt ln fc ns => exact Diagnosed.start _
  | stmt_other a ty text dt ln fc ns h1 h2 h3 h4 h5 h6 h7 h8 h9 => exact Diagnosed.start _
  | decl_init a ty text dt ln fc ns sym table hv hc hd hfc => exact init_checked_diag _ _ _ _ _
  | assign_right a text dt ln fc ns sym hid hl => exact assign_checked_diag _ _ _ _ _
  | binary_left a text dt ln fc ns =>
    exact (analyze_expression_diag _ _).diag_trans (binary_checked_diag _ _ _ _)
  | binary_right a text dt ln fc ns => exact binary_checked_diag _ _ _ _
  | unary_operand a text dt ln fc ns => exact unary_checked_diag _ _ _
  | call_arguments a text dt ln fc ns func fi hl hk hf harg =>
    exact arity_checked_diag _ _ _ _ _
  | expr_inner a text dt ln fc ns hfc => exact Diagnosed.start _
  | args_head a f fi line k ty text dt ln fc ns =>
    exact (arg_compared_diag _ _ _ _ _ _).diag_trans (analyze_args_diag _ _ _ _ _ _)
  | args_next a f fi line k ty text dt ln fc ns => exact Diagnosed.start _

/-- The analyzer `semantic_analyze` ends with is what the rest of the analysis
makes of the analyzer a visit returns. -/
theorem visited_result (program : ASTNode) {v : Visit}
    {rest : SemanticAnalyzer → SemanticAnalyzer} (h : Visited program v rest) :
    (semantic_analyze semantic_create program).2 = rest v.result := by
  induction h with
  | root =>
    cases program with
    | null =>
      simp only [Visit.result, semantic_analyze, collect_functions]
      rw [analyze_node]
    | node ty text dt ln fc ns => simp only [Visit.result, semantic_analyze]
  | call _ hstep ih =>
    rw [ih, invokes_result hstep]

/-- The rest of the analysis after a visit only appends diagnostics. -/
theorem visited_continues (program : ASTNode) {v : Visit}
    {rest : SemanticAnalyzer → SemanticAnalyzer} (h : Visited program v rest) :
    ∀ r, Diagnosed r (rest r) := by
  induction h with
  | root => intro r; exact Diagnosed.start _
  | call _ hstep ih =>
    intro r
    exact (invokes_continues hstep r).diag_trans (ih _)

/-- The diagnostics a visit of the analysis of a program has recorded when it
returns stay, in front, in the list `semantic_analyze` ends with. -/
theorem visited_diagnosed (program : ASTNode) {v : Visit}
    {rest : SemanticAnalyzer → SemanticAnalyzer} (h : Visited program v rest) :
    Diagnosed v.result (semantic_analyze semantic_create program).2 := by
  rw [visited_result program h]
  exact visited_continues program h _

/-- The result of `semantic_analyze` is false once a diagnostic is recorded. -/
theorem semantic_analyze_false (program : ASTNode)
    (h : (semantic_analyze semantic_create program).2.errors ≠ []) :
    (semantic_analyze semantic_create program).1 = false := by
  cases program with
  | null => simp only [semantic_analyze]
  | node ty text dt ln fc ns =>
    simp only [semantic_analyze, decide_eq_false_iff_not, List.length_eq_zero] at h ⊢
    exact h

theorem scoped_of_eq {t u : SymbolTable} (h1 : u.scope_level = t.scope_level)
    (h2 : ∀ i, i < SYMBOL_TABLE_SIZE → u.buckets i = t.buckets i) (h : Scoped t) :
    Scoped u := by
  refine ⟨by rw [h1]; exact h.1, ?_⟩
  intro i hi s hs
  rw [h2 i hi] at hs
  rw [h1]
  exact h.2 i hi s hs

theorem scoped_declare (t : SymbolTable) (name : String) (kind : SymbolKind) (type : DataType)
    (line : Int) (h : Scoped t) : Scoped (symbol_declare t name kind type line).2 :=
  (symbol_declare_framed { semantic_create with symtab := t } name kind type line).scoped h

theorem scoped_declare_function (t : SymbolTable) (name : String) (return_type : DataType)
    (line : Int) (h : Scoped t) :
    Scoped (symbol_declare_function t name return_type line).2 := by
  have hd := scoped_declare t name SYMBOL_FUNCTION return_type line h
  cases hc : symbol_lookup_current_scope t name with
  | some e =>
    simp only [symbol_declare_function, symbol_declare_of_some _ _ _ _ _ e hc]
    exact h
  | none =>
    obtain ⟨h1, hb, hl⟩ := symbol_declare_of_none t name SYMBOL_FUNCTION return_type line hc
    unfold symbol_declare_function
    split
    · rename_i t1 heq
      rw [heq] at hd
      exact hd
    · rename_i func t1 heq
      rw [heq] at hd h1 hb hl
      simp only at h1 hb hl hd ⊢
      refine ⟨hd.1, ?_⟩
      intro i hi s hs
      simp only [bucket_set] at hs
      split at hs
      · rename_i hih
        rcases List.mem_cons.mp hs with h3 | h3
        · subst h3
          simp only [Option.some.injEq] at h1
          subst h1
          simp only [declared_symbol, hl]
          exact le_refl _
        · exact hd.2 (hash_string name) (hash_string_lt name) s (List.mem_of_mem_tail h3)
      · exact hd.2 i hi s hs

theorem scoped_add_parameter (t : SymbolTable) (f name : String) (type : DataType)
    (h : Scoped t) : Scoped (symtab_add_parameter t f name type) := by
  unfold symtab_add_parameter
  split
  · exact h
  · rename_i func rest heq
    refine ⟨h.1, ?_⟩
    intro i hi s hs
    simp only [bucket_set] at hs
    split at hs
    · have hmem : ∀ x ∈ func :: rest, x.scope_level ≤ t.scope_level := by
        intro x hx
        rw [← heq] at hx
        exact h.2 _ (hash_string_lt f) x hx
      rcases List.mem_cons.mp hs with h3 | h3
      · subst h3
        have h4 := hmem func (List.mem_cons_self _ _)
        have h5 : (symbol_add_parameter func name type).scope_level = func.scope_level := by
          unfold symbol_add_parameter
          split
          · rfl
          · split <;> rfl
        simp only at h4 ⊢
        rw [h5]
        exact h4
      · exact hmem s (List.mem_cons_of_mem _ h3)
    · exact h.2 i hi s hs

theorem scoped_collect_params (f : String) (node : ASTNode) :
    ∀ t, Scoped t → Scoped (collect_params t f node) := by
  induction node with
  | null => intro t h; exact h
  | node ty text dt ln fc ns _ ihn =>
    intro t h
    simp only [collect_params]
    split
    · exact ihn _ (scoped_add_parameter t f _ _ h)
    · exact ihn _ h

theorem scoped_semantic_error (a : SemanticAnalyzer) (line : Int) (msg : String)
    (h : Scoped a.symtab) : Scoped (semantic_error a line msg).symtab := by
  rw [(semantic_error_errOnly a line msg).symtab]
  exact h

theorem scoped_collect_functions_loop (node : ASTNode) :
    ∀ a, Scoped a.symtab → Scoped (collect_functions_loop a node).symtab := by
  induction node with
  | null => intro a h; exact h
  | node ty text dt ln fc ns _ ihn =>
    intro a h
    simp only [collect_functions_loop]
    split
    · split
      · exact ihn _ (scoped_semantic_error _ _ _ h)
      · have hd := scoped_declare_function a.symtab (cstr text) (datatype_from_string dt) ln h
        split
        · exact ihn _ (scoped_semantic_error _ _ _ h)
        · rename_i sym table heq
          rw [heq] at hd
          refine ihn _ ?_
          simp only
          split
          · exact scoped_collect_params _ _ _ hd
          · exact hd
    · exact ihn a h

theorem scoped_collect_functions (program : ASTNode) :
    Scoped (collect_functions semantic_create program).symtab := by
  cases program with
  | null => exact scoped_create
  | node ty text dt ln fc ns =>
    simp only [collect_functions]
    exact scoped_collect_functions_loop fc _ scoped_create

theorem scoped_analyze_function (a : SemanticAnalyzer) (node : ASTNode)
    (h : Scoped a.symtab) : Scoped (analyze_function a node).symtab := by
  cases node with
  | null => exact h
  | node ty text dt ln fc ns =>
    simp only [analyze_function]
    split
    · exact h
    · rename_i func hl
      split
      · exact h
      · rename_i fi hf
        have h0 : Scoped ({ a with
            symtab := symbol_set_current_function a.symtab (some func)
            current_return_type := fi.return_type } : SemanticAnalyzer).symtab := h
        have h1 := declare_params_framed ln fi.params
          { a with symtab := symbol_enter_scope (symbol_set_current_function a.symtab (some func))
                   current_return_type := fi.return_type
                   enter_calls := a.enter_calls + 1 }
        have h2 : Framed
            { a with symtab := symbol_enter_scope (symbol_set_current_function a.symtab (some func))
                     current_return_type := fi.return_type
                     enter_calls := a.enter_calls + 1 }
            (if (get_child (.node ty text dt ln fc ns) 1).is AST_BLOCK = true then
              analyze_stmts
                (declare_params
                  { a with
                    symtab := symbol_enter_scope
                      (symbol_set_current_function a.symtab (some func))
                    current_return_type := fi.return_type
                    enter_calls := a.enter_calls + 1 } ln fi.params)
                (get_child (.node ty text dt ln fc ns) 1).first_child
             else
              declare_params
                { a with
                  symtab := symbol_enter_scope
                    (symbol_set_current_function a.symtab (some func))
                  current_return_type := fi.return_type
                  enter_calls := a.enter_calls + 1 } ln fi.params) := by
          split
          · exact h1.fr_trans (analyze_stmts_framed _ _ (h1.scoped (scoped_enter_scope h0)))
          · exact h1
        obtain ⟨k1, k2⟩ := enter_exit_restores
          { a with symtab := symbol_set_current_function a.symtab (some func)
                   current_return_type := fi.return_type } _ h0 h2
        exact scoped_of_eq k1 k2 h0

theorem scoped_analyze_node :
    ∀ (n : Nat) (node : ASTNode), node.size ≤ n →
      (∀ a, Scoped a.symtab → Scoped (analyze_node a node).symtab) ∧
      (∀ a, Scoped a.symtab → Scoped (analyze_nodes a node).symtab) := by
  intro n
  induction n with
  | zero =>
    intro node hn
    cases node with
    | null =>
      constructor
      · intro a h
        rw [analyze_node]
        exact h
      · intro a h
        rw [analyze_nodes]
        exact h
    | node ty text dt ln fc ns => simp only [ASTNode.size] at hn; omega
  | succ n ih =>
    intro node hn
    cases node with
    | null =>
      constructor
      · intro a h
        rw [analyze_node]
        exact h
      · intro a h
        rw [analyze_nodes]
        exact h
    | node ty text dt ln fc ns =>
      have hfc : fc.size ≤ n := by simp only [ASTNode.size] at hn; omega
      have hns : ns.size ≤ n := by simp only [ASTNode.size] at hn; omega
      have hnode : ∀ a, Scoped a.symtab →
          Scoped (analyze_node a (.node ty text dt ln fc ns)).symtab := by
        intro a h
        cases ty
        case AST_FUNCTION =>
          simp only [analyze_node]
          exact scoped_analyze_function a _ h
        case AST_VAR_DECL =>
          simp only [analyze_node]
          exact (analyze_var_decl_framed a _).scoped h
        all_goals
          simp only [analyze_node]
          exact (ih _ hfc).2 a h
      refine ⟨hnode, ?_⟩
      intro a h
      simp only [analyze_nodes]
      exact (ih _ hns).2 _ (hnode a h)

theorem if_cond_state_symtab (a : SemanticAnalyzer) (node : ASTNode) (ln : Int) :
    (if_cond_state a node ln).symtab = a.symtab := by
  unfold if_cond_state
  split
  · rfl
  · exact (analyze_condition_errOnly _ _ _ _).symtab

theorem while_cond_state_symtab (a : SemanticAnalyzer) (node : ASTNode) (ln : Int) :
    (while_cond_state a node ln).symtab = a.symtab := by
  unfold while_cond_state
  split
  · rfl
  · exact (analyze_condition_errOnly _ _ _ _).symtab

theorem arg_checked_symtab (a : SemanticAnalyzer) (f : String) (fi : FunctionInfo) (line : Int)
    (k : Nat) (arg : ASTNode) : (arg_checked a f fi line k arg).symtab = a.symtab := by
  simp only [arg_checked, arg_compared]
  split
  · split
    · exact (analyze_expression_keeps a arg).symtab
    · exact ((analyze_expression_keeps a arg).err_trans (semantic_error_errOnly _ _ _)).symtab
  · exact (analyze_expression_keeps a arg).symtab

/-- A call is made with a table in which no symbol is deeper than the current
scope, when the calling visit started with such a table. -/
theorem invokes_scoped {p q : Visit} {k : SemanticAnalyzer → SemanticAnalyzer}
    (h : Invokes p q k) (hs : Scoped p.state.symtab) :
    Scoped q.state.symtab := by
  cases h with
  | node_children a ty text dt ln fc ns h1 h2 => exact hs
  | node_function a text dt ln fc ns => exact hs
  | node_var_decl a text dt ln fc ns => exact hs
  | nodes_head a ty text dt ln fc ns => exact hs
  | nodes_next a ty text dt ln fc ns =>
    exact (scoped_analyze_node _ _ (le_refl _)).1 a hs
  | func_body a ty text dt ln fc ns func fi hl hf hb =>
    exact function_entry_scoped a func fi ln hs
  | stmts_head a ty text dt ln fc ns => exact hs
  | stmts_next a ty text dt ln fc ns =>
    exact (analyze_stmt_framed a _ hs).scoped hs
  | stmt_var_decl a text dt ln fc ns => exact hs
  | stmt_block a text dt ln fc ns => exact scoped_enter_scope hs
  | if_cond a ty text dt ln fc ns hty hc => exact hs
  | if_then a ty text dt ln fc ns hty hc =>
    simp only [Visit.state] at hs ⊢
    rw [if_cond_state_symtab]
    exact hs
  | if_else a text dt ln fc ns hc =>
    simp only [Visit.state] at hs ⊢
    have h1 : Scoped (if_cond_state a (.node AST_IF_ELSE text dt ln fc ns) ln).symtab := by
      rw [if_cond_state_symtab]
      exact hs
    exact (analyze_stmt_framed _ _ h1).scoped h1
  | while_cond a text dt ln fc ns hc => exact hs
  | while_body a text dt ln fc ns hc =>
    simp only [Visit.state] at hs ⊢
    rw [while_cond_state_symtab]
    exact hs
  | for_init a text dt ln fc ns hc => exact scoped_enter_scope hs
  | for_cond a text dt ln fc ns hc =>
    exact (for_init_state_framed a _ hs).scoped (scoped_enter_scope hs)
  | for_update a text dt ln fc ns hc =>
    simp only [Visit.state] at hs ⊢
    rw [for_cond_state_symtab]
    exact (for_init_state_framed a _ hs).scoped (scoped_enter_scope hs)
  | for_body a text dt ln fc ns hc =>
    simp only [Visit.state] at hs ⊢
    rw [for_update_state_symtab]
    exact (for_init_state_framed a _ hs).scoped (scoped_enter_scope hs)
  | return_value a text dt ln fc ns hfc => exact hs
  | stmt_expression a text dt ln fc ns hfc => exact hs
  | stmt_assignment a text dt ln fc ns => exact hs
  | stmt_other a ty text dt ln fc ns h1 h2 h3 h4 h5 h6 h7 h8 h9 => exact hs
  | decl_init a ty text dt ln fc ns sym table hv hc hd hfc =>
    simp only [Visit.state] at hs ⊢
    have := scoped_declare a.symtab (cstr text) SYMBOL_VARIABLE (datatype_from_string dt) ln hs
    rw [hd] at this
    exact this
  | assign_right a text dt ln fc ns sym hid hl => exact hs
  | binary_left a text dt ln fc ns => exact hs
  | binary_right a text dt ln fc ns =>
    simp only [Visit.state] at hs ⊢
    rw [(analyze_expression_keeps a _).symtab]
    exact hs
  | unary_operand a text dt ln fc ns => exact hs
  | call_arguments a text dt ln fc ns func fi hl hk hf harg => exact hs
  | expr_inner a text dt ln fc ns hfc => exact hs
  | args_head a f fi line k ty text dt ln fc ns => exact hs
  | args_next a f fi line k ty text dt ln fc ns =>
    simp only [Visit.state] at hs ⊢
    rw [arg_checked_symtab]
    exact hs

/-- Every visit of the analysis of a program starts with a table in which no
symbol is deeper than the current scope. -/
theorem visited_scoped (program : ASTNode) {v : Visit}
    {rest : SemanticAnalyzer → SemanticAnalyzer} (h : Visited program v rest) :
    Scoped v.state.symtab := by
  induction h with
  | root => exact scoped_collect_functions program
  | call _ hstep ih => exact invokes_scoped hstep ih

theorem lookup_current_scope_congr (t u : SymbolTable) (name : String)
    (hl : u.scope_level = t.scope_level)
    (hb : u.buckets (hash_string name) = t.buckets (hash_string name)) :
    symbol_lookup_current_scope u name = symbol_lookup_current_scope t name := by
  unfold symbol_lookup_current_scope
  rw [hl, hb]

theorem analyze_var_decl_keeps_symbol (v : String) (a : SemanticAnalyzer) (node : ASTNode)
    (e : Symbol) (he : symbol_lookup_current_scope a.symtab v = some e) :
    symbol_lookup_current_scope (analyze_var_decl a node).symtab v = some e := by
  cases node with
  | null => exact he
  | node ty text dt ln fc ns =>
    by_cases hv : datatype_from_string dt = TYPE_VOID
    · simp only [analyze_var_decl, if_pos hv]
      rw [(semantic_error_errOnly _ _ _).symtab]
      exact he
    · cases hc : symbol_lookup_current_scope a.symtab (cstr text) with
      | some ex =>
        simp only [analyze_var_decl, if_neg hv, hc]
        rw [(semantic_error_errOnly _ _ _).symtab]
        exact he
      | none =>
        have hne : v ≠ cstr text := by
          intro h
          rw [h, hc] at he
          cases he
        rw [analyze_var_decl_symtab a ty text dt ln fc ns hv hc,
          lookup_current_scope_declare_other _ _ _ _ _ _ hne]
        exact he

/-- A statement keeps the symbol a name has at the current scope level: a
declaration in the same scope is of another name or is rejected, and what is
declared in an inner scope is dropped when that scope is left. -/
theorem analyze_statement_keeps_symbol (v : String) :
    ∀ (n : Nat) (node : ASTNode), node.size ≤ n →
      (∀ a e, Scoped a.symtab → symbol_lookup_current_scope a.symtab v = some e →
        symbol_lookup_current_scope (analyze_statement a node).symtab v = some e) ∧
      (∀ a e, Scoped a.symtab → symbol_lookup_current_scope a.symtab v = some e →
        symbol_lookup_current_scope (analyze_stmts a node).symtab v = some e) := by
  intro n
  induction n with
  | zero =>
    intro node hn
    cases node with
    | null =>
      constructor
      · intro a e _ he
        rw [analyze_statement]
        exact he
      · intro a e _ he
        rw [analyze_stmts]
        exact he
    | node ty text dt ln fc ns => simp only [ASTNode.size] at hn; omega
  | succ n ih =>
    intro node hn
    cases node with
    | null =>
      constructor
      · intro a e _ he
        rw [analyze_statement]
        exact he
      · intro a e _ he
        rw [analyze_stmts]
        exact he
    | node ty text dt ln fc ns =>
      have hchild : ∀ k a e, Scoped a.symtab →
          symbol_lookup_current_scope a.symtab v = some e →
          symbol_lookup_current_scope
            (analyze_statement a (get_child (.node ty text dt ln fc ns) k)).symtab v = some e := by
        intro k
        have := get_child_size ty text dt ln fc ns k
        exact (ih _ (by omega)).1
      have hfc : fc.size ≤ n := by simp only [ASTNode.size] at hn; omega
      have hns : ns.size ≤ n := by simp only [ASTNode.size] at hn; omega
      have hif : ∀ a e, Scoped a.symtab → symbol_lookup_current_scope a.symtab v = some e →
          symbol_lookup_current_scope (analyze_if a (.node ty text dt ln fc ns)).symtab v
            = some e := by
        intro a e h0 he
        rw [analyze_if_phases]
        have h1 : Scoped (if_cond_state a (.node ty text dt ln fc ns) ln).symtab := by
          rw [if_cond_state_symtab]
          exact h0
        have h2 : symbol_lookup_current_scope
            (if_cond_state a (.node ty text dt ln fc ns) ln).symtab v = some e := by
          rw [if_cond_state_symtab]
          exact he
        have h3 := hchild 1 _ e h1 h2
        unfold if_branches
        split
        · exact hchild 2 _ e ((analyze_stmt_framed _ _ h1).scoped h1) h3
        · exact h3
      have hstmt : ∀ a e, Scoped a.symtab → symbol_lookup_current_scope a.symtab v = some e →
          symbol_lookup_current_scope (analyze_statement a (.node ty text dt ln fc ns)).symtab v
            = some e := by
        intro a e h0 he
        cases ty
        case AST_VAR_DECL =>
          simp only [analyze_statement]
          exact analyze_var_decl_keeps_symbol v a _ e he
        case AST_BLOCK =>
          simp only [analyze_statement, analyze_block]
          obtain ⟨k1, k2⟩ := enter_exit_restores a _ h0
            (analyze_stmts_framed
              { a with symtab := symbol_enter_scope a.symtab, enter_calls := a.enter_calls + 1 }
              fc (scoped_enter_scope h0))
          rw [lookup_current_scope_congr a.symtab _ v k1 (k2 _ (hash_string_lt v))]
          exact he
        case AST_IF =>
          simp only [analyze_statement]
          exact hif a e h0 he
        case AST_IF_ELSE =>
          simp only [analyze_statement]
          exact hif a e h0 he
        case AST_WHILE =>
          simp only [analyze_statement]
          rw [analyze_while_phases, while_rest]
          have h1 : Scoped ({ while_cond_state a (.node AST_WHILE text dt ln fc ns) ln with
              in_loop := true } : SemanticAnalyzer).symtab := by
            simp only [while_cond_state_symtab]
            exact h0
          have h2 : symbol_lookup_current_scope
              ({ while_cond_state a (.node AST_WHILE text dt ln fc ns) ln with
                in_loop := true } : SemanticAnalyzer).symtab v = some e := by
            simp only [while_cond_state_symtab]
            exact he
          exact hchild 1 _ e h1 h2
        case AST_FOR =>
          simp only [analyze_statement]
          obtain ⟨k1, k2⟩ := analyze_for_restores a AST_FOR text dt ln fc ns h0
          rw [lookup_current_scope_congr a.symtab _ v k1 (k2 _ (hash_string_lt v))]
          exact he
        case AST_RETURN =>
          simp only [analyze_statement]
          rw [(analyze_return_errOnly a _).symtab]
          exact he
        case AST_EXPR_STATEMENT =>
          simp only [analyze_statement]
          split
          · exact he
          · rw [(analyze_expression_keeps a fc).symtab]
            exact he
        case AST_ASSIGNMENT =>
          simp only [analyze_statement]
          rw [(analyze_expression_keeps a _).symtab]
          exact he
        all_goals
          simp only [analyze_statement]
          exact (ih _ hfc).2 a e h0 he
      refine ⟨hstmt, ?_⟩
      intro a e h0 he
      simp only [analyze_stmts]
      exact (ih _ hns).2 _ e ((analyze_stmt_framed a _ h0).scoped h0) (hstmt a e h0 he)

theorem state_before_succ (k : Nat) :
    ∀ (stmt : ASTNode) (a : SemanticAnalyzer),
      state_before (k + 1) stmt a = analyze_statement (state_before k stmt a) (sibling_at k stmt) := by
  induction k with
  | zero =>
    intro stmt a
    cases stmt with
    | null =>
      simp only [state_before, sibling_at]
      rw [analyze_statement]
    | node ty text dt ln fc ns => simp only [state_before, sibling_at]
  | succ k ih =>
    intro stmt a
    cases stmt with
    | null =>
      simp only [state_before, sibling_at]
      rw [analyze_statement]
    | node ty text dt ln fc ns =>
      rw [state_before, ih]
      simp only [state_before, sibling_at]

theorem state_before_diagnosed (k : Nat) (stmt : ASTNode) (a : SemanticAnalyzer) :
    Diagnosed a (state_before k stmt a) := by
  induction k with
  | zero => exact Diagnosed.start a
  | succ k ih =>
    rw [state_before_succ]
    exact ih.diag_trans (analyze_statement_diag _ _)

/-- The loop keeps the diagnostics recorded, the scope discipline, and the
symbol a name has at the current level, from one statement to a later one. -/
theorem state_before_later (v : String) (stmt : ASTNode) (a : SemanticAnalyzer)
    (hs : Scoped a.symtab) (i : Nat) :
    ∀ m, Diagnosed (state_before i stmt a) (state_before (i + m) stmt a) ∧
      Scoped (state_before (i + m) stmt a).symtab ∧
      ∀ e, symbol_lookup_current_scope (state_before i stmt a).symtab v = some e →
        symbol_lookup_current_scope (state_before (i + m) stmt a).symtab v = some e := by
  intro m
  induction m with
  | zero =>
    exact ⟨Diagnosed.start _, (state_before_framed i stmt a hs).scoped hs, fun _ h => h⟩
  | succ m ih =>
    obtain ⟨h1, h2, h3⟩ := ih
    rw [← Nat.add_assoc, state_before_succ]
    refine ⟨h1.diag_trans (analyze_statement_diag _ _), (analyze_stmt_framed _ _ h2).scoped h2, ?_⟩
    intro e he
    exact (analyze_statement_keeps_symbol v _ _ (le_refl _)).1 _ e h2 (h3 e he)

theorem semantic_error_records (a : SemanticAnalyzer) (line : Int) (msg : String)
    (hroom : a.errors.length < MAX_SEMANTIC_ERRORS) :
    (semantic_error a line msg).errors ≠ a.errors := by
  intro h
  have h1 := semantic_error_length a line msg
  rw [h, if_pos hroom] at h1
  omega

theorem diagnosed_length {a b : SemanticAnalyzer} (h : Diagnosed a b) :
    a.errors.length ≤ b.errors.length := by
  obtain ⟨es, he⟩ := h.appends
  rw [he, List.length_append]
  omega

/-- A declaration that records nothing, with room in the diagnostic array,
has declared its name: afterwards the name is found at the current level, as
the symbol made for this declaration. -/
theorem analyze_var_decl_quiet (a : SemanticAnalyzer) (ty : ASTNodeType)
    (text dt : Option String) (ln : Int) (fc ns : ASTNode)
    (hroom : a.errors.length < MAX_SEMANTIC_ERRORS)
    (hq : (analyze_var_decl a (.node ty text dt ln fc ns)).errors = a.errors) :
    datatype_from_string dt ≠ TYPE_VOID ∧
    symbol_lookup_current_scope a.symtab (cstr text) = none ∧
    symbol_lookup_current_scope (analyze_var_decl a (.node ty text dt ln fc ns)).symtab
        (cstr text) =
      some (declared_symbol a.symtab (cstr text) SYMBOL_VARIABLE (datatype_from_string dt) ln) := by
  by_cases hv : datatype_from_string dt = TYPE_VOID
  · simp only [analyze_var_decl, if_pos hv] at hq
    exact absurd hq (semantic_error_records _ _ _ hroom)
  · cases hc : symbol_lookup_current_scope a.symtab (cstr text) with
    | some ex =>
      simp only [analyze_var_decl, if_neg hv, hc] at hq
      exact absurd hq (semantic_error_records _ _ _ hroom)
    | none =>
      refine ⟨hv, rfl, ?_⟩
      rw [analyze_var_decl_symtab a ty text dt ln fc ns hv hc]
      exact lookup_current_scope_declare _ _ _ _ _ hc

theorem errOnly_eq {a b : SemanticAnalyzer} (h : ErrOnly a b) (hq : b.errors = a.errors) :
    b = a := by
  obtain ⟨h1, h2, h3, h4, h5, _⟩ := h
  cases a
  cases b
  simp only at h1 h2 h3 h4 h5 hq
  subst h1 h2 h3 h4 h5 hq
  rfl

theorem quiet_split {a b c : SemanticAnalyzer} (d1 : Diagnosed a b) (d2 : Diagnosed b c)
    (h : c.errors = a.errors) : b.errors = a.errors ∧ c.errors = b.errors := by
  obtain ⟨e1, h1⟩ := d1.appends
  obtain ⟨e2, h2⟩ := d2.appends
  rw [h2, h1, List.append_assoc] at h
  have h3 : e1 ++ e2 = [] := by
    have := congrArg List.length h
    simp only [List.length_append] at this
    apply List.eq_nil_of_length_eq_zero
    simp only [List.length_append]
    omega
  obtain ⟨h4, h5⟩ := List.append_eq_nil.mp h3
  subst h4 h5
  simp only [List.append_nil] at h1 h2
  exact ⟨h1, h2⟩

theorem semantic_error_quiet_absurd {a b : SemanticAnalyzer} (line : Int) (msg : String)
    (d : Diagnosed a b) (hroom : a.errors.length < MAX_SEMANTIC_ERRORS)
    (h : (semantic_error b line msg).errors = a.errors) : False := by
  obtain ⟨h1, h2⟩ := quiet_split d (semantic_error_diagnosed b line msg) h
  have h3 := semantic_error_length b line msg
  rw [h2, h1, if_pos hroom] at h3
  omega

/-- An expression whose analysis records nothing leaves the analyzer as it
was. -/
theorem expr_quiet_eq (a : SemanticAnalyzer) (node : ASTNode)
    (hq : (analyze_expression a node).2.errors = a.errors) :
    (analyze_expression a node).2 = a :=
  errOnly_eq (analyze_expression_keeps a node) hq

theorem args_quiet_eq (a : SemanticAnalyzer) (f : String) (fi : FunctionInfo) (line : Int)
    (k : Nat) (node : ASTNode)
    (hq : (analyze_args a f fi line k node).2.errors = a.errors) :
    (analyze_args a f fi line k node).2 = a :=
  errOnly_eq ((analyze_expression_errOnly node.size node (le_refl _)).2 a f fi line k) hq

/-- An expression whose analysis records nothing, with room in the diagnostic
array, is analyzed in the same way whatever diagnostics are recorded before:
it has the same type and again records nothing. -/
theorem analyze_expression_transfers :
    ∀ (n : Nat) (node : ASTNode), node.size ≤ n →
      (∀ a e, a.errors.length < MAX_SEMANTIC_ERRORS →
        (analyze_expression a node).2.errors = a.errors →
        analyze_expression { a with errors := e } node =
          ((analyze_expression a node).1, { a with errors := e })) ∧
      (∀ a e func_name fi line k, a.errors.length < MAX_SEMANTIC_ERRORS →
        (analyze_args a func_name fi line k node).2.errors = a.errors →
        analyze_args { a with errors := e } func_name fi line k node =
          ((analyze_args a func_name fi line k node).1, { a with errors := e })) := by
  intro n
  induction n with
  | zero =>
    intro node hn
    cases node with
    | null =>
      constructor
      · intro a e _ _
        rw [analyze_expression, analyze_expression]
      · intro a e f fi line k _ _
        rw [analyze_args, analyze_args]
    | node ty text dt ln fc ns => simp only [ASTNode.size] at hn; omega
  | succ n ih =>
    intro node hn
    cases node with
    | null =>
      constructor
      · intro a e _ _
        rw [analyze_expression, analyze_expression]
      · intro a e f fi line k _ _
        rw [analyze_args, analyze_args]
    | node ty text dt ln fc ns =>
      have hchild : ∀ k a e, a.errors.length < MAX_SEMANTIC_ERRORS →
          (analyze_expression a (get_child (.node ty text dt ln fc ns) k)).2.errors = a.errors →
          analyze_expression { a with errors := e } (get_child (.node ty text dt ln fc ns) k) =
            ((analyze_expression a (get_child (.node ty text dt ln fc ns) k)).1,
              { a with errors := e }) := by
        intro k
        have := get_child_size ty text dt ln fc ns k
        exact (ih _ (by omega)).1
      have hfc : fc.size ≤ n := by simp only [ASTNode.size] at hn; omega
      have hns : ns.size ≤ n := by simp only [ASTNode.size] at hn; omega
      have hexpr : ∀ a e, a.errors.length < MAX_SEMANTIC_ERRORS →
          (analyze_expression a (.node ty text dt ln fc ns)).2.errors = a.errors →
          analyze_expression { a with errors := e } (.node ty text dt ln fc ns) =
            ((analyze_expression a (.node ty text dt ln fc ns)).1, { a with errors := e }) := by
        intro a e hroom hq
        cases ty
        case AST_IDENTIFIER =>
          cases hl : symbol_lookup a.symtab (cstr text) with
          | none =>
            simp only [analyze_expression, hl] at hq
            exact (semantic_error_quiet_absurd _ _ (Diagnosed.start a) hroom hq).elim
          | some sym =>
            by_cases hk : sym.kind = SYMBOL_FUNCTION
            · simp only [analyze_expression, hl, hk, if_true] at hq
              exact (semantic_error_quiet_absurd _ _ (Diagnosed.start a) hroom hq).elim
            · simp only [analyze_expression, hl, hk, if_false]
        case AST_ASSIGNMENT =>
          by_cases hi : (get_child (.node AST_ASSIGNMENT text dt ln fc ns) 0).is AST_IDENTIFIER
              = true
          · cases hl : symbol_lookup a.symtab
                (cstr (get_child (.node AST_ASSIGNMENT text dt ln fc ns) 0).text) with
            | none =>
              simp only [analyze_expression, hi, hl, not_true_eq_false, if_false] at hq
              exact (semantic_error_quiet_absurd _ _ (Diagnosed.start a) hroom hq).elim
            | some sym =>
              obtain ⟨rt, a1, hR⟩ : ∃ rt a1, analyze_expression a
                  (get_child (.node AST_ASSIGNMENT text dt ln fc ns) 1) = (rt, a1) := ⟨_, _, rfl⟩
              have d1 := analyze_expression_diag a
                (get_child (.node AST_ASSIGNMENT text dt ln fc ns) 1)
              rw [hR] at d1
              simp only [analyze_expression, hi, hl, hR, not_true_eq_false, if_false] at hq
              by_cases hc : types_compatible sym.type rt = true
              · simp only [hc, if_true] at hq
                have h1 := expr_quiet_eq a (get_child (.node AST_ASSIGNMENT text dt ln fc ns) 1)
                  (by rw [hR]; exact hq)
                rw [hR] at h1
                simp only at h1
                subst h1
                have h2 := hchild 1 a1 e hroom (by rw [hR])
                rw [hR] at h2
                simp only [analyze_expression, hi, hl, hR, h2, hc, not_true_eq_false, if_false,
                  if_true]
              · simp only [hc, if_false] at hq
                exact (semantic_error_quiet_absurd _ _ d1 hroom hq).elim
          · simp only [analyze_expression, hi, not_false_eq_true, if_true] at hq
            exact (semantic_error_quiet_absurd _ _ (Diagnosed.start a) hroom hq).elim
        case AST_BINARY_EXPR =>
          obtain ⟨lt, a1, hL⟩ : ∃ lt a1, analyze_expression a
              (get_child (.node AST_BINARY_EXPR text dt ln fc ns) 0) = (lt, a1) := ⟨_, _, rfl⟩
          obtain ⟨rt, a2, hR⟩ : ∃ rt a2, analyze_expression a1
              (get_child (.node AST_BINARY_EXPR text dt ln fc ns) 1) = (rt, a2) := ⟨_, _, rfl⟩
          have d1 := analyze_expression_diag a
            (get_child (.node AST_BINARY_EXPR text dt ln fc ns) 0)
          rw [hL] at d1
          have d2 := analyze_expression_diag a1
            (get_child (.node AST_BINARY_EXPR text dt ln fc ns) 1)
          rw [hR] at d2
          simp only [analyze_expression, hL, hR] at hq
          by_cases c1 : lt = TYPE_VOID ∨ rt = TYPE_VOID
          · simp only [c1, if_true] at hq
            exact (semantic_error_quiet_absurd _ _ (d1.diag_trans d2) hroom hq).elim
          · by_cases c2 : types_compatible lt rt = true
            · simp only [c1, c2, if_false, not_true_eq_false] at hq
              have q : a2.errors = a.errors := by
                split at hq <;> exact hq
              obtain ⟨q1, q2⟩ := quiet_split d1 d2 q
              have h1 := expr_quiet_eq a (get_child (.node AST_BINARY_EXPR text dt ln fc ns) 0)
                (by rw [hL]; exact q1)
              rw [hL] at h1
              simp only at h1
              subst h1
              have h2 := expr_quiet_eq a1 (get_child (.node AST_BINARY_EXPR text dt ln fc ns) 1)
                (by rw [hR]; exact q2)
              rw [hR] at h2
              simp only at h2
              subst h2
              have k1 := hchild 0 a2 e hroom (by rw [hL])
              rw [hL] at k1
              have k2 := hchild 1 a2 e hroom (by rw [hR])
              rw [hR] at k2
              simp only [analyze_expression, hL, hR, k1, k2, c1, c2, if_false, not_true_eq_false]
              split <;> rfl
            · simp only [c1, c2, if_false, not_false_eq_true, if_true] at hq
              exact (semantic_error_quiet_absurd _ _ (d1.diag_trans d2) hroom hq).elim
        case AST_UNARY_EXPR =>
          obtain ⟨ot, a1, hO⟩ : ∃ ot a1, analyze_expression a
              (get_child (.node AST_UNARY_EXPR text dt ln fc ns) 0) = (ot, a1) := ⟨_, _, rfl⟩
          have d1 := analyze_expression_diag a
            (get_child (.node AST_UNARY_EXPR text dt ln fc ns) 0)
          rw [hO] at d1
          simp only [analyze_expression, hO] at hq
          by_cases c1 : ot = TYPE_VOID
          · simp only [c1, if_true] at hq
            exact (semantic_error_quiet_absurd _ _ d1 hroom hq).elim
          · simp only [c1, if_false] at hq
            have h1 := expr_quiet_eq a (get_child (.node AST_UNARY_EXPR text dt ln fc ns) 0)
              (by rw [hO]; exact hq)
            rw [hO] at h1
            simp only at h1
            subst h1
            have k1 := hchild 0 a1 e hroom (by rw [hO])
            rw [hO] at k1
            simp only [analyze_expression, hO, k1, c1, if_false]
        case AST_FUNCTION_CALL =>
          have hargs : ∀ a e f fi line k, a.errors.length < MAX_SEMANTIC_ERRORS →
              (analyze_args a f fi line k
                (get_child (.node AST_FUNCTION_CALL text dt ln fc ns) 0).first_child).2.errors
                = a.errors →
              analyze_args { a with errors := e } f fi line k
                  (get_child (.node AST_FUNCTION_CALL text dt ln fc ns) 0).first_child =
                ((analyze_args a f fi line k
                  (get_child (.node AST_FUNCTION_CALL text dt ln fc ns) 0).first_child).1,
                  { a with errors := e }) := by
            have h1 := get_child_size AST_FUNCTION_CALL text dt ln fc ns 0
            have h2 := first_child_size_le (get_child (.node AST_FUNCTION_CALL text dt ln fc ns) 0)
            exact (ih _ (by omega)).2
          cases hl : symbol_lookup a.symtab (cstr text) with
          | none =>
            simp only [analyze_expression, hl] at hq
            exact (semantic_error_quiet_absurd _ _ (Diagnosed.start a) hroom hq).elim
          | some func =>
            by_cases hk : func.kind = SYMBOL_FUNCTION
            · cases hf : func.func_info with
              | none =>
                simp only [analyze_expression, hl, hk, hf, ne_eq, not_true_eq_false, if_false]
              | some fi =>
                by_cases hb : (get_child (.node AST_FUNCTION_CALL text dt ln fc ns) 0).is
                    AST_ARGUMENT_LIST = true
                · obtain ⟨m, a1, hA⟩ : ∃ m a1, analyze_args a (cstr text) fi ln 0
                      (get_child (.node AST_FUNCTION_CALL text dt ln fc ns) 0).first_child
                      = (m, a1) := ⟨_, _, rfl⟩
                  have d1 := analyze_args_diag a (cstr text) fi ln 0
                    (get_child (.node AST_FUNCTION_CALL text dt ln fc ns) 0).first_child
                  rw [hA] at d1
                  simp only [analyze_expression, hl, hk, hf, hb, hA, ne_eq, not_true_eq_false,
                    if_false, if_true] at hq
                  by_cases hc : (m : Int) = fi.param_count
                  · simp only [hc, not_true_eq_false, if_false] at hq
                    have h1 := args_quiet_eq a (cstr text) fi ln 0
                      (get_child (.node AST_FUNCTION_CALL text dt ln fc ns) 0).first_child
                      (by rw [hA]; exact hq)
                    rw [hA] at h1
                    simp only at h1
                    subst h1
                    have k1 := hargs a1 e (cstr text) fi ln 0 hroom (by rw [hA])
                    rw [hA] at k1
                    simp only [analyze_expression, hl, hk, hf, hb, hA, k1, hc, ne_eq,
                      not_true_eq_false, if_false, if_true]
                  · simp only [hc, not_false_eq_true, if_true] at hq
                    exact (semantic_error_quiet_absurd _ _ d1 hroom hq).elim
                · simp only [analyze_expression, hl, hk, hf, hb, ne_eq, not_true_eq_false,
                    if_false, Bool.false_eq_true] at hq ⊢
                  by_cases hc : ((0 : Nat) : Int) = fi.param_count
                  · simp only [hc, not_true_eq_false, if_false]
                  · simp only [hc, not_false_eq_true, if_true] at hq
                    exact (semantic_error_quiet_absurd _ _ (Diagnosed.start a) hroom hq).elim
            · simp only [analyze_expression, hl, hk, ne_eq, not_false_eq_true, if_true] at hq
              exact (semantic_error_quiet_absurd _ _ (Diagnosed.start a) hroom hq).elim
        case AST_EXPR_STATEMENT =>
          by_cases hfn : fc = .null
          · simp only [analyze_expression, hfn, if_true]
          · simp only [analyze_expression, hfn, if_false] at hq ⊢
            have k1 := (ih _ hfc).1 a e hroom hq
            rw [k1]
        all_goals
          simp only [analyze_expression]
      refine ⟨hexpr, ?_⟩
      intro a e f fi line k hroom hq
      obtain ⟨t, a1, hE⟩ : ∃ t a1, analyze_expression a (.node ty text dt ln fc ns) = (t, a1) :=
        ⟨_, _, rfl⟩
      have d1 := analyze_expression_diag a (.node ty text dt ln fc ns)
      rw [hE] at d1
      rw [analyze_args_next, arg_checked, hE] at hq
      simp only at hq
      have d2 := arg_compared_diag a1 f fi line k t
      have d3 := analyze_args_diag (arg_compared a1 f fi line k t) f fi line (k + 1) ns
      obtain ⟨q12, q3⟩ := quiet_split (d1.diag_trans d2) d3 hq
      obtain ⟨q1, q2⟩ := quiet_split d1 d2 q12
      have h1 := expr_quiet_eq a (.node ty text dt ln fc ns) (by rw [hE]; exact q1)
      rw [hE] at h1
      simp only at h1
      subst h1
      have k1 := hexpr a1 e hroom (by rw [hE])
      rw [hE] at k1
      have hcmp : ∀ r, arg_compared r f fi line k t = r := by
        intro r
        unfold arg_compared at q2 ⊢
        split
        · rename_i nm expected hp
          simp only [hp] at q2
          by_cases hc : types_compatible expected t = true
          · simp only [hc, if_true]
          · simp only [hc, if_false] at q2
            exact (semantic_error_quiet_absurd _ _ (Diagnosed.start a1) hroom q2).elim
        · rfl
      rw [hcmp] at q3
      have k3 := (ih _ hns).2 a1 e f fi line (k + 1) hroom q3
      rw [analyze_args_next, analyze_args_next a1, arg_checked, arg_checked, k1, hE]
      simp only [hcmp]
      exact k3

theorem transfers_id : Transfers (fun r => r) := fun _ _ _ _ => rfl

theorem Transfers.comp {f g : SemanticAnalyzer → SemanticAnalyzer} (hf : Transfers f)
    (hg : Transfers g) (df : ∀ a, Diagnosed a (f a)) (dg : ∀ a, Diagnosed a (g a)) :
    Transfers (fun r => g (f r)) := by
  intro a e hroom hq
  obtain ⟨q1, q2⟩ := quiet_split (df a) (dg (f a)) hq
  have h1 := hf a e hroom q1
  have hroom2 : (f a).errors.length < MAX_SEMANTIC_ERRORS := by rw [q1]; exact hroom
  have h2 := hg (f a) e hroom2 q2
  simp only [h1, h2]

theorem Transfers.of_eq {f g : SemanticAnalyzer → SemanticAnalyzer} (hf : Transfers f)
    (h : ∀ r, g r = f r) : Transfers g := by
  intro a e hroom hq
  rw [h, h]
  rw [h] at hq
  exact hf a e hroom hq

/-- A test that reports a failure with `semantic_error` and otherwise goes on
with `g`. -/
theorem transfers_check (c : Prop) [Decidable c] (line : Int) (msg : String)
    {g : SemanticAnalyzer → SemanticAnalyzer} (hg : Transfers g) :
    Transfers (fun r => if c then semantic_error r line msg else g r) := by
  intro a e hroom hq
  by_cases hc : c
  · simp only [hc, if_true] at hq
    exact (semantic_error_quiet_absurd _ _ (Diagnosed.start a) hroom hq).elim
  · simp only [hc, if_false] at hq ⊢
    exact hg a e hroom hq

theorem condition_checked_transfers (t : DataType) (line : Int) (msg : String) :
    Transfers (fun r => condition_checked r t line msg) :=
  transfers_check (t = TYPE_VOID) line msg transfers_id

theorem return_checked_transfers (expected actual : DataType) (ln : Int) :
    Transfers (fun r => return_checked r expected actual ln) :=
  transfers_check _ ln _ (transfers_check _ ln _ (transfers_check _ ln _ transfers_id))

theorem init_checked_transfers (name : String) (vt it : DataType) (line : Int) :
    Transfers (fun r => init_checked r name vt it line) :=
  transfers_check _ line _ transfers_id

theorem binary_checked_transfers (lt rt : DataType) (ln : Int) :
    Transfers (fun r => binary_checked r lt rt ln) :=
  transfers_check _ ln _ (transfers_check _ ln _ transfers_id)

theorem unary_checked_transfers (t : DataType) (ln : Int) :
    Transfers (fun r => unary_checked r t ln) :=
  transfers_check _ ln _ transfers_id

theorem arity_checked_transfers (f : String) (fi : FunctionInfo) (m : Nat) (ln : Int) :
    Transfers (fun r => arity_checked r f fi m ln) :=
  transfers_check _ ln _ transfers_id

theorem assign_checked_transfers (name : String) (st rt : DataType) (ln : Int) :
    Transfers (fun r => assign_checked r name st rt ln) := by
  intro a e hroom hq
  by_cases hc : types_compatible st rt = true
  · simp only [assign_checked, hc, if_true]
  · simp only [assign_checked, hc, if_false] at hq
    exact (semantic_error_quiet_absurd _ _ (Diagnosed.start a) hroom hq).elim

theorem arg_compared_transfers (f : String) (fi : FunctionInfo) (line : Int) (k : Nat)
    (t : DataType) : Transfers (fun r => arg_compared r f fi line k t) := by
  intro a e hroom hq
  simp only [arg_compared] at hq ⊢
  split
  · rename_i nm expected hp
    simp only [hp] at hq
    by_cases hc : types_compatible expected t = true
    · simp only [hc, if_true]
    · simp only [hc, if_false] at hq
      exact (semantic_error_quiet_absurd _ _ (Diagnosed.start a) hroom hq).elim
  · rfl

theorem expression_transfers (node : ASTNode) :
    Transfers (fun r => (analyze_expression r node).2) := by
  intro a e hroom hq
  have h := (analyze_expression_transfers _ node (le_refl _)).1 a e hroom hq
  simp only [h, expr_quiet_eq a node hq]

theorem expression_type_transfers (node : ASTNode) (a : SemanticAnalyzer)
    (e : List SemanticError) (hroom : a.errors.length < MAX_SEMANTIC_ERRORS)
    (hq : (analyze_expression a node).2.errors = a.errors) :
    (analyze_expression { a with errors := e } node).1 = (analyze_expression a node).1 := by
  rw [(analyze_expression_transfers _ node (le_refl _)).1 a e hroom hq]

theorem args_transfers (f : String) (fi : FunctionInfo) (line : Int) (k : Nat) (node : ASTNode) :
    Transfers (fun r => (analyze_args r f fi line k node).2) := by
  intro a e hroom hq
  have h := (analyze_expression_transfers _ node (le_refl _)).2 a e f fi line k hroom hq
  simp only [h, args_quiet_eq a f fi line k node hq]

theorem condition_transfers (c : ASTNode) (line : Int) (msg : String) :
    Transfers (fun r => analyze_condition r c line msg) := by
  intro a e hroom hq
  beta_reduce at hq ⊢
  rw [analyze_condition_checked] at hq
  obtain ⟨q1, q2⟩ := quiet_split (analyze_expression_diag a c) (condition_checked_diag _ _ _ _) hq
  have h1 := (analyze_expression_transfers _ c (le_refl _)).1 a e hroom q1
  have h2 := expr_quiet_eq a c q1
  rw [h2] at q2
  have h3 := condition_checked_transfers (analyze_expression a c).1 line msg a e hroom q2
  simp only [analyze_condition_checked, h1, h2]
  exact h3

theorem analyze_return_checked (a : SemanticAnalyzer) (ty : ASTNodeType)
    (text dt : Option String) (ln : Int) (fc ns : ASTNode) (h : fc ≠ .null) :
    analyze_return a (.node ty text dt ln fc ns) =
      return_checked (analyze_expression a fc).2 a.current_return_type
        (analyze_expression a fc).1 ln := by
  simp only [analyze_return, if_neg h, return_checked]

theorem analyze_return_bare (a : SemanticAnalyzer) (ty : ASTNodeType)
    (text dt : Option String) (ln : Int) (ns : ASTNode) :
    analyze_return a (.node ty text dt ln .null ns) =
      return_checked a a.current_return_type TYPE_VOID ln := by
  simp only [analyze_return, if_true, return_checked]

theorem return_transfers (node : ASTNode) : Transfers (fun r => analyze_return r node) := by
  intro a e hroom hq
  beta_reduce at hq ⊢
  cases node with
  | null => rfl
  | node ty text dt ln fc ns =>
    by_cases hfc : fc = .null
    · subst hfc
      simp only [analyze_return_bare] at hq ⊢
      exact return_checked_transfers _ _ _ a e hroom hq
    · simp only [analyze_return_checked _ _ _ _ _ _ _ hfc] at hq ⊢
      obtain ⟨q1, q2⟩ := quiet_split (analyze_expression_diag a fc)
        (return_checked_diag _ _ _ _) hq
      have h1 := (analyze_expression_transfers _ fc (le_refl _)).1 a e hroom q1
      have h2 := expr_quiet_eq a fc q1
      rw [h2] at q2
      have h3 := return_checked_transfers a.current_return_type (analyze_expression a fc).1 ln
        a e hroom q2
      simp only [h1, h2]
      exact h3

theorem var_decl_transfers (node : ASTNode) : Transfers (fun r => analyze_var_decl r node) := by
  intro a e hroom hq
  beta_reduce at hq ⊢
  cases node with
  | null => rfl
  | node ty text dt ln fc ns =>
    by_cases hv : datatype_from_string dt = TYPE_VOID
    · simp only [analyze_var_decl, if_pos hv] at hq
      exact (semantic_error_quiet_absurd _ _ (Diagnosed.start a) hroom hq).elim
    · cases hc : symbol_lookup_current_scope a.symtab (cstr text) with
      | some ex =>
        simp only [analyze_var_decl, if_neg hv, hc] at hq
        exact (semantic_error_quiet_absurd _ _ (Diagnosed.start a) hroom hq).elim
      | none =>
        obtain ⟨h1, _, _⟩ := symbol_declare_of_none a.symtab (cstr text) SYMBOL_VARIABLE
          (datatype_from_string dt) ln hc
        cases hd : symbol_declare a.symtab (cstr text) SYMBOL_VARIABLE
            (datatype_from_string dt) ln with
        | mk o table =>
          rw [hd] at h1
          simp only at h1
          subst h1
          by_cases hfc : fc = .null
          · simp only [analyze_var_decl, if_neg hv, hc, hd, if_pos hfc]
          · have hres := invokes_result
              (Invokes.decl_init a ty text dt ln fc ns _ table hv hc hd hfc)
            simp only [Visit.result] at hres
            rw [hres] at hq
            have d0 : Diagnosed a { a with symtab := table } := Diagnosed.diag_same rfl
            obtain ⟨q1, q2⟩ := quiet_split
              (d0.diag_trans (analyze_expression_diag { a with symtab := table } fc))
              (init_checked_diag _ _ _ _ _) hq
            have hroom1 : ({ a with symtab := table } : SemanticAnalyzer).errors.length
                < MAX_SEMANTIC_ERRORS := hroom
            have k1 := (analyze_expression_transfers _ fc (le_refl _)).1
              { a with symtab := table } e hroom1 q1
            have k2 := expr_quiet_eq { a with symtab := table } fc q1
            rw [k2] at q2
            have k3 := init_checked_transfers (cstr text) (datatype_from_string dt)
              (analyze_expression { a with symtab := table } fc).1 ln
              { a with symtab := table } e hroom1 q2
            have hres2 := invokes_result
              (Invokes.decl_init { a with errors := e } ty text dt ln fc ns _ table hv hc hd hfc)
            simp only [Visit.result] at hres2
            have k4 : analyze_expression
                { ({ a with errors := e } : SemanticAnalyzer) with symtab := table } fc =
                ((analyze_expression { a with symtab := table } fc).1,
                  { ({ a with symtab := table } : SemanticAnalyzer) with errors := e }) := k1
            rw [hres2, hres, k2, k4]
            exact k3

theorem declare_params_transfers (line : Int) (ps : List (String × DataType)) :
    Transfers (fun r => declare_params r line ps) := by
  induction ps with
  | nil => exact transfers_id
  | cons p rest ih =>
    obtain ⟨pname, ptype⟩ := p
    intro a e hroom hq
    cases hd : symbol_declare a.symtab pname SYMBOL_PARAMETER ptype line with
    | mk o table =>
      cases o with
      | none =>
        simp only [declare_params, hd] at hq
        have d0 : Diagnosed a { a with symtab := table } := Diagnosed.diag_same rfl
        have d1 := semantic_error_diagnosed { a with symtab := table } line
          ("Parametre '" ++ pname ++ "' birden fazla kez tanimlanmis")
        obtain ⟨q1, _⟩ := quiet_split (d0.diag_trans d1) (declare_params_diagnosed line rest _) hq
        exact (semantic_error_quiet_absurd _ _ d0 hroom q1).elim
      | some sym =>
        simp only [declare_params, hd] at hq ⊢
        exact ih { a with symtab := table } e hroom hq

theorem transfers_enter :
    Transfers (fun r =>
      { r with symtab := symbol_enter_scope r.symtab, enter_calls := r.enter_calls + 1 }) :=
  fun _ _ _ _ => rfl

theorem transfers_exit :
    Transfers (fun r =>
      { r with symtab := symbol_exit_scope r.symtab, exit_calls := r.exit_calls + 1 }) :=
  fun _ _ _ _ => rfl

theorem while_rest_transfers (node : ASTNode)
    (hb : Transfers (fun r => analyze_statement r (get_child node 1))) :
    Transfers (fun c => while_rest c node) := by
  intro c e hroom hq
  have k := hb { c with in_loop := true } e hroom hq
  simp only [while_rest] at k ⊢
  rw [k]

theorem for_after_update_transfers (node : ASTNode)
    (hb : Transfers (fun r => analyze_statement r (get_child node 3))) :
    Transfers (fun c => for_after_update c node) := by
  intro c e hroom hq
  have k := hb { c with in_loop := true } e hroom hq
  simp only [for_after_update] at k ⊢
  rw [k]

theorem transfers_ite (c : Prop) [Decidable c] {f : SemanticAnalyzer → SemanticAnalyzer}
    (hf : Transfers f) : Transfers (fun r => if c then f r else r) := by
  by_cases hc : c
  · exact hf.of_eq (fun r => by simp only [hc, if_true])
  · exact transfers_id.of_eq (fun r => by simp only [hc, if_false])

theorem diag_ite (c : Prop) [Decidable c] {f : SemanticAnalyzer → SemanticAnalyzer}
    (hf : ∀ r, Diagnosed r (f r)) : ∀ r, Diagnosed r (if c then f r else r) := by
  intro r
  split
  · exact hf r
  · exact Diagnosed.start r

theorem for_after_cond_transfers (node : ASTNode)
    (hb : Transfers (fun r => analyze_statement r (get_child node 3))) :
    Transfers (fun c => for_after_cond c node) := by
  have h1 : Transfers (fun r =>
      if get_child node 2 ≠ .null ∧ ¬ (get_child node 2).is AST_EMPTY then
        (analyze_expression r (get_child node 2)).2
      else r) := transfers_ite _ (expression_transfers _)
  exact (h1.comp (for_after_update_transfers node hb)
    (diag_ite _ (fun r => analyze_expression_diag r _))
    (fun r => for_after_update_diag r node)).of_eq (fun r => by simp only [for_after_cond])

theorem for_after_init_transfers (node : ASTNode) (ln : Int)
    (hb : Transfers (fun r => analyze_statement r (get_child node 3))) :
    Transfers (fun c => for_after_init c node ln) := by
  have h1 : Transfers (fun r =>
      if get_child node 1 ≠ .null ∧ ¬ (get_child node 1).is AST_EMPTY then
        analyze_condition r (get_child node 1) ln "For dongusu kosulu void olamaz"
      else r) := transfers_ite _ (condition_transfers _ _ _)
  exact (h1.comp (for_after_cond_transfers node hb)
    (diag_ite _ (fun r => analyze_condition_diagnosed r _ _ _))
    (fun r => for_after_cond_diag r node)).of_eq (fun r => by simp only [for_after_init])

theorem if_cond_state_transfers (node : ASTNode) (ln : Int) :
    Transfers (fun r => if_cond_state r node ln) := by
  by_cases hc : get_child node 0 = .null
  · exact transfers_id.of_eq (fun r => by simp only [if_cond_state, hc, if_true])
  · exact (condition_transfers (get_child node 0) ln "Kosul ifadesi void olamaz").of_eq
      (fun r => by simp only [if_cond_state, hc, if_false])

theorem if_cond_state_diag (a : SemanticAnalyzer) (node : ASTNode) (ln : Int) :
    Diagnosed a (if_cond_state a node ln) := by
  unfold if_cond_state
  split
  · exact Diagnosed.start a
  · exact analyze_condition_diagnosed _ _ _ _

theorem while_cond_state_transfers (node : ASTNode) (ln : Int) :
    Transfers (fun r => while_cond_state r node ln) := by
  by_cases hc : get_child node 0 = .null
  · exact transfers_id.of_eq (fun r => by simp only [while_cond_state, hc, if_true])
  · exact (condition_transfers (get_child node 0) ln "Dongu kosulu void olamaz").of_eq
      (fun r => by simp only [while_cond_state, hc, if_false])

theorem while_cond_state_diag (a : SemanticAnalyzer) (node : ASTNode) (ln : Int) :
    Diagnosed a (while_cond_state a node ln) := by
  unfold while_cond_state
  split
  · exact Diagnosed.start a
  · exact analyze_condition_diagnosed _ _ _ _

theorem if_branches_transfers (ty : ASTNodeType) (node : ASTNode)
    (h1 : Transfers (fun r => analyze_statement r (get_child node 1)))
    (h2 : Transfers (fun r => analyze_statement r (get_child node 2))) :
    Transfers (fun c => if_branches ty c node) := by
  by_cases hc : ty = AST_IF_ELSE
  · exact (h1.comp h2 (fun r => analyze_statement_diag r _)
      (fun r => analyze_statement_diag r _)).of_eq
        (fun r => by simp only [if_branches, hc, if_true])
  · exact h1.of_eq (fun r => by simp only [if_branches, hc, if_false])

theorem for_init_state_diag (a : SemanticAnalyzer) (node : ASTNode) :
    Diagnosed a (for_init_state a node) := by
  unfold for_init_state
  have h1 : Diagnosed a
      { a with symtab := symbol_enter_scope a.symtab, enter_calls := a.enter_calls + 1 } :=
    Diagnosed.diag_same rfl
  simp only
  split
  · exact h1.diag_trans (analyze_statement_diag _ _)
  · exact h1

/-- A statement whose analysis records nothing, with room in the diagnostic
array, is analyzed in the same way whatever diagnostics are recorded before
it. -/
theorem analyze_statement_transfers :
    ∀ (n : Nat) (node : ASTNode), node.size ≤ n →
      Transfers (fun r => analyze_statement r node) ∧
      Transfers (fun r => analyze_stmts r node) := by
  intro n
  induction n with
  | zero =>
    intro node hn
    cases node with
    | null =>
      constructor
      · exact transfers_id.of_eq (fun r => by rw [analyze_statement])
      · exact transfers_id.of_eq (fun r => by rw [analyze_stmts])
    | node ty text dt ln fc ns => simp only [ASTNode.size] at hn; omega
  | succ n ih =>
    intro node hn
    cases node with
    | null =>
      constructor
      · exact transfers_id.of_eq (fun r => by rw [analyze_statement])
      · exact transfers_id.of_eq (fun r => by rw [analyze_stmts])
    | node ty text dt ln fc ns =>
      have hchild : ∀ k,
          Transfers (fun r => analyze_statement r (get_child (.node ty text dt ln fc ns) k)) := by
        intro k
        have := get_child_size ty text dt ln fc ns k
        exact (ih _ (by omega)).1
      have hfc : fc.size ≤ n := by simp only [ASTNode.size] at hn; omega
      have hns : ns.size ≤ n := by simp only [ASTNode.size] at hn; omega
      have hif : Transfers (fun r => analyze_if r (.node ty text dt ln fc ns)) :=
        ((if_cond_state_transfers (.node ty text dt ln fc ns) ln).comp
          (if_branches_transfers ty (.node ty text dt ln fc ns) (hchild 1) (hchild 2))
          (fun r => if_cond_state_diag r _ ln)
          (fun r => if_branches_diag ty r _)).of_eq (fun r => analyze_if_phases r ty text dt ln fc ns)
      have hstmt : Transfers (fun r => analyze_statement r (.node ty text dt ln fc ns)) := by
        cases ty
        case AST_VAR_DECL =>
          exact (var_decl_transfers (.node AST_VAR_DECL text dt ln fc ns)).of_eq
            (fun r => by simp only [analyze_statement])
        case AST_BLOCK =>
          exact ((transfers_enter.comp (ih _ hfc).2 (fun r => Diagnosed.diag_same rfl)
            (fun r => analyze_stmts_diagnosed r fc)).comp transfers_exit
            (fun r => (Diagnosed.diag_same rfl : Diagnosed r
              { r with symtab := symbol_enter_scope r.symtab
                       enter_calls := r.enter_calls + 1 }).diag_trans
              (analyze_stmts_diagnosed _ fc))
            (fun r => Diagnosed.diag_same rfl)).of_eq
              (fun r => by simp only [analyze_statement, analyze_block])
        case AST_IF =>
          exact hif.of_eq (fun r => by simp only [analyze_statement])
        case AST_IF_ELSE =>
          exact hif.of_eq (fun r => by simp only [analyze_statement])
        case AST_WHILE =>
          exact ((while_cond_state_transfers (.node AST_WHILE text dt ln fc ns) ln).comp
            (while_rest_transfers (.node AST_WHILE text dt ln fc ns) (hchild 1))
            (fun r => while_cond_state_diag r _ ln)
            (fun r => while_rest_diag r _)).of_eq
              (fun r => by simp only [analyze_statement, analyze_while_phases])
        case AST_FOR =>
          have hinit : Transfers (fun r => for_init_state r (.node AST_FOR text dt ln fc ns)) := by
            by_cases hc : get_child (.node AST_FOR text dt ln fc ns) 0 ≠ .null ∧
                ¬ (get_child (.node AST_FOR text dt ln fc ns) 0).is AST_EMPTY
            · exact (transfers_enter.comp (hchild 0) (fun r => Diagnosed.diag_same rfl)
                (fun r => analyze_statement_diag r _)).of_eq
                  (fun r => by simp only [for_init_state, if_pos hc])
            · exact transfers_enter.of_eq (fun r => by simp only [for_init_state, if_neg hc])
          exact (hinit.comp (for_after_init_transfers (.node AST_FOR text dt ln fc ns) ln
              (hchild 3))
            (fun r => for_init_state_diag r _)
            (fun r => for_after_init_diag r _ ln)).of_eq
              (fun r => by
                simp only [analyze_statement]
                rw [analyze_for_after_update, for_after_init_eq])
        case AST_RETURN =>
          exact (return_transfers (.node AST_RETURN text dt ln fc ns)).of_eq
            (fun r => by simp only [analyze_statement])
        case AST_EXPR_STATEMENT =>
          by_cases hfn : fc = .null
          · exact transfers_id.of_eq (fun r => by simp only [analyze_statement, hfn, if_true])
          · exact (expression_transfers fc).of_eq
              (fun r => by simp only [analyze_statement, hfn, if_false])
        case AST_ASSIGNMENT =>
          exact (expression_transfers (.node AST_ASSIGNMENT text dt ln fc ns)).of_eq
            (fun r => by simp only [analyze_statement])
        all_goals
          exact (ih _ hfc).2.of_eq (fun r => by simp only [analyze_statement])
      refine ⟨hstmt, ?_⟩
      exact (hstmt.comp (ih _ hns).2 (fun r => analyze_statement_diag r _)
        (fun r => analyze_stmts_diagnosed r ns)).of_eq (fun r => by simp only [analyze_stmts])

theorem stmts_transfers (node : ASTNode) : Transfers (fun r => analyze_stmts r node) :=
  (analyze_statement_transfers _ node (le_refl _)).2

theorem statement_transfers (node : ASTNode) : Transfers (fun r => analyze_statement r node) :=
  (analyze_statement_transfers _ node (le_refl _)).1

theorem function_transfers (node : ASTNode) : Transfers (fun r => analyze_function r node) := by
  intro a e hroom hq
  beta_reduce at hq ⊢
  cases node with
  | null => rfl
  | node ty text dt ln fc ns =>
    cases hl : symbol_lookup a.symtab (cstr text) with
    | none => simp only [analyze_function, hl]
    | some func =>
      cases hf : func.func_info with
      | none => simp only [analyze_function, hl, hf]
      | some fi =>
        have hpre : Transfers (fun r : SemanticAnalyzer =>
            ({ r with symtab := symbol_enter_scope
                        (symbol_set_current_function r.symtab (some func))
                      current_return_type := fi.return_type
                      enter_calls := r.enter_calls + 1 } : SemanticAnalyzer)) :=
          fun _ _ _ _ => rfl
        have hpost : Transfers (fun r : SemanticAnalyzer =>
            ({ r with symtab := symbol_set_current_function (symbol_exit_scope r.symtab) none
                      exit_calls := r.exit_calls + 1 } : SemanticAnalyzer)) :=
          fun _ _ _ _ => rfl
        have hbody : Transfers (fun r =>
            if (get_child (.node ty text dt ln fc ns) 1).is AST_BLOCK = true then
              analyze_stmts r (get_child (.node ty text dt ln fc ns) 1).first_child
            else r) := transfers_ite _ (stmts_transfers _)
        have dbody : ∀ r, Diagnosed r
            (if (get_child (.node ty text dt ln fc ns) 1).is AST_BLOCK = true then
              analyze_stmts r (get_child (.node ty text dt ln fc ns) 1).first_child
            else r) := diag_ite _ (fun r => analyze_stmts_diagnosed r _)
        have h1 := hpre.comp (declare_params_transfers ln fi.params)
          (fun r => Diagnosed.diag_same rfl) (fun r => declare_params_diagnosed ln fi.params r)
        have d1 : ∀ r : SemanticAnalyzer, Diagnosed r
            (declare_params
              { r with symtab := symbol_enter_scope
                          (symbol_set_current_function r.symtab (some func))
                       current_return_type := fi.return_type
                       enter_calls := r.enter_calls + 1 } ln fi.params) :=
          fun r => (Diagnosed.diag_same rfl : Diagnosed r
            { r with symtab := symbol_enter_scope
                        (symbol_set_current_function r.symtab (some func))
                     current_return_type := fi.return_type
                     enter_calls := r.enter_calls + 1 }).diag_trans
            (declare_params_diagnosed ln fi.params _)
        have h2 := h1.comp hbody d1 dbody
        have h3 := h2.comp hpost (fun r => (d1 r).diag_trans (dbody _))
          (fun r => Diagnosed.diag_same rfl)
        have hl2 : symbol_lookup ({ a with errors := e } : SemanticAnalyzer).symtab (cstr text)
            = some func := hl
        have e1 : ∀ r : SemanticAnalyzer, symbol_lookup r.symtab (cstr text) = some func →
            analyze_function r (.node ty text dt ln fc ns) =
              (fun r : SemanticAnalyzer =>
                ({ r with symtab := symbol_set_current_function (symbol_exit_scope r.symtab) none
                          exit_calls := r.exit_calls + 1 } : SemanticAnalyzer))
              ((fun r =>
                if (get_child (.node ty text dt ln fc ns) 1).is AST_BLOCK = true then
                  analyze_stmts r (get_child (.node ty text dt ln fc ns) 1).first_child
                else r)
                (declare_params
                  { r with symtab := symbol_enter_scope
                              (symbol_set_current_function r.symtab (some func))
                           current_return_type := fi.return_type
                           enter_calls := r.enter_calls + 1 } ln fi.params)) := by
          intro r hr
          simp only [analyze_function, hr, hf]
        rw [e1 a hl] at hq ⊢
        rw [e1 _ hl2]
        exact h3 a e hroom hq

/-- The analysis of a node of the program that records nothing is the same
whatever diagnostics are recorded before it. -/
theorem analyze_node_transfers :
    ∀ (n : Nat) (node : ASTNode), node.size ≤ n →
      Transfers (fun r => analyze_node r node) ∧ Transfers (fun r => analyze_nodes r node) := by
  intro n
  induction n with
  | zero =>
    intro node hn
    cases node with
    | null =>
      constructor
      · exact transfers_id.of_eq (fun r => by rw [analyze_node])
      · exact transfers_id.of_eq (fun r => by rw [analyze_nodes])
    | node ty text dt ln fc ns => simp only [ASTNode.size] at hn; omega
  | succ n ih =>
    intro node hn
    cases node with
    | null =>
      constructor
      · exact transfers_id.of_eq (fun r => by rw [analyze_node])
      · exact transfers_id.of_eq (fun r => by rw [analyze_nodes])
    | node ty text dt ln fc ns =>
      have hfc : fc.size ≤ n := by simp only [ASTNode.size] at hn; omega
      have hns : ns.size ≤ n := by simp only [ASTNode.size] at hn; omega
      have hnode : Transfers (fun r => analyze_node r (.node ty text dt ln fc ns)) := by
        cases ty
        case AST_FUNCTION =>
          exact (function_transfers (.node AST_FUNCTION text dt ln fc ns)).of_eq
            (fun r => by simp only [analyze_node])
        case AST_VAR_DECL =>
          exact (var_decl_transfers (.node AST_VAR_DECL text dt ln fc ns)).of_eq
            (fun r => by simp only [analyze_node])
        all_goals
          exact (ih _ hfc).2.of_eq (fun r => by simp only [analyze_node])
      refine ⟨hnode, ?_⟩
      exact (hnode.comp (ih _ hns).2 (fun r => analyze_node_diag r _)
        (fun r => analyze_nodes_diag r ns)).of_eq (fun r => by simp only [analyze_nodes])

theorem nodes_transfers (node : ASTNode) : Transfers (fun r => analyze_nodes r node) :=
  (analyze_node_transfers _ node (le_refl _)).2

/-- What a visit does after one of its calls has returned is the same
whatever diagnostics are recorded, when it records none. -/
theorem invokes_transfers {p q : Visit} {k : SemanticAnalyzer → SemanticAnalyzer}
    (h : Invokes p q k) : Transfers k := by
  cases h with
  | node_children a ty text dt ln fc ns h1 h2 => exact transfers_id
  | node_function a text dt ln fc ns => exact transfers_id
  | node_var_decl a text dt ln fc ns => exact transfers_id
  | nodes_head a ty text dt ln fc ns => exact nodes_transfers ns
  | nodes_next a ty text dt ln fc ns => exact transfers_id
  | func_body a ty text dt ln fc ns func fi hl hf hb => exact fun _ _ _ _ => rfl
  | stmts_head a ty text dt ln fc ns => exact stmts_transfers ns
  | stmts_next a ty text dt ln fc ns => exact transfers_id
  | stmt_var_decl a text dt ln fc ns => exact transfers_id
  | stmt_block a text dt ln fc ns => exact transfers_exit
  | if_cond a ty text dt ln fc ns hty hc =>
    exact (condition_checked_transfers
      (analyze_expression a (get_child (.node ty text dt ln fc ns) 0)).1 ln
      "Kosul ifadesi void olamaz").comp
      (if_branches_transfers ty (.node ty text dt ln fc ns) (statement_transfers _)
        (statement_transfers _))
      (fun r => condition_checked_diag r _ _ _) (fun r => if_branches_diag ty r _)
  | if_then a ty text dt ln fc ns hty hc => exact transfers_ite _ (statement_transfers _)
  | if_else a text dt ln fc ns hc => exact transfers_id
  | while_cond a text dt ln fc ns hc =>
    exact (condition_checked_transfers
      (analyze_expression a (get_child (.node AST_WHILE text dt ln fc ns) 0)).1 ln
      "Dongu kosulu void olamaz").comp
      (while_rest_transfers (.node AST_WHILE text dt ln fc ns) (statement_transfers _))
      (fun r => condition_checked_diag r _ _ _) (fun r => while_rest_diag r _)
  | while_body a text dt ln fc ns hc => exact fun _ _ _ _ => rfl
  | for_init a text dt ln fc ns hc =>
    exact for_after_init_transfers (.node AST_FOR text dt ln fc ns) ln (statement_transfers _)
  | for_cond a text dt ln fc ns hc =>
    exact (condition_checked_transfers
      (analyze_expression (for_init_state a (.node AST_FOR text dt ln fc ns))
        (get_child (.node AST_FOR text dt ln fc ns) 1)).1 ln
      "For dongusu kosulu void olamaz").comp
      (for_after_cond_transfers (.node AST_FOR text dt ln fc ns) (statement_transfers _))
      (fun r => condition_checked_diag r _ _ _) (fun r => for_after_cond_diag r _)
  | for_update a text dt ln fc ns hc =>
    exact for_after_update_transfers (.node AST_FOR text dt ln fc ns) (statement_transfers _)
  | for_body a text dt ln fc ns hc => exact fun _ _ _ _ => rfl
  | return_value a text dt ln fc ns hfc => exact return_checked_transfers _ _ _
  | stmt_expression a text dt ln fc ns hfc => exact transfers_id
  | stmt_assignment a text dt ln fc ns => exact transfers_id
  | stmt_other a ty text dt ln fc ns h1 h2 h3 h4 h5 h6 h7 h8 h9 => exact transfers_id
  | decl_init a ty text dt ln fc ns sym table hv hc hd hfc =>
    exact init_checked_transfers _ _ _ _
  | assign_right a text dt ln fc ns sym hid hl => exact assign_checked_transfers _ _ _ _
  | binary_left a text dt ln fc ns =>
    intro r e hroom hq
    beta_reduce at hq ⊢
    obtain ⟨q1, q2⟩ := quiet_split
      (analyze_expression_diag r (get_child (.node AST_BINARY_EXPR text dt ln fc ns) 1))
      (binary_checked_diag _ _ _ _) hq
    have k1 := (analyze_expression_transfers _
      (get_child (.node AST_BINARY_EXPR text dt ln fc ns) 1) (le_refl _)).1 r e hroom q1
    have k2 := expr_quiet_eq r _ q1
    rw [k2] at q2
    have k3 := binary_checked_transfers
      (analyze_expression a (get_child (.node AST_BINARY_EXPR text dt ln fc ns) 0)).1
      (analyze_expression r (get_child (.node AST_BINARY_EXPR text dt ln fc ns) 1)).1 ln
      r e hroom q2
    rw [k1, k2]
    exact k3
  | binary_right a text dt ln fc ns => exact binary_checked_transfers _ _ _
  | unary_operand a text dt ln fc ns => exact unary_checked_transfers _ _
  | call_arguments a text dt ln fc ns func fi hl hk hf harg =>
    exact arity_checked_transfers _ _ _ _
  | expr_inner a text dt ln fc ns hfc => exact transfers_id
  | args_head a f fi line k ty text dt ln fc ns =>
    exact (arg_compared_transfers f fi line k
      (analyze_expression a (.node ty text dt ln fc ns)).1).comp
      (args_transfers f fi line (k + 1) ns)
      (fun r => arg_compared_diag r _ _ _ _ _) (fun r => analyze_args_diag r _ _ _ _ _)
  | args_next a f fi line k ty text dt ln fc ns => exact transfers_id

/-- The rest of the analysis after a visit is the same whatever diagnostics
are recorded, when it records none. -/
theorem visited_transfers (program : ASTNode) {v : Visit}
    {rest : SemanticAnalyzer → SemanticAnalyzer} (h : Visited program v rest) :
    Transfers rest := by
  induction h with
  | root => exact transfers_id
  | call hv hstep ih =>
    exact (invokes_transfers hstep).comp ih (invokes_continues hstep)
      (visited_continues program hv)

/-- The analysis of `prog_ana body` reaches the statement loop of the body in
`ana_body_state`; after the loop the function scope is left and the child
loop of the program ends. -/
theorem visited_prog_ana (body : ASTNode) :
    Visited (prog_ana body) (.stmts ana_body_state body)
      (fun r =>
        analyze_nodes
          { r with
            symtab := symbol_set_current_function (symbol_exit_scope r.symtab) none
            exit_calls := r.exit_calls + 1 }
          .null) := by
  have hl : symbol_lookup (collect_functions semantic_create (prog_ana body)).symtab
      (cstr (some "ana")) = some ana_symbol := by
    simp [prog_ana, collect_functions, collect_functions_loop, semantic_create,
      symbol_table_create, symbol_lookup, hash_ana, cstr, datatype_from_string,
      symbol_declare_function, symbol_declare, symbol_lookup_current_scope, bucket_set,
      get_child, sibling_at, ASTNode.is, ASTNode.first_child, collect_params,
      SymbolTable.cur_local_offset, ana_symbol, bucket_set_twice]
  have he : function_entry (collect_functions semantic_create (prog_ana body)) ana_symbol
      { return_type := TYPE_INT, params := [] } 0 = ana_body_state := by
    simp [function_entry, prog_ana, collect_functions, collect_functions_loop, semantic_create,
      symbol_table_create, symbol_lookup, hash_ana, cstr, datatype_from_string,
      symbol_declare_function, symbol_declare, symbol_lookup_current_scope, bucket_set,
      get_child, sibling_at, ASTNode.is, ASTNode.first_child, collect_params,
      symbol_set_current_function, symbol_enter_scope, declare_params,
      SymbolTable.cur_local_offset, ana_body_state, ana_symbol, bucket_set_twice]
  have r0 : Visited (prog_ana body)
      (Visit.node (collect_functions semantic_create (prog_ana body)) (prog_ana body))
      (fun r => r) := Visited.root
  have r1 := r0.call
    (Invokes.node_children _ AST_PROGRAM none none 0
      (.node AST_FUNCTION (some "ana") (some "int") 0
        (.node AST_PARAM_LIST none none 0 .null (.node AST_BLOCK none none 0 body .null))
        .null) .null (by decide) (by decide))
  have r2 := r1.call (Invokes.nodes_head _ AST_FUNCTION (some "ana") (some "int") 0
    (.node AST_PARAM_LIST none none 0 .null (.node AST_BLOCK none none 0 body .null)) .null)
  have r3 := r2.call (Invokes.node_function _ (some "ana") (some "int") 0
    (.node AST_PARAM_LIST none none 0 .null (.node AST_BLOCK none none 0 body .null)) .null)
  have r4 := r3.call (Invokes.func_body _ AST_FUNCTION (some "ana") (some "int") 0
    (.node AST_PARAM_LIST none none 0 .null (.node AST_BLOCK none none 0 body .null)) .null
    ana_symbol { return_type := TYPE_INT, params := [] } hl rfl rfl)
  rw [he] at r4
  exact r4

/-- C17: redeclaration in the same scope.  Let the analysis of a program reach
the statement loop of a scope (the body of a function, a block) in the
analyzer `s`, let the statements at the positions `i < j` of that loop be
declarations of the same name `v`, with or without initializers, the second
of a non-void type, and let no diagnostic be recorded when the loop reaches
the second declaration (what is analyzed before it is well typed).  Then the
first declaration found the name free in its scope and declared it; the second
finds that symbol at the current level and records exactly one diagnostic, on
its own line and with the line of the first declaration in its text, and
changes nothing else; the list `semantic_analyze` ends with is that diagnostic
followed by what the analyzer records after the second declaration; and
`semantic_analyze` returns false.  If what follows the second declaration is
well typed as well (the rest of the analysis, taken up at the statement after
the second declaration in the analyzer before it, records nothing), the
analysis of the program ends as that one does, with exactly the one
diagnostic.  The diagnostic is also recorded for every declaration the
analysis reaches whose name is found at the current scope level (a parameter
of the function, an earlier declaration), while the diagnostic array has room.
For `int ana() { int name [= i1]; int name [= i2]; }` the list is exactly that
one diagnostic. -/
theorem redeclaration_in_scope_diagnosed_once (program : ASTNode) (s : SemanticAnalyzer)
    (rest : SemanticAnalyzer → SemanticAnalyzer)
    (chain : ASTNode) (i j : Nat) (v : String)
    (t1 d1 : Option String) (l1 : Int) (f1 n1 : ASTNode)
    (t2 d2 : Option String) (l2 : Int) (f2 n2 : ASTNode)
    (hvisit : Visited program (.stmts s chain) rest) (hij : i < j)
    (h1 : sibling_at i chain = .node AST_VAR_DECL t1 d1 l1 f1 n1)
    (h2 : sibling_at j chain = .node AST_VAR_DECL t2 d2 l2 f2 n2)
    (hn1 : cstr t1 = v) (hn2 : cstr t2 = v)
    (hv2 : datatype_from_string d2 ≠ TYPE_VOID)
    (hclean : (state_before j chain s).errors = []) :
    (symbol_lookup_current_scope (state_before i chain s).symtab v = none ∧
     symbol_lookup_current_scope (state_before j chain s).symtab v =
      some (declared_symbol (state_before i chain s).symtab v SYMBOL_VARIABLE
        (datatype_from_string d1) l1) ∧
     analyze_statement (state_before j chain s) (.node AST_VAR_DECL t2 d2 l2 f2 n2) =
      { state_before j chain s with
        errors :=
          [{ line := l2
             message := fmt_buffer ("'" ++ v
               ++ "' degiskeni ayni kapsamda zaten tanimlanmis (satir " ++ fmt_d l1 ++ ")") }] } ∧
     (∃ es, (semantic_analyze semantic_create program).2.errors =
        { line := l2
          message := fmt_buffer ("'" ++ v
            ++ "' degiskeni ayni kapsamda zaten tanimlanmis (satir " ++ fmt_d l1 ++ ")") } :: es) ∧
     (semantic_analyze semantic_create program).1 = false ∧
     ((rest (analyze_stmts (state_before j chain s) n2)).errors = [] →
       (semantic_analyze semantic_create program).2 =
         { rest (analyze_stmts (state_before j chain s) n2) with
           errors :=
             [{ line := l2
                message := fmt_buffer ("'" ++ v
                  ++ "' degiskeni ayni kapsamda zaten tanimlanmis (satir " ++ fmt_d l1
                  ++ ")") }] } ∧
       (semantic_analyze semantic_create program).2.errors =
         [{ line := l2
            message := fmt_buffer ("'" ++ v
              ++ "' degiskeni ayni kapsamda zaten tanimlanmis (satir " ++ fmt_d l1
              ++ ")") }])) ∧
    (∀ (a : SemanticAnalyzer) (rest2 : SemanticAnalyzer → SemanticAnalyzer)
        (text dt : Option String) (ln : Int) (fc ns : ASTNode) (existing : Symbol),
      Visited program (.decl a (.node AST_VAR_DECL text dt ln fc ns)) rest2 →
      datatype_from_string dt ≠ TYPE_VOID →
      symbol_lookup_current_scope a.symtab (cstr text) = some existing →
      a.errors.length < MAX_SEMANTIC_ERRORS →
      analyze_var_decl a (.node AST_VAR_DECL text dt ln fc ns) =
        { a with errors := a.errors ++
            [{ line := ln
               message := fmt_buffer ("'" ++ cstr text
                 ++ "' degiskeni ayni kapsamda zaten tanimlanmis (satir "
                 ++ fmt_d existing.line_declared ++ ")") }] } ∧
      (∃ es, (semantic_analyze semantic_create program).2.errors =
        a.errors ++
          { line := ln
            message := fmt_buffer ("'" ++ cstr text
              ++ "' degiskeni ayni kapsamda zaten tanimlanmis (satir "
              ++ fmt_d existing.line_declared ++ ")") } :: es) ∧
      (semantic_analyze semantic_create program).1 = false) ∧
    (∀ (name : String) (k1 k2 : Int) (i1 i2 : Option Arith),
      (semantic_analyze semantic_create (prog_redeclare name k1 k2 i1 i2)).1 = false ∧
      (semantic_analyze semantic_create (prog_redeclare name k1 k2 i1 i2)).2.errors =
        [{ line := k2
           message := fmt_buffer ("'" ++ name
             ++ "' degiskeni ayni kapsamda zaten tanimlanmis (satir " ++ fmt_d k1 ++ ")") }]) := by
  refine ⟨?_, ?_, fun name k1 k2 i1 i2 => semantic_analyze_prog_redeclare name k1 k2 i1 i2⟩
  · have hS := visited_scoped program hvisit
    simp only [Visit.state] at hS
    obtain ⟨m, hm⟩ : ∃ m, i + 1 + m = j := ⟨j - i - 1, by omega⟩
    obtain ⟨hd, hsc, hkeep⟩ := state_before_later v chain s hS (i + 1) m
    rw [hm] at hd hsc hkeep
    have hsucc : state_before (i + 1) chain s =
        analyze_var_decl (state_before i chain s) (.node AST_VAR_DECL t1 d1 l1 f1 n1) := by
      rw [state_before_succ, h1]
      simp only [analyze_statement]
    have hlen1 := diagnosed_length hd
    have hlen0 : (state_before i chain s).errors.length ≤
        (state_before (i + 1) chain s).errors.length := by
      rw [hsucc]
      exact diagnosed_length (analyze_var_decl_diagnosed _ _)
    rw [hclean] at hlen1
    simp only [List.length_nil, Nat.le_zero, List.length_eq_zero] at hlen1
    rw [hlen1] at hlen0
    simp only [List.length_nil, Nat.le_zero, List.length_eq_zero] at hlen0
    have hroom0 : (state_before i chain s).errors.length < MAX_SEMANTIC_ERRORS := by
      rw [hlen0]
      decide
    have hq : (analyze_var_decl (state_before i chain s)
        (.node AST_VAR_DECL t1 d1 l1 f1 n1)).errors = (state_before i chain s).errors := by
      rw [← hsucc, hlen1, hlen0]
    obtain ⟨_, hfresh, hlook⟩ := analyze_var_decl_quiet _ _ _ _ _ _ _ hroom0 hq
    rw [← hsucc, hn1] at hlook
    rw [hn1] at hfresh
    have hj := hkeep _ hlook
    have hroom : (state_before j chain s).errors.length < MAX_SEMANTIC_ERRORS := by
      rw [hclean]
      decide
    rw [← hn2] at hj
    have hex := analyze_var_decl_existing (state_before j chain s) t2 d2 l2 f2 n2 _ hv2 hj hroom
    rw [hclean, hn2] at hex
    simp only [declared_symbol, List.nil_append] at hex
    rw [hn2] at hj
    have hstmt : analyze_statement (state_before j chain s)
        (.node AST_VAR_DECL t2 d2 l2 f2 n2) =
        analyze_var_decl (state_before j chain s) (.node AST_VAR_DECL t2 d2 l2 f2 n2) := by
      simp only [analyze_statement]
    rw [hex] at hstmt
    have hres : (semantic_analyze semantic_create program).2 =
        rest (analyze_stmts
          (analyze_statement (state_before j chain s) (.node AST_VAR_DECL t2 d2 l2 f2 n2))
          n2) := by
      rw [visited_result program hvisit]
      simp only [Visit.result]
      rw [analyze_stmts_from j, h2]
      simp only [analyze_stmts]
    have hfinal : Diagnosed
        (analyze_statement (state_before j chain s) (.node AST_VAR_DECL t2 d2 l2 f2 n2))
        (semantic_analyze semantic_create program).2 := by
      rw [hres]
      exact (analyze_stmts_diagnosed _ n2).diag_trans (visited_continues program hvisit _)
    obtain ⟨es, hes⟩ := hfinal.appends
    rw [hstmt] at hes
    simp only [List.singleton_append] at hes
    refine ⟨hfresh, hj, hstmt, ⟨es, hes⟩, ?_, ?_⟩
    · apply semantic_analyze_false
      rw [hes]
      exact List.cons_ne_nil _ _
    · intro hrest
      have htr : Transfers (fun r => rest (analyze_stmts r n2)) :=
        (stmts_transfers n2).comp (visited_transfers program hvisit)
          (fun r => analyze_stmts_diagnosed r n2) (visited_continues program hvisit)
      have hq2 : ((fun r => rest (analyze_stmts r n2)) (state_before j chain s)).errors =
          (state_before j chain s).errors := by
        rw [hclean]
        exact hrest
      have k := htr (state_before j chain s)
        [{ line := l2
           message := fmt_buffer ("'" ++ v
             ++ "' degiskeni ayni kapsamda zaten tanimlanmis (satir " ++ fmt_d l1 ++ ")") }]
        hroom hq2
      rw [hstmt] at hres
      have hfin := hres.trans k
      exact ⟨hfin, by rw [hfin]⟩
  · intro a rest2 text dt ln fc ns existing hvis hv hl hroom
    have hex := analyze_var_decl_existing a text dt ln fc ns existing hv hl hroom
    have k1 := visited_diagnosed program hvis
    simp only [Visit.result] at k1
    obtain ⟨es, hes⟩ := k1.appends
    rw [hex] at hes
    simp only [List.append_assoc, List.singleton_append] at hes
    refine ⟨hex, ⟨es, hes⟩, ?_⟩
    apply semantic_analyze_false
    rw [hes]
    simp

theorem redeclare_clean (name : String) (k1 k2 : Int) (i1 i2 : Option Arith) :
    (state_before 1 (var_decl_node name k1 i1 (var_decl_node name k2 i2 .null))
      ana_body_state).errors = [] := by
  have e1 : analyze_statement ana_body_state
      (var_decl_node name k1 i1 (var_decl_node name k2 i2 .null)) =
      analyze_var_decl ana_body_state
        (var_decl_node name k1 i1 (var_decl_node name k2 i2 .null)) := by
    simp only [var_decl_node, analyze_statement]
  rw [state_before_succ, state_before]
  simp only [sibling_at]
  rw [e1, analyze_var_decl_fresh ana_body_state name k1 i1 _ (ana_body_state_fresh name)]
  rfl

/-- After the second declaration of `prog_redeclare` nothing is left to
analyze: the rest of the analysis records nothing. -/
theorem redeclare_rest_clean (name : String) (k1 k2 : Int) (i1 i2 : Option Arith) :
    (analyze_nodes
      { analyze_stmts
          (state_before 1 (var_decl_node name k1 i1 (var_decl_node name k2 i2 .null))
            ana_body_state) .null with
        symtab := symbol_set_current_function
          (symbol_exit_scope
            (analyze_stmts
              (state_before 1 (var_decl_node name k1 i1 (var_decl_node name k2 i2 .null))
                ana_body_state) .null).symtab) none
        exit_calls :=
          (analyze_stmts
            (state_before 1 (var_decl_node name k1 i1 (var_decl_node name k2 i2 .null))
              ana_body_state) .null).exit_calls + 1 }
      .null).errors = [] := by
  rw [analyze_nodes, analyze_stmts]
  exact redeclare_clean name k1 k2 i1 i2

/-- The redeclaration scenario at `int ana() { int x = 1; int x; }`, lines 3
and 4. -/
theorem redeclaration_in_scope_diagnosed_once_witness :
    Visited (prog_redeclare "x" 3 4 (some (.lit "1" 3)) none)
      (.stmts ana_body_state
        (var_decl_node "x" 3 (some (.lit "1" 3)) (var_decl_node "x" 4 none .null)))
      (fun r =>
        analyze_nodes
          { r with
            symtab := symbol_set_current_function (symbol_exit_scope r.symtab) none
            exit_calls := r.exit_calls + 1 }
          .null) ∧
    (state_before 1 (var_decl_node "x" 3 (some (.lit "1" 3)) (var_decl_node "x" 4 none .null))
      ana_body_state).errors = [] ∧
    (semantic_analyze semantic_create
      (prog_redeclare "x" 3 4 (some (.lit "1" 3)) none)).2.errors =
      [{ line := 4
         message := fmt_buffer ("'" ++ "x"
           ++ "' degiskeni ayni kapsamda zaten tanimlanmis (satir " ++ fmt_d 3 ++ ")") }] ∧
    (semantic_analyze semantic_create
      (prog_redeclare "x" 3 4 (some (.lit "1" 3)) none)).1 = false :=
  have h := redeclaration_in_scope_diagnosed_once
    (prog_redeclare "x" 3 4 (some (.lit "1" 3)) none) ana_body_state _
    (var_decl_node "x" 3 (some (.lit "1" 3)) (var_decl_node "x" 4 none .null)) 0 1 "x"
    (some "x") (some "int") 3 (init_node (some (.lit "1" 3))) (var_decl_node "x" 4 none .null)
    (some "x") (some "int") 4 (init_node none) .null
    (visited_prog_ana _) (by decide) rfl rfl rfl rfl (by simp [datatype_from_string])
    (redeclare_clean "x" 3 4 (some (.lit "1" 3)) none)
  ⟨visited_prog_ana _, redeclare_clean "x" 3 4 (some (.lit "1" 3)) none,
    (h.1.2.2.2.2.2 (redeclare_rest_clean "x" 3 4 (some (.lit "1" 3)) none)).2, h.1.2.2.2.2.1⟩

theorem flooded_state_zero : flooded_state 0 = ana_body_state := rfl

theorem flooded_lookup_y (k : Nat) : symbol_lookup (flooded_state k).symtab "y" = none := by
  simp [flooded_state, symbol_lookup, ana_body_state, bucket_set, hash_y]

theorem flooded_lookup_ana (k : Nat) :
    symbol_lookup (flooded_state k).symtab "ana" = some ana_symbol := by
  simp [flooded_state, symbol_lookup, ana_body_state, bucket_set, hash_ana, ana_symbol]

theorem flooded_use (k : Nat) (hk : k < 100) (next : ASTNode) :
    analyze_statement (flooded_state k)
        (.node AST_EXPR_STATEMENT none none 1
          (.node AST_IDENTIFIER (some "y") none 1 .null .null) next) =
      flooded_state (k + 1) := by
  have h := flooded_lookup_y k
  have hroom : ¬ (flooded_state k).errors.length ≥ MAX_SEMANTIC_ERRORS := by
    simp only [flooded_state, List.length_replicate, MAX_SEMANTIC_ERRORS]
    omega
  simp only [analyze_statement, analyze_expression, cstr, Option.getD, h, semantic_error,
    if_neg hroom, reduceCtorEq, if_false]
  simp only [flooded_state, undeclared_y, List.replicate_succ']

theorem flooded_stmts (program : ASTNode) (rest : ASTNode) (n : Nat) :
    ∀ k, k + n ≤ 100 →
      analyze_stmts (flooded_state k) (undeclared_uses n rest) =
        analyze_stmts (flooded_state (k + n)) rest ∧
      (∀ after, Visited program (.stmts (flooded_state k) (undeclared_uses n rest)) after →
        Visited program (.stmts (flooded_state (k + n)) rest) after) := by
  induction n with
  | zero => intro k _; exact ⟨rfl, fun _ h => h⟩
  | succ n ih =>
    intro k hk
    obtain ⟨h1, h2⟩ := ih (k + 1) (by omega)
    have e : k + (n + 1) = k + 1 + n := by omega
    rw [e]
    refine ⟨?_, ?_⟩
    · simp only [undeclared_uses, analyze_stmts]
      rw [flooded_use k (by omega), h1]
    · intro after hv
      apply h2
      have hstep := Visited.call hv
        (Invokes.stmts_next (flooded_state k) AST_EXPR_STATEMENT none none 1
          (.node AST_IDENTIFIER (some "y") none 1 .null .null) (undeclared_uses n rest))
      rw [flooded_use k (by omega)] at hstep
      exact hstep

theorem call_args_call_node (f : String) (line : Int) (es : List Arith) :
    call_args (call_node f line es) = args_chain es := by
  simp [call_args, call_node, get_child, sibling_at, ASTNode.is, ASTNode.first_child]

/-- The call `ana(1)` analyzed in the body of `ana`: the arity diagnostic is
the only thing it asks `semantic_error` to record. -/
theorem flooded_call (k : Nat) :
    analyze_expression (flooded_state k) (call_node "ana" 2 [.lit "1" 2]) =
      (TYPE_INT,
        semantic_error (flooded_state k) 2
          ("'" ++ "ana" ++ "' fonksiyonu " ++ fmt_d 0 ++ " parametre bekliyor, "
            ++ fmt_d 1 ++ " verildi")) := by
  have h := analyze_call_arity (flooded_state k) (some "ana") none 2
    (.node AST_ARGUMENT_LIST none none 2 (args_chain [.lit "1" 2]) .null) .null ana_symbol
    { return_type := TYPE_INT, params := [] } (flooded_lookup_ana k) rfl rfl
    (by
      have := call_args_call_node "ana" 2 [.lit "1" 2]
      simp only [call_node] at this
      rw [this]
      exact well_typed_args_chain _ _ (by simp) _ 0)
    (by
      have := call_args_call_node "ana" 2 [.lit "1" 2]
      simp only [call_node] at this
      rw [this, count_siblings_args_chain]
      simp)
  have h2 := call_args_call_node "ana" 2 [.lit "1" 2]
  simp only [call_node] at h2
  rw [h2, count_siblings_args_chain] at h
  simp only [call_node]
  rw [h]
  rfl

theorem visited_flooded_call (program : ASTNode) (k : Nat)
    (after : SemanticAnalyzer → SemanticAnalyzer)
    (h : Visited program
      (.stmts (flooded_state k) (return_node 2 (call_node "ana" 2 [.lit "1" 2]) .null)) after) :
    Visited program (.expr (flooded_state k) (call_node "ana" 2 [.lit "1" 2]))
      (fun r =>
        after
          (analyze_stmts
            (return_checked r (flooded_state k).current_return_type
              (analyze_expression (flooded_state k) (call_node "ana" 2 [.lit "1" 2])).1 2)
            .null)) := by
  have r1 := Visited.call h
    (Invokes.stmts_head (flooded_state k) AST_RETURN none none 2
      (call_node "ana" 2 [.lit "1" 2]) .null)
  exact r1.call (Invokes.return_value (flooded_state k) none none 2
    (call_node "ana" 2 [.lit "1" 2]) .null (call_node_ne_null _ _ _))

theorem flooded_return (k : Nat) :
    analyze_stmts (flooded_state k) (return_node 2 (call_node "ana" 2 [.lit "1" 2]) .null) =
      semantic_error (flooded_state k) 2
        ("'" ++ "ana" ++ "' fonksiyonu " ++ fmt_d 0 ++ " parametre bekliyor, "
          ++ fmt_d 1 ++ " verildi") := by
  have hrt : ∀ line msg, (semantic_error (flooded_state k) line msg).current_return_type
      = TYPE_INT := by
    intro line msg
    rw [(semantic_error_errOnly _ _ _).return_type]
    rfl
  simp only [return_node, analyze_stmts, analyze_statement, analyze_return,
    if_neg (call_node_ne_null "ana" 2 [.lit "1" 2]), flooded_call k]
  simp [flooded_state, ana_body_state, types_compatible]

/-- C18 as stated fails when the diagnostic array is full.  In
`int ana() { y; ... y; return ana(1); }` with 100 uses of the undeclared `y`,
the analysis reaches the call `ana(1)` with 100 diagnostics recorded; `ana` is
a declared function with 0 parameters, the call passes one well typed
argument, and `analyze_expression` records no diagnostic for the call: the
list `semantic_analyze` ends with holds the 100 diagnostics for `y` and none
for the call. -/
theorem arity_mismatch_unrecorded_when_full :
    (∃ after, Visited prog_full_arity
      (.expr (flooded_state 100) (call_node "ana" 2 [.lit "1" 2])) after) ∧
    (flooded_state 100).errors.length = MAX_SEMANTIC_ERRORS ∧
    symbol_lookup (flooded_state 100).symtab "ana" = some ana_symbol ∧
    ana_symbol.kind = SYMBOL_FUNCTION ∧
    ana_symbol.func_info = some { return_type := TYPE_INT, params := [] } ∧
    well_typed_args (flooded_state 100) { return_type := TYPE_INT, params := [] } 0
      (call_args (call_node "ana" 2 [.lit "1" 2])) ∧
    count_siblings (call_args (call_node "ana" 2 [.lit "1" 2])) = 1 ∧
    analyze_expression (flooded_state 100) (call_node "ana" 2 [.lit "1" 2]) =
      (TYPE_INT, flooded_state 100) ∧
    (semantic_analyze semantic_create prog_full_arity).2.errors =
      List.replicate 100 undeclared_y ∧
    (semantic_analyze semantic_create prog_full_arity).1 = false := by
  have hfull : ∀ line msg, semantic_error (flooded_state 100) line msg = flooded_state 100 := by
    intro line msg
    have : (flooded_state 100).errors.length ≥ MAX_SEMANTIC_ERRORS := by
      simp [flooded_state, MAX_SEMANTIC_ERRORS]
    simp only [semantic_error, if_pos this]
  obtain ⟨h1, h2⟩ := flooded_stmts prog_full_arity
    (return_node 2 (call_node "ana" 2 [.lit "1" 2]) .null) 100 0 (by omega)
  have herr : (semantic_analyze semantic_create prog_full_arity).2.errors =
      List.replicate 100 undeclared_y := by
    rw [prog_full_arity, semantic_analyze_prog_ana, ← flooded_state_zero, h1, flooded_return,
      hfull]
    rfl
  refine ⟨?_, ?_, flooded_lookup_ana 100, rfl, rfl, ?_, ?_, ?_, herr, ?_⟩
  · exact ⟨_, visited_flooded_call _ _ _
      (h2 _ (by rw [flooded_state_zero]; exact visited_prog_ana _))⟩
  · simp [flooded_state, MAX_SEMANTIC_ERRORS]
  · rw [call_args_call_node]
    exact well_typed_args_chain _ _ (by simp) _ 0
  · rw [call_args_call_node, count_siblings_args_chain]
    rfl
  · rw [flooded_call, hfull]
  · apply semantic_analyze_false
    rw [herr]
    simp [List.replicate]

/-- C18, amended: arity mismatch.  Let the analysis of a program reach a
FUNCTION_CALL whose name resolves to a declared function with `k` parameters
and which passes `m ≠ k` arguments, each of them well typed (its analysis
records nothing and yields a type compatible with the parameter at its
position, where there is one).  The call gets the function's return type.  If
fewer than 100 diagnostics are recorded when the call is analyzed,
`analyze_expression` records exactly one diagnostic for the call, on the line
of the call and naming `k` and `m`, and the list `semantic_analyze` ends with
holds it, after the diagnostics recorded before the call; if the diagnostic
array is full the call records nothing.  In both cases `semantic_analyze`
returns false.  For `int topla(int a, int b)` called from `ana` with any
number `m ≠ 2` of arithmetic arguments the list is exactly that one
diagnostic. -/
theorem arity_mismatch_diagnosed_once (program : ASTNode) (a : SemanticAnalyzer)
    (rest : SemanticAnalyzer → SemanticAnalyzer) (text dt : Option String) (ln : Int)
    (fc ns : ASTNode) (func : Symbol) (fi : FunctionInfo)
    (hvisit : Visited program (.expr a (.node AST_FUNCTION_CALL text dt ln fc ns)) rest)
    (hl : symbol_lookup a.symtab (cstr text) = some func)
    (hk : func.kind = SYMBOL_FUNCTION)
    (hf : func.func_info = some fi)
    (hargs : well_typed_args a fi 0 (call_args (.node AST_FUNCTION_CALL text dt ln fc ns)))
    (hne : count_siblings (call_args (.node AST_FUNCTION_CALL text dt ln fc ns))
      ≠ fi.params.length) :
    (analyze_expression a (.node AST_FUNCTION_CALL text dt ln fc ns)).1 = fi.return_type ∧
    (a.errors.length < MAX_SEMANTIC_ERRORS →
      (analyze_expression a (.node AST_FUNCTION_CALL text dt ln fc ns)).2 =
        { a with errors := a.errors ++
            [{ line := ln
               message := fmt_buffer ("'" ++ cstr text ++ "' fonksiyonu "
                 ++ fmt_d fi.param_count ++ " parametre bekliyor, "
                 ++ fmt_d (count_siblings (call_args (.node AST_FUNCTION_CALL text dt ln fc ns)))
                 ++ " verildi") }] } ∧
      ∃ es, (semantic_analyze semantic_create program).2.errors =
        a.errors ++
          { line := ln
            message := fmt_buffer ("'" ++ cstr text ++ "' fonksiyonu "
              ++ fmt_d fi.param_count ++ " parametre bekliyor, "
              ++ fmt_d (count_siblings (call_args (.node AST_FUNCTION_CALL text dt ln fc ns)))
              ++ " verildi") } :: es) ∧
    (¬ a.errors.length < MAX_SEMANTIC_ERRORS →
      (analyze_expression a (.node AST_FUNCTION_CALL text dt ln fc ns)).2 = a) ∧
    (semantic_analyze semantic_create program).1 = false ∧
    (∀ (line : Int) (es : List Arith), es.length ≠ 2 →
      (semantic_analyze semantic_create (prog_arity line es)).1 = false ∧
      (semantic_analyze semantic_create (prog_arity line es)).2.errors =
        [{ line := line
           message := fmt_buffer ("'topla' fonksiyonu " ++ fmt_d 2 ++ " parametre bekliyor, "
             ++ fmt_d es.length ++ " verildi") }]) := by
  have hcall := analyze_call_arity a text dt ln fc ns func fi hl hk hf hargs hne
  have hfinal := visited_diagnosed program hvisit
  simp only [Visit.result] at hfinal
  obtain ⟨es, hes⟩ := hfinal.appends
  have hroom : a.errors.length < MAX_SEMANTIC_ERRORS →
      (analyze_expression a (.node AST_FUNCTION_CALL text dt ln fc ns)).2 =
        { a with errors := a.errors ++
            [{ line := ln
               message := fmt_buffer ("'" ++ cstr text ++ "' fonksiyonu "
                 ++ fmt_d fi.param_count ++ " parametre bekliyor, "
                 ++ fmt_d (count_siblings (call_args (.node AST_FUNCTION_CALL text dt ln fc ns)))
                 ++ " verildi") }] } := by
    intro h
    have h2 : ¬ a.errors.length ≥ MAX_SEMANTIC_ERRORS := by omega
    rw [hcall]
    simp only [semantic_error, if_neg h2]
  have hfull : ¬ a.errors.length < MAX_SEMANTIC_ERRORS →
      (analyze_expression a (.node AST_FUNCTION_CALL text dt ln fc ns)).2 = a := by
    intro h
    have h2 : a.errors.length ≥ MAX_SEMANTIC_ERRORS := by omega
    rw [hcall]
    simp only [semantic_error, if_pos h2]
  refine ⟨by rw [hcall], ?_, hfull, ?_, fun line es h => semantic_analyze_prog_arity line es h⟩
  · intro h
    refine ⟨hroom h, es, ?_⟩
    rw [hes, hroom h]
    simp only [List.append_assoc, List.singleton_append]
  · apply semantic_analyze_false
    rw [hes]
    by_cases h : a.errors.length < MAX_SEMANTIC_ERRORS
    · rw [hroom h]
      simp
    · rw [hfull h]
      intro h0
      have h1 : a.errors = [] := (List.append_eq_nil.mp h0).1
      rw [h1] at h
      exact h (by decide)

/-- The arity diagnostic at `int ana() { return ana(1); }`, and the scenario
`topla(1, 2, 3)` on line 5. -/
theorem arity_mismatch_diagnosed_once_witness :
    (∃ after, Visited prog_self_call
      (.expr ana_body_state (call_node "ana" 2 [.lit "1" 2])) after) ∧
    symbol_lookup ana_body_state.symtab "ana" = some ana_symbol ∧
    well_typed_args ana_body_state { return_type := TYPE_INT, params := [] } 0
      (call_args (call_node "ana" 2 [.lit "1" 2])) ∧
    count_siblings (call_args (call_node "ana" 2 [.lit "1" 2])) ≠ 0 ∧
    (semantic_analyze semantic_create prog_self_call).1 = false ∧
    (semantic_analyze semantic_create
      (prog_arity 5 [Arith.lit "1" 5, Arith.lit "2" 5, Arith.lit "3" 5])).2.errors =
      [{ line := 5
         message := fmt_buffer ("'topla' fonksiyonu " ++ fmt_d 2 ++ " parametre bekliyor, "
           ++ fmt_d [Arith.lit "1" 5, Arith.lit "2" 5, Arith.lit "3" 5].length ++ " verildi") }] :=
  have hv := visited_flooded_call prog_self_call 0 _ (visited_prog_ana _)
  have hw : well_typed_args ana_body_state { return_type := TYPE_INT, params := [] } 0
      (call_args (call_node "ana" 2 [.lit "1" 2])) := by
    rw [call_args_call_node]
    exact well_typed_args_chain _ _ (by simp) _ 0
  have hc : count_siblings (call_args (call_node "ana" 2 [.lit "1" 2])) ≠ 0 := by
    rw [call_args_call_node, count_siblings_args_chain]
    decide
  have h := arity_mismatch_diagnosed_once prog_self_call ana_body_state _ (some "ana") none 2
    (.node AST_ARGUMENT_LIST none none 2 (args_chain [.lit "1" 2]) .null) .null ana_symbol
    { return_type := TYPE_INT, params := [] } hv (flooded_lookup_ana 0) rfl rfl hw hc
  ⟨⟨_, hv⟩, flooded_lookup_ana 0, hw, hc, h.2.2.2.1,
    (h.2.2.2.2 5 [Arith.lit "1" 5, Arith.lit "2" 5, Arith.lit "3" 5] (by decide)).2⟩

end TurkC
